import Mathlib

/-! The SC reader (sc_file.c) and the HTML renderer (sc_to_html.c) of site.c.

A shallow embedding of the reader `SCRead` and of the tag-stack renderer `SCToHTML`.

Conventions of the embedding.
* The input buffer `[begin, end)` is a `List Char`; a pointer into it is the index of the
  character it points at, and the null pointer is `none`.
* The `int` fields `line_no` and `column_no` of the reader and of the objects are integers
  kept in the range of a 32-bit `int`: an increment goes through `Int32Wrap`, the wrap-around
  modulo `2^32` that the compiled code shows when the counter passes `2^31 - 1` (the size of
  the arena is a command-line argument, so a buffer can hold that many characters).
* The `int` counters `level` and `args_count` are natural numbers: `args_count` is at most
  `SC_MAX_ARGS`, and a wrap-around of `level` cannot change a result for a buffer that the
  program can load.  `section_depth` is an `Int`.
* A C function that mutates `SCReader *r` and `SCObject *out` returns the new values.
* Every `while` loop is a structural recursion on a fuel argument, and the fuel passed by the
  caller is a bound on the number of iterations.
* The arena is the append-only output sink; only the text appended since `ArenaBeginString` is
  kept, and its capacity is taken not to be reached (a full arena ends the process in
  `RawArenaPush`).
* A failed `assert` ends the run: the functions that can fail one return an `Option`.
-/

namespace SiteC

/-! ## sc_file.h : objects and reader -/

/-- The constant `SC_MAX_ARGS` of sc_file.h. -/
def SC_MAX_ARGS : Nat := 32

/-- The enum `SCObjectType` of sc_file.h, in declaration order: `Text` is the value 0. -/
inductive SCObjectType
  | Text
  | Func
  | End
  | Backslash
  | Error
  deriving DecidableEq, Repr

/-- The struct `Slice` of slice.h over the input buffer: `begin` and `end_` are pointers,
`none` being NULL and `some i` the address `begin + i` of the buffer. -/
structure Slice where
  begin : Option Nat
  end_ : Option Nat
  deriving DecidableEq, Repr

/-- The slice `(Slice) {0, 0}` left by `memset`. -/
def NullSlice : Slice := ⟨none, none⟩

/-- The characters of the buffer `text` that a slice spans. -/
def SliceText (text : List Char) (s : Slice) : List Char :=
  match s.begin, s.end_ with
  | some b, some e => (text.drop b).take (e - b)
  | _, _ => []

/-- The function `SliceEqCStr` of slice.c for a slice of the buffer `text`: same length and
same bytes as the C string. -/
def SliceEqCStr (text : List Char) (a : Slice) (b : String) : Bool :=
  SliceText text a == b.toList

/-- The struct `SCObject` of sc_file.h.  The arrays `keys` and `values` are kept as the
lists of their entries written so far (entries `0 .. args_count - 1`). -/
structure SCObject where
  type : SCObjectType
  line_no : Int
  column_no : Int
  end_line_no : Int
  end_column_no : Int
  full_text : Slice
  function_name : Slice
  keys : List Slice
  values : List Slice
  args_count : Nat
  has_block : Bool
  block : Slice
  error_text : Option String
  path : String
  file_name : String
  deriving DecidableEq, Repr

/-- The object after `memset(out, 0, sizeof(*out))`; the two strings are assigned right
after it in `SCRead`, so they are taken as arguments. -/
def SCObjectZero (path file_name : String) : SCObject :=
  { type := SCObjectType.Text, line_no := 0, column_no := 0, end_line_no := 0,
    end_column_no := 0, full_text := NullSlice, function_name := NullSlice, keys := [],
    values := [], args_count := 0, has_block := false, block := NullSlice,
    error_text := none, path := path, file_name := file_name }

/-- The struct `SCReader` of sc_file.h: `text` is the buffer `[begin, end)` and `current`
the index of the cursor in it. -/
structure SCReader where
  line_no : Int
  column_no : Int
  text : List Char
  current : Nat
  error : Option String
  path : String
  file_name : String
  deriving DecidableEq, Repr

/-- The function `MakeSCReader` of sc_file.c. -/
def MakeSCReader (text : List Char) (path file : String) : SCReader :=
  { line_no := 1, column_no := 1, text := text, current := 0, error := none,
    path := path, file_name := file }

/-- The character `*r->current`, when the cursor is before `end`. -/
def SCCurrentChar (r : SCReader) : Option Char := r.text[r.current]?

/-- The function `IsNameOrKeyChar` of sc_file.c (`isalnum` in the C locale). -/
def IsNameOrKeyChar (c : Char) : Bool := c == '_' || c.isAlphanum

/-- The function `IsDigitChar` of sc_file.c. -/
def IsDigitChar (ch : Char) : Bool := ch.isDigit || ch == '.' || ch == '-'

/-- The function `isspace` of the C locale: space, tab, newline, vertical tab, form feed,
carriage return. -/
def isspace (c : Char) : Bool :=
  c == ' ' || c == '\t' || c == '\n' || c == Char.ofNat 11 || c == Char.ofNat 12 || c == '\r'

/-- The function `IsAllWhitespace` of sc_file.c, on the characters of the slice. -/
def IsAllWhitespace : List Char → Bool
  | [] => true
  | c :: rest => if !isspace c then false else IsAllWhitespace rest

/-- The function `SCError` of sc_file.c. -/
def SCError (r : SCReader) (str : String) (out : SCObject) : SCReader × SCObject :=
  let r1 := { r with error := some str }
  let out1 := { out with
    type := SCObjectType.Error, end_line_no := r1.line_no, end_column_no := r1.column_no,
    full_text := { out.full_text with end_ := some r1.current }, error_text := some str }
  let out2 := if out1.line_no = 0 then { out1 with line_no := r1.line_no } else out1
  let out3 := if out2.column_no = 0 then { out2 with column_no := r1.column_no } else out2
  let out4 :=
    if out3.full_text.begin = none then
      { out3 with full_text := { out3.full_text with begin := some r1.current } }
    else out3
  (r1, out4)

/-- The value that a 32-bit `int` holds after an arithmetic result `x`: `x` itself when it is
in the range, and otherwise the value that differs from it by a multiple of `2^32`. -/
def Int32Wrap (x : Int) : Int := (x + 2147483648) % 4294967296 - 2147483648

/-- The function `SCConsume` of sc_file.c: the loop runs while the cursor is before `end`
and `chars` is not exhausted.  `line_no++` and `column_no++` are increments of an `int`. -/
def SCConsume (r : SCReader) : Nat → SCReader
  | 0 => r
  | chars + 1 =>
    if r.current < r.text.length then
      let r1 := if r.text[r.current]? = some '\n' then
        { r with line_no := Int32Wrap (r.line_no + 1), column_no := 0 } else r
      SCConsume
        { r1 with current := r1.current + 1, column_no := Int32Wrap (r1.column_no + 1) } chars
    else r

/-- The function `SCExpect` of sc_file.c; the boolean is the returned int. -/
def SCExpect (r : SCReader) (c : Char) (err : String) (out : SCObject) :
    Bool × SCReader × SCObject :=
  if r.current ≥ r.text.length ∨ SCCurrentChar r ≠ some c then
    let res := SCError r err out
    (false, res.1, res.2)
  else
    (true, SCConsume r 1, out)

/-- The loop of `SCConsumeWhileFunc`; every iteration moves the cursor by one, so
`end - current` iterations are enough. -/
def SCConsumeWhileFuncLoop (func : Char → Bool) : Nat → SCReader → SCReader
  | 0, r => r
  | fuel + 1, r =>
    if r.current < r.text.length ∧ (SCCurrentChar r).any func then
      SCConsumeWhileFuncLoop func fuel (SCConsume r 1)
    else r

/-- The function `SCConsumeWhileFunc` of sc_file.c. -/
def SCConsumeWhileFunc (r : SCReader) (func : Char → Bool) : SCReader :=
  SCConsumeWhileFuncLoop func (r.text.length - r.current) r

/-- The function `SCConsumeUntil` of sc_file.c: the same loop with the test `*current != c`. -/
def SCConsumeUntil (r : SCReader) (c : Char) : SCReader :=
  SCConsumeWhileFuncLoop (fun ch => ch != c) (r.text.length - r.current) r

/-- The function `SCConsumeWhitespace` of sc_file.c. -/
def SCConsumeWhitespace (r : SCReader) : SCReader :=
  SCConsumeWhileFunc r isspace

/-- The function `SCReadArgument` of sc_file.c. -/
def SCReadArgument (r : SCReader) (out : SCObject) : SCReader × SCObject :=
  if out.args_count ≥ SC_MAX_ARGS then
    SCError r "Function exceeds the max argument count" out
  else
    let r1 := SCConsumeWhitespace r
    let key_begin := r1.current
    let r2 := SCConsumeWhileFunc r1 IsNameOrKeyChar
    let key_end := r2.current
    if key_begin = key_end then
      SCError r2 "Expected a parameter name" out
    else
      let r3 := SCConsumeWhitespace r2
      let eq := SCExpect r3 '=' "Expected = after param name" out
      if eq.1 = false then eq.2
      else
        let r4 := SCConsumeWhitespace eq.2.1
        let out := eq.2.2
        if r4.current ≥ r4.text.length then
          SCError r4 "Reached EOF without finding parameter value" out
        else if SCCurrentChar r4 = some '"' then
          let r5 := SCConsume r4 1
          let value_begin := r5.current
          let r6 := SCConsumeUntil r5 '"'
          let value_end := r6.current
          let quote := SCExpect r6 '"' "Reached EOF without finding closing quote" out
          if quote.1 = false then quote.2
          else
            (SCConsumeWhitespace quote.2.1,
              { quote.2.2 with
                keys := quote.2.2.keys ++ [⟨some key_begin, some key_end⟩],
                values := quote.2.2.values ++ [⟨some value_begin, some value_end⟩],
                args_count := quote.2.2.args_count + 1 })
        else if (SCCurrentChar r4).any IsDigitChar then
          let value_begin := r4.current
          let r5 := SCConsumeWhileFunc r4 IsDigitChar
          let value_end := r5.current
          (SCConsumeWhitespace r5,
            { out with
              keys := out.keys ++ [⟨some key_begin, some key_end⟩],
              values := out.values ++ [⟨some value_begin, some value_end⟩],
              args_count := out.args_count + 1 })
        else
          SCError r4 "Expected parameter value but found something else" out

/-- The `while` loop of `SCReadArgumentList`.  The boolean tells that the function returned
from inside the loop (an argument was in error).  An iteration that goes on consumes a key
and a comma, so `end - current` iterations are enough.  The test `*r->current == ','` is
made without a bound check in the source; at `end` the loop is left whatever is read there
(`SCConsume` does not move, and the loop condition fails), which is the `else` branch. -/
def SCReadArgumentListLoop : Nat → SCReader → SCObject → Bool × SCReader × SCObject
  | 0, r, out => (false, r, out)
  | fuel + 1, r, out =>
    if r.current < r.text.length then
      let res := SCReadArgument r out
      if res.2.type = SCObjectType.Error then (true, res)
      else if SCCurrentChar res.1 = some ',' then
        SCReadArgumentListLoop fuel (SCConsume res.1 1) res.2
      else (false, res)
    else (false, r, out)

/-- The function `SCReadArgumentList` of sc_file.c. -/
def SCReadArgumentList (r : SCReader) (out : SCObject) : SCReader × SCObject :=
  let open_ := SCExpect r '('
    "Parser internal problem.Tried to read param list but there is no (" out
  if open_.1 = false then open_.2
  else
    let res := SCReadArgumentListLoop (open_.2.1.text.length - open_.2.1.current)
      open_.2.1 open_.2.2
    if res.1 = true then res.2
    else (SCExpect res.2.1 ')' "Parameter list is missing the closing paren" res.2.2).2

/-- The `while` loop of `SCReadBlock`, returning the reader and `level`.  Every iteration
that does not leave the loop moves the cursor by one, so `end - current` iterations are
enough. -/
def SCReadBlockLoop : Nat → SCReader → Nat → SCReader × Nat
  | 0, r, level => (r, level)
  | fuel + 1, r, level =>
    if r.current < r.text.length ∧ level ≠ 0 then
      if SCCurrentChar r = some '{' then
        SCReadBlockLoop fuel (SCConsume r 1) (level + 1)
      else if SCCurrentChar r = some '}' then
        if level - 1 = 0 then (r, level - 1)
        else SCReadBlockLoop fuel (SCConsume r 1) (level - 1)
      else SCReadBlockLoop fuel (SCConsume r 1) level
    else (r, level)

/-- The function `SCReadBlock` of sc_file.c. -/
def SCReadBlock (r : SCReader) (out : SCObject) : SCReader × SCObject :=
  let open_ := SCExpect r '{'
    "Parser internal problemTried to read param list but there is no \x7b" out
  if open_.1 = false then open_.2
  else
    let begin := open_.2.1.current
    let res := SCReadBlockLoop (open_.2.1.text.length - open_.2.1.current) open_.2.1 1
    let end_ := res.1.current
    if res.2 ≠ 0 then
      SCError res.1 "Closing brace of block is missing" open_.2.2
    else
      (SCConsume res.1 1,
        { open_.2.2 with has_block := true, block := ⟨some begin, some end_⟩ })

/-- The function `SCReadFunction` of sc_file.c. -/
def SCReadFunction (r : SCReader) (out : SCObject) : SCReader × SCObject :=
  let out1 := { out with
    type := SCObjectType.Func, full_text := { out.full_text with begin := some r.current } }
  let bs := SCExpect r '\\'
    "Parser internal problem. Tried to read function but there is no \\ at the start" out1
  if bs.1 = false then bs.2
  else
    let name_begin := bs.2.1.current
    let r1 := SCConsumeWhileFunc bs.2.1 IsNameOrKeyChar
    if name_begin = r1.current then
      SCError r1 "Expected function name after backslash" bs.2.2
    else
      let out2 := { bs.2.2 with function_name := ⟨some name_begin, some r1.current⟩ }
      let args :=
        if r1.current < r1.text.length ∧ SCCurrentChar r1 = some '(' then
          SCReadArgumentList r1 out2
        else (r1, out2)
      if args.2.type = SCObjectType.Error then args
      else
        let blk :=
          if args.1.current < args.1.text.length ∧ SCCurrentChar args.1 = some '{' then
            SCReadBlock args.1 args.2
          else args
        if blk.2.type = SCObjectType.Error then blk
        else
          (blk.1, { blk.2 with
            end_line_no := blk.1.line_no, end_column_no := blk.1.column_no,
            full_text := { blk.2.full_text with end_ := some blk.1.current } })

/-- The function `SCRead` of sc_file.c. -/
def SCRead (r : SCReader) : SCReader × SCObject :=
  let out := { SCObjectZero r.path r.file_name with
    line_no := r.line_no, column_no := r.column_no }
  match r.error with
  | some e => SCError r e out
  | none =>
    if r.current = r.text.length then
      (r, { out with type := SCObjectType.End })
    else if SCCurrentChar r = some '\\' then
      if r.current + 1 = r.text.length then
        SCError r "Backslash unescaped and with no function at the end of file" out
      else if r.text[r.current + 1]? = some '\\' then
        let backslash_begin := r.current
        let r := SCConsume r 2
        (r, { out with
          type := SCObjectType.Backslash,
          full_text := ⟨some backslash_begin, some r.current⟩,
          end_line_no := r.line_no, end_column_no := r.column_no })
      else SCReadFunction r out
    else
      let start := r.current
      let r := SCConsumeUntil r '\\'
      (r, { out with
        type := SCObjectType.Text,
        full_text := ⟨some start, some r.current⟩,
        end_line_no := r.line_no, end_column_no := r.column_no })

/-! ## arena.h : the output sink -/

/-- The struct `Arena` of arena.h, as the text pushed since `ArenaBeginString`. -/
structure Arena where
  text : List Char
  deriving DecidableEq, Repr

/-- The function `ArenaPushChar` of arena.h. -/
def ArenaPushChar (a : Arena) (value : Char) : Arena := ⟨a.text ++ [value]⟩

/-- The function `ArenaPushCStr` of arena.c. -/
def ArenaPushCStr (a : Arena) (cstr : String) : Arena := ⟨a.text ++ cstr.toList⟩

/-- The function `ArenaPushSlice` of arena.c, given the characters of the slice. -/
def ArenaPushSlice (a : Arena) (s : List Char) : Arena := ⟨a.text ++ s⟩

/-! ## sc_file.c : diagnostics -/

/-- The conversion `%d` of `printf` for an `int`: the decimal digits, after a minus sign for
a negative value. -/
def PrintfInt : Int → String
  | Int.ofNat n => Nat.repr n
  | Int.negSucc n => "-" ++ Nat.repr (n + 1)

/-- The function `SCMakeErrorString` of sc_file.c: the text of the slice it returns.  A null
`error_text` selects the error of the object. -/
def SCMakeErrorString (obj : SCObject) (error_text : Option String) : List Char :=
  let msg := match error_text with
    | some e => e
    | none => obj.error_text.getD "(null)"
  let a : Arena := ⟨[]⟩
  let a := ArenaPushCStr a "Error while reading SC file: "
  let a := ArenaPushCStr a obj.file_name
  let a := ArenaPushCStr a "\nPath was: "
  let a := ArenaPushCStr a obj.path
  let a := ArenaPushCStr a ("\nError: " ++ msg ++ "\n")
  let a := ArenaPushCStr a
    ("Starting location: line " ++ PrintfInt obj.line_no ++ ", col " ++
      PrintfInt obj.column_no ++ "\n")
  let a := ArenaPushCStr a
    ("Ending location:   line " ++ PrintfInt obj.end_line_no ++ ", col " ++
      PrintfInt obj.end_column_no ++ "\n")
  a.text

/-! ## sc_to_html.c : the tag stack -/

/-- The constant `SC_HTML_MAX_TAG_DEPTH` of sc_to_html.h. -/
def SC_HTML_MAX_TAG_DEPTH : Nat := 128

/-- The enum `HTMLTagType` of sc_to_html.c; `TOS` is the sentinel at the bottom. -/
inductive HTMLTagType
  | Article
  | Section
  | Paragraph
  | OrderedList
  | UnorderedList
  | HorizontalList
  | TableDiv
  | Table
  | ListItem
  | TableRow
  | TableColumn
  | TableHeadingColumn
  | TOS
  deriving DecidableEq, Repr

/-- The table `g_html_tag_type_open_text` of sc_to_html.c. -/
def g_html_tag_type_open_text : HTMLTagType → String
  | HTMLTagType.Article => "article"
  | HTMLTagType.Section => "section"
  | HTMLTagType.Paragraph => "p"
  | HTMLTagType.OrderedList => "ol"
  | HTMLTagType.UnorderedList => "ul"
  | HTMLTagType.HorizontalList => "ul class=\"horizlist\""
  | HTMLTagType.TableDiv => "div class=\"tablediv\""
  | HTMLTagType.Table => "table"
  | HTMLTagType.ListItem => "li"
  | HTMLTagType.TableRow => "tr"
  | HTMLTagType.TableColumn => "td"
  | HTMLTagType.TableHeadingColumn => "th"
  | HTMLTagType.TOS => "TOS"

/-- The table `g_html_tag_type_close_text` of sc_to_html.c. -/
def g_html_tag_type_close_text : HTMLTagType → String
  | HTMLTagType.Article => "article"
  | HTMLTagType.Section => "section"
  | HTMLTagType.Paragraph => "p"
  | HTMLTagType.OrderedList => "ol"
  | HTMLTagType.UnorderedList => "ul"
  | HTMLTagType.HorizontalList => "ul"
  | HTMLTagType.TableDiv => "div"
  | HTMLTagType.Table => "table"
  | HTMLTagType.ListItem => "li"
  | HTMLTagType.TableRow => "tr"
  | HTMLTagType.TableColumn => "td"
  | HTMLTagType.TableHeadingColumn => "th"
  | HTMLTagType.TOS => "TOS"

/-- One tag written by `HTMLPushTag` (opening) or by `HTMLPopTag` (closing). -/
inductive TagWrite
  | opening (tag : HTMLTagType)
  | closing (tag : HTMLTagType)
  deriving DecidableEq, Repr

/-- The struct `HTMLTagStack` of sc_to_html.c.  `stack` lists the entries
`stack[tag_pos], ..., stack[0]`, the top first, so that `tag_pos` is its length minus one;
`arena` is the arena that `s->arena` points to.  `tag_writes` is not a field of the C
struct: it records, in order, which tags `HTMLPushTag` and `HTMLPopTag` have written to the
arena, and no function reads it. -/
structure HTMLTagStack where
  stack : List HTMLTagType
  section_depth : Int
  arena : Arena
  tag_writes : List TagWrite
  deriving DecidableEq, Repr

/-- The index `tag_pos` of the top of the stack. -/
def HTMLTagStack.tag_pos (s : HTMLTagStack) : Nat := s.stack.length - 1

/-- The function `InitHTMLTagStack` of sc_to_html.c. -/
def InitHTMLTagStack (arena : Arena) : HTMLTagStack :=
  { stack := [HTMLTagType.TOS], section_depth := 0, arena := arena, tag_writes := [] }

/-- The function `HTMLTop` of sc_to_html.c. -/
def HTMLTop (s : HTMLTagStack) : HTMLTagType := s.stack.headD HTMLTagType.TOS

/-- The function `HTMLPushTag` of sc_to_html.c; `none` is the failed assertion
`tag_pos + 1 < SC_HTML_MAX_TAG_DEPTH`. -/
def HTMLPushTag (s : HTMLTagStack) (tag : HTMLTagType) : Option HTMLTagStack :=
  if s.tag_pos + 1 < SC_HTML_MAX_TAG_DEPTH then
    some
      { stack := tag :: s.stack,
        section_depth :=
          if tag = HTMLTagType.Article ∨ tag = HTMLTagType.Section then s.section_depth + 1
          else s.section_depth,
        arena := ArenaPushCStr s.arena ("<" ++ g_html_tag_type_open_text tag ++ ">\n"),
        tag_writes := s.tag_writes ++ [TagWrite.opening tag] }
  else none

/-- The function `HTMLPopTag` of sc_to_html.c; `none` is the failed assertion `tag_pos > 0`.
The popped tag, which no caller uses, is not returned. -/
def HTMLPopTag (s : HTMLTagStack) : Option HTMLTagStack :=
  match s.stack with
  | tag :: below :: rest =>
    some
      { stack := below :: rest,
        section_depth :=
          if tag = HTMLTagType.Article ∨ tag = HTMLTagType.Section then s.section_depth - 1
          else s.section_depth,
        arena := ArenaPushCStr s.arena ("</" ++ g_html_tag_type_close_text tag ++ ">\n"),
        tag_writes := s.tag_writes ++ [TagWrite.closing tag] }
  | _ => none

/-- The loop of `HTMLRiseToLowestSection`; a pop fails once `tag_pos` is 0, so `tag_pos + 1`
iterations are enough. -/
def HTMLRiseToLowestSectionLoop : Nat → HTMLTagStack → Option HTMLTagStack
  | 0, _ => none
  | fuel + 1, s =>
    if HTMLTop s ≠ HTMLTagType.Section ∧ HTMLTop s ≠ HTMLTagType.Article then
      (HTMLPopTag s).bind (HTMLRiseToLowestSectionLoop fuel)
    else some s

/-- The function `HTMLRiseToLowestSection` of sc_to_html.c. -/
def HTMLRiseToLowestSection (s : HTMLTagStack) : Option HTMLTagStack :=
  HTMLRiseToLowestSectionLoop (s.stack.length + 1) s

/-- The function `HTMLWriteEscapedText` of sc_to_html.c, given the characters of the slice. -/
def HTMLWriteEscapedText : List Char → Arena → Arena
  | [], arena => arena
  | c :: rest, arena =>
    let arena :=
      if c = '"' then ArenaPushCStr arena "&quot;"
      else if c = '&' then ArenaPushCStr arena "&amp;"
      else if c = '<' then ArenaPushCStr arena "&lt;"
      else if c = '>' then ArenaPushCStr arena "&gt;"
      else ArenaPushChar arena c
    HTMLWriteEscapedText rest arena

/-- The function `HTMLWriteAttribute` of sc_to_html.c, given the characters of both slices. -/
def HTMLWriteAttribute (key value : List Char) (arena : Arena) : Arena :=
  let arena := ArenaPushChar arena ' '
  let arena := ArenaPushSlice arena key
  let arena := ArenaPushCStr arena "=\""
  let arena := ArenaPushSlice arena value
  ArenaPushChar arena '"'

/-- The first loop of `HTMLOpenSection`: pop while `section_depth > level - 1`. -/
def HTMLOpenSectionRise (level : Int) : Nat → HTMLTagStack → Option HTMLTagStack
  | 0, _ => none
  | fuel + 1, s =>
    if s.section_depth > level - 1 then
      (HTMLPopTag s).bind (HTMLOpenSectionRise level fuel)
    else some s

/-- The second loop of `HTMLOpenSection`: push sections while `section_depth != level`.  A
push fails once the stack holds `SC_HTML_MAX_TAG_DEPTH` entries, which bounds the loop. -/
def HTMLOpenSectionMake (level : Int) : Nat → HTMLTagStack → Option HTMLTagStack
  | 0, _ => none
  | fuel + 1, s =>
    if s.section_depth ≠ level then
      (HTMLPushTag s HTMLTagType.Section).bind (HTMLOpenSectionMake level fuel)
    else some s

/-- The function `HTMLOpenSection` of sc_to_html.c, given the characters of `heading`. -/
def HTMLOpenSection (s : HTMLTagStack) (level : Int) (heading : List Char) :
    Option HTMLTagStack :=
  (HTMLOpenSectionRise level (s.stack.length + 1) s).bind fun s =>
  (HTMLOpenSectionMake level (SC_HTML_MAX_TAG_DEPTH + 1) s).bind fun s =>
    let arena := ArenaPushCStr s.arena "<h1>"
    let arena := HTMLWriteEscapedText heading arena
    some { s with arena := ArenaPushCStr arena "</h1>\n" }

/-- The function `HTMLWriteInTag` of sc_to_html.c, given the characters of `text`. -/
def HTMLWriteInTag (text : List Char) (tag : String) (arena : Arena) : Arena :=
  let arena := ArenaPushCStr arena ("<" ++ tag ++ ">\n")
  let arena := HTMLWriteEscapedText text arena
  ArenaPushCStr arena ("</" ++ tag ++ ">\n")

/-- The function `HTMLOpenTag` of sc_to_html.c. -/
def HTMLOpenTag (s : HTMLTagStack) (tag : HTMLTagType) : Option HTMLTagStack :=
  (HTMLRiseToLowestSection s).bind fun s => HTMLPushTag s tag

/-! ## sc_to_html.c : SCToHTML -/

/-- How the body of the `do ... while` loop of `SCToHTML` is left for one object: by a
`break` out of the `switch`, with the new tag stack, or by `return 0`, with the error text
stored in `*out_slice`. -/
inductive SCToHTMLStep
  | next (tags : HTMLTagStack)
  | ret0 (out_slice : List Char)
  deriving DecidableEq, Repr

/-- The macro `R_CheckSCObjectHasBlock` of sc_file.h: the value returned when the block is
missing. -/
def R_CheckSCObjectHasBlock (obj : SCObject) (name : String) : SCToHTMLStep :=
  SCToHTMLStep.ret0 (SCMakeErrorString obj (some (name ++ " commands require a block")))

/-- The `for` loop over the arguments in the `link` and `image` branches of `SCToHTML`, run
over the indices `is`: the key `url` is written as `attr` and sets `found_url`. -/
def HTMLWriteArguments (sc : List Char) (obj : SCObject) (attr : String) :
    List Nat → Bool × Arena → Bool × Arena
  | [], st => st
  | i :: is, (found_url, arena) =>
    let key := obj.keys.getD i NullSlice
    let value := obj.values.getD i NullSlice
    if SliceEqCStr sc key "url" then
      HTMLWriteArguments sc obj attr is
        (true, HTMLWriteAttribute attr.toList (SliceText sc value) arena)
    else
      HTMLWriteArguments sc obj attr is
        (found_url, HTMLWriteAttribute (SliceText sc key) (SliceText sc value) arena)

/-- The `for` loop over the arguments in the `info` branch of `SCToHTML`. -/
def HTMLWriteTitles (sc : List Char) (obj : SCObject) : List Nat → Arena → Arena
  | [], arena => arena
  | i :: is, arena =>
    if !SliceEqCStr sc (obj.keys.getD i NullSlice) "title" then
      HTMLWriteTitles sc obj is arena
    else
      HTMLWriteTitles sc obj is
        (HTMLWriteInTag (SliceText sc (obj.values.getD i NullSlice)) "h1" arena)

/-- The loop of the `code` branch that moves `text.begin` one past the first newline of the
block, given the characters of the block. -/
def CodeSkipFirstNewline : List Char → List Char
  | [] => []
  | c :: rest => if c = '\n' then rest else CodeSkipFirstNewline rest

/-- The `case SCObjectType_Func` of the `switch` in `SCToHTML`, for the function object
`obj` read from the buffer `sc`. -/
def SCToHTMLFunc (sc : List Char) (tags : HTMLTagStack) (obj : SCObject) :
    Option SCToHTMLStep :=
  let block := SliceText sc obj.block
  if SliceEqCStr sc obj.function_name "section" then
    if !obj.has_block then some (R_CheckSCObjectHasBlock obj "section")
    else (HTMLOpenSection tags 2 block).map SCToHTMLStep.next
  else if SliceEqCStr sc obj.function_name "subsection" then
    if !obj.has_block then some (R_CheckSCObjectHasBlock obj "subsection")
    else (HTMLOpenSection tags 3 block).map SCToHTMLStep.next
  else if SliceEqCStr sc obj.function_name "paragraph" then
    (HTMLOpenTag tags HTMLTagType.Paragraph).map SCToHTMLStep.next
  else if SliceEqCStr sc obj.function_name "ordered_list" then
    (HTMLOpenTag tags HTMLTagType.OrderedList).map SCToHTMLStep.next
  else if SliceEqCStr sc obj.function_name "unordered_list" then
    (HTMLOpenTag tags HTMLTagType.UnorderedList).map SCToHTMLStep.next
  else if SliceEqCStr sc obj.function_name "horizontal_list" then
    (HTMLOpenTag tags HTMLTagType.HorizontalList).map SCToHTMLStep.next
  else if SliceEqCStr sc obj.function_name "table" then
    (HTMLOpenTag tags HTMLTagType.TableDiv).bind fun tags =>
    (HTMLPushTag tags HTMLTagType.Table).bind fun tags =>
      if obj.has_block then
        some (SCToHTMLStep.next { tags with arena := HTMLWriteInTag block "caption" tags.arena })
      else some (SCToHTMLStep.next tags)
  else if SliceEqCStr sc obj.function_name "item" then
    (if HTMLTop tags = HTMLTagType.ListItem ∨ HTMLTop tags = HTMLTagType.TableColumn ∨
        HTMLTop tags = HTMLTagType.TableHeadingColumn then HTMLPopTag tags
      else some tags).bind fun tags =>
      let top := HTMLTop tags
      if top ≠ HTMLTagType.UnorderedList ∧ top ≠ HTMLTagType.OrderedList ∧
          top ≠ HTMLTagType.HorizontalList ∧ top ≠ HTMLTagType.TableRow then
        some (SCToHTMLStep.ret0 (SCMakeErrorString obj
          (some "You can only open an \\item in a table row or list")))
      else if top = HTMLTagType.TableRow then
        (HTMLPushTag tags HTMLTagType.TableColumn).map SCToHTMLStep.next
      else
        (HTMLPushTag tags HTMLTagType.ListItem).map SCToHTMLStep.next
  else if SliceEqCStr sc obj.function_name "hitem" then
    (if HTMLTop tags = HTMLTagType.TableColumn ∨
        HTMLTop tags = HTMLTagType.TableHeadingColumn then HTMLPopTag tags
      else some tags).bind fun tags =>
      let top := HTMLTop tags
      if top ≠ HTMLTagType.TableRow then
        some (SCToHTMLStep.ret0 (SCMakeErrorString obj
          (some "You can only open an \\hitem in a table row")))
      else
        (HTMLPushTag tags HTMLTagType.TableHeadingColumn).map SCToHTMLStep.next
  else if SliceEqCStr sc obj.function_name "row" then
    (if HTMLTop tags = HTMLTagType.TableHeadingColumn ∨
        HTMLTop tags = HTMLTagType.TableColumn then HTMLPopTag tags
      else some tags).bind fun tags =>
    (if HTMLTop tags = HTMLTagType.TableRow then HTMLPopTag tags
      else some tags).bind fun tags =>
      if HTMLTop tags ≠ HTMLTagType.Table then
        some (SCToHTMLStep.ret0 (SCMakeErrorString obj
          (some "You can only open a \\row in a table")))
      else
        (HTMLPushTag tags HTMLTagType.TableRow).map SCToHTMLStep.next
  else if SliceEqCStr sc obj.function_name "html" then
    if !obj.has_block then some (R_CheckSCObjectHasBlock obj "html")
    else
      (HTMLRiseToLowestSection tags).bind fun tags =>
        some (SCToHTMLStep.next { tags with arena := ArenaPushSlice tags.arena block })
  else if SliceEqCStr sc obj.function_name "code" then
    if !obj.has_block then some (R_CheckSCObjectHasBlock obj "code")
    else
      (HTMLRiseToLowestSection tags).bind fun tags =>
        let arena := ArenaPushCStr tags.arena "<pre><code>"
        -- the source computes `text` here and then writes `obj.block`
        let _text := CodeSkipFirstNewline block
        let arena := HTMLWriteEscapedText block arena
        some (SCToHTMLStep.next { tags with arena := ArenaPushCStr arena "</code></pre>\n" })
  else if SliceEqCStr sc obj.function_name "quote" then
    if !obj.has_block then some (R_CheckSCObjectHasBlock obj "quote")
    else
      (HTMLRiseToLowestSection tags).bind fun tags =>
        some (SCToHTMLStep.next
          { tags with arena := HTMLWriteInTag block "blockquote" tags.arena })
  else if SliceEqCStr sc obj.function_name "bold" then
    if !obj.has_block then some (R_CheckSCObjectHasBlock obj "bold")
    else some (SCToHTMLStep.next { tags with arena := HTMLWriteInTag block "b" tags.arena })
  else if SliceEqCStr sc obj.function_name "italic" then
    if !obj.has_block then some (R_CheckSCObjectHasBlock obj "italic")
    else some (SCToHTMLStep.next { tags with arena := HTMLWriteInTag block "i" tags.arena })
  else if SliceEqCStr sc obj.function_name "inline" then
    if !obj.has_block then some (R_CheckSCObjectHasBlock obj "inline")
    else some (SCToHTMLStep.next { tags with arena := HTMLWriteInTag block "code" tags.arena })
  else if SliceEqCStr sc obj.function_name "link" then
    if !obj.has_block then some (R_CheckSCObjectHasBlock obj "link")
    else
      let arena := ArenaPushCStr tags.arena "<a"
      let res := HTMLWriteArguments sc obj "href" (List.range obj.args_count) (false, arena)
      if !res.1 then
        some (SCToHTMLStep.ret0 (SCMakeErrorString obj
          (some "Missing required url parameter in link")))
      else
        let arena := ArenaPushCStr res.2 ">"
        let arena := HTMLWriteEscapedText block arena
        some (SCToHTMLStep.next { tags with arena := ArenaPushCStr arena "</a>" })
  else if SliceEqCStr sc obj.function_name "image" then
    (HTMLRiseToLowestSection tags).bind fun tags =>
      let arena := ArenaPushCStr tags.arena "<img"
      let res := HTMLWriteArguments sc obj "src" (List.range obj.args_count) (false, arena)
      if !res.1 then
        some (SCToHTMLStep.ret0 (SCMakeErrorString obj
          (some "Missing required url parameter in image")))
      else
        some (SCToHTMLStep.next { tags with arena := ArenaPushCStr res.2 ">\n" })
  else if SliceEqCStr sc obj.function_name "info" then
    (HTMLRiseToLowestSection tags).bind fun tags =>
      if HTMLTop tags ≠ HTMLTagType.Article then
        some (SCToHTMLStep.ret0 (SCMakeErrorString obj
          (some "Info command should be at the beginning of the file")))
      else
        some (SCToHTMLStep.next
          { tags with arena := HTMLWriteTitles sc obj (List.range obj.args_count) tags.arena })
  else
    some (SCToHTMLStep.ret0 (SCMakeErrorString obj (some "Unknown command")))

/-- The `switch (obj.type)` of `SCToHTML` for one object read from the buffer `sc`; `none`
is a failed assertion of the tag stack. -/
def SCToHTMLObject (sc : List Char) (tags : HTMLTagStack) (obj : SCObject) :
    Option SCToHTMLStep :=
  match obj.type with
  | SCObjectType.Error => some (SCToHTMLStep.ret0 (SCMakeErrorString obj none))
  | SCObjectType.End => some (SCToHTMLStep.next tags)
  | SCObjectType.Text =>
    let full_text := SliceText sc obj.full_text
    (if (HTMLTop tags = HTMLTagType.Article ∨ HTMLTop tags = HTMLTagType.Section) ∧
        IsAllWhitespace full_text = false then HTMLPushTag tags HTMLTagType.Paragraph
      else some tags).bind fun tags =>
      some (SCToHTMLStep.next { tags with arena := HTMLWriteEscapedText full_text tags.arena })
  | SCObjectType.Backslash =>
    (if HTMLTop tags = HTMLTagType.Article ∨ HTMLTop tags = HTMLTagType.Section then
        HTMLPushTag tags HTMLTagType.Paragraph
      else some tags).bind fun tags =>
      some (SCToHTMLStep.next { tags with arena := ArenaPushChar tags.arena '\\' })
  | SCObjectType.Func => SCToHTMLFunc sc tags obj

/-- The loop after the `do ... while` of `SCToHTML`: pop until the sentinel is on top. -/
def HTMLPopAll : Nat → HTMLTagStack → Option HTMLTagStack
  | 0, _ => none
  | fuel + 1, s =>
    if HTMLTop s ≠ HTMLTagType.TOS then (HTMLPopTag s).bind (HTMLPopAll fuel)
    else some s

/-- The `do ... while` loop of `SCToHTML` and the loop that follows it.  The result is
`ret0` with the error text when the function returns 0 and `next` with the final tag stack
when it reaches `return 1`; `none` is a failed assertion.  An iteration that goes on has
read a text, backslash or function object, which moves the cursor, so `|sc| + 1` iterations
are enough. -/
def SCToHTMLLoop (sc : List Char) : Nat → SCReader → HTMLTagStack → Option SCToHTMLStep
  | 0, _, _ => none
  | fuel + 1, reader, tags =>
    let res := SCRead reader
    (SCToHTMLObject sc tags res.2).bind fun step =>
      match step with
      | SCToHTMLStep.ret0 out_slice => some (SCToHTMLStep.ret0 out_slice)
      | SCToHTMLStep.next tags =>
        if res.2.type ≠ SCObjectType.End ∧ res.2.type ≠ SCObjectType.Error then
          SCToHTMLLoop sc fuel res.1 tags
        else
          (HTMLPopAll (tags.stack.length + 1) tags).map SCToHTMLStep.next

/-- The body of `SCToHTML` up to its `return`: `ret0` with the error text, or `next` with
the tag stack as it is when `return 1` is reached. -/
def SCToHTMLRun (sc : List Char) (path file : String) : Option SCToHTMLStep :=
  let reader := MakeSCReader sc path file
  let tags := InitHTMLTagStack ⟨[]⟩
  (HTMLPushTag tags HTMLTagType.Article).bind fun tags =>
    SCToHTMLLoop sc (sc.length + 1) reader tags

/-- The function `SCToHTML` of sc_to_html.c: the returned int and the text of `*out_slice`,
which on success is the text pushed to the arena since `ArenaBeginString`; `none` is a
failed assertion. -/
def SCToHTML (sc : List Char) (path file : String) : Option (Bool × List Char) :=
  (SCToHTMLRun sc path file).map fun step =>
    match step with
    | SCToHTMLStep.next tags => (true, tags.arena.text)
    | SCToHTMLStep.ret0 out_slice => (false, out_slice)

end SiteC

/-! ## slice.c and site_gen.c -/

namespace SiteC

/-- The function `memcmp` of the C library on the first `n` bytes of two buffers: 0 when they
agree, and otherwise the difference of the first two bytes that differ, taken as unsigned
values (the C standard fixes the sign of the result only). -/
def memcmp : List Char → List Char → Nat → Int
  | a :: as, b :: bs, n + 1 =>
    if a = b then memcmp as bs n else (a.toNat : Int) - (b.toNat : Int)
  | _, _, _ => 0

/-- The conversion of a `memsize` (`size_t`, 64 bits) value to `int` (32 bits) made by
`return blen - alen`: the low 32 bits, read as a signed number. -/
def IntOfMemsize (x : Nat) : Int :=
  if x % 2 ^ 32 < 2 ^ 31 then ((x % 2 ^ 32 : Nat) : Int)
  else ((x % 2 ^ 32 : Nat) : Int) - 2 ^ 32

/-- The function `SliceCmp` of slice.c, given the bytes of both slices.  The difference
`blen - alen` is computed in `memsize`, modulo `2 ^ 64`. -/
def SliceCmp (a b : List Char) : Int :=
  let alen := a.length
  let blen := b.length
  let min_len := if alen < blen then alen else blen
  let result := memcmp a b min_len
  if result = 0 ∧ alen ≠ blen then IntOfMemsize ((blen + 2 ^ 64 - alen) % 2 ^ 64)
  else result

/-- The struct `SCInfo` of site_gen.c. -/
structure SCInfo where
  title : Slice
  date : Slice
  deriving DecidableEq, Repr

/-- The `for` loop over the arguments in `GetSCInfo`, run over the indices `is`: the state
is `found_info` and `*out`. -/
def GetSCInfoArgs (sc : List Char) (obj : SCObject) : List Nat → Nat × SCInfo → Nat × SCInfo
  | [], st => st
  | i :: is, (found_info, out) =>
    if SliceEqCStr sc (obj.keys.getD i NullSlice) "title" then
      GetSCInfoArgs sc obj is
        (found_info + 1, { out with title := obj.values.getD i NullSlice })
    else if SliceEqCStr sc (obj.keys.getD i NullSlice) "date" then
      GetSCInfoArgs sc obj is
        (found_info + 1, { out with date := obj.values.getD i NullSlice })
    else GetSCInfoArgs sc obj is (found_info, out)

/-- The `do ... while` loop of `GetSCInfo` and the statements after it.  The result is the
returned int, `*out`, and the text stored in `*error_text` (`none` when it is not written).
An iteration that goes on has read a text, backslash or function object, which moves the
cursor, so `|sc| + 1` iterations are enough; `none` is the exhaustion of this bound. -/
def GetSCInfoLoop (sc : List Char) :
    Nat → SCReader → Nat → SCInfo → Option (Bool × SCInfo × Option (List Char))
  | 0, _, _, _ => none
  | fuel + 1, reader, found_info, out =>
    let res := SCRead reader
    let obj := res.2
    if obj.type = SCObjectType.Error then
      some (false, out, some (SCMakeErrorString obj none))
    else if obj.type = SCObjectType.Func ∧ SliceEqCStr sc obj.function_name "info" then
      let st := GetSCInfoArgs sc obj (List.range obj.args_count) (found_info, out)
      if st.1 ≠ 2 then
        some (false, st.2,
          some (SCMakeErrorString obj (some "Info command is missing required params")))
      else some (true, st.2, none)
    else if obj.type ≠ SCObjectType.End ∧ obj.type ≠ SCObjectType.Error then
      GetSCInfoLoop sc fuel res.1 found_info out
    else
      some (false, out, some (SCMakeErrorString obj (some "Info command not found")))

/-- The function `GetSCInfo` of site_gen.c; `out` is the value of `*out` on entry. -/
def GetSCInfo (sc : List Char) (path file : String) (out : SCInfo) :
    Option (Bool × SCInfo × Option (List Char)) :=
  GetSCInfoLoop sc (sc.length + 1) (MakeSCReader sc path file) 0 out

end SiteC

/-! ## site_gen.c : output names, and sc_file.c : the reads of the buffer -/

namespace SiteC

/-- The loop of `SwitchExtension` of site_gen.c: `curr` moves forward from the beginning of
the name until it reaches the end or a `.`; the result is the part `[begin, curr)` of the
name. -/
def SwitchExtensionStem : List Char → List Char
  | [] => []
  | c :: rest => if c ≠ '.' then c :: SwitchExtensionStem rest else []

/-- The function `SwitchExtension` of site_gen.c, given the characters of `in_file_name`:
the characters of the C string it returns, which are those pushed to the arena before the
terminating 0. -/
def SwitchExtension (in_file_name : List Char) : List Char :=
  let a : Arena := ⟨[]⟩
  let a := ArenaPushSlice a (SwitchExtensionStem in_file_name)
  let a := ArenaPushCStr a ".html"
  a.text

/-- The `while` loop of `SCReadArgumentList` of sc_file.c, followed as in
`SCReadArgumentListLoop`, returning the positions at which the test `*r->current == ','`
reads the buffer, one for every argument read without error. -/
def SCReadArgumentListLoopLookups : Nat → SCReader → SCObject → List Nat
  | 0, _, _ => []
  | fuel + 1, r, out =>
    if r.current < r.text.length then
      let res := SCReadArgument r out
      if res.2.type = SCObjectType.Error then []
      else
        res.1.current ::
          (if SCCurrentChar res.1 = some ',' then
            SCReadArgumentListLoopLookups fuel (SCConsume res.1 1) res.2
          else [])
    else []

/-- The positions at which the test `*r->current == ','` reads the buffer during a call of
`SCReadArgumentList`. -/
def SCReadArgumentListLookups (r : SCReader) (out : SCObject) : List Nat :=
  let open_ := SCExpect r '('
    "Parser internal problem.Tried to read param list but there is no (" out
  if open_.1 = false then []
  else
    SCReadArgumentListLoopLookups (open_.2.1.text.length - open_.2.1.current)
      open_.2.1 open_.2.2

/-- The positions at which the test `*r->current == ','` reads the buffer during a call of
`SCReadFunction`: the path of `SCReadFunction` down to its call of `SCReadArgumentList`. -/
def SCReadFunctionLookups (r : SCReader) (out : SCObject) : List Nat :=
  let out1 := { out with
    type := SCObjectType.Func, full_text := { out.full_text with begin := some r.current } }
  let bs := SCExpect r '\\'
    "Parser internal problem. Tried to read function but there is no \\ at the start" out1
  if bs.1 = false then []
  else
    let name_begin := bs.2.1.current
    let r1 := SCConsumeWhileFunc bs.2.1 IsNameOrKeyChar
    if name_begin = r1.current then []
    else
      let out2 := { bs.2.2 with function_name := ⟨some name_begin, some r1.current⟩ }
      if r1.current < r1.text.length ∧ SCCurrentChar r1 = some '(' then
        SCReadArgumentListLookups r1 out2
      else []

/-- The positions at which the test `*r->current == ','` reads the buffer during a call of
`SCRead`: the path of `SCRead` down to its call of `SCReadFunction`. -/
def SCReadLookups (r : SCReader) : List Nat :=
  let out := { SCObjectZero r.path r.file_name with
    line_no := r.line_no, column_no := r.column_no }
  match r.error with
  | some _ => []
  | none =>
    if r.current = r.text.length then []
    else if SCCurrentChar r = some '\\' then
      if r.current + 1 = r.text.length then []
      else if r.text[r.current + 1]? = some '\\' then []
      else SCReadFunctionLookups r out
    else []

end SiteC

/-! ## Definitions used to state the properties -/

namespace SiteC

/-- The reader state after `n` successive calls of `SCRead`. -/
def SCReadIter : Nat → SCReader → SCReader
  | 0, r => r
  | n + 1, r => SCReadIter n (SCRead r).1

/-- The object is the error object that `SCError` builds from the reader it leaves. -/
def ErrorFrozen (r : SCReader) (out : SCObject) : Prop :=
  out.type = SCObjectType.Error ∧ r.error ≠ none ∧ out.error_text = r.error ∧
    out.end_line_no = r.line_no ∧ out.end_column_no = r.column_no

/-- Either the call ended in `SCError`, or it kept the object type and the error field. -/
@[reducible] def ErrorOrKept (r : SCReader) (out : SCObject) (res : SCReader × SCObject) :
    Prop :=
  ErrorFrozen res.1 res.2 ∨ (res.2.type = out.type ∧ res.1.error = r.error)

/-- The line number of the position after the prefix `p` of an input: one more than the
number of newlines of `p`. -/
def LineOf (p : List Char) : Nat := 1 + p.count '\n'

/-- The column number of the position after the prefix `p` of an input: one more than the
number of characters of `p` after its last newline (all of `p` when it has none). -/
def ColumnOf (p : List Char) : Nat := 1 + (p.reverse.takeWhile (fun c => c != '\n')).length

/-- The line and the column of the reader are those of the prefix consumed so far, as a
32-bit `int` holds them. -/
def PositionTracked (r : SCReader) : Prop :=
  r.line_no = Int32Wrap (LineOf (r.text.take r.current)) ∧
    r.column_no = Int32Wrap (ColumnOf (r.text.take r.current))

/-- A point between two reader steps: the reader after `n` calls of `SCRead` on the input
and the consumption of `k` further characters. -/
def SCReadPoint (text : List Char) (path file : String) (n k : Nat) : SCReader :=
  SCConsume (SCReadIter n (MakeSCReader text path file)) k

/-- The part of the buffer that the reader has not consumed yet. -/
def SCRest (r : SCReader) : List Char := r.text.drop r.current

/-- The reader once it has consumed the characters `s` one by one: the cursor has moved past
them, a newline has started a new line at column 1 and every other character has added one
to the column, the counters being 32-bit `int`s. -/
def SCAdvance : SCReader → List Char → SCReader
  | r, [] => r
  | r, c :: s =>
    SCAdvance
      (if c = '\n' then
        { r with line_no := Int32Wrap (r.line_no + 1), column_no := 1,
                 current := r.current + 1 }
      else { r with current := r.current + 1, column_no := Int32Wrap (r.column_no + 1) }) s

/-- The braces of `b` are balanced: no prefix of `b` has more closing than opening braces,
and `b` has as many of each. -/
def BracesBalanced (b : List Char) : Prop :=
  (∀ p, p <+: b → p.count '}' ≤ p.count '{') ∧ b.count '{' = b.count '}'

/-- The brace opened just before `b` is never matched in `b`: after every prefix of `b` the
depth, which starts at 1, is still positive. -/
def BraceNeverClosed (b : List Char) : Prop :=
  ∀ p, p <+: b → p.count '}' < 1 + p.count '{'

/-- The part of `SCReadFunction` that follows the reading of the function name: the
optional argument list, the optional block and the end position. -/
def SCReadFunctionTail (r1 : SCReader) (out2 : SCObject) : SCReader × SCObject :=
  let args :=
    if r1.current < r1.text.length ∧ SCCurrentChar r1 = some '(' then
      SCReadArgumentList r1 out2
    else (r1, out2)
  if args.2.type = SCObjectType.Error then args
  else
    let blk :=
      if args.1.current < args.1.text.length ∧ SCCurrentChar args.1 = some '{' then
        SCReadBlock args.1 args.2
      else args
    if blk.2.type = SCObjectType.Error then blk
    else
      (blk.1, { blk.2 with
        end_line_no := blk.1.line_no, end_column_no := blk.1.column_no,
        full_text := { blk.2.full_text with end_ := some blk.1.current } })

/-- The object with which `SCRead` starts on the reader `r`: zeroed, then given the current
position and the file names. -/
def SCReadStart (r : SCReader) : SCObject :=
  { SCObjectZero r.path r.file_name with line_no := r.line_no, column_no := r.column_no }

/-- The text of a call of the command `n` with the block `b`, followed by `rest`. -/
def BlockCall (n b rest : List Char) : List Char := '\\' :: n ++ '{' :: b ++ '}' :: rest

/-- The value of a written argument: a double-quoted string with content `s`, or a number
written as the run `d` of digits, dots and minus signs. -/
inductive ArgValue
  | str (s : List Char)
  | num (d : List Char)
  deriving DecidableEq, Repr

/-- The text of a value as written in the source. -/
def ArgValue.text : ArgValue → List Char
  | ArgValue.str s => '"' :: s ++ ['"']
  | ArgValue.num d => d

/-- The raw text that the reader is to report for a value: the text between the quotes, or
the whole run. -/
def ArgValue.content : ArgValue → List Char
  | ArgValue.str s => s
  | ArgValue.num d => d

/-- A string content has no double quote; a number is a non-empty run of digit
characters. -/
def ArgValue.WellFormed : ArgValue → Prop
  | ArgValue.str s => '"' ∉ s
  | ArgValue.num d => d ≠ [] ∧ ∀ c ∈ d, IsDigitChar c = true

instance (v : ArgValue) : Decidable v.WellFormed := by
  cases v <;> unfold ArgValue.WellFormed <;> infer_instance

/-- One written argument `key=value`, with the whitespace found before the key, between the
key and `=`, between `=` and the value, and after the value. -/
structure ArgText where
  ws1 : List Char
  key : List Char
  ws2 : List Char
  ws3 : List Char
  value : ArgValue
  ws4 : List Char
  deriving DecidableEq, Repr

/-- The text of a written argument. -/
def ArgText.text (a : ArgText) : List Char :=
  a.ws1 ++ (a.key ++ (a.ws2 ++ ('=' :: (a.ws3 ++ (a.value.text ++ a.ws4)))))

/-- The key is a non-empty run of name characters, the value is well formed, and the four
gaps hold whitespace only. -/
def ArgText.WellFormed (a : ArgText) : Prop :=
  (∀ c ∈ a.ws1, isspace c = true) ∧ a.key ≠ [] ∧ (∀ c ∈ a.key, IsNameOrKeyChar c = true) ∧
    (∀ c ∈ a.ws2, isspace c = true) ∧ (∀ c ∈ a.ws3, isspace c = true) ∧
    a.value.WellFormed ∧ (∀ c ∈ a.ws4, isspace c = true)

instance (a : ArgText) : Decidable a.WellFormed := by
  unfold ArgText.WellFormed; infer_instance

/-- The text of a non-empty list of written arguments, separated by commas. -/
def ArgListText : List ArgText → List Char
  | [] => []
  | [a] => a.text
  | a :: b :: rest => a.text ++ ',' :: ArgListText (b :: rest)

/-- The text of a call of the command `n` with the written arguments `args`, followed by
`rest`. -/
def ArgCall (n : List Char) (args : List ArgText) (rest : List Char) : List Char :=
  '\\' :: n ++ '(' :: ArgListText args ++ ')' :: rest

/-- The text of an optional argument list: nothing when there is no argument, and the
parenthesised list otherwise. -/
def OptArgList : List ArgText → List Char
  | [] => []
  | a :: rest => '(' :: ArgListText (a :: rest) ++ [')']

/-- The text of a call of the command `n`, with the optional written arguments `args`,
whose block `b` runs to the end of the input. -/
def OpenBlockCall (n : List Char) (args : List ArgText) (b : List Char) : List Char :=
  '\\' :: n ++ OptArgList args ++ '{' :: b

/-- The input of scenario 5: `\section{Title}`, a newline, `Body`. -/
def Scenario5Input : List Char := "\\section\x7bTitle\x7d\nBody".toList

/-- The written arguments of the call `\herp(foo=2, bar="qwer")` of `TEST_SCReader`. -/
def HerpArgs : List ArgText :=
  [⟨[], "foo".toList, [], [], ArgValue.num "2".toList, []⟩,
   ⟨" ".toList, "bar".toList, [], [], ArgValue.str "qwer".toList, []⟩]

/-- The image of one character under the escaping rule. -/
def EscapeChar (c : Char) : List Char :=
  if c = '"' then "&quot;".toList
  else if c = '&' then "&amp;".toList
  else if c = '<' then "&lt;".toList
  else if c = '>' then "&gt;".toList
  else [c]

/-- The escaped form of a text: the images of its characters, in order. -/
def EscapeText : List Char → List Char
  | [] => []
  | c :: s => EscapeChar c ++ EscapeText s

/-- The element name of an opening tag text: the text up to its first space, so that
`ul class="horizlist"` opens the element `ul`. -/
def ElementName (open_text : String) : List Char :=
  open_text.toList.takeWhile (fun c => c != ' ')

/-- Replays the written tags against a stack of element names: an opening tag pushes its
element name, a closing tag must name the element on top, which it pops.  The result is the
stack left, or `none` when a closing tag does not match. -/
def ReplayTags : List TagWrite → List (List Char) → Option (List (List Char))
  | [], open_elements => some open_elements
  | TagWrite.opening tag :: rest, open_elements =>
    ReplayTags rest (ElementName (g_html_tag_type_open_text tag) :: open_elements)
  | TagWrite.closing tag :: rest, open_elements =>
    match open_elements with
    | top :: below =>
      if top = (g_html_tag_type_close_text tag).toList then ReplayTags rest below else none
    | [] => none

/-- The written tags are properly nested: every closing tag matches the most recent
unclosed opening tag, and nothing is left open. -/
def ProperlyNested (tag_writes : List TagWrite) : Prop :=
  ReplayTags tag_writes [] = some []

/-- The tag stack holds the sentinel at the bottom and nowhere else, and the tags written so
far replay to the elements of the entries above the sentinel. -/
def TagStackInv (s : HTMLTagStack) : Prop :=
  ∃ body, s.stack = body ++ [HTMLTagType.TOS] ∧ HTMLTagType.TOS ∉ body ∧
    ReplayTags s.tag_writes [] =
      some (body.map fun t => ElementName (g_html_tag_type_open_text t))

/-- Whenever the tag-stack operation succeeds, the stack it returns satisfies
`TagStackInv`. -/
def OptInv (o : Option HTMLTagStack) : Prop := ∀ s, o = some s → TagStackInv s

/-- Whenever the step goes on, the stack it goes on with satisfies `TagStackInv`. -/
def StepInv (o : Option SCToHTMLStep) : Prop :=
  ∀ tags, o = some (SCToHTMLStep.next tags) → TagStackInv tags

/-- The `item` command as the specification words it: pop the top if it is a list item or
a table cell; then push a list item on a list, a table cell on a table row, and fail with the
diagnostic in every other case. -/
def ItemCommandSpec (tags : HTMLTagStack) (obj : SCObject) : Option SCToHTMLStep :=
  (if HTMLTop tags = HTMLTagType.ListItem ∨ HTMLTop tags = HTMLTagType.TableColumn ∨
      HTMLTop tags = HTMLTagType.TableHeadingColumn then HTMLPopTag tags
    else some tags).bind fun tags1 =>
    if HTMLTop tags1 = HTMLTagType.OrderedList ∨ HTMLTop tags1 = HTMLTagType.UnorderedList ∨
        HTMLTop tags1 = HTMLTagType.HorizontalList then
      (HTMLPushTag tags1 HTMLTagType.ListItem).map SCToHTMLStep.next
    else if HTMLTop tags1 = HTMLTagType.TableRow then
      (HTMLPushTag tags1 HTMLTagType.TableColumn).map SCToHTMLStep.next
    else
      some (SCToHTMLStep.ret0 (SCMakeErrorString obj
        (some "You can only open an \\item in a table row or list")))

/-- The function object has no argument whose key is exactly `url`. -/
def NoUrlArgument (sc : List Char) (obj : SCObject) : Prop :=
  ∀ i, i < obj.args_count → SliceText sc (obj.keys.getD i NullSlice) ≠ "url".toList

/-- The step is a `return 0` whose diagnostic contains the message `m`. -/
def FailsWith (step : Option SCToHTMLStep) (m : String) : Prop :=
  ∃ out_slice, step = some (SCToHTMLStep.ret0 out_slice) ∧ m.toList <:+: out_slice

/-- The tag stack after `InitHTMLTagStack` and the push of the article: the state in which
`SCToHTML` handles the first object. -/
def ArticleTagStack : HTMLTagStack :=
  { stack := [HTMLTagType.Article, HTMLTagType.TOS], section_depth := 1,
    arena := ⟨"<article>\n".toList⟩, tag_writes := [TagWrite.opening HTMLTagType.Article] }

/-- The output that scenario 1 gives for the text `a`, the bold block `b` and the text
`c`. -/
def BoldInParagraphOutput (a b c : List Char) : List Char :=
  "<article>\n<p>\n".toList ++ EscapeText a ++ "<b>\n".toList ++ EscapeText b ++
    "</b>\n".toList ++ EscapeText c ++ "</p>\n</article>\n".toList

/-- The written argument `x=1-2.-3.`, whose value is not a well-formed number. -/
def OddNumberArgs : List ArgText :=
  [⟨[], "x".toList, [], [], ArgValue.num "1-2.-3.".toList, []⟩]

/-- The reader still reads the buffer `t` and its cursor is between `c` and the end. -/
def CursorFrom (t : List Char) (c : Nat) (r : SCReader) : Prop :=
  r.text = t ∧ c ≤ r.current ∧ r.current ≤ t.length

end SiteC

/-! ## Definitions used to state the properties of the renderer -/

namespace SiteC

/-- The written argument `a=1`. -/
def CapArg : ArgText := ⟨[], "a".toList, [], [], ArgValue.num "1".toList, []⟩

/-- The entry `child` may lie directly above the entry `parent` on the tag stack: the
article above the sentinel, a section above any entry but the sentinel, a paragraph, a list
or a table wrapper above the article or a section, a table above its wrapper, a list item
above a list, a row above a table, and a cell above a row. -/
def TagParentOK (child parent : HTMLTagType) : Bool :=
  match child with
  | HTMLTagType.Article => parent == HTMLTagType.TOS
  | HTMLTagType.Section => parent != HTMLTagType.TOS
  | HTMLTagType.Paragraph | HTMLTagType.OrderedList | HTMLTagType.UnorderedList
  | HTMLTagType.HorizontalList | HTMLTagType.TableDiv =>
    parent == HTMLTagType.Article || parent == HTMLTagType.Section
  | HTMLTagType.Table => parent == HTMLTagType.TableDiv
  | HTMLTagType.ListItem =>
    parent == HTMLTagType.OrderedList || parent == HTMLTagType.UnorderedList ||
      parent == HTMLTagType.HorizontalList
  | HTMLTagType.TableRow => parent == HTMLTagType.Table
  | HTMLTagType.TableColumn | HTMLTagType.TableHeadingColumn =>
    parent == HTMLTagType.TableRow
  | HTMLTagType.TOS => false

/-- The tag is the article or a section, the two kinds that `section_depth` counts. -/
def IsSectionTag (t : HTMLTagType) : Bool :=
  t == HTMLTagType.Article || t == HTMLTagType.Section

/-- The number of article and section entries on a stack. -/
def SectionCount (stack : List HTMLTagType) : Nat := stack.countP IsSectionTag

/-- How many entries that are neither article nor section lie between an entry of this kind
and the nearest article or section below it, the entry included. -/
def TagRank : HTMLTagType → Nat
  | HTMLTagType.Article => 0
  | HTMLTagType.Section => 0
  | HTMLTagType.Paragraph => 1
  | HTMLTagType.OrderedList => 1
  | HTMLTagType.UnorderedList => 1
  | HTMLTagType.HorizontalList => 1
  | HTMLTagType.TableDiv => 1
  | HTMLTagType.Table => 2
  | HTMLTagType.ListItem => 2
  | HTMLTagType.TableRow => 3
  | HTMLTagType.TableColumn => 4
  | HTMLTagType.TableHeadingColumn => 4
  | HTMLTagType.TOS => 0

/-- Every entry of the stack but the last lies directly above an entry that may be its
parent. -/
def StackShapeOK : List HTMLTagType → Bool
  | x :: y :: rest => TagParentOK x y && StackShapeOK (y :: rest)
  | _ => true

/-- The shape of the tag stack while objects are handled: the article lies directly above
the sentinel at the bottom, every entry lies above an entry that may be its parent,
`section_depth` is the number of article and section entries, and it is at most 3. -/
def RenderInv (s : HTMLTagStack) : Prop :=
  (∃ body, s.stack = body ++ [HTMLTagType.Article, HTMLTagType.TOS]) ∧
    StackShapeOK s.stack = true ∧
    s.section_depth = SectionCount s.stack ∧ s.section_depth ≤ 3

/-- Whenever the tag-stack operation succeeds, the stack it returns satisfies `P`. -/
def OptHolds (P : HTMLTagStack → Prop) (o : Option HTMLTagStack) : Prop :=
  ∀ s, o = some s → P s

/-- Whenever the step goes on, the stack it goes on with satisfies `P`. -/
def StepHolds (P : HTMLTagStack → Prop) (o : Option SCToHTMLStep) : Prop :=
  ∀ tags, o = some (SCToHTMLStep.next tags) → P tags

/-- The reader and the tag stack of `SCToHTML` once the first `n` objects of the document
have been read and handled, each without `return 0` and without a failed assertion: the
state after the push of the article, followed by `n` turns of the body of the `do ... while`
loop. -/
def SCToHTMLAfter (sc : List Char) (path file : String) : Nat → Option (SCReader × HTMLTagStack)
  | 0 =>
    (HTMLPushTag (InitHTMLTagStack ⟨[]⟩) HTMLTagType.Article).map fun tags =>
      (MakeSCReader sc path file, tags)
  | n + 1 =>
    (SCToHTMLAfter sc path file n).bind fun st =>
      let res := SCRead st.1
      match SCToHTMLObject sc st.2 res.2 with
      | some (SCToHTMLStep.next tags) => some (res.1, tags)
      | _ => none

end SiteC

/-! ## Definitions used to state the properties of slices and page information -/

namespace SiteC

/-- The byte-wise lexicographic order on byte strings: `a` precedes `b` when it is a proper
prefix of `b`, or when the first byte in which they differ is smaller in `a`. -/
def BytesLt : List Char → List Char → Bool
  | [], [] => false
  | [], _ :: _ => true
  | _ :: _, [] => false
  | a :: as, b :: bs => decide (a.toNat < b.toNat) || (a == b && BytesLt as bs)

/-- The written arguments of `\function(arg1 = "QWER", arg2 = 44, foo = "bar")`, the
example in the comment of `SCReadFunction`. -/
def SpacedArgs : List ArgText :=
  [⟨[], "arg1".toList, " ".toList, " ".toList, ArgValue.str "QWER".toList, []⟩,
   ⟨" ".toList, "arg2".toList, " ".toList, " ".toList, ArgValue.num "44".toList, []⟩,
   ⟨" ".toList, "foo".toList, " ".toList, " ".toList, ArgValue.str "bar".toList, []⟩]

/-- The same arguments written without whitespace: `arg1="QWER",arg2=44,foo="bar"`. -/
def PackedArgs : List ArgText :=
  [⟨[], "arg1".toList, [], [], ArgValue.str "QWER".toList, []⟩,
   ⟨[], "arg2".toList, [], [], ArgValue.num "44".toList, []⟩,
   ⟨[], "foo".toList, [], [], ArgValue.str "bar".toList, []⟩]

/-- The field `section_depth` is the number of article and section entries on the stack. -/
def DepthInv (s : HTMLTagStack) : Prop := s.section_depth = SectionCount s.stack

/-- The property `P` of tag stacks is kept by the three ways in which `SCToHTML` changes a
tag stack: a push, a pop, and a write that appends to the arena. -/
def TagOpClosed (P : HTMLTagStack → Prop) : Prop :=
  (∀ s t s', P s → HTMLPushTag s t = some s' → P s') ∧
    (∀ s s', P s → HTMLPopTag s = some s' → P s') ∧
    (∀ (s : HTMLTagStack) (a : Arena), P s → s.arena.text <+: a.text →
      P { s with arena := a })

end SiteC

/-! ## Definitions used to state the properties of whole runs -/

namespace SiteC

/-- The objects that successive calls of `SCRead` return before the end object, when none
of them is an error; `none` when a call returns an error, or when `fuel` calls have not
reached the end object. -/
def SCReadTokens : Nat → SCReader → Option (List SCObject)
  | 0, _ => none
  | fuel + 1, r =>
    if (SCRead r).2.type = SCObjectType.End then some []
    else if (SCRead r).2.type = SCObjectType.Error then none
    else (SCReadTokens fuel (SCRead r).1).map fun objs => (SCRead r).2 :: objs

/-- The spans of the objects tile the buffer from `start` to its end: the first span begins
at `start`, every span is non-empty and begins where the one before it ends, and the last
one ends at the end of the buffer, whose length is `len`. -/
def SpansContiguous (len : Nat) : Nat → List SCObject → Bool
  | start, [] => start == len
  | start, o :: rest =>
    match o.full_text.begin, o.full_text.end_ with
    | some b, some e =>
      b == start && decide (start < e) && decide (e ≤ len) && SpansContiguous len e rest
    | _, _ => false

/-- The texts of the spans of the objects, one after the other. -/
def SpansText (text : List Char) (objs : List SCObject) : List Char :=
  (objs.map fun o => SliceText text o.full_text).flatten

end SiteC

namespace SiteC

/-- The slice is a key: a non-empty run of name characters of the buffer. -/
def KeyClean (text : List Char) (k : Slice) : Prop :=
  SliceText text k ≠ [] ∧ ∀ c ∈ SliceText text k, IsNameOrKeyChar c = true

/-- The slice is a value: it holds no double quote, and it is either a run that ends just
before a double quote of the buffer (a string) or a run of digit characters (a number). -/
def ValueClean (text : List Char) (v : Slice) : Prop :=
  (∀ c ∈ SliceText text v, c ≠ '"') ∧
    ((∃ e, v.end_ = some e ∧ text[e]? = some '"') ∨
      ∀ c ∈ SliceText text v, IsDigitChar c = true)

/-- The arguments of the object are `args_count` keys and as many values, all of them keys
and values in the sense of `KeyClean` and `ValueClean`. -/
def ArgsClean (text : List Char) (o : SCObject) : Prop :=
  o.keys.length = o.args_count ∧ o.values.length = o.args_count ∧
    (∀ k ∈ o.keys, KeyClean text k) ∧ (∀ v ∈ o.values, ValueClean text v)

/-- The reader reads the buffer `text` and its cursor is not past the end. -/
def ReaderOn (text : List Char) (r : SCReader) : Prop :=
  r.text = text ∧ r.current ≤ text.length

/-- The text of an attribute: a space, the key, `="`, the value and `"`. -/
def AttributeText (key value : List Char) : List Char :=
  ' ' :: key ++ '=' :: '"' :: value ++ ['"']

end SiteC

/-! ## Definitions used to state the properties of every point of a rendering -/

namespace SiteC

/-- The tag-stack operation does not fail, and the stack it returns satisfies `P`. -/
def OptOK (P : HTMLTagStack → Prop) (o : Option HTMLTagStack) : Prop :=
  ∃ s, o = some s ∧ P s

/-- The handling of the object does not fail, and when it goes on, the stack it goes on
with satisfies `P`. -/
def StepOK (P : HTMLTagStack → Prop) (o : Option SCToHTMLStep) : Prop :=
  ∃ step, o = some step ∧ ∀ tags, step = SCToHTMLStep.next tags → P tags

/-- The tag stack has the shape `RenderInv` and satisfies `P`. -/
def RenderAnd (P : HTMLTagStack → Prop) (s : HTMLTagStack) : Prop := RenderInv s ∧ P s

/-- The property `P` of tag stacks is kept by every push and every pop that leads to a stack
of the shape `RenderInv`, and by every change of the arena. -/
def TagOpKept (P : HTMLTagStack → Prop) : Prop :=
  (∀ s t s', P s → HTMLPushTag s t = some s' → RenderInv s' → P s') ∧
    (∀ s s', P s → HTMLPopTag s = some s' → RenderInv s' → P s') ∧
    (∀ (s : HTMLTagStack) (a : Arena), P s → P { s with arena := a })

/-- The contents of the tag stack after the pushes and pops recorded in `writes`, starting
from the contents `st`: an opening tag is a push, a closing tag is the pop of that tag, which
needs an entry below it (`tag_pos > 0`). -/
def StackAfterWrites : List TagWrite → List HTMLTagType → Option (List HTMLTagType)
  | [], st => some st
  | TagWrite.opening t :: rest, st => StackAfterWrites rest (t :: st)
  | TagWrite.closing t :: rest, st =>
    match st with
    | x :: y :: below => if x = t then StackAfterWrites rest (y :: below) else none
    | _ => none

/-- The record of the pushes and pops made so far leads from the stack of
`InitHTMLTagStack` to the present stack, and after every one of them the contents of the
stack satisfied `G`. -/
def EveryPoint (G : List HTMLTagType → Prop) (s : HTMLTagStack) : Prop :=
  StackAfterWrites s.tag_writes [HTMLTagType.TOS] = some s.stack ∧
    ∀ p, p <+: s.tag_writes → p ≠ [] →
      ∃ st, StackAfterWrites p [HTMLTagType.TOS] = some st ∧ G st

/-- The contents of the stack while objects are handled: the article directly above the
sentinel at the bottom, every entry above an entry that may be its parent, and at most
three article and section entries. -/
def GoodStack (st : List HTMLTagType) : Prop :=
  [HTMLTagType.Article, HTMLTagType.TOS] <:+ st ∧ StackShapeOK st = true ∧
    SectionCount st ≤ 3

/-- The number of entries from the top of the stack down to the first article or section
entry, that entry not included. -/
def RunAbove : List HTMLTagType → Nat
  | [] => 0
  | t :: rest => if IsSectionTag t = true then 0 else RunAbove rest + 1

/-- At most `k` entries that are neither article nor section lie directly above any entry
of the stack. -/
def RunsBounded (k : Nat) : List HTMLTagType → Bool
  | [] => true
  | t :: rest => decide (RunAbove (t :: rest) ≤ k) && RunsBounded k rest

/-- The parent that an entry of the stack must have directly below it: a list for a list
item, a table row for a table cell, a table for a row, the table wrapper for a table, and
the article or a section for a paragraph, a list and a table wrapper.  Nothing is asked of
the article, of a section and of the sentinel. -/
def ParentRule (child parent : HTMLTagType) : Bool :=
  match child with
  | HTMLTagType.ListItem =>
    parent == HTMLTagType.OrderedList || parent == HTMLTagType.UnorderedList ||
      parent == HTMLTagType.HorizontalList
  | HTMLTagType.TableColumn | HTMLTagType.TableHeadingColumn =>
    parent == HTMLTagType.TableRow
  | HTMLTagType.TableRow => parent == HTMLTagType.Table
  | HTMLTagType.Table => parent == HTMLTagType.TableDiv
  | HTMLTagType.Paragraph | HTMLTagType.OrderedList | HTMLTagType.UnorderedList
  | HTMLTagType.HorizontalList | HTMLTagType.TableDiv =>
    parent == HTMLTagType.Article || parent == HTMLTagType.Section
  | _ => true

/-- Every entry of the stack but the last has directly below it the parent that
`ParentRule` asks for. -/
def ParentsOK : List HTMLTagType → Bool
  | x :: y :: rest => ParentRule x y && ParentsOK (y :: rest)
  | _ => true

/-- The entry opens a list or the wrapper of a table. -/
def IsListOrTable (t : HTMLTagType) : Bool :=
  t == HTMLTagType.OrderedList || t == HTMLTagType.UnorderedList ||
    t == HTMLTagType.HorizontalList || t == HTMLTagType.TableDiv

/-- The number of lists and tables that are open on the stack: more than one means that a
list or a table is nested inside another. -/
def OpenListsAndTables (st : List HTMLTagType) : Nat := st.countP IsListOrTable

end SiteC

/-! ## Facts about the reader -/

namespace SiteC

theorem SCError_frozen (r : SCReader) (str : String) (out : SCObject) :
    ErrorFrozen (SCError r str out).1 (SCError r str out).2 := by
  unfold ErrorFrozen SCError
  simp only []
  split_ifs <;> simp

theorem SCConsume_error (n : Nat) (r : SCReader) : (SCConsume r n).error = r.error := by
  induction n generalizing r with
  | zero => rfl
  | succ n ih =>
    unfold SCConsume
    split_ifs <;> simp [ih]

theorem SCConsumeWhileFuncLoop_error (f : Char → Bool) (n : Nat) (r : SCReader) :
    (SCConsumeWhileFuncLoop f n r).error = r.error := by
  induction n generalizing r with
  | zero => rfl
  | succ n ih =>
    unfold SCConsumeWhileFuncLoop
    split_ifs
    · rw [ih, SCConsume_error]
    · rfl

theorem SCConsumeWhileFunc_error (f : Char → Bool) (r : SCReader) :
    (SCConsumeWhileFunc r f).error = r.error :=
  SCConsumeWhileFuncLoop_error f _ r

theorem SCConsumeUntil_error (c : Char) (r : SCReader) :
    (SCConsumeUntil r c).error = r.error :=
  SCConsumeWhileFuncLoop_error _ _ r

theorem SCConsumeWhitespace_error (r : SCReader) :
    (SCConsumeWhitespace r).error = r.error :=
  SCConsumeWhileFuncLoop_error _ _ r

theorem SCExpect_kept (r : SCReader) (c : Char) (err : String) (out : SCObject) :
    ((SCExpect r c err out).1 = false ∧
        ErrorFrozen (SCExpect r c err out).2.1 (SCExpect r c err out).2.2) ∨
      ((SCExpect r c err out).1 = true ∧ (SCExpect r c err out).2.2 = out ∧
        (SCExpect r c err out).2.1.error = r.error) := by
  unfold SCExpect
  split_ifs
  · exact Or.inl ⟨rfl, SCError_frozen r err out⟩
  · exact Or.inr ⟨rfl, rfl, SCConsume_error 1 r⟩

theorem SCReadArgument_kept (r : SCReader) (out : SCObject) :
    ErrorOrKept r out (SCReadArgument r out) := by
  unfold SCReadArgument
  simp only []
  generalize hr2 : SCConsumeWhileFunc (SCConsumeWhitespace r) IsNameOrKeyChar = r2
  have e2 : r2.error = r.error := by
    rw [← hr2, SCConsumeWhileFunc_error, SCConsumeWhitespace_error]
  have hq := SCExpect_kept (SCConsumeWhitespace r2) '=' "Expected = after param name" out
  generalize SCExpect (SCConsumeWhitespace r2) '=' "Expected = after param name" out = eq
    at hq ⊢
  obtain ⟨b, r3, o3⟩ := eq
  simp only at hq ⊢
  generalize hr4 : SCConsumeWhitespace r3 = r4
  have hs := SCExpect_kept (SCConsumeUntil (SCConsume r4 1) '"') '"'
    "Reached EOF without finding closing quote" o3
  generalize SCExpect (SCConsumeUntil (SCConsume r4 1) '"') '"'
    "Reached EOF without finding closing quote" o3 = qt at hs ⊢
  obtain ⟨b', r5, o5⟩ := qt
  simp only at hs ⊢
  split_ifs with h1 h2 h3 h4 h5 h6 h7
  · exact Or.inl (SCError_frozen _ _ _)
  · exact Or.inl (SCError_frozen _ _ _)
  · rcases hq with h | h
    · exact Or.inl h.2
    · rw [h.1] at h3; cases h3
  · exact Or.inl (SCError_frozen _ _ _)
  · rcases hs with h | h
    · exact Or.inl h.2
    · rw [h.1] at h6; cases h6
  · rcases hq with h | h
    · rw [h.1] at h3; exact absurd rfl h3
    · rcases hs with g | g
      · rw [g.1] at h6; exact absurd rfl h6
      · refine Or.inr ⟨?_, ?_⟩
        · simp only [g.2.1, h.2.1]
        · simp only [SCConsumeWhitespace_error, g.2.2, SCConsumeUntil_error, SCConsume_error,
            ← hr4, h.2.2, e2]
  · rcases hq with h | h
    · rw [h.1] at h3; exact absurd rfl h3
    · refine Or.inr ⟨?_, ?_⟩
      · simp only [h.2.1]
      · simp only [SCConsumeWhitespace_error, SCConsumeWhileFunc_error, ← hr4, h.2.2, e2]
  · exact Or.inl (SCError_frozen _ _ _)

theorem SCReadArgumentListLoop_kept (fuel : Nat) (r : SCReader) (out : SCObject)
    (hty : out.type ≠ SCObjectType.Error) :
    ((SCReadArgumentListLoop fuel r out).1 = true →
        ErrorFrozen (SCReadArgumentListLoop fuel r out).2.1
          (SCReadArgumentListLoop fuel r out).2.2) ∧
      ((SCReadArgumentListLoop fuel r out).1 = false →
        (SCReadArgumentListLoop fuel r out).2.2.type = out.type ∧
          (SCReadArgumentListLoop fuel r out).2.1.error = r.error) := by
  induction fuel generalizing r out with
  | zero => exact ⟨fun h => (by first | cases h | simp at h), fun _ => ⟨rfl, rfl⟩⟩
  | succ n ih =>
    unfold SCReadArgumentListLoop
    simp only []
    have ha := SCReadArgument_kept r out
    generalize SCReadArgument r out = res at ha ⊢
    split_ifs with h1 h2 h3
    · rcases ha with h | h
      · exact ⟨fun _ => h, fun h => (by first | cases h | simp at h)⟩
      · exact absurd (h.1 ▸ h2) hty
    · have := ih (SCConsume res.1 1) res.2 h2
      refine ⟨this.1, fun hf => ?_⟩
      have g := this.2 hf
      rcases ha with h | h
      · exact absurd h.1 h2
      · exact ⟨g.1.trans h.1, by rw [g.2, SCConsume_error, h.2]⟩
    · refine ⟨fun h => (by first | cases h | simp at h), fun _ => ?_⟩
      rcases ha with h | h
      · exact absurd h.1 h2
      · exact h
    · exact ⟨fun h => (by first | cases h | simp at h), fun _ => ⟨rfl, rfl⟩⟩

theorem SCReadArgumentList_kept (r : SCReader) (out : SCObject)
    (hty : out.type ≠ SCObjectType.Error) :
    ErrorOrKept r out (SCReadArgumentList r out) := by
  unfold SCReadArgumentList
  simp only []
  have ho := SCExpect_kept r '('
    "Parser internal problem.Tried to read param list but there is no (" out
  generalize SCExpect r '('
    "Parser internal problem.Tried to read param list but there is no (" out = op at ho ⊢
  obtain ⟨b, r1, o1⟩ := op
  simp only at ho ⊢
  split_ifs with h1 h2
  · rcases ho with h | h
    · exact Or.inl h.2
    · rw [h.1] at h1; cases h1
  · rcases ho with h | h
    · rw [h.1] at h1; exact absurd rfl h1
    · have hl := SCReadArgumentListLoop_kept (r1.text.length - r1.current) r1 o1
        (by rw [h.2.1]; exact hty)
      exact Or.inl (hl.1 h2)
  · rcases ho with h | h
    · rw [h.1] at h1; exact absurd rfl h1
    · have hl := SCReadArgumentListLoop_kept (r1.text.length - r1.current) r1 o1
        (by rw [h.2.1]; exact hty)
      generalize SCReadArgumentListLoop (r1.text.length - r1.current) r1 o1 = lp at hl h2 ⊢
      obtain ⟨b2, r2, o2⟩ := lp
      simp only at hl h2 ⊢
      have g := hl.2 (by simpa using h2)
      rcases SCExpect_kept r2 ')' "Parameter list is missing the closing paren" o2 with e | e
      · exact Or.inl e.2
      · exact Or.inr ⟨by rw [e.2.1, g.1, h.2.1], by rw [e.2.2, g.2, h.2.2]⟩

theorem SCReadBlockLoop_error (fuel : Nat) (r : SCReader) (level : Nat) :
    (SCReadBlockLoop fuel r level).1.error = r.error := by
  induction fuel generalizing r level with
  | zero => rfl
  | succ n ih =>
    unfold SCReadBlockLoop
    split_ifs <;> simp [ih, SCConsume_error]

theorem SCReadBlock_kept (r : SCReader) (out : SCObject) :
    ErrorOrKept r out (SCReadBlock r out) := by
  unfold SCReadBlock
  simp only []
  have ho := SCExpect_kept r '{'
    "Parser internal problemTried to read param list but there is no \x7b" out
  generalize SCExpect r '{'
    "Parser internal problemTried to read param list but there is no \x7b" out = op at ho ⊢
  obtain ⟨b, r1, o1⟩ := op
  simp only at ho ⊢
  split_ifs with h1 h2
  · rcases ho with h | h
    · exact Or.inl h.2
    · rw [h.1] at h1; cases h1
  · exact Or.inl (SCError_frozen _ _ _)
  · rcases ho with h | h
    · rw [h.1] at h1; exact absurd rfl h1
    · exact Or.inr ⟨by simp only [h.2.1], by
        simp only [SCConsume_error, SCReadBlockLoop_error, h.2.2]⟩

theorem SCReadFunction_kept (r : SCReader) (out : SCObject) :
    ErrorFrozen (SCReadFunction r out).1 (SCReadFunction r out).2 ∨
      ((SCReadFunction r out).2.type = SCObjectType.Func ∧
        (SCReadFunction r out).1.error = r.error) := by
  unfold SCReadFunction
  lift_lets
  intro s0 out1 bs name_begin r1 s1 out2 args blk s2 s3
  have ht1 : out1.type = SCObjectType.Func := rfl
  have hbs : bs = SCExpect r '\\'
    "Parser internal problem. Tried to read function but there is no \\ at the start" out1 :=
    rfl
  have hr1 : r1 = SCConsumeWhileFunc bs.2.1 IsNameOrKeyChar := rfl
  have ho2 : out2.type = bs.2.2.type := rfl
  have hargs : args = if r1.current < r1.text.length ∧ SCCurrentChar r1 = some '(' then
      SCReadArgumentList r1 out2 else (r1, out2) := rfl
  have hblk : blk = if args.1.current < args.1.text.length ∧
      SCCurrentChar args.1 = some '{' then SCReadBlock args.1 args.2 else args := rfl
  have hs2 : s2.type = blk.2.type := rfl
  clear_value s3 s2 blk args out2 r1 bs out1
  have hb := SCExpect_kept r '\\'
    "Parser internal problem. Tried to read function but there is no \\ at the start" out1
  rw [← hbs] at hb
  have ht2 : bs.1 = true → out2.type = SCObjectType.Func ∧ r1.error = r.error := by
    intro h
    rcases hb with g | g
    · rw [g.1] at h; cases h
    · exact ⟨by rw [ho2, g.2.1, ht1], by rw [hr1, SCConsumeWhileFunc_error]; exact g.2.2⟩
  have ha : bs.1 = true → ErrorOrKept r1 out2 args := by
    intro h
    rw [hargs]
    split_ifs
    · exact SCReadArgumentList_kept r1 out2 (by rw [(ht2 h).1]; decide)
    · exact Or.inr ⟨rfl, rfl⟩
  have hk : ErrorOrKept args.1 args.2 blk := by
    rw [hblk]
    split_ifs
    · exact SCReadBlock_kept _ _
    · exact Or.inr ⟨rfl, rfl⟩
  split_ifs with h1 h2 h3 h4
  · rcases hb with h | h
    · exact Or.inl h.2
    · rw [h.1] at h1; cases h1
  · exact Or.inl (SCError_frozen _ _ _)
  · have hbt : bs.1 = true := by simpa using h1
    rcases ha hbt with g | g
    · exact Or.inl g
    · rw [g.1, (ht2 hbt).1] at h3; cases h3
  · have hbt : bs.1 = true := by simpa using h1
    rcases hk with g | g
    · exact Or.inl g
    · rcases ha hbt with g2 | g2
      · exact absurd g2.1 h3
      · rw [g.1, g2.1, (ht2 hbt).1] at h4; cases h4
  · have hbt : bs.1 = true := by simpa using h1
    rcases hk with g | g
    · exact absurd g.1 h4
    · rcases ha hbt with g2 | g2
      · exact absurd g2.1 h3
      · exact Or.inr ⟨by show s2.type = _; rw [hs2, g.1, g2.1, (ht2 hbt).1],
          by show blk.1.error = _; rw [g.2, g2.2, (ht2 hbt).2]⟩

/-- Every object returned by `SCRead` is either the frozen error object of the reader it
leaves, or an object of another type with the error field of the reader still unset; an
`End` object is returned only at the end of the buffer, without moving the reader. -/
theorem SCRead_kept (r : SCReader) :
    ErrorFrozen (SCRead r).1 (SCRead r).2 ∨
      ((SCRead r).2.type ≠ SCObjectType.Error ∧ (SCRead r).1.error = none ∧
        ((SCRead r).2.type = SCObjectType.End →
          (SCRead r).1 = r ∧ r.current = r.text.length)) := by
  unfold SCRead
  lift_lets
  intro s0 out
  clear_value out
  split
  · exact Or.inl (SCError_frozen _ _ _)
  · rename_i he
    split_ifs with h1 h2 h3 h4
    · exact Or.inr ⟨by simp, he, fun _ => ⟨rfl, h1⟩⟩
    · exact Or.inl (SCError_frozen _ _ _)
    · exact Or.inr ⟨by simp, by rw [SCConsume_error]; exact he, fun h => by simp at h⟩
    · rcases SCReadFunction_kept r out with g | g
      · exact Or.inl g
      · exact Or.inr ⟨by rw [g.1]; decide, by rw [g.2]; exact he,
          fun h => by rw [g.1] at h; cases h⟩
    · exact Or.inr ⟨by simp, by rw [SCConsumeUntil_error]; exact he, fun h => by simp at h⟩

/-- A reader whose error field is set is left as it is by `SCRead`, which returns the error
object built from it. -/
theorem SCRead_of_error (r : SCReader) (m : String) (h : r.error = some m) :
    (SCRead r).1 = r ∧ (SCRead r).2.type = SCObjectType.Error ∧
      (SCRead r).2.error_text = some m ∧ (SCRead r).2.end_line_no = r.line_no ∧
      (SCRead r).2.end_column_no = r.column_no := by
  obtain ⟨l, c, t, cur, e, p, f⟩ := r
  simp only at h
  subst h
  unfold SCRead SCError
  simp only []
  split_ifs <;> simp

/-- A reader at the end of its buffer with no error is left as it is by `SCRead`, which
returns an `End` object. -/
theorem SCRead_of_end (r : SCReader) (he : r.error = none) (h : r.current = r.text.length) :
    (SCRead r).1 = r ∧ (SCRead r).2.type = SCObjectType.End := by
  unfold SCRead
  simp [he, h]

theorem SCReadIter_of_fixed (r : SCReader) (h : (SCRead r).1 = r) (n : Nat) :
    SCReadIter n r = r := by
  induction n with
  | zero => rfl
  | succ n ih => rw [SCReadIter, h, ih]

/-! ### Reader properties kept by every reader function -/

theorem SCConsume_succ (r : SCReader) (n : Nat) :
    SCConsume r (n + 1) = SCConsume (SCConsume r 1) n := by
  cases n with
  | zero => rfl
  | succ n =>
    by_cases h : r.current < r.text.length
    · simp [SCConsume, h]
    · simp [SCConsume, h]

theorem SCConsume_preserves (P : SCReader → Prop) (hc : ∀ r, P r → P (SCConsume r 1))
    (n : Nat) (r : SCReader) (h : P r) : P (SCConsume r n) := by
  induction n generalizing r with
  | zero => exact h
  | succ n ih => rw [SCConsume_succ]; exact ih _ (hc r h)

theorem SCConsumeWhileFuncLoop_preserves (P : SCReader → Prop)
    (hc : ∀ r, P r → P (SCConsume r 1)) (f : Char → Bool) (n : Nat) (r : SCReader)
    (h : P r) : P (SCConsumeWhileFuncLoop f n r) := by
  induction n generalizing r with
  | zero => exact h
  | succ n ih =>
    unfold SCConsumeWhileFuncLoop
    split_ifs
    · exact ih _ (hc r h)
    · exact h

theorem SCError_preserves (P : SCReader → Prop)
    (he : ∀ r e, P r → P { r with error := some e }) (r : SCReader) (str : String)
    (out : SCObject) (h : P r) : P (SCError r str out).1 :=
  he r str h

theorem SCExpect_preserves (P : SCReader → Prop) (hc : ∀ r, P r → P (SCConsume r 1))
    (he : ∀ r e, P r → P { r with error := some e }) (r : SCReader) (c : Char)
    (err : String) (out : SCObject) (h : P r) : P (SCExpect r c err out).2.1 := by
  unfold SCExpect
  split_ifs
  · exact he r err h
  · exact hc r h

theorem SCReadArgument_preserves (P : SCReader → Prop) (hc : ∀ r, P r → P (SCConsume r 1))
    (he : ∀ r e, P r → P { r with error := some e }) (r : SCReader) (out : SCObject)
    (h : P r) : P (SCReadArgument r out).1 := by
  have hw : ∀ f r, P r → P (SCConsumeWhileFunc r f) := fun f r h =>
    SCConsumeWhileFuncLoop_preserves P hc f _ r h
  have hs : ∀ r, P r → P (SCConsumeWhitespace r) := fun r h => hw _ r h
  have hu : ∀ c r, P r → P (SCConsumeUntil r c) := fun c r h =>
    SCConsumeWhileFuncLoop_preserves P hc _ _ r h
  have hx := SCExpect_preserves P hc he
  unfold SCReadArgument
  simp only []
  have p2 : P (SCConsumeWhileFunc (SCConsumeWhitespace r) IsNameOrKeyChar) :=
    hw _ _ (hs _ h)
  generalize SCConsumeWhileFunc (SCConsumeWhitespace r) IsNameOrKeyChar = r2 at p2 ⊢
  have p3 : P (SCExpect (SCConsumeWhitespace r2) '=' "Expected = after param name" out).2.1 :=
    hx _ _ _ _ (hs _ p2)
  generalize SCExpect (SCConsumeWhitespace r2) '=' "Expected = after param name" out = eq
    at p3 ⊢
  obtain ⟨b, r3, o3⟩ := eq
  simp only at p3 ⊢
  have p4 : P (SCConsumeWhitespace r3) := hs _ p3
  generalize SCConsumeWhitespace r3 = r4 at p4 ⊢
  have p5 : P (SCExpect (SCConsumeUntil (SCConsume r4 1) '"') '"'
      "Reached EOF without finding closing quote" o3).2.1 :=
    hx _ _ _ _ (hu _ _ (hc _ p4))
  generalize SCExpect (SCConsumeUntil (SCConsume r4 1) '"') '"'
    "Reached EOF without finding closing quote" o3 = qt at p5 ⊢
  obtain ⟨b', r5, o5⟩ := qt
  simp only at p5 ⊢
  split_ifs
  · exact he _ _ h
  · exact he _ _ p2
  · exact p3
  · exact he _ _ p4
  · exact p5
  · exact hs _ p5
  · exact hs _ (hw _ _ p4)
  · exact he _ _ p4

theorem SCReadArgumentListLoop_preserves (P : SCReader → Prop)
    (hc : ∀ r, P r → P (SCConsume r 1)) (he : ∀ r e, P r → P { r with error := some e })
    (fuel : Nat) (r : SCReader) (out : SCObject) (h : P r) :
    P (SCReadArgumentListLoop fuel r out).2.1 := by
  induction fuel generalizing r out with
  | zero => exact h
  | succ n ih =>
    unfold SCReadArgumentListLoop
    simp only []
    have ha := SCReadArgument_preserves P hc he r out h
    split_ifs
    · exact ha
    · exact ih _ _ (hc _ ha)
    · exact ha
    · exact h

theorem SCReadArgumentList_preserves (P : SCReader → Prop)
    (hc : ∀ r, P r → P (SCConsume r 1)) (he : ∀ r e, P r → P { r with error := some e })
    (r : SCReader) (out : SCObject) (h : P r) : P (SCReadArgumentList r out).1 := by
  unfold SCReadArgumentList
  simp only []
  have h1 := SCExpect_preserves P hc he r '('
    "Parser internal problem.Tried to read param list but there is no (" out h
  split_ifs
  · exact h1
  · exact SCReadArgumentListLoop_preserves P hc he _ _ _ h1
  · exact SCExpect_preserves P hc he _ _ _ _
      (SCReadArgumentListLoop_preserves P hc he _ _ _ h1)

theorem SCReadBlockLoop_preserves (P : SCReader → Prop)
    (hc : ∀ r, P r → P (SCConsume r 1)) (fuel : Nat) (r : SCReader) (level : Nat)
    (h : P r) : P (SCReadBlockLoop fuel r level).1 := by
  induction fuel generalizing r level with
  | zero => exact h
  | succ n ih =>
    unfold SCReadBlockLoop
    split_ifs
    · exact ih _ _ (hc _ h)
    · exact h
    · exact ih _ _ (hc _ h)
    · exact ih _ _ (hc _ h)
    · exact h

theorem SCReadBlock_preserves (P : SCReader → Prop)
    (hc : ∀ r, P r → P (SCConsume r 1)) (he : ∀ r e, P r → P { r with error := some e })
    (r : SCReader) (out : SCObject) (h : P r) : P (SCReadBlock r out).1 := by
  unfold SCReadBlock
  simp only []
  have h1 := SCExpect_preserves P hc he r '{'
    "Parser internal problemTried to read param list but there is no \x7b" out h
  split_ifs
  · exact h1
  · exact he _ _ (SCReadBlockLoop_preserves P hc _ _ _ h1)
  · exact hc _ (SCReadBlockLoop_preserves P hc _ _ _ h1)

theorem SCReadFunction_preserves (P : SCReader → Prop)
    (hc : ∀ r, P r → P (SCConsume r 1)) (he : ∀ r e, P r → P { r with error := some e })
    (r : SCReader) (out : SCObject) (h : P r) : P (SCReadFunction r out).1 := by
  unfold SCReadFunction
  lift_lets
  intro s0 out1 bs name_begin r1 s1 out2 args blk s2 s3
  have hbs : P bs.2.1 := SCExpect_preserves P hc he r _ _ out1 h
  have hr1 : P r1 := SCConsumeWhileFuncLoop_preserves P hc _ _ _ hbs
  have hargs : args = if r1.current < r1.text.length ∧ SCCurrentChar r1 = some '(' then
      SCReadArgumentList r1 out2 else (r1, out2) := rfl
  have hblk : blk = if args.1.current < args.1.text.length ∧
      SCCurrentChar args.1 = some '{' then SCReadBlock args.1 args.2 else args := rfl
  clear_value s3 s2 blk args out2 r1 bs out1
  have ha : P args.1 := by
    rw [hargs]
    split_ifs
    · exact SCReadArgumentList_preserves P hc he _ _ hr1
    · exact hr1
  have hb : P blk.1 := by
    rw [hblk]
    split_ifs
    · exact SCReadBlock_preserves P hc he _ _ ha
    · exact ha
  split_ifs
  · exact hbs
  · exact he _ _ hr1
  · exact ha
  · exact hb
  · exact hb

/-- A property of the reader that is kept by the consumption of one character and by
setting the error field is kept by `SCRead`. -/
theorem SCRead_preserves (P : SCReader → Prop) (hc : ∀ r, P r → P (SCConsume r 1))
    (he : ∀ r e, P r → P { r with error := some e }) (r : SCReader) (h : P r) :
    P (SCRead r).1 := by
  unfold SCRead
  lift_lets
  intro s0 out
  clear_value out
  split
  · exact he _ _ h
  · split_ifs
    · exact h
    · exact he _ _ h
    · exact SCConsume_preserves P hc 2 r h
    · exact SCReadFunction_preserves P hc he r out h
    · exact SCConsumeWhileFuncLoop_preserves P hc _ _ r h

theorem SCReadIter_preserves (P : SCReader → Prop) (hc : ∀ r, P r → P (SCConsume r 1))
    (he : ∀ r e, P r → P { r with error := some e }) (n : Nat) (r : SCReader) (h : P r) :
    P (SCReadIter n r) := by
  induction n generalizing r with
  | zero => exact h
  | succ n ih => exact ih _ (SCRead_preserves P hc he r h)

theorem Int32Wrap_lit_one : Int32Wrap 1 = 1 := by decide

/-- An increment of a wrapped value is the wrapped increment. -/
theorem Int32Wrap_succ (x : Int) : Int32Wrap (Int32Wrap x + 1) = Int32Wrap (x + 1) := by
  unfold Int32Wrap
  omega

/-- A value in the range of a 32-bit `int` is not changed. -/
theorem Int32Wrap_of_range (x : Int) (h1 : -2147483648 ≤ x) (h2 : x < 2147483648) :
    Int32Wrap x = x := by
  unfold Int32Wrap
  omega

theorem SCConsume_one (r : SCReader) :
    SCConsume r 1 =
      if r.current < r.text.length then
        if r.text[r.current]? = some '\n' then
          { r with line_no := Int32Wrap (r.line_no + 1), column_no := 1,
                   current := r.current + 1 }
        else { r with current := r.current + 1, column_no := Int32Wrap (r.column_no + 1) }
      else r := by
  unfold SCConsume
  split_ifs <;> simp [SCConsume, Int32Wrap_lit_one]

theorem LineOf_append_singleton (p : List Char) (c : Char) :
    LineOf (p ++ [c]) = LineOf p + (if c = '\n' then 1 else 0) := by
  unfold LineOf
  rw [List.count_append, List.count_singleton]
  split_ifs with h1 h2 h2
  · omega
  · exact absurd (by simpa using h1) h2
  · exact absurd (by simp [h2]) h1
  · omega

theorem ColumnOf_append_singleton (p : List Char) (c : Char) :
    ColumnOf (p ++ [c]) = if c = '\n' then 1 else ColumnOf p + 1 := by
  unfold ColumnOf
  rw [List.reverse_append, List.reverse_singleton, List.singleton_append, List.takeWhile_cons]
  split_ifs with h1 h2 h2
  · simp [h2] at h1
  · simp; omega
  · rfl
  · simp [h2] at h1

theorem PositionTracked_consume (r : SCReader) (h : PositionTracked r) :
    PositionTracked (SCConsume r 1) := by
  rw [SCConsume_one]
  obtain ⟨hl, hc⟩ := h
  by_cases h1 : r.current < r.text.length
  · obtain ⟨c, hget⟩ : ∃ c, r.text[r.current]? = some c :=
      ⟨_, List.getElem?_eq_getElem h1⟩
    rw [if_pos h1, hget]
    have htake : r.text.take (r.current + 1) = r.text.take r.current ++ [c] := by
      rw [List.take_succ, hget]; rfl
    by_cases h2 : c = '\n'
    · subst h2
      rw [if_pos rfl]
      refine ⟨?_, ?_⟩
      · show Int32Wrap (r.line_no + 1) = Int32Wrap (LineOf (r.text.take (r.current + 1)))
        rw [htake, LineOf_append_singleton, if_pos rfl, hl, Int32Wrap_succ]
        push_cast
        rfl
      · show (1 : Int) = Int32Wrap (ColumnOf (r.text.take (r.current + 1)))
        rw [htake, ColumnOf_append_singleton, if_pos rfl]
        decide
    · rw [if_neg (fun h => h2 (Option.some.inj h))]
      refine ⟨?_, ?_⟩
      · show r.line_no = Int32Wrap (LineOf (r.text.take (r.current + 1)))
        rw [htake, LineOf_append_singleton, if_neg h2, hl]; rfl
      · show Int32Wrap (r.column_no + 1)
          = Int32Wrap (ColumnOf (r.text.take (r.current + 1)))
        rw [htake, ColumnOf_append_singleton, if_neg h2, hc, Int32Wrap_succ]
        push_cast
        rfl
  · rw [if_neg h1]
    exact ⟨hl, hc⟩

end SiteC

/-! ## The fuel of the reader loops is enough -/

namespace SiteC

theorem SCCurrentChar_some_lt (r : SCReader) (c : Char) (h : SCCurrentChar r = some c) :
    r.current < r.text.length := by
  unfold SCCurrentChar at h
  by_contra hn
  rw [List.getElem?_eq_none (by omega)] at h
  cases h

theorem SCConsume_one_text (r : SCReader) : (SCConsume r 1).text = r.text := by
  rw [SCConsume_one]
  split_ifs <;> rfl

theorem SCConsume_one_current (r : SCReader) (h : r.current < r.text.length) :
    (SCConsume r 1).current = r.current + 1 := by
  rw [SCConsume_one, if_pos h]
  split_ifs <;> rfl

theorem CursorFrom_consume (t : List Char) (c : Nat) (r : SCReader)
    (h : CursorFrom t c r) : CursorFrom t c (SCConsume r 1) := by
  obtain ⟨h1, h2, h3⟩ := h
  by_cases hlt : r.current < r.text.length
  · refine ⟨by rw [SCConsume_one_text, h1], ?_, ?_⟩
    · rw [SCConsume_one_current r hlt]; omega
    · rw [SCConsume_one_current r hlt, ← h1]; omega
  · rw [SCConsume_one, if_neg hlt]
    exact ⟨h1, h2, h3⟩

theorem SCConsumeWhileFuncLoop_succ (f : Char → Bool) (fuel : Nat) (r : SCReader) :
    SCConsumeWhileFuncLoop f (fuel + 1) r =
      if r.current < r.text.length ∧ (SCCurrentChar r).any f then
        SCConsumeWhileFuncLoop f fuel (SCConsume r 1)
      else r := rfl

theorem SCReadBlockLoop_succ (fuel : Nat) (r : SCReader) (level : Nat) :
    SCReadBlockLoop (fuel + 1) r level =
      if r.current < r.text.length ∧ level ≠ 0 then
        if SCCurrentChar r = some '{' then
          SCReadBlockLoop fuel (SCConsume r 1) (level + 1)
        else if SCCurrentChar r = some '}' then
          if level - 1 = 0 then (r, level - 1)
          else SCReadBlockLoop fuel (SCConsume r 1) (level - 1)
        else SCReadBlockLoop fuel (SCConsume r 1) level
      else (r, level) := rfl

theorem SCReadArgumentListLoop_succ (fuel : Nat) (r : SCReader) (out : SCObject) :
    SCReadArgumentListLoop (fuel + 1) r out =
      if r.current < r.text.length then
        if (SCReadArgument r out).2.type = SCObjectType.Error then
          (true, SCReadArgument r out)
        else if SCCurrentChar (SCReadArgument r out).1 = some ',' then
          SCReadArgumentListLoop fuel (SCConsume (SCReadArgument r out).1 1)
            (SCReadArgument r out).2
        else (false, SCReadArgument r out)
      else (false, r, out) := rfl

/-- With at least `end - current` units of fuel, one more unit does not change what the loop
of `SCConsumeWhileFunc` returns: the loop ends by its own condition. -/
theorem SCConsumeWhileFuncLoop_fuel (f : Char → Bool) (fuel : Nat) (r : SCReader)
    (h : r.text.length - r.current ≤ fuel) :
    SCConsumeWhileFuncLoop f (fuel + 1) r = SCConsumeWhileFuncLoop f fuel r := by
  induction fuel generalizing r with
  | zero =>
    rw [SCConsumeWhileFuncLoop_succ, if_neg (by omega)]
    rfl
  | succ n ih =>
    rw [SCConsumeWhileFuncLoop_succ f (n + 1) r, SCConsumeWhileFuncLoop_succ f n r]
    split_ifs with hc
    · exact ih _ (by rw [SCConsume_one_text, SCConsume_one_current r hc.1]; omega)
    · rfl

/-- With at least `end - current` units of fuel, one more unit does not change what the loop
of `SCReadBlock` returns. -/
theorem SCReadBlockLoop_fuel (fuel : Nat) (r : SCReader) (level : Nat)
    (h : r.text.length - r.current ≤ fuel) :
    SCReadBlockLoop (fuel + 1) r level = SCReadBlockLoop fuel r level := by
  induction fuel generalizing r level with
  | zero =>
    rw [SCReadBlockLoop_succ, if_neg (by omega)]
    rfl
  | succ n ih =>
    rw [SCReadBlockLoop_succ (n + 1) r level, SCReadBlockLoop_succ n r level]
    split_ifs with hc h1 h2 h3
    · exact ih _ _ (by rw [SCConsume_one_text, SCConsume_one_current r hc.1]; omega)
    · rfl
    · exact ih _ _ (by rw [SCConsume_one_text, SCConsume_one_current r hc.1]; omega)
    · exact ih _ _ (by rw [SCConsume_one_text, SCConsume_one_current r hc.1]; omega)
    · rfl

theorem SCReadArgument_cursor (r : SCReader) (out : SCObject) (hr : r.current ≤ r.text.length) :
    CursorFrom r.text r.current (SCReadArgument r out).1 :=
  SCReadArgument_preserves (CursorFrom r.text r.current)
    (CursorFrom_consume r.text r.current) (fun _ _ h => h) r out ⟨rfl, Nat.le_refl _, hr⟩

/-- With at least `end - current` units of fuel, one more unit does not change what the loop
of `SCReadArgumentList` returns. -/
theorem SCReadArgumentListLoop_fuel (fuel : Nat) (r : SCReader) (out : SCObject)
    (h : r.text.length - r.current ≤ fuel) :
    SCReadArgumentListLoop (fuel + 1) r out = SCReadArgumentListLoop fuel r out := by
  induction fuel generalizing r out with
  | zero =>
    rw [SCReadArgumentListLoop_succ, if_neg (by omega)]
    rfl
  | succ n ih =>
    rw [SCReadArgumentListLoop_succ (n + 1) r out, SCReadArgumentListLoop_succ n r out]
    split_ifs with hc h1 h2
    · rfl
    · obtain ⟨g1, g2, g3⟩ := SCReadArgument_cursor r out (Nat.le_of_lt hc)
      have hlt := SCCurrentChar_some_lt _ _ h2
      exact ih _ _ (by
        rw [SCConsume_one_text, SCConsume_one_current _ hlt, g1]
        omega)
    · rfl
    · rfl

end SiteC

/-! ## The reader functions on a known input -/

namespace SiteC

theorem SCAdvance_append (r : SCReader) (a b : List Char) :
    SCAdvance r (a ++ b) = SCAdvance (SCAdvance r a) b := by
  induction a generalizing r with
  | nil => rfl
  | cons c a ih => exact ih _

theorem SCAdvance_text (r : SCReader) (s : List Char) : (SCAdvance r s).text = r.text := by
  induction s generalizing r with
  | nil => rfl
  | cons c s ih =>
    rw [SCAdvance, ih]
    split_ifs <;> rfl

theorem SCAdvance_error (r : SCReader) (s : List Char) : (SCAdvance r s).error = r.error := by
  induction s generalizing r with
  | nil => rfl
  | cons c s ih =>
    rw [SCAdvance, ih]
    split_ifs <;> rfl

theorem SCAdvance_current (r : SCReader) (s : List Char) :
    (SCAdvance r s).current = r.current + s.length := by
  induction s generalizing r with
  | nil => rfl
  | cons c s ih =>
    rw [SCAdvance, ih]
    split_ifs <;> simp <;> omega

theorem SCRest_advance (r : SCReader) (s t : List Char) (h : SCRest r = s ++ t) :
    SCRest (SCAdvance r s) = t := by
  unfold SCRest at h ⊢
  rw [SCAdvance_text, SCAdvance_current, ← List.drop_drop, h, List.drop_left]

theorem SCRest_length (r : SCReader) : (SCRest r).length = r.text.length - r.current := by
  unfold SCRest
  rw [List.length_drop]

theorem SCCurrentChar_eq_head (r : SCReader) : SCCurrentChar r = (SCRest r).head? := by
  unfold SCCurrentChar SCRest
  rw [List.head?_drop]

theorem SCRest_cons_lt (r : SCReader) (c : Char) (t : List Char) (h : SCRest r = c :: t) :
    r.current < r.text.length := by
  have := SCRest_length r
  rw [h] at this
  simp at this
  omega

theorem SCRest_nil_ge (r : SCReader) (h : SCRest r = []) : r.current ≥ r.text.length := by
  have := SCRest_length r
  rw [h] at this
  simp at this
  omega

theorem SCConsume_one_cons (r : SCReader) (c : Char) (t : List Char) (h : SCRest r = c :: t) :
    SCConsume r 1 = SCAdvance r [c] := by
  have hlt := SCRest_cons_lt r c t h
  have hc : r.text[r.current]? = some c := by
    have := SCCurrentChar_eq_head r
    rw [h] at this
    exact this
  rw [SCConsume_one, if_pos hlt, hc]
  unfold SCAdvance
  by_cases h2 : c = '\n'
  · subst h2; rfl
  · rw [if_neg (fun h => h2 (Option.some.inj h)), if_neg h2]; rfl

theorem SCConsume_nil (r : SCReader) (n : Nat) (h : SCRest r = []) : SCConsume r n = r := by
  have := SCRest_nil_ge r h
  cases n with
  | zero => rfl
  | succ n => unfold SCConsume; rw [if_neg (by omega)]

theorem SCConsumeWhileFuncLoop_eq (f : Char → Bool) (s : List Char) :
    ∀ (fuel : Nat) (r : SCReader) (t : List Char), SCRest r = s ++ t → s.length ≤ fuel →
      (∀ c ∈ s, f c = true) → (t = [] ∨ fuel = s.length ∨ t.head?.any f = false) →
      SCConsumeWhileFuncLoop f fuel r = SCAdvance r s := by
  induction s with
  | nil =>
    intro fuel r t h _ _ ht
    cases fuel with
    | zero => rfl
    | succ n =>
      unfold SCConsumeWhileFuncLoop
      rw [SCCurrentChar_eq_head, h]
      rcases ht with ht | ht | ht
      · subst ht
        rw [if_neg]
        · rfl
        · simp
      · simp at ht
      · rw [if_neg]
        · rfl
        · simp only [List.nil_append, ht]
          simp
  | cons c s ih =>
    intro fuel r t h hf hs ht
    cases fuel with
    | zero => simp at hf
    | succ n =>
      unfold SCConsumeWhileFuncLoop
      rw [SCCurrentChar_eq_head, h]
      have hc : f c = true := hs c (List.mem_cons_self _ _)
      rw [if_pos ⟨SCRest_cons_lt r c (s ++ t) h, by simp [hc]⟩,
        SCConsume_one_cons r c (s ++ t) h]
      rw [ih n (SCAdvance r [c]) t (SCRest_advance r [c] (s ++ t) h) (by simpa using hf)
        (fun d hd => hs d (List.mem_cons_of_mem _ hd))
        (by
          rcases ht with ht | ht | ht
          · exact Or.inl ht
          · exact Or.inr (Or.inl (by simpa using ht))
          · exact Or.inr (Or.inr ht))]
      rfl

theorem SCConsumeWhileFunc_eq (f : Char → Bool) (r : SCReader) (s t : List Char)
    (h : SCRest r = s ++ t) (hs : ∀ c ∈ s, f c = true) (ht : t.head?.any f = false) :
    SCConsumeWhileFunc r f = SCAdvance r s := by
  unfold SCConsumeWhileFunc
  apply SCConsumeWhileFuncLoop_eq f s _ r t h _ hs (Or.inr (Or.inr ht))
  rw [← SCRest_length, h]
  simp

theorem SCConsumeWhitespace_eq (r : SCReader) (s t : List Char)
    (h : SCRest r = s ++ t) (hs : ∀ c ∈ s, isspace c = true) (ht : t.head?.any isspace = false) :
    SCConsumeWhitespace r = SCAdvance r s :=
  SCConsumeWhileFunc_eq isspace r s t h hs ht

theorem SCConsumeUntil_eq (ch : Char) (r : SCReader) (s t : List Char)
    (h : SCRest r = s ++ t) (hs : ch ∉ s) (ht : t = [] ∨ t.head? = some ch) :
    SCConsumeUntil r ch = SCAdvance r s := by
  unfold SCConsumeUntil
  apply SCConsumeWhileFuncLoop_eq _ s _ r t h _ _ _
  · rw [← SCRest_length, h]
    simp
  · intro c hc
    simp only [bne_iff_ne, ne_eq]
    rintro rfl
    exact hs hc
  · rcases ht with ht | ht
    · exact Or.inl ht
    · exact Or.inr (Or.inr (by simp [ht]))

theorem SCExpect_cons (r : SCReader) (c : Char) (t : List Char) (err : String)
    (out : SCObject) (h : SCRest r = c :: t) :
    SCExpect r c err out = (true, SCAdvance r [c], out) := by
  unfold SCExpect
  rw [SCCurrentChar_eq_head, h, if_neg, SCConsume_one_cons r c t h]
  have := SCRest_cons_lt r c t h
  simp
  omega

theorem SCExpect_other (r : SCReader) (c : Char) (err : String) (out : SCObject)
    (h : (SCRest r).head? ≠ some c) :
    SCExpect r c err out = (false, SCError r err out) := by
  unfold SCExpect
  rw [SCCurrentChar_eq_head, if_pos (Or.inr h)]

/-- The characters between the cursor of `r` and the cursor after the consumption of `s`. -/
theorem SliceText_advance (r : SCReader) (s t : List Char) (h : SCRest r = s ++ t) :
    SliceText r.text ⟨some r.current, some (SCAdvance r s).current⟩ = s := by
  unfold SliceText
  simp only []
  unfold SCRest at h
  rw [h, SCAdvance_current]
  simp

theorem SCCurrentChar_guard (r : SCReader) (c : Char) :
    (r.current < r.text.length ∧ SCCurrentChar r = some c) ↔ (SCRest r).head? = some c := by
  rw [← SCCurrentChar_eq_head]
  exact ⟨fun h => h.2, fun h => ⟨SCCurrentChar_some_lt r c h, h⟩⟩

/-- The block loop walks over a text `b` in which the depth never reaches zero, and goes on
after it at the depth reached. -/
theorem SCReadBlockLoop_scan (b : List Char) :
    ∀ (fuel : Nat) (r : SCReader) (level : Nat) (t : List Char), SCRest r = b ++ t →
      b.length ≤ fuel → (∀ p, p <+: b → p.count '}' < level + p.count '{') →
      SCReadBlockLoop fuel r level =
        SCReadBlockLoop (fuel - b.length) (SCAdvance r b)
          (level + b.count '{' - b.count '}') := by
  induction b with
  | nil => intro fuel r level t _ _ _; simp [SCAdvance]
  | cons c b ih =>
    intro fuel r level t h hf hp
    cases fuel with
    | zero => simp at hf
    | succ n =>
      have hl : 0 < level := by simpa using hp [] (List.nil_prefix)
      have hlt := SCRest_cons_lt r c (b ++ t) h
      have hadv := SCRest_advance r [c] (b ++ t) h
      have hcons := SCConsume_one_cons r c (b ++ t) h
      have hfull := hp (c :: b) (List.prefix_refl _)
      rw [SCReadBlockLoop_succ, if_pos ⟨hlt, by omega⟩, SCCurrentChar_eq_head, h, hcons]
      simp only [List.cons_append, List.head?_cons, Option.some.injEq, List.length_cons,
        Nat.add_sub_add_right]
      by_cases h1 : c = '{'
      · subst h1
        rw [if_pos rfl, ih n _ (level + 1) t hadv (by simpa using hf)]
        · congr 1
          simp [List.count_cons] at hfull ⊢
          omega
        · intro p hpp
          have := hp ('{' :: p) (by simpa using hpp)
          simp [List.count_cons] at this ⊢
          omega
      · rw [if_neg h1]
        by_cases h2 : c = '}'
        · subst h2
          have h3 := hp ['}'] (by simp)
          simp [List.count_cons] at h3
          rw [if_pos rfl, if_neg (by omega), ih n _ (level - 1) t hadv (by simpa using hf)]
          · congr 1
            simp [List.count_cons] at hfull ⊢
            omega
          · intro p hpp
            have := hp ('}' :: p) (by simpa using hpp)
            simp [List.count_cons] at this ⊢
            omega
        · rw [if_neg h2, ih n _ level t hadv (by simpa using hf)]
          · congr 1
            have e1 : (c == '{') = false := by simpa using h1
            have e2 : (c == '}') = false := by simpa using h2
            simp [List.count_cons, e1, e2]
          · intro p hpp
            have := hp (c :: p) (by simpa using hpp)
            have e1 : (c == '{') = false := by simpa using h1
            have e2 : (c == '}') = false := by simpa using h2
            simpa [List.count_cons, e1, e2] using this

theorem SCReadBlockLoop_balanced (r : SCReader) (b t : List Char)
    (h : SCRest r = b ++ '}' :: t) (hb : BracesBalanced b) :
    SCReadBlockLoop (r.text.length - r.current) r 1 = (SCAdvance r b, 0) := by
  have h2 := SCRest_advance r b ('}' :: t) h
  rw [SCReadBlockLoop_scan b _ _ 1 ('}' :: t) h (by rw [← SCRest_length, h]; simp)
    (fun p hp => by have := hb.1 p hp; omega)]
  have hlev : 1 + b.count '{' - b.count '}' = 1 := by have := hb.2; omega
  have hfuel : r.text.length - r.current - b.length = t.length + 1 := by
    rw [← SCRest_length, h]; simp
  rw [hlev, hfuel, SCReadBlockLoop_succ,
    if_pos ⟨SCRest_cons_lt _ _ _ h2, by decide⟩, SCCurrentChar_eq_head, h2]
  simp

theorem SCReadBlockLoop_unterminated (r : SCReader) (b : List Char)
    (h : SCRest r = b) (hb : BraceNeverClosed b) :
    (SCReadBlockLoop (r.text.length - r.current) r 1).1 = SCAdvance r b ∧
      (SCReadBlockLoop (r.text.length - r.current) r 1).2 ≠ 0 := by
  rw [SCReadBlockLoop_scan b _ _ 1 [] (by simpa using h) (by rw [← SCRest_length, h])
    (fun p hp => hb p hp)]
  have hfuel : r.text.length - r.current - b.length = 0 := by
    rw [← SCRest_length, h]; simp
  have hlev : 1 + b.count '{' - b.count '}' ≠ 0 := by
    have := hb b (List.prefix_refl _); omega
  rw [hfuel]
  exact ⟨rfl, hlev⟩

theorem SCReadBlock_balanced (r : SCReader) (out : SCObject) (b t : List Char)
    (h : SCRest r = '{' :: b ++ '}' :: t) (hb : BracesBalanced b) :
    SCReadBlock r out =
      (SCAdvance r ('{' :: b ++ ['}']),
        { out with has_block := true,
                   block := ⟨some (r.current + 1), some (r.current + 1 + b.length)⟩ }) := by
  have h1 := SCRest_advance r ['{'] (b ++ '}' :: t) h
  have h2 := SCRest_advance (SCAdvance r ['{']) b ('}' :: t) h1
  have hloop := SCReadBlockLoop_balanced (SCAdvance r ['{']) b t h1 hb
  unfold SCReadBlock
  simp only []
  rw [SCExpect_cons r '{' (b ++ '}' :: t) _ out h]
  simp only [Bool.true_eq_false, ↓reduceIte, hloop, ne_eq, not_true_eq_false]
  rw [SCConsume_one_cons _ '}' t h2, ← SCAdvance_append, ← SCAdvance_append,
    SCAdvance_current, SCAdvance_current]
  simp [SCAdvance_current]

theorem SCReadBlock_unterminated (r : SCReader) (out : SCObject) (b : List Char)
    (h : SCRest r = '{' :: b) (hb : BraceNeverClosed b) :
    SCReadBlock r out =
      SCError (SCAdvance r ('{' :: b)) "Closing brace of block is missing" out := by
  have h1 := SCRest_advance r ['{'] b (by simpa using h)
  have hloop := SCReadBlockLoop_unterminated (SCAdvance r ['{']) b h1 hb
  unfold SCReadBlock
  simp only []
  rw [SCExpect_cons r '{' b _ out h]
  simp only [Bool.true_eq_false, ↓reduceIte]
  rw [if_pos hloop.2, hloop.1, ← SCAdvance_append]
  rfl

theorem SCReadFunction_unfold (r : SCReader) (out : SCObject) :
    SCReadFunction r out =
      if (SCExpect r '\\'
          "Parser internal problem. Tried to read function but there is no \\ at the start"
          { out with type := SCObjectType.Func,
                     full_text := { out.full_text with begin := some r.current } }).1 = false
      then
        (SCExpect r '\\'
          "Parser internal problem. Tried to read function but there is no \\ at the start"
          { out with type := SCObjectType.Func,
                     full_text := { out.full_text with begin := some r.current } }).2
      else if (SCExpect r '\\'
          "Parser internal problem. Tried to read function but there is no \\ at the start"
          { out with type := SCObjectType.Func,
                     full_text := { out.full_text with begin := some r.current } }).2.1.current
          = (SCConsumeWhileFunc (SCExpect r '\\'
          "Parser internal problem. Tried to read function but there is no \\ at the start"
          { out with type := SCObjectType.Func,
                     full_text := { out.full_text with begin := some r.current } }).2.1
            IsNameOrKeyChar).current
      then
        SCError (SCConsumeWhileFunc (SCExpect r '\\'
          "Parser internal problem. Tried to read function but there is no \\ at the start"
          { out with type := SCObjectType.Func,
                     full_text := { out.full_text with begin := some r.current } }).2.1
            IsNameOrKeyChar) "Expected function name after backslash"
          (SCExpect r '\\'
          "Parser internal problem. Tried to read function but there is no \\ at the start"
          { out with type := SCObjectType.Func,
                     full_text := { out.full_text with begin := some r.current } }).2.2
      else
        SCReadFunctionTail (SCConsumeWhileFunc (SCExpect r '\\'
          "Parser internal problem. Tried to read function but there is no \\ at the start"
          { out with type := SCObjectType.Func,
                     full_text := { out.full_text with begin := some r.current } }).2.1
            IsNameOrKeyChar)
          { (SCExpect r '\\'
          "Parser internal problem. Tried to read function but there is no \\ at the start"
          { out with type := SCObjectType.Func,
                     full_text := { out.full_text with begin := some r.current } }).2.2 with
            function_name := ⟨some (SCExpect r '\\'
          "Parser internal problem. Tried to read function but there is no \\ at the start"
          { out with type := SCObjectType.Func,
                     full_text := { out.full_text with begin := some r.current } }).2.1.current,
              some (SCConsumeWhileFunc (SCExpect r '\\'
          "Parser internal problem. Tried to read function but there is no \\ at the start"
          { out with type := SCObjectType.Func,
                     full_text := { out.full_text with begin := some r.current } }).2.1
            IsNameOrKeyChar).current⟩ } := rfl

theorem SCReadFunction_name (r : SCReader) (out : SCObject) (n t : List Char)
    (h : SCRest r = '\\' :: n ++ t) (hn : n ≠ [])
    (hname : ∀ c ∈ n, IsNameOrKeyChar c = true) (ht : t.head?.any IsNameOrKeyChar = false) :
    SCReadFunction r out =
      SCReadFunctionTail (SCAdvance r ('\\' :: n))
        { out with
          type := SCObjectType.Func,
          full_text := { out.full_text with begin := some r.current },
          function_name := ⟨some (r.current + 1), some (r.current + 1 + n.length)⟩ } := by
  have h1 := SCRest_advance r ['\\'] (n ++ t) h
  have hw := SCConsumeWhileFunc_eq IsNameOrKeyChar (SCAdvance r ['\\']) n t h1 hname ht
  have hlen : 0 < n.length := List.length_pos.mpr hn
  have hcur1 : (SCAdvance r ['\\']).current = r.current + 1 := SCAdvance_current r _
  have hcur2 : (SCAdvance (SCAdvance r ['\\']) n).current = r.current + 1 + n.length := by
    rw [SCAdvance_current, hcur1]
  rw [SCReadFunction_unfold, SCExpect_cons r '\\' (n ++ t) _ _ h]
  simp only [Bool.true_eq_false, ↓reduceIte, hw]
  rw [if_neg (by rw [hcur1, hcur2]; omega), hcur1, hcur2, ← SCAdvance_append]
  rfl

theorem SCRead_function (r : SCReader) (c : Char) (t : List Char) (he : r.error = none)
    (h : SCRest r = '\\' :: c :: t) (hc : c ≠ '\\') :
    SCRead r = SCReadFunction r (SCReadStart r) := by
  have hlt := SCRest_cons_lt r _ _ h
  have hlen := SCRest_length r
  rw [h] at hlen
  simp only [List.length_cons] at hlen
  have h1 : r.text[r.current + 1]? = some c := by
    have := SCCurrentChar_eq_head (SCAdvance r ['\\'])
    rw [SCRest_advance r ['\\'] (c :: t) h] at this
    unfold SCCurrentChar at this
    rw [SCAdvance_text, SCAdvance_current] at this
    exact this
  unfold SCRead
  simp only [he]
  rw [if_neg (by omega), SCCurrentChar_eq_head, h]
  simp only [List.head?_cons, if_true]
  rw [if_neg (by omega), h1, if_neg (fun hh => hc (Option.some.inj hh))]
  rfl

theorem SCRead_text (r : SCReader) (s t : List Char) (he : r.error = none)
    (h : SCRest r = s ++ t) (hs : s ≠ []) (hbs : '\\' ∉ s)
    (ht : t = [] ∨ t.head? = some '\\') :
    SCRead r =
      (SCAdvance r s,
        { SCReadStart r with
          type := SCObjectType.Text,
          full_text := ⟨some r.current, some (r.current + s.length)⟩,
          end_line_no := (SCAdvance r s).line_no,
          end_column_no := (SCAdvance r s).column_no }) := by
  obtain ⟨c, s', rfl⟩ := List.exists_cons_of_ne_nil hs
  have hlt := SCRest_cons_lt r c (s' ++ t) h
  have hu := SCConsumeUntil_eq '\\' r (c :: s') t h hbs ht
  unfold SCRead
  simp only [he]
  rw [if_neg (by omega), SCCurrentChar_eq_head, h]
  have hc : c ≠ '\\' := fun hh => hbs (by rw [hh]; exact List.mem_cons_self _ _)
  simp only [List.cons_append, List.head?_cons, Option.some.injEq, hc, if_false, hu,
    SCAdvance_current]
  rfl

theorem SCRead_end (r : SCReader) (he : r.error = none) (h : r.current = r.text.length) :
    SCRead r = (r, { SCReadStart r with type := SCObjectType.End }) := by
  unfold SCRead
  simp only [he]
  rw [if_pos h]
  rfl

theorem SCError_type (r : SCReader) (str : String) (out : SCObject) :
    (SCError r str out).2.type = SCObjectType.Error :=
  (SCError_frozen r str out).1

theorem SCReadFunctionTail_block (r1 : SCReader) (out2 : SCObject) (b t : List Char)
    (h : SCRest r1 = '{' :: b ++ '}' :: t) (hb : BracesBalanced b)
    (hty : out2.type ≠ SCObjectType.Error) :
    SCReadFunctionTail r1 out2 =
      (SCAdvance r1 ('{' :: b ++ ['}']),
        { out2 with
          has_block := true,
          block := ⟨some (r1.current + 1), some (r1.current + 1 + b.length)⟩,
          end_line_no := (SCAdvance r1 ('{' :: b ++ ['}'])).line_no,
          end_column_no := (SCAdvance r1 ('{' :: b ++ ['}'])).column_no,
          full_text := { out2.full_text with
            end_ := some (SCAdvance r1 ('{' :: b ++ ['}'])).current } }) := by
  have hg1 : ¬ (r1.current < r1.text.length ∧ SCCurrentChar r1 = some '(') := by
    rw [SCCurrentChar_guard, h]; simp
  have hg2 : r1.current < r1.text.length ∧ SCCurrentChar r1 = some '{' := by
    rw [SCCurrentChar_guard, h]; simp
  unfold SCReadFunctionTail
  simp only [if_neg hg1, if_neg hty, if_pos hg2, SCReadBlock_balanced r1 out2 b t h hb]

theorem SCReadFunctionTail_unterminated (r1 : SCReader) (out2 : SCObject) (b : List Char)
    (h : SCRest r1 = '{' :: b) (hb : BraceNeverClosed b)
    (hty : out2.type ≠ SCObjectType.Error) :
    SCReadFunctionTail r1 out2 =
      SCError (SCAdvance r1 ('{' :: b)) "Closing brace of block is missing" out2 := by
  have hg1 : ¬ (r1.current < r1.text.length ∧ SCCurrentChar r1 = some '(') := by
    rw [SCCurrentChar_guard, h]; simp
  have hg2 : r1.current < r1.text.length ∧ SCCurrentChar r1 = some '{' := by
    rw [SCCurrentChar_guard, h]; simp
  unfold SCReadFunctionTail
  simp only [if_neg hg1, if_neg hty, if_pos hg2, SCReadBlock_unterminated r1 out2 b h hb]
  rw [if_pos (SCError_type _ _ _)]

theorem SCReadFunctionTail_plain (r1 : SCReader) (out2 : SCObject)
    (h1 : (SCRest r1).head? ≠ some '(') (h2 : (SCRest r1).head? ≠ some '{')
    (hty : out2.type ≠ SCObjectType.Error) :
    SCReadFunctionTail r1 out2 =
      (r1, { out2 with
        end_line_no := r1.line_no, end_column_no := r1.column_no,
        full_text := { out2.full_text with end_ := some r1.current } }) := by
  have hg1 : ¬ (r1.current < r1.text.length ∧ SCCurrentChar r1 = some '(') := by
    rw [SCCurrentChar_guard]; exact h1
  have hg2 : ¬ (r1.current < r1.text.length ∧ SCCurrentChar r1 = some '{') := by
    rw [SCCurrentChar_guard]; exact h2
  unfold SCReadFunctionTail
  simp only [if_neg hg1, if_neg hty, if_neg hg2]

theorem SCRest_make (text : List Char) (path file : String) :
    SCRest (MakeSCReader text path file) = text := rfl

theorem IsNameOrKeyChar_ne_backslash (c : Char) (h : IsNameOrKeyChar c = true) : c ≠ '\\' := by
  rintro rfl
  revert h
  decide

/-- What `SCRead` returns on a reader placed before a call `\n{b}` with a balanced block. -/
theorem SCRead_block_call (r : SCReader) (n b rest : List Char) (he : r.error = none)
    (h : SCRest r = '\\' :: n ++ '{' :: b ++ '}' :: rest) (hn : n ≠ [])
    (hname : ∀ c ∈ n, IsNameOrKeyChar c = true) (hb : BracesBalanced b) :
    SCRead r =
      (SCAdvance r ('\\' :: n ++ '{' :: b ++ ['}']),
        { SCReadStart r with
          type := SCObjectType.Func,
          function_name := ⟨some (r.current + 1), some (r.current + 1 + n.length)⟩,
          has_block := true,
          block := ⟨some (r.current + n.length + 2),
            some (r.current + n.length + 2 + b.length)⟩,
          end_line_no := (SCAdvance r ('\\' :: n ++ '{' :: b ++ ['}'])).line_no,
          end_column_no := (SCAdvance r ('\\' :: n ++ '{' :: b ++ ['}'])).column_no,
          full_text := ⟨some r.current,
            some (SCAdvance r ('\\' :: n ++ '{' :: b ++ ['}'])).current⟩ }) := by
  obtain ⟨c, n', rfl⟩ := List.exists_cons_of_ne_nil hn
  have hc : c ≠ '\\' := IsNameOrKeyChar_ne_backslash c (hname c (List.mem_cons_self _ _))
  have h1 := SCRest_advance r ('\\' :: c :: n') ('{' :: b ++ '}' :: rest) (by simpa using h)
  rw [SCRead_function r c (n' ++ '{' :: b ++ '}' :: rest) he (by simpa using h) hc,
    SCReadFunction_name r _ (c :: n') ('{' :: b ++ '}' :: rest) (by simpa using h)
      (List.cons_ne_nil _ _) hname (by simp; decide),
    SCReadFunctionTail_block _ _ b rest (by simpa using h1) hb (by simp)]
  have e : SCAdvance (SCAdvance r ('\\' :: c :: n')) ('{' :: b ++ ['}'])
      = SCAdvance r ('\\' :: (c :: n') ++ '{' :: b ++ ['}']) := by
    rw [← SCAdvance_append]; simp
  rw [e]
  simp only [SCAdvance_current, SCReadStart, SCObjectZero, NullSlice, List.length_cons]
  congr 3 <;> simp <;> omega

theorem BracesBalanced_of_inits (b : List Char)
    (h : (∀ p ∈ b.inits, p.count '}' ≤ p.count '{') ∧ b.count '{' = b.count '}') :
    BracesBalanced b :=
  ⟨fun p hp => h.1 p ((List.mem_inits _ _).mpr hp), h.2⟩

theorem BraceNeverClosed_of_inits (b : List Char)
    (h : ∀ p ∈ b.inits, p.count '}' < 1 + p.count '{') : BraceNeverClosed b :=
  fun p hp => h p ((List.mem_inits _ _).mpr hp)

end SiteC

/-! ## The argument list on a known input -/

namespace SiteC

theorem isspace_cases (c : Char) (h : isspace c = true) :
    c = ' ' ∨ c = '\t' ∨ c = '\n' ∨ c = Char.ofNat 11 ∨ c = Char.ofNat 12 ∨ c = '\r' := by
  simpa [isspace, or_assoc] using h

theorem isspace_not_name (c : Char) (h : isspace c = true) : IsNameOrKeyChar c = false := by
  rcases isspace_cases c h with rfl | rfl | rfl | rfl | rfl | rfl <;> decide

theorem isspace_not_digit (c : Char) (h : isspace c = true) : IsDigitChar c = false := by
  rcases isspace_cases c h with rfl | rfl | rfl | rfl | rfl | rfl <;> decide

theorem name_not_isspace (c : Char) (h : IsNameOrKeyChar c = true) : isspace c = false := by
  cases hs : isspace c with
  | false => rfl
  | true => rw [isspace_not_name c hs] at h; cases h

theorem digit_not_isspace (c : Char) (h : IsDigitChar c = true) : isspace c = false := by
  cases hs : isspace c with
  | false => rfl
  | true => rw [isspace_not_digit c hs] at h; cases h

theorem digit_ne_quote (c : Char) (h : IsDigitChar c = true) : c ≠ '"' := by
  rintro rfl
  revert h
  decide

/-- The head of `s ++ t` fails `f` when every character of `s` does and the head of `t`
does. -/
theorem head_any_false (f : Char → Bool) (s t : List Char) (hs : ∀ c ∈ s, f c = false)
    (ht : t.head?.any f = false) : (s ++ t).head?.any f = false := by
  cases s with
  | nil => simpa using ht
  | cons c s => simpa using hs c (List.mem_cons_self _ _)

theorem head_any_false_cons (f : Char → Bool) (c : Char) (t : List Char) (hc : f c = false) :
    (c :: t).head?.any f = false := by
  simpa using hc

theorem SliceText_between (r : SCReader) (pre s t : List Char)
    (h : SCRest (SCAdvance r pre) = s ++ t) :
    SliceText r.text ⟨some (SCAdvance r pre).current,
      some (SCAdvance (SCAdvance r pre) s).current⟩ = s := by
  have := SliceText_advance (SCAdvance r pre) s t h
  rwa [SCAdvance_text] at this

/-- What `SCReadArgument` does on a well-formed written argument followed by a comma or a
closing parenthesis. -/
theorem SCReadArgument_arg (r : SCReader) (out : SCObject) (a : ArgText) (t : List Char)
    (h : SCRest r = a.text ++ t) (hw : a.WellFormed)
    (ht : t.head? = some ',' ∨ t.head? = some ')') (hc : out.args_count < SC_MAX_ARGS) :
    ∃ k v, SCReadArgument r out =
        (SCAdvance r a.text,
          { out with keys := out.keys ++ [k], values := out.values ++ [v],
                     args_count := out.args_count + 1 }) ∧
      SliceText r.text k = a.key ∧ SliceText r.text v = a.value.content := by
  obtain ⟨ws1, key, ws2, ws3, value, ws4⟩ := a
  obtain ⟨h1, hk, hkn, h2, h3, hv, h4⟩ := hw
  simp only [ArgText.text] at h ⊢
  simp only at h1 hk hkn h2 h3 hv h4
  have ht_sp : t.head?.any isspace = false := by
    rcases ht with ht | ht <;> rw [ht] <;> decide
  have ht_dg : t.head?.any IsDigitChar = false := by
    rcases ht with ht | ht <;> rw [ht] <;> decide
  obtain ⟨kc, key', rfl⟩ := List.exists_cons_of_ne_nil hk
  replace h : SCRest r = ws1 ++ ((kc :: key') ++ (ws2 ++ ('=' :: (ws3 ++
      (value.text ++ (ws4 ++ t)))))) := by
    rw [h]; simp
  -- whitespace before the key
  have hA : SCConsumeWhitespace r = SCAdvance r ws1 :=
    SCConsumeWhitespace_eq r ws1 _ h h1
      (head_any_false_cons _ _ _ (name_not_isspace kc (hkn kc (List.mem_cons_self _ _))))
  have restA := SCRest_advance r ws1 _ h
  -- the key
  have hB : SCConsumeWhileFunc (SCAdvance r ws1) IsNameOrKeyChar
      = SCAdvance (SCAdvance r ws1) (kc :: key') :=
    SCConsumeWhileFunc_eq _ _ (kc :: key') _ restA hkn
      (head_any_false _ ws2 _ (fun c hc => isspace_not_name c (h2 c hc))
        (head_any_false_cons _ _ _ (by decide)))
  have restB := SCRest_advance _ (kc :: key') _ restA
  have hkey : SliceText r.text ⟨some (SCAdvance r ws1).current,
      some (SCAdvance (SCAdvance r ws1) (kc :: key')).current⟩ = kc :: key' :=
    SliceText_between r ws1 (kc :: key') _ restA
  have hne : ¬ (SCAdvance r ws1).current = (SCAdvance (SCAdvance r ws1) (kc :: key')).current := by
    rw [SCAdvance_current (SCAdvance r ws1)]
    simp
  -- whitespace, the equals sign, whitespace
  have hC : SCConsumeWhitespace (SCAdvance (SCAdvance r ws1) (kc :: key'))
      = SCAdvance (SCAdvance (SCAdvance r ws1) (kc :: key')) ws2 :=
    SCConsumeWhitespace_eq _ ws2 _ restB h2 (head_any_false_cons _ _ _ (by decide))
  have restC := SCRest_advance _ ws2 _ restB
  have hE := SCExpect_cons _ '=' _ "Expected = after param name" out restC
  have restD := SCRest_advance _ ['='] _ restC
  generalize hrD : SCAdvance (SCAdvance (SCAdvance (SCAdvance r ws1) (kc :: key')) ws2) ['=']
    = rD at hE restD
  have hpre : rD = SCAdvance r (ws1 ++ ((kc :: key') ++ (ws2 ++ ['=']))) := by
    rw [← hrD, SCAdvance_append, SCAdvance_append, SCAdvance_append]
  have htext : rD.text = r.text := by rw [hpre, SCAdvance_text]
  cases value with
  | str sv =>
    simp only [ArgValue.text, ArgValue.WellFormed, ArgValue.content] at restD hv ⊢
    have hF : SCConsumeWhitespace rD = SCAdvance rD ws3 :=
      SCConsumeWhitespace_eq _ ws3 _ restD h3 (head_any_false_cons _ _ _ (by decide))
    have restE := SCRest_advance _ ws3 _ restD
    have hlt : ¬ (SCAdvance rD ws3).current ≥ (SCAdvance rD ws3).text.length := by
      have := SCRest_cons_lt _ _ _ restE
      omega
    have hq : SCCurrentChar (SCAdvance rD ws3) = some '"' := by
      rw [SCCurrentChar_eq_head, restE]; rfl
    have hG := SCConsume_one_cons _ _ _ restE
    have restF := SCRest_advance _ ['"'] _ restE
    have hH : SCConsumeUntil (SCAdvance (SCAdvance rD ws3) ['"']) '"'
        = SCAdvance (SCAdvance (SCAdvance rD ws3) ['"']) sv :=
      SCConsumeUntil_eq '"' _ sv ('"' :: (ws4 ++ t)) (by simpa using restF) hv (Or.inr rfl)
    have restG := SCRest_advance _ sv _ (show SCRest (SCAdvance (SCAdvance rD ws3) ['"'])
      = sv ++ ('"' :: (ws4 ++ t)) by simpa using restF)
    have hI := SCExpect_cons _ '"' _ "Reached EOF without finding closing quote" out restG
    have restH := SCRest_advance _ ['"'] _ restG
    have hJ : SCConsumeWhitespace
        (SCAdvance (SCAdvance (SCAdvance (SCAdvance rD ws3) ['"']) sv) ['"'])
        = SCAdvance (SCAdvance (SCAdvance (SCAdvance (SCAdvance rD ws3) ['"']) sv) ['"']) ws4 :=
      SCConsumeWhitespace_eq _ ws4 _ restH h4 ht_sp
    have hval : SliceText r.text ⟨some (SCAdvance (SCAdvance rD ws3) ['"']).current,
        some (SCAdvance (SCAdvance (SCAdvance rD ws3) ['"']) sv).current⟩ = sv := by
      have := SliceText_advance (SCAdvance (SCAdvance rD ws3) ['"']) sv _
        (show SCRest (SCAdvance (SCAdvance rD ws3) ['"']) = sv ++ ('"' :: (ws4 ++ t)) by
          simpa using restF)
      rwa [SCAdvance_text, SCAdvance_text, htext] at this
    refine ⟨_, _, ?_, hkey, hval⟩
    unfold SCReadArgument
    simp only [hA, hB, hC, hE, hF, hG, hH, hI, hJ, hne, hlt, hq, not_le.mpr hc,
      Bool.true_eq_false, ↓reduceIte]
    congr 1
    rw [hpre]
    simp only [← SCAdvance_append]
    simp
  | num d =>
    simp only [ArgValue.text, ArgValue.WellFormed, ArgValue.content] at restD hv ⊢
    obtain ⟨hd, hdg⟩ := hv
    obtain ⟨dc, d', rfl⟩ := List.exists_cons_of_ne_nil hd
    have hdc := hdg dc (List.mem_cons_self _ _)
    have hF : SCConsumeWhitespace rD = SCAdvance rD ws3 :=
      SCConsumeWhitespace_eq _ ws3 _ restD h3
        (head_any_false_cons _ _ _ (digit_not_isspace dc hdc))
    have restE := SCRest_advance _ ws3 _ restD
    have hlt : ¬ (SCAdvance rD ws3).current ≥ (SCAdvance rD ws3).text.length := by
      have := SCRest_cons_lt _ _ _ (show SCRest (SCAdvance rD ws3)
        = dc :: (d' ++ (ws4 ++ t)) by simpa using restE)
      omega
    have hq : SCCurrentChar (SCAdvance rD ws3) = some dc := by
      rw [SCCurrentChar_eq_head, restE]; rfl
    have hnq : ¬ (some dc = some '"') := fun hh => digit_ne_quote dc hdc (Option.some.inj hh)
    have hG : SCConsumeWhileFunc (SCAdvance rD ws3) IsDigitChar
        = SCAdvance (SCAdvance rD ws3) (dc :: d') :=
      SCConsumeWhileFunc_eq _ _ (dc :: d') _ restE hdg
        (head_any_false _ ws4 _ (fun c hc => isspace_not_digit c (h4 c hc)) ht_dg)
    have restF := SCRest_advance _ (dc :: d') _ restE
    have hJ : SCConsumeWhitespace (SCAdvance (SCAdvance rD ws3) (dc :: d'))
        = SCAdvance (SCAdvance (SCAdvance rD ws3) (dc :: d')) ws4 :=
      SCConsumeWhitespace_eq _ ws4 _ restF h4 ht_sp
    have hval : SliceText r.text ⟨some (SCAdvance rD ws3).current,
        some (SCAdvance (SCAdvance rD ws3) (dc :: d')).current⟩ = dc :: d' := by
      have := SliceText_advance (SCAdvance rD ws3) (dc :: d') _ restE
      rwa [SCAdvance_text, htext] at this
    refine ⟨_, _, ?_, hkey, hval⟩
    unfold SCReadArgument
    simp only [hA, hB, hC, hE, hF, hG, hJ, hne, hlt, hq, hnq, hdc, not_le.mpr hc,
      Bool.true_eq_false, ↓reduceIte, Option.any_some]
    congr 1
    rw [hpre]
    simp only [← SCAdvance_append]
    simp

theorem ArgText_text_ne_nil (a : ArgText) : a.text ≠ [] := by
  unfold ArgText.text
  intro h
  have := congrArg List.length h
  simp at this

theorem SCRest_ne_nil_lt (r : SCReader) (h : SCRest r ≠ []) : r.current < r.text.length := by
  obtain ⟨c, t, hc⟩ := List.exists_cons_of_ne_nil h
  exact SCRest_cons_lt r c t hc

/-- What the loop of `SCReadArgumentList` does on a non-empty list of well-formed written
arguments closed by a parenthesis. -/
theorem SCReadArgumentListLoop_args (as : List ArgText) :
    ∀ (a : ArgText) (fuel : Nat) (r : SCReader) (out : SCObject) (t : List Char),
      SCRest r = ArgListText (a :: as) ++ ')' :: t → (∀ x ∈ a :: as, x.WellFormed) →
      out.args_count + (as.length + 1) ≤ SC_MAX_ARGS → as.length + 1 ≤ fuel →
      out.type ≠ SCObjectType.Error →
      ∃ ks vs, SCReadArgumentListLoop fuel r out =
          (false, SCAdvance r (ArgListText (a :: as)),
            { out with keys := out.keys ++ ks, values := out.values ++ vs,
                       args_count := out.args_count + (as.length + 1) }) ∧
        ks.map (SliceText r.text) = (a :: as).map (fun x => x.key) ∧
        vs.map (SliceText r.text) = (a :: as).map (fun x => x.value.content) := by
  induction as with
  | nil =>
    intro a fuel r out t h hw hc hf hty
    obtain ⟨n, rfl⟩ : ∃ n, fuel = n + 1 := ⟨fuel - 1, by omega⟩
    simp only [ArgListText] at h ⊢
    obtain ⟨k, v, hk, hkey, hval⟩ := SCReadArgument_arg r out a (')' :: t) h
      (hw a (List.mem_cons_self _ _)) (Or.inr rfl) (by simp at hc; omega)
    have hrest := SCRest_advance r a.text _ h
    refine ⟨[k], [v], ?_, by simp [hkey], by simp [hval]⟩
    rw [SCReadArgumentListLoop_succ, if_pos (SCRest_ne_nil_lt r (by rw [h]; simp)), hk]
    simp only []
    rw [if_neg hty, SCCurrentChar_eq_head, hrest]
    simp only [List.head?_cons]
    rw [if_neg (by decide)]
    rfl
  | cons b bs ih =>
    intro a fuel r out t h hw hc hf hty
    obtain ⟨n, rfl⟩ : ∃ n, fuel = n + 1 := ⟨fuel - 1, by omega⟩
    have h' : SCRest r = a.text ++ (',' :: (ArgListText (b :: bs) ++ ')' :: t)) := by
      rw [h]; simp [ArgListText]
    obtain ⟨k, v, hk, hkey, hval⟩ := SCReadArgument_arg r out a _ h'
      (hw a (List.mem_cons_self _ _)) (Or.inl rfl)
      (by simp only [List.length_cons] at hc; omega)
    have hrest := SCRest_advance r a.text _ h'
    have hcons := SCConsume_one_cons _ _ _ hrest
    have hrest2 := SCRest_advance _ [','] _ hrest
    obtain ⟨ks, vs, hl, hks, hvs⟩ := ih b n (SCAdvance (SCAdvance r a.text) [','])
      { out with keys := out.keys ++ [k], values := out.values ++ [v],
                 args_count := out.args_count + 1 } t hrest2
      (fun x hx => hw x (List.mem_cons_of_mem _ hx))
      (by simp only [List.length_cons] at hc ⊢; omega)
      (by simp only [List.length_cons] at hf ⊢; omega) hty
    refine ⟨k :: ks, v :: vs, ?_, ?_, ?_⟩
    · rw [SCReadArgumentListLoop_succ, if_pos (SCRest_ne_nil_lt r (by rw [h']; simp)), hk]
      simp only []
      rw [if_neg hty, SCCurrentChar_eq_head, hrest]
      simp only [List.head?_cons, ↓reduceIte]
      rw [hcons, hl, ← SCAdvance_append, ← SCAdvance_append]
      simp [ArgListText, Nat.add_assoc, Nat.add_comm 1]
    · rw [SCAdvance_text, SCAdvance_text] at hks
      simp [hkey, hks]
    · rw [SCAdvance_text, SCAdvance_text] at hvs
      simp [hval, hvs]

theorem ArgListText_length (as : List ArgText) : as.length ≤ (ArgListText as).length := by
  induction as with
  | nil => simp [ArgListText]
  | cons a as ih =>
    have ha : 0 < a.text.length := List.length_pos.mpr (ArgText_text_ne_nil a)
    cases as with
    | nil => simp [ArgListText]; omega
    | cons b bs =>
      simp only [ArgListText, List.length_append, List.length_cons] at ih ⊢
      omega

/-- What `SCReadArgumentList` does on a parenthesised non-empty list of well-formed written
arguments. -/
theorem SCReadArgumentList_args (r : SCReader) (out : SCObject) (a : ArgText)
    (as : List ArgText) (t : List Char)
    (h : SCRest r = '(' :: ArgListText (a :: as) ++ ')' :: t)
    (hw : ∀ x ∈ a :: as, x.WellFormed)
    (hc : out.args_count + (as.length + 1) ≤ SC_MAX_ARGS)
    (hty : out.type ≠ SCObjectType.Error) :
    ∃ ks vs, SCReadArgumentList r out =
        (SCAdvance r ('(' :: ArgListText (a :: as) ++ [')']),
          { out with keys := out.keys ++ ks, values := out.values ++ vs,
                     args_count := out.args_count + (as.length + 1) }) ∧
      ks.map (SliceText r.text) = (a :: as).map (fun x => x.key) ∧
      vs.map (SliceText r.text) = (a :: as).map (fun x => x.value.content) := by
  have h1 := SCRest_advance r ['('] _ (show SCRest r
    = ['('] ++ (ArgListText (a :: as) ++ ')' :: t) by simpa using h)
  have hfuel : as.length + 1 ≤ (SCAdvance r ['(']).text.length - (SCAdvance r ['(']).current := by
    rw [← SCRest_length, h1]
    have := ArgListText_length (a :: as)
    simp only [List.length_append, List.length_cons] at this ⊢
    omega
  obtain ⟨ks, vs, hl, hks, hvs⟩ := SCReadArgumentListLoop_args as a _ (SCAdvance r ['('])
    out t h1 hw hc hfuel hty
  have h2 := SCRest_advance _ (ArgListText (a :: as)) _ h1
  rw [SCAdvance_text] at hks hvs
  refine ⟨ks, vs, ?_, hks, hvs⟩
  unfold SCReadArgumentList
  simp only []
  rw [SCExpect_cons r '(' _ _ out (by simpa using h)]
  simp only [Bool.true_eq_false, ↓reduceIte, hl, Bool.false_eq_true]
  rw [SCExpect_cons _ ')' t _ _ h2, ← SCAdvance_append, ← SCAdvance_append]
  simp

/-- After a well-read argument list, a call that goes on with no brace or with a balanced
block keeps the name and the arguments in the object it returns. -/
theorem SCReadFunctionTail_after_args (r1 rA : SCReader) (out2 outA : SCObject)
    (hg : (SCRest r1).head? = some '(') (hargs : SCReadArgumentList r1 out2 = (rA, outA))
    (hty : outA.type ≠ SCObjectType.Error)
    (hblk : (SCRest rA).head? ≠ some '{' ∨
      ∃ b t, SCRest rA = '{' :: b ++ '}' :: t ∧ BracesBalanced b) :
    (SCReadFunctionTail r1 out2).2.type = outA.type ∧
      (SCReadFunctionTail r1 out2).2.function_name = outA.function_name ∧
      (SCReadFunctionTail r1 out2).2.keys = outA.keys ∧
      (SCReadFunctionTail r1 out2).2.values = outA.values ∧
      (SCReadFunctionTail r1 out2).2.args_count = outA.args_count := by
  have hg1 : r1.current < r1.text.length ∧ SCCurrentChar r1 = some '(' :=
    (SCCurrentChar_guard r1 '(').mpr hg
  unfold SCReadFunctionTail
  simp only [if_pos hg1, hargs, if_neg hty]
  rcases hblk with hb | ⟨b, t, hb, hbal⟩
  · have hg2 : ¬ (rA.current < rA.text.length ∧ SCCurrentChar rA = some '{') := by
      rw [SCCurrentChar_guard]; exact hb
    simp only [if_neg hg2, if_neg hty, and_self]
  · have hg2 : rA.current < rA.text.length ∧ SCCurrentChar rA = some '{' := by
      rw [SCCurrentChar_guard, hb]; rfl
    simp only [if_pos hg2, SCReadBlock_balanced rA outA b t hb hbal, if_neg hty, and_self]

/-- Whatever the block, `SCReadBlock` keeps the name and the arguments of the object, and
either keeps its type or leaves the error of the missing closing brace. -/
theorem SCReadBlock_fields (r : SCReader) (out : SCObject) (t : List Char)
    (h : SCRest r = '{' :: t) :
    (SCReadBlock r out).2.function_name = out.function_name ∧
      (SCReadBlock r out).2.keys = out.keys ∧
      (SCReadBlock r out).2.values = out.values ∧
      (SCReadBlock r out).2.args_count = out.args_count ∧
      ((SCReadBlock r out).2.type = out.type ∨
        ((SCReadBlock r out).2.type = SCObjectType.Error ∧
          (SCReadBlock r out).2.error_text = some "Closing brace of block is missing")) := by
  unfold SCReadBlock
  simp only []
  rw [SCExpect_cons r '{' t _ out h]
  simp only [Bool.true_eq_false, ↓reduceIte]
  split_ifs
  · unfold SCError
    simp only []
    split_ifs <;> simp
  · simp

/-- After a well-read argument list, the rest of the call keeps the name and the arguments
in the object that is returned, and either keeps its type or leaves the error of the
missing closing brace. -/
theorem SCReadFunctionTail_after_args_any (r1 rA : SCReader) (out2 outA : SCObject)
    (hg : (SCRest r1).head? = some '(') (hargs : SCReadArgumentList r1 out2 = (rA, outA))
    (hty : outA.type ≠ SCObjectType.Error) :
    (SCReadFunctionTail r1 out2).2.function_name = outA.function_name ∧
      (SCReadFunctionTail r1 out2).2.keys = outA.keys ∧
      (SCReadFunctionTail r1 out2).2.values = outA.values ∧
      (SCReadFunctionTail r1 out2).2.args_count = outA.args_count ∧
      ((SCReadFunctionTail r1 out2).2.type = outA.type ∨
        ((SCReadFunctionTail r1 out2).2.type = SCObjectType.Error ∧
          (SCReadFunctionTail r1 out2).2.error_text
            = some "Closing brace of block is missing")) := by
  have hg1 : r1.current < r1.text.length ∧ SCCurrentChar r1 = some '(' :=
    (SCCurrentChar_guard r1 '(').mpr hg
  unfold SCReadFunctionTail
  simp only [if_pos hg1, hargs, if_neg hty]
  by_cases hg2 : rA.current < rA.text.length ∧ SCCurrentChar rA = some '{'
  · simp only [if_pos hg2]
    obtain ⟨t, ht⟩ : ∃ t, SCRest rA = '{' :: t := by
      have := (SCCurrentChar_guard rA '{').mp hg2
      cases hr : SCRest rA with
      | nil => rw [hr] at this; cases this
      | cons c t =>
        rw [hr] at this
        simp only [List.head?_cons, Option.some.injEq] at this
        exact ⟨t, by rw [this]⟩
    have hf := SCReadBlock_fields rA outA t ht
    split_ifs with he
    · refine ⟨hf.1, hf.2.1, hf.2.2.1, hf.2.2.2.1, ?_⟩
      rcases hf.2.2.2.2 with h | h
      · rw [h] at he; exact absurd he hty
      · exact Or.inr h
    · refine ⟨hf.1, hf.2.1, hf.2.2.1, hf.2.2.2.1, ?_⟩
      rcases hf.2.2.2.2 with h | h
      · exact Or.inl h
      · exact absurd h.1 he
  · simp only [if_neg hg2, if_neg hty]
    simp

/-- After a well-read argument list that is not followed by a parenthesis, the rest of the
call is handled as in a call without argument list. -/
theorem SCReadFunctionTail_args_then (r1 rA : SCReader) (out2 outA : SCObject)
    (hg : (SCRest r1).head? = some '(') (hargs : SCReadArgumentList r1 out2 = (rA, outA))
    (hty : outA.type ≠ SCObjectType.Error) (hnp : (SCRest rA).head? ≠ some '(') :
    SCReadFunctionTail r1 out2 = SCReadFunctionTail rA outA := by
  have hg1 : r1.current < r1.text.length ∧ SCCurrentChar r1 = some '(' :=
    (SCCurrentChar_guard r1 '(').mpr hg
  have hg2 : ¬ (rA.current < rA.text.length ∧ SCCurrentChar rA = some '(') := by
    rw [SCCurrentChar_guard]; exact hnp
  unfold SCReadFunctionTail
  simp only [if_pos hg1, hargs, if_neg hty, if_neg hg2]

end SiteC

/-! ## Facts about the tag stack -/

namespace SiteC

theorem ReplayTags_append (ws ws' : List TagWrite) (st : List (List Char)) :
    ReplayTags (ws ++ ws') st = (ReplayTags ws st).bind (ReplayTags ws') := by
  induction ws generalizing st with
  | nil => rfl
  | cons w ws ih =>
    cases w with
    | opening t => exact ih _
    | closing t =>
      cases st with
      | nil => rfl
      | cons top below =>
        simp only [List.cons_append, ReplayTags]
        split_ifs
        · exact ih _
        · rfl

theorem ElementName_open_eq_close (t : HTMLTagType) :
    ElementName (g_html_tag_type_open_text t) = (g_html_tag_type_close_text t).toList := by
  cases t <;> decide

theorem TagStackInv_arena (s : HTMLTagStack) (a : Arena) (h : TagStackInv s) :
    TagStackInv { s with arena := a } := h

theorem TagStackInv_push (s s' : HTMLTagStack) (t : HTMLTagType) (ht : t ≠ HTMLTagType.TOS)
    (h : TagStackInv s) (hp : HTMLPushTag s t = some s') : TagStackInv s' := by
  obtain ⟨body, hs, hn, hr⟩ := h
  unfold HTMLPushTag at hp
  by_cases hd : s.tag_pos + 1 < SC_HTML_MAX_TAG_DEPTH
  · rw [if_pos hd] at hp
    cases hp
    refine ⟨t :: body, by simp [hs], ?_, ?_⟩
    · simp only [List.mem_cons, not_or]
      exact ⟨fun h => ht h.symm, hn⟩
    · simp only [ReplayTags_append, hr, Option.some_bind, ReplayTags, List.map_cons]
  · rw [if_neg hd] at hp
    cases hp

theorem TagStackInv_pop (s s' : HTMLTagStack) (h : TagStackInv s)
    (hp : HTMLPopTag s = some s') : TagStackInv s' := by
  obtain ⟨body, hs, hn, hr⟩ := h
  unfold HTMLPopTag at hp
  cases body with
  | nil => rw [hs] at hp; simp at hp
  | cons t body =>
    rw [hs] at hp
    cases body with
    | nil =>
      simp only [List.cons_append, List.nil_append, Option.some.injEq] at hp
      subst hp
      refine ⟨[], rfl, by simp, ?_⟩
      simp only [ReplayTags_append, hr, Option.some_bind, ReplayTags, List.map_cons,
        List.map_nil, ElementName_open_eq_close, if_true]
    | cons t2 body =>
      simp only [List.cons_append, Option.some.injEq] at hp
      subst hp
      refine ⟨t2 :: body, rfl, fun hm => hn (List.mem_cons_of_mem _ hm), ?_⟩
      simp only [ReplayTags_append, hr, Option.some_bind, ReplayTags, List.map_cons,
        ElementName_open_eq_close, if_true]

theorem TagStackInv_riseLoop (fuel : Nat) (s s' : HTMLTagStack) (h : TagStackInv s)
    (hp : HTMLRiseToLowestSectionLoop fuel s = some s') : TagStackInv s' := by
  induction fuel generalizing s with
  | zero => cases hp
  | succ n ih =>
    unfold HTMLRiseToLowestSectionLoop at hp
    split_ifs at hp
    · obtain ⟨s1, h1, h2⟩ := Option.bind_eq_some.mp hp
      exact ih s1 (TagStackInv_pop s s1 h h1) h2
    · cases hp; exact h

theorem TagStackInv_rise (s s' : HTMLTagStack) (h : TagStackInv s)
    (hp : HTMLRiseToLowestSection s = some s') : TagStackInv s' :=
  TagStackInv_riseLoop _ s s' h hp

theorem TagStackInv_openTag (s s' : HTMLTagStack) (t : HTMLTagType)
    (ht : t ≠ HTMLTagType.TOS) (h : TagStackInv s) (hp : HTMLOpenTag s t = some s') :
    TagStackInv s' := by
  unfold HTMLOpenTag at hp
  obtain ⟨s1, h1, h2⟩ := Option.bind_eq_some.mp hp
  exact TagStackInv_push s1 s' t ht (TagStackInv_rise s s1 h h1) h2

theorem TagStackInv_openSectionRise (level : Int) (fuel : Nat) (s s' : HTMLTagStack)
    (h : TagStackInv s) (hp : HTMLOpenSectionRise level fuel s = some s') :
    TagStackInv s' := by
  induction fuel generalizing s with
  | zero => cases hp
  | succ n ih =>
    unfold HTMLOpenSectionRise at hp
    split_ifs at hp
    · obtain ⟨s1, h1, h2⟩ := Option.bind_eq_some.mp hp
      exact ih s1 (TagStackInv_pop s s1 h h1) h2
    · cases hp; exact h

theorem TagStackInv_openSectionMake (level : Int) (fuel : Nat) (s s' : HTMLTagStack)
    (h : TagStackInv s) (hp : HTMLOpenSectionMake level fuel s = some s') :
    TagStackInv s' := by
  induction fuel generalizing s with
  | zero => cases hp
  | succ n ih =>
    unfold HTMLOpenSectionMake at hp
    split_ifs at hp
    · obtain ⟨s1, h1, h2⟩ := Option.bind_eq_some.mp hp
      exact ih s1 (TagStackInv_push s s1 _ (by decide) h h1) h2
    · cases hp; exact h

theorem TagStackInv_openSection (s s' : HTMLTagStack) (level : Int) (heading : List Char)
    (h : TagStackInv s) (hp : HTMLOpenSection s level heading = some s') :
    TagStackInv s' := by
  unfold HTMLOpenSection at hp
  obtain ⟨s1, h1, hp⟩ := Option.bind_eq_some.mp hp
  obtain ⟨s2, h2, hp⟩ := Option.bind_eq_some.mp hp
  cases hp
  exact TagStackInv_arena _ _
    (TagStackInv_openSectionMake _ _ s1 s2 (TagStackInv_openSectionRise _ _ s s1 h h1) h2)

theorem TagStackInv_popIf (c : Prop) [Decidable c] (s s' : HTMLTagStack) (h : TagStackInv s)
    (hp : (if c then HTMLPopTag s else some s) = some s') : TagStackInv s' := by
  split_ifs at hp
  · exact TagStackInv_pop s s' h hp
  · cases hp; exact h

theorem TagStackInv_pushIf (c : Prop) [Decidable c] (s s' : HTMLTagStack) (t : HTMLTagType)
    (ht : t ≠ HTMLTagType.TOS) (h : TagStackInv s)
    (hp : (if c then HTMLPushTag s t else some s) = some s') : TagStackInv s' := by
  split_ifs at hp
  · exact TagStackInv_push s s' t ht h hp
  · cases hp; exact h

theorem StepInv_ret0 (m : List Char) : StepInv (some (SCToHTMLStep.ret0 m)) := by
  intro tags h
  cases h

theorem StepInv_check (obj : SCObject) (name : String) :
    StepInv (some (R_CheckSCObjectHasBlock obj name)) :=
  StepInv_ret0 _

theorem StepInv_next (s : HTMLTagStack) (h : TagStackInv s) :
    StepInv (some (SCToHTMLStep.next s)) := by
  intro tags hp
  cases hp
  exact h

theorem StepInv_map (o : Option HTMLTagStack) (h : OptInv o) :
    StepInv (o.map SCToHTMLStep.next) := by
  intro tags hp
  obtain ⟨s, hs, he⟩ := Option.map_eq_some'.mp hp
  cases he
  exact h _ hs

theorem StepInv_bind (o : Option HTMLTagStack) (f : HTMLTagStack → Option SCToHTMLStep)
    (h : OptInv o) (hf : ∀ s, TagStackInv s → StepInv (f s)) : StepInv (o.bind f) := by
  intro tags hp
  obtain ⟨s, hs, he⟩ := Option.bind_eq_some.mp hp
  exact hf s (h s hs) tags he

theorem StepInv_ite (c : Prop) [Decidable c] (a b : Option SCToHTMLStep) (ha : StepInv a)
    (hb : StepInv b) : StepInv (if c then a else b) := by
  split_ifs
  · exact ha
  · exact hb

theorem OptInv_some (s : HTMLTagStack) (h : TagStackInv s) : OptInv (some s) := by
  intro s' hp
  cases hp
  exact h

theorem OptInv_ite (c : Prop) [Decidable c] (a b : Option HTMLTagStack) (ha : OptInv a)
    (hb : OptInv b) : OptInv (if c then a else b) := by
  split_ifs
  · exact ha
  · exact hb

theorem OptInv_bind (o : Option HTMLTagStack) (f : HTMLTagStack → Option HTMLTagStack)
    (h : OptInv o) (hf : ∀ s, TagStackInv s → OptInv (f s)) : OptInv (o.bind f) := by
  intro s' hp
  obtain ⟨s, hs, he⟩ := Option.bind_eq_some.mp hp
  exact hf s (h s hs) s' he

theorem OptInv_push (s : HTMLTagStack) (t : HTMLTagType) (ht : t ≠ HTMLTagType.TOS)
    (h : TagStackInv s) : OptInv (HTMLPushTag s t) :=
  fun s' hp => TagStackInv_push s s' t ht h hp

theorem OptInv_pop (s : HTMLTagStack) (h : TagStackInv s) : OptInv (HTMLPopTag s) :=
  fun s' hp => TagStackInv_pop s s' h hp

theorem OptInv_rise (s : HTMLTagStack) (h : TagStackInv s) :
    OptInv (HTMLRiseToLowestSection s) :=
  fun s' hp => TagStackInv_rise s s' h hp

theorem OptInv_openTag (s : HTMLTagStack) (t : HTMLTagType) (ht : t ≠ HTMLTagType.TOS)
    (h : TagStackInv s) : OptInv (HTMLOpenTag s t) :=
  fun s' hp => TagStackInv_openTag s s' t ht h hp

theorem OptInv_openSection (s : HTMLTagStack) (level : Int) (heading : List Char)
    (h : TagStackInv s) : OptInv (HTMLOpenSection s level heading) :=
  fun s' hp => TagStackInv_openSection s s' level heading h hp

/-- The handling of a function object keeps the invariant of the tag stack. -/
theorem StepInv_func (sc : List Char) (tags : HTMLTagStack) (obj : SCObject)
    (h : TagStackInv tags) : StepInv (SCToHTMLFunc sc tags obj) := by
  unfold SCToHTMLFunc
  simp only []
  -- section, subsection
  refine StepInv_ite _ _ _ (StepInv_ite _ _ _ (StepInv_ret0 _)
    (StepInv_map _ (OptInv_openSection _ _ _ h))) ?_
  refine StepInv_ite _ _ _ (StepInv_ite _ _ _ (StepInv_ret0 _)
    (StepInv_map _ (OptInv_openSection _ _ _ h))) ?_
  -- paragraph and the three lists
  refine StepInv_ite _ _ _ (StepInv_map _ (OptInv_openTag _ _ (by decide) h)) ?_
  refine StepInv_ite _ _ _ (StepInv_map _ (OptInv_openTag _ _ (by decide) h)) ?_
  refine StepInv_ite _ _ _ (StepInv_map _ (OptInv_openTag _ _ (by decide) h)) ?_
  refine StepInv_ite _ _ _ (StepInv_map _ (OptInv_openTag _ _ (by decide) h)) ?_
  -- table
  refine StepInv_ite _ _ _ (StepInv_bind _ _ (OptInv_openTag _ _ (by decide) h)
    (fun s hs => StepInv_bind _ _ (OptInv_push _ _ (by decide) hs)
      (fun s2 hs2 => StepInv_ite _ _ _ (StepInv_next _ (TagStackInv_arena _ _ hs2))
        (StepInv_next _ hs2)))) ?_
  -- item
  refine StepInv_ite _ _ _ (StepInv_bind _ _
    (OptInv_ite _ _ _ (OptInv_pop _ h) (OptInv_some _ h))
    (fun s hs => StepInv_ite _ _ _ (StepInv_ret0 _)
      (StepInv_ite _ _ _ (StepInv_map _ (OptInv_push _ _ (by decide) hs))
        (StepInv_map _ (OptInv_push _ _ (by decide) hs))))) ?_
  -- hitem
  refine StepInv_ite _ _ _ (StepInv_bind _ _
    (OptInv_ite _ _ _ (OptInv_pop _ h) (OptInv_some _ h))
    (fun s hs => StepInv_ite _ _ _ (StepInv_ret0 _)
      (StepInv_map _ (OptInv_push _ _ (by decide) hs)))) ?_
  -- row
  refine StepInv_ite _ _ _ (StepInv_bind _ _
    (OptInv_ite _ _ _ (OptInv_pop _ h) (OptInv_some _ h))
    (fun s hs => StepInv_bind _ _ (OptInv_ite _ _ _ (OptInv_pop _ hs) (OptInv_some _ hs))
      (fun s2 hs2 => StepInv_ite _ _ _ (StepInv_ret0 _)
        (StepInv_map _ (OptInv_push _ _ (by decide) hs2))))) ?_
  -- html, code, quote
  refine StepInv_ite _ _ _ (StepInv_ite _ _ _ (StepInv_ret0 _)
    (StepInv_bind _ _ (OptInv_rise _ h)
      (fun s hs => StepInv_next _ (TagStackInv_arena _ _ hs)))) ?_
  refine StepInv_ite _ _ _ (StepInv_ite _ _ _ (StepInv_ret0 _)
    (StepInv_bind _ _ (OptInv_rise _ h)
      (fun s hs => StepInv_next _ (TagStackInv_arena _ _ hs)))) ?_
  refine StepInv_ite _ _ _ (StepInv_ite _ _ _ (StepInv_ret0 _)
    (StepInv_bind _ _ (OptInv_rise _ h)
      (fun s hs => StepInv_next _ (TagStackInv_arena _ _ hs)))) ?_
  -- bold, italic, inline
  refine StepInv_ite _ _ _ (StepInv_ite _ _ _ (StepInv_ret0 _)
    (StepInv_next _ (TagStackInv_arena _ _ h))) ?_
  refine StepInv_ite _ _ _ (StepInv_ite _ _ _ (StepInv_ret0 _)
    (StepInv_next _ (TagStackInv_arena _ _ h))) ?_
  refine StepInv_ite _ _ _ (StepInv_ite _ _ _ (StepInv_ret0 _)
    (StepInv_next _ (TagStackInv_arena _ _ h))) ?_
  -- link
  refine StepInv_ite _ _ _ (StepInv_ite _ _ _ (StepInv_ret0 _)
    (StepInv_ite _ _ _ (StepInv_ret0 _) (StepInv_next _ (TagStackInv_arena _ _ h)))) ?_
  -- image
  refine StepInv_ite _ _ _ (StepInv_bind _ _ (OptInv_rise _ h)
    (fun s hs => StepInv_ite _ _ _ (StepInv_ret0 _)
      (StepInv_next _ (TagStackInv_arena _ _ hs)))) ?_
  -- info
  refine StepInv_ite _ _ _ (StepInv_bind _ _ (OptInv_rise _ h)
    (fun s hs => StepInv_ite _ _ _ (StepInv_ret0 _)
      (StepInv_next _ (TagStackInv_arena _ _ hs)))) ?_
  exact StepInv_ret0 _

/-- The handling of one object keeps the invariant of the tag stack. -/
theorem StepInv_object (sc : List Char) (tags : HTMLTagStack) (obj : SCObject)
    (h : TagStackInv tags) : StepInv (SCToHTMLObject sc tags obj) := by
  unfold SCToHTMLObject
  split
  · exact StepInv_ret0 _
  · exact StepInv_next _ h
  · simp only []
    apply StepInv_bind
    · apply OptInv_ite
      · exact OptInv_push _ _ (by decide) h
      · exact OptInv_some _ h
    · intro s hs
      exact StepInv_next _ (TagStackInv_arena _ _ hs)
  · apply StepInv_bind
    · apply OptInv_ite
      · exact OptInv_push _ _ (by decide) h
      · exact OptInv_some _ h
    · intro s hs
      exact StepInv_next _ (TagStackInv_arena _ _ hs)
  · exact StepInv_func sc tags obj h

theorem HTMLPopAll_nested (fuel : Nat) (s s' : HTMLTagStack) (h : TagStackInv s)
    (hp : HTMLPopAll fuel s = some s') : ProperlyNested s'.tag_writes := by
  induction fuel generalizing s with
  | zero => cases hp
  | succ n ih =>
    unfold HTMLPopAll at hp
    split_ifs at hp with htop
    · obtain ⟨s1, h1, h2⟩ := Option.bind_eq_some.mp hp
      exact ih s1 (TagStackInv_pop s s1 h h1) h2
    · rw [← Option.some.inj hp]
      obtain ⟨body, hs, hn, hr⟩ := h
      cases body with
      | nil => exact hr
      | cons t body =>
        exfalso
        apply hn
        have : HTMLTop s = t := by
          unfold HTMLTop; rw [hs]; rfl
        rw [this] at htop
        simp only [ne_eq, not_not] at htop
        rw [htop]
        exact List.mem_cons_self _ _

theorem SCToHTMLLoop_nested (sc : List Char) (fuel : Nat) (r : SCReader)
    (tags tags' : HTMLTagStack) (h : TagStackInv tags)
    (hp : SCToHTMLLoop sc fuel r tags = some (SCToHTMLStep.next tags')) :
    ProperlyNested tags'.tag_writes := by
  induction fuel generalizing r tags with
  | zero => cases hp
  | succ n ih =>
    unfold SCToHTMLLoop at hp
    simp only [] at hp
    obtain ⟨step, hstep, hp⟩ := Option.bind_eq_some.mp hp
    cases step with
    | ret0 m => cases hp
    | next t1 =>
      have h1 := StepInv_object sc tags _ h t1 hstep
      simp only [] at hp
      split_ifs at hp
      · exact ih _ t1 h1 hp
      · obtain ⟨s, hs, he⟩ := Option.map_eq_some'.mp hp
        cases he
        exact HTMLPopAll_nested _ t1 _ h1 hs

theorem TagStackInv_init (a : Arena) : TagStackInv (InitHTMLTagStack a) :=
  ⟨[], rfl, by simp, rfl⟩

/-! ### The fuel of the tag-stack loops is enough -/

theorem HTMLPopTag_length (s s' : HTMLTagStack) (h : HTMLPopTag s = some s') :
    s'.stack.length + 1 = s.stack.length := by
  unfold HTMLPopTag at h
  split at h
  · rename_i tag below rest hs
    cases h
    rw [hs]
    rfl
  · cases h

theorem HTMLPushTag_length (s s' : HTMLTagStack) (t : HTMLTagType)
    (h : HTMLPushTag s t = some s') :
    s'.stack.length = s.stack.length + 1 ∧ s.stack.length < SC_HTML_MAX_TAG_DEPTH := by
  unfold HTMLPushTag at h
  by_cases hd : s.tag_pos + 1 < SC_HTML_MAX_TAG_DEPTH
  · rw [if_pos hd] at h
    cases h
    refine ⟨rfl, ?_⟩
    unfold HTMLTagStack.tag_pos at hd
    omega
  · rw [if_neg hd] at h
    cases h

/-- With more fuel than stack entries, one more unit does not change what the loop of
`HTMLRiseToLowestSection` returns: it ends by its own condition or by the assertion. -/
theorem HTMLRiseToLowestSectionLoop_fuel (fuel : Nat) (s : HTMLTagStack)
    (h : s.stack.length < fuel) :
    HTMLRiseToLowestSectionLoop (fuel + 1) s = HTMLRiseToLowestSectionLoop fuel s := by
  induction fuel generalizing s with
  | zero => omega
  | succ n ih =>
    rw [HTMLRiseToLowestSectionLoop, HTMLRiseToLowestSectionLoop.eq_def n.succ]
    simp only []
    split_ifs
    · cases hp : HTMLPopTag s with
      | none => rfl
      | some s1 =>
        have := HTMLPopTag_length s s1 hp
        exact ih s1 (by omega)
    · rfl

/-- The same for the first loop of `HTMLOpenSection`. -/
theorem HTMLOpenSectionRise_fuel (level : Int) (fuel : Nat) (s : HTMLTagStack)
    (h : s.stack.length < fuel) :
    HTMLOpenSectionRise level (fuel + 1) s = HTMLOpenSectionRise level fuel s := by
  induction fuel generalizing s with
  | zero => omega
  | succ n ih =>
    rw [HTMLOpenSectionRise, HTMLOpenSectionRise.eq_def level n.succ]
    simp only []
    split_ifs
    · cases hp : HTMLPopTag s with
      | none => rfl
      | some s1 =>
        have := HTMLPopTag_length s s1 hp
        exact ih s1 (by omega)
    · rfl

/-- The same for the second loop of `HTMLOpenSection`, which a full stack ends. -/
theorem HTMLOpenSectionMake_fuel (level : Int) (fuel : Nat) (s : HTMLTagStack)
    (h : SC_HTML_MAX_TAG_DEPTH - s.stack.length < fuel) :
    HTMLOpenSectionMake level (fuel + 1) s = HTMLOpenSectionMake level fuel s := by
  induction fuel generalizing s with
  | zero => omega
  | succ n ih =>
    rw [HTMLOpenSectionMake, HTMLOpenSectionMake.eq_def level n.succ]
    simp only []
    split_ifs
    · cases hp : HTMLPushTag s HTMLTagType.Section with
      | none => rfl
      | some s1 =>
        have := HTMLPushTag_length s s1 _ hp
        exact ih s1 (by omega)
    · rfl

/-- The same for the loop that closes the tags left open at the end of `SCToHTML`. -/
theorem HTMLPopAll_fuel (fuel : Nat) (s : HTMLTagStack) (h : s.stack.length < fuel) :
    HTMLPopAll (fuel + 1) s = HTMLPopAll fuel s := by
  induction fuel generalizing s with
  | zero => omega
  | succ n ih =>
    rw [HTMLPopAll, HTMLPopAll.eq_def n.succ]
    simp only []
    split_ifs
    · cases hp : HTMLPopTag s with
      | none => rfl
      | some s1 =>
        have := HTMLPopTag_length s s1 hp
        exact ih s1 (by omega)
    · rfl

end SiteC

/-! ## Facts about the commands -/

namespace SiteC

theorem SliceEqCStr_of_text (sc : List Char) (a : Slice) (b : String) (t : List Char)
    (h : SliceText sc a = t) : SliceEqCStr sc a b = (t == b.toList) := by
  unfold SliceEqCStr
  rw [h]

theorem SCMakeErrorString_contains (obj : SCObject) (m : String) :
    m.toList <:+: SCMakeErrorString obj (some m) := by
  unfold SCMakeErrorString
  simp only [ArenaPushCStr, String.toList, String.data_append, List.nil_append]
  refine ⟨"Error while reading SC file: ".data ++ obj.file_name.data ++ "\nPath was: ".data ++
    obj.path.data ++ "\nError: ".data, "\n".data ++
    ("Starting location: line ".data ++ (PrintfInt obj.line_no).data ++ ", col ".data ++
      (PrintfInt obj.column_no).data ++ "\n".data) ++
    ("Ending location:   line ".data ++ (PrintfInt obj.end_line_no).data ++ ", col ".data ++
      (PrintfInt obj.end_column_no).data ++ "\n".data), ?_⟩
  simp only [List.append_assoc]

theorem FailsWith_error (obj : SCObject) (m : String) :
    FailsWith (some (SCToHTMLStep.ret0 (SCMakeErrorString obj (some m)))) m :=
  ⟨_, rfl, SCMakeErrorString_contains obj m⟩

theorem HTMLWriteArguments_no_url (sc : List Char) (obj : SCObject) (attr : String)
    (is : List Nat) (a : Arena)
    (h : ∀ i ∈ is, SliceText sc (obj.keys.getD i NullSlice) ≠ "url".toList) :
    (HTMLWriteArguments sc obj attr is (false, a)).1 = false := by
  induction is generalizing a with
  | nil => rfl
  | cons i is ih =>
    have hi : SliceEqCStr sc (obj.keys.getD i NullSlice) "url" = false := by
      unfold SliceEqCStr
      simpa using h i (List.mem_cons_self _ _)
    unfold HTMLWriteArguments
    simp only [hi, Bool.false_eq_true, if_false]
    exact ih _ (fun j hj => h j (List.mem_cons_of_mem _ hj))

theorem HTMLRiseToLowestSectionLoop_some (l : List HTMLTagType) :
    ∀ (s : HTMLTagStack) (fuel : Nat), s.stack = l → l.length < fuel →
      (HTMLTagType.Article ∈ l ∨ HTMLTagType.Section ∈ l) →
      ∃ s', HTMLRiseToLowestSectionLoop fuel s = some s' := by
  induction l with
  | nil => intro s fuel _ _ h; simp at h
  | cons t l ih =>
    intro s fuel hs hf h
    obtain ⟨n, rfl⟩ : ∃ n, fuel = n + 1 := ⟨fuel - 1, by simp at hf; omega⟩
    unfold HTMLRiseToLowestSectionLoop
    have htop : HTMLTop s = t := by unfold HTMLTop; rw [hs]; rfl
    rw [htop]
    by_cases hc : t ≠ HTMLTagType.Section ∧ t ≠ HTMLTagType.Article
    · rw [if_pos hc]
      have hl : HTMLTagType.Article ∈ l ∨ HTMLTagType.Section ∈ l := by
        rcases h with h | h
        · rcases List.mem_cons.mp h with h | h
          · exact absurd h.symm hc.2
          · exact Or.inl h
        · rcases List.mem_cons.mp h with h | h
          · exact absurd h.symm hc.1
          · exact Or.inr h
      cases l with
      | nil => simp at hl
      | cons t2 l2 =>
        have hpop : HTMLPopTag s = some
            { stack := t2 :: l2,
              section_depth :=
                if t = HTMLTagType.Article ∨ t = HTMLTagType.Section then s.section_depth - 1
                else s.section_depth,
              arena := ArenaPushCStr s.arena ("</" ++ g_html_tag_type_close_text t ++ ">\n"),
              tag_writes := s.tag_writes ++ [TagWrite.closing t] } := by
          unfold HTMLPopTag
          rw [hs]
        rw [hpop, Option.some_bind]
        exact ih _ n rfl (by simp at hf ⊢; omega) hl
    · rw [if_neg hc]
      exact ⟨s, rfl⟩

theorem HTMLRiseToLowestSection_some (s : HTMLTagStack)
    (h : HTMLTagType.Article ∈ s.stack ∨ HTMLTagType.Section ∈ s.stack) :
    ∃ s', HTMLRiseToLowestSection s = some s' :=
  HTMLRiseToLowestSectionLoop_some s.stack s _ rfl (Nat.lt_succ_self _) h

theorem SCToHTMLFunc_item (sc : List Char) (tags : HTMLTagStack) (obj : SCObject)
    (hname : SliceText sc obj.function_name = "item".toList) :
    SCToHTMLFunc sc tags obj = ItemCommandSpec tags obj := by
  unfold SCToHTMLFunc
  simp only []
  repeat rw [if_neg (by rw [SliceEqCStr_of_text _ _ _ _ hname]; decide)]
  rw [if_pos (by rw [SliceEqCStr_of_text _ _ _ _ hname]; decide)]
  unfold ItemCommandSpec
  congr 1
  funext tags1
  generalize HTMLTop tags1 = top
  cases top <;> simp

theorem SCToHTMLFunc_link (sc : List Char) (tags : HTMLTagStack) (obj : SCObject)
    (hname : SliceText sc obj.function_name = "link".toList) :
    SCToHTMLFunc sc tags obj =
      if !obj.has_block then some (R_CheckSCObjectHasBlock obj "link")
      else
        if !(HTMLWriteArguments sc obj "href" (List.range obj.args_count)
            (false, ArenaPushCStr tags.arena "<a")).1 then
          some (SCToHTMLStep.ret0 (SCMakeErrorString obj
            (some "Missing required url parameter in link")))
        else
          some (SCToHTMLStep.next { tags with
            arena := ArenaPushCStr (HTMLWriteEscapedText (SliceText sc obj.block)
              (ArenaPushCStr (HTMLWriteArguments sc obj "href" (List.range obj.args_count)
                (false, ArenaPushCStr tags.arena "<a")).2 ">")) "</a>" }) := by
  unfold SCToHTMLFunc
  simp only []
  repeat rw [if_neg (by rw [SliceEqCStr_of_text _ _ _ _ hname]; decide)]
  rw [if_pos (by rw [SliceEqCStr_of_text _ _ _ _ hname]; decide)]

theorem SCToHTMLFunc_image (sc : List Char) (tags : HTMLTagStack) (obj : SCObject)
    (hname : SliceText sc obj.function_name = "image".toList) :
    SCToHTMLFunc sc tags obj =
      (HTMLRiseToLowestSection tags).bind fun tags =>
        if !(HTMLWriteArguments sc obj "src" (List.range obj.args_count)
            (false, ArenaPushCStr tags.arena "<img")).1 then
          some (SCToHTMLStep.ret0 (SCMakeErrorString obj
            (some "Missing required url parameter in image")))
        else
          some (SCToHTMLStep.next { tags with
            arena := ArenaPushCStr (HTMLWriteArguments sc obj "src"
              (List.range obj.args_count) (false, ArenaPushCStr tags.arena "<img")).2 ">\n" }) := by
  unfold SCToHTMLFunc
  simp only []
  repeat rw [if_neg (by rw [SliceEqCStr_of_text _ _ _ _ hname]; decide)]
  rw [if_pos (by rw [SliceEqCStr_of_text _ _ _ _ hname]; decide)]

theorem SCToHTMLFunc_bold (sc : List Char) (tags : HTMLTagStack) (obj : SCObject)
    (hname : SliceText sc obj.function_name = "bold".toList) :
    SCToHTMLFunc sc tags obj =
      if !obj.has_block then some (R_CheckSCObjectHasBlock obj "bold")
      else some (SCToHTMLStep.next
        { tags with arena := HTMLWriteInTag (SliceText sc obj.block) "b" tags.arena }) := by
  unfold SCToHTMLFunc
  simp only []
  repeat rw [if_neg (by rw [SliceEqCStr_of_text _ _ _ _ hname]; decide)]
  rw [if_pos (by rw [SliceEqCStr_of_text _ _ _ _ hname]; decide)]

theorem HTMLWriteEscapedText_eq (s : List Char) (arena : Arena) :
    HTMLWriteEscapedText s arena = ⟨arena.text ++ EscapeText s⟩ := by
  induction s generalizing arena with
  | nil => simp [HTMLWriteEscapedText, EscapeText]
  | cons c s ih =>
    unfold HTMLWriteEscapedText
    simp only []
    rw [ih]
    simp only [EscapeText, EscapeChar]
    split_ifs <;> simp [ArenaPushCStr, ArenaPushChar]

theorem HTMLWriteInTag_eq (text : List Char) (tag : String) (arena : Arena) :
    HTMLWriteInTag text tag arena =
      ⟨arena.text ++ (("<" ++ tag ++ ">\n").toList ++ (EscapeText text ++
        ("</" ++ tag ++ ">\n").toList))⟩ := by
  unfold HTMLWriteInTag
  simp only [HTMLWriteEscapedText_eq, ArenaPushCStr, List.append_assoc]

theorem SCToHTMLLoop_succ (sc : List Char) (fuel : Nat) (reader : SCReader)
    (tags : HTMLTagStack) :
    SCToHTMLLoop sc (fuel + 1) reader tags =
      (SCToHTMLObject sc tags (SCRead reader).2).bind fun step =>
        match step with
        | SCToHTMLStep.ret0 out_slice => some (SCToHTMLStep.ret0 out_slice)
        | SCToHTMLStep.next tags =>
          if (SCRead reader).2.type ≠ SCObjectType.End ∧
              (SCRead reader).2.type ≠ SCObjectType.Error then
            SCToHTMLLoop sc fuel (SCRead reader).1 tags
          else
            (HTMLPopAll (tags.stack.length + 1) tags).map SCToHTMLStep.next := rfl

/-- One turn of the loop of `SCToHTML` on a reader placed before a run of text. -/
theorem SCToHTMLLoop_text (sc : List Char) (fuel : Nat) (r : SCReader) (tags : HTMLTagStack)
    (s t : List Char) (he : r.error = none) (htext : r.text = sc) (h : SCRest r = s ++ t)
    (hs : s ≠ []) (hbs : '\\' ∉ s) (ht : t = [] ∨ t.head? = some '\\') :
    SCToHTMLLoop sc (fuel + 1) r tags =
      (if (HTMLTop tags = HTMLTagType.Article ∨ HTMLTop tags = HTMLTagType.Section) ∧
          IsAllWhitespace s = false then HTMLPushTag tags HTMLTagType.Paragraph
        else some tags).bind fun tags1 =>
        SCToHTMLLoop sc fuel (SCAdvance r s)
          { tags1 with arena := ⟨tags1.arena.text ++ EscapeText s⟩ } := by
  have hslice : SliceText sc ⟨some r.current, some (r.current + s.length)⟩ = s := by
    have := SliceText_advance r s t h
    rwa [SCAdvance_current, htext] at this
  rw [SCToHTMLLoop_succ, SCRead_text r s t he h hs hbs ht]
  unfold SCToHTMLObject
  simp only [hslice, HTMLWriteEscapedText_eq]
  cases (if (HTMLTop tags = HTMLTagType.Article ∨ HTMLTop tags = HTMLTagType.Section) ∧
      IsAllWhitespace s = false then HTMLPushTag tags HTMLTagType.Paragraph
    else some tags) with
  | none => rfl
  | some tags1 => simp

/-- The last turn of the loop of `SCToHTML`, on a reader at the end of the input. -/
theorem SCToHTMLLoop_end (sc : List Char) (fuel : Nat) (r : SCReader) (tags : HTMLTagStack)
    (he : r.error = none) (h : r.current = r.text.length) :
    SCToHTMLLoop sc (fuel + 1) r tags =
      (HTMLPopAll (tags.stack.length + 1) tags).map SCToHTMLStep.next := by
  rw [SCToHTMLLoop_succ, SCRead_end r he h]
  unfold SCToHTMLObject
  simp

/-- One turn of the loop of `SCToHTML` on a reader placed before a call `\bold{b}`. -/
theorem SCToHTMLLoop_bold (sc : List Char) (fuel : Nat) (r : SCReader) (tags : HTMLTagStack)
    (b rest : List Char) (he : r.error = none) (htext : r.text = sc)
    (h : SCRest r = BlockCall "bold".toList b rest) (hb : BracesBalanced b) :
    SCToHTMLLoop sc (fuel + 1) r tags =
      SCToHTMLLoop sc fuel (SCAdvance r ('\\' :: "bold".toList ++ '{' :: b ++ ['}']))
        { tags with arena := ⟨tags.arena.text ++ ("<b>\n".toList ++ (EscapeText b ++
          "</b>\n".toList))⟩ } := by
  have h1 := SCRest_advance r ['\\'] ("bold".toList ++ '{' :: b ++ '}' :: rest)
    (by rw [h]; simp [BlockCall])
  have hname : SliceText sc ⟨some (r.current + 1),
      some (r.current + 1 + "bold".toList.length)⟩ = "bold".toList := by
    have := SliceText_between r ['\\'] "bold".toList ('{' :: b ++ '}' :: rest)
      (by rw [h1]; simp)
    rwa [SCAdvance_current, SCAdvance_current, htext] at this
  have h2 := SCRest_advance r ('\\' :: "bold".toList ++ ['{']) (b ++ '}' :: rest)
    (by rw [h]; simp [BlockCall])
  have hblock : SliceText sc ⟨some (r.current + "bold".toList.length + 2),
      some (r.current + "bold".toList.length + 2 + b.length)⟩ = b := by
    have := SliceText_between r ('\\' :: "bold".toList ++ ['{']) b _ h2
    rw [SCAdvance_current, SCAdvance_current, htext] at this
    have e : r.current + ('\\' :: "bold".toList ++ ['{']).length
        = r.current + "bold".toList.length + 2 := by simp
    rwa [e] at this
  rw [SCToHTMLLoop_succ, SCRead_block_call r "bold".toList b rest he h (by decide)
    (by decide) hb]
  unfold SCToHTMLObject
  simp only []
  rw [SCToHTMLFunc_bold sc tags _ hname]
  simp only [hblock, HTMLWriteInTag_eq]
  simp

/-- When the handling of the object that is read returns 0, so does the loop. -/
theorem SCToHTMLLoop_of_ret0 (sc : List Char) (fuel : Nat) (r : SCReader)
    (tags : HTMLTagStack) (m : List Char)
    (h : SCToHTMLObject sc tags (SCRead r).2 = some (SCToHTMLStep.ret0 m)) :
    SCToHTMLLoop sc (fuel + 1) r tags = some (SCToHTMLStep.ret0 m) := by
  rw [SCToHTMLLoop_succ, h]
  rfl

theorem FailsWith_loop (sc : List Char) (fuel : Nat) (r : SCReader) (tags : HTMLTagStack)
    (m : String) (h : FailsWith (SCToHTMLObject sc tags (SCRead r).2) m) :
    FailsWith (SCToHTMLLoop sc (fuel + 1) r tags) m := by
  obtain ⟨out, ho, hm⟩ := h
  exact ⟨out, SCToHTMLLoop_of_ret0 sc fuel r tags out ho, hm⟩

end SiteC

/-! ## More on the commands of SCToHTML -/

namespace SiteC

theorem SCToHTMLFunc_italic (sc : List Char) (tags : HTMLTagStack) (obj : SCObject)
    (hname : SliceText sc obj.function_name = "italic".toList) :
    SCToHTMLFunc sc tags obj =
      if !obj.has_block then some (R_CheckSCObjectHasBlock obj "italic")
      else some (SCToHTMLStep.next
        { tags with arena := HTMLWriteInTag (SliceText sc obj.block) "i" tags.arena }) := by
  unfold SCToHTMLFunc
  simp only []
  repeat rw [if_neg (by rw [SliceEqCStr_of_text _ _ _ _ hname]; decide)]
  rw [if_pos (by rw [SliceEqCStr_of_text _ _ _ _ hname]; decide)]

theorem SCToHTMLFunc_inline (sc : List Char) (tags : HTMLTagStack) (obj : SCObject)
    (hname : SliceText sc obj.function_name = "inline".toList) :
    SCToHTMLFunc sc tags obj =
      if !obj.has_block then some (R_CheckSCObjectHasBlock obj "inline")
      else some (SCToHTMLStep.next
        { tags with arena := HTMLWriteInTag (SliceText sc obj.block) "code" tags.arena }) := by
  unfold SCToHTMLFunc
  simp only []
  repeat rw [if_neg (by rw [SliceEqCStr_of_text _ _ _ _ hname]; decide)]
  rw [if_pos (by rw [SliceEqCStr_of_text _ _ _ _ hname]; decide)]

theorem SCToHTMLFunc_section (sc : List Char) (tags : HTMLTagStack) (obj : SCObject)
    (hname : SliceText sc obj.function_name = "section".toList) :
    SCToHTMLFunc sc tags obj =
      if !obj.has_block then some (R_CheckSCObjectHasBlock obj "section")
      else (HTMLOpenSection tags 2 (SliceText sc obj.block)).map SCToHTMLStep.next := by
  unfold SCToHTMLFunc
  simp only []
  rw [if_pos (by rw [SliceEqCStr_of_text _ _ _ _ hname]; decide)]

theorem SCToHTMLFunc_subsection (sc : List Char) (tags : HTMLTagStack) (obj : SCObject)
    (hname : SliceText sc obj.function_name = "subsection".toList) :
    SCToHTMLFunc sc tags obj =
      if !obj.has_block then some (R_CheckSCObjectHasBlock obj "subsection")
      else (HTMLOpenSection tags 3 (SliceText sc obj.block)).map SCToHTMLStep.next := by
  unfold SCToHTMLFunc
  simp only []
  rw [if_neg (by rw [SliceEqCStr_of_text _ _ _ _ hname]; decide)]
  rw [if_pos (by rw [SliceEqCStr_of_text _ _ _ _ hname]; decide)]

theorem EscapeText_append (a b : List Char) :
    EscapeText (a ++ b) = EscapeText a ++ EscapeText b := by
  induction a with
  | nil => rfl
  | cons c a ih => simp [EscapeText, ih]

theorem EscapeText_eq_join (s : List Char) : EscapeText s = (s.map EscapeChar).flatten := by
  induction s with
  | nil => rfl
  | cons c s ih => simp [EscapeText, ih]

theorem EscapeText_clean (s : List Char)
    (h : ∀ c ∈ s, c ≠ '"' ∧ c ≠ '&' ∧ c ≠ '<' ∧ c ≠ '>') : EscapeText s = s := by
  induction s with
  | nil => rfl
  | cons c s ih =>
    obtain ⟨h1, h2, h3, h4⟩ := h c (List.mem_cons_self _ _)
    simp [EscapeText, EscapeChar, h1, h2, h3, h4,
      ih (fun x hx => h x (List.mem_cons_of_mem _ hx))]

end SiteC

/-! ## Text objects and malformed calls -/

namespace SiteC

theorem takeWhile_ne_not_mem (ch : Char) (l : List Char) :
    ch ∉ l.takeWhile (fun x => x != ch) := by
  intro h
  have := List.mem_takeWhile_imp h
  simp at this

theorem dropWhile_ne_head (ch : Char) (l : List Char) :
    l.dropWhile (fun x => x != ch) = [] ∨ (l.dropWhile (fun x => x != ch)).head? = some ch := by
  induction l with
  | nil => exact Or.inl rfl
  | cons c l ih =>
    by_cases hc : c = ch
    · right
      subst hc
      simp [List.dropWhile]
    · rw [List.dropWhile_cons_of_pos (by simpa using hc)]
      exact ih

/-- A prefix that does not hold `ch` is a prefix of the run up to the first `ch`. -/
theorem prefix_takeWhile_ne (ch : Char) (l p : List Char) (hp : p <+: l) (hn : ch ∉ p) :
    p <+: l.takeWhile (fun x => x != ch) := by
  induction l generalizing p with
  | nil =>
    rw [List.prefix_nil] at hp
    subst hp
    exact List.nil_prefix
  | cons c l ih =>
    cases p with
    | nil => exact List.nil_prefix
    | cons d p =>
      rw [List.cons_prefix_cons] at hp
      obtain ⟨rfl, hp⟩ := hp
      have hd : d ≠ ch := fun e => hn (e ▸ List.mem_cons_self _ _)
      rw [List.takeWhile_cons_of_pos (by simpa using hd), List.cons_prefix_cons]
      exact ⟨rfl, ih p hp (fun hm => hn (List.mem_cons_of_mem _ hm))⟩

/-- What `SCRead` returns on a reader that is not in error and stands before a character
other than the backslash. -/
theorem SCRead_text_run (r : SCReader) (c : Char) (he : r.error = none)
    (hc : SCCurrentChar r = some c) (hne : c ≠ '\\') :
    SCRead r =
      (SCAdvance r ((SCRest r).takeWhile (fun x => x != '\\')),
        { SCReadStart r with
          type := SCObjectType.Text,
          full_text := ⟨some r.current,
            some (r.current + ((SCRest r).takeWhile (fun x => x != '\\')).length)⟩,
          end_line_no := (SCAdvance r ((SCRest r).takeWhile (fun x => x != '\\'))).line_no,
          end_column_no :=
            (SCAdvance r ((SCRest r).takeWhile (fun x => x != '\\'))).column_no }) ∧
      (SCRest r).takeWhile (fun x => x != '\\') ≠ [] := by
  rw [SCCurrentChar_eq_head] at hc
  have hs : (SCRest r).takeWhile (fun x => x != '\\') ≠ [] := by
    cases hr : SCRest r with
    | nil => rw [hr] at hc; cases hc
    | cons d t =>
      rw [hr] at hc
      simp only [List.head?_cons, Option.some.injEq] at hc
      subst hc
      rw [List.takeWhile_cons_of_pos (by simpa using hne)]
      exact List.cons_ne_nil _ _
  exact ⟨SCRead_text r _ ((SCRest r).dropWhile (fun x => x != '\\')) he
    (List.takeWhile_append_dropWhile _ _).symm hs (takeWhile_ne_not_mem _ _)
    (dropWhile_ne_head _ _), hs⟩

/-- What `SCRead` returns on a backslash followed by a character that is neither a backslash
nor a name character. -/
theorem SCRead_empty_name (r : SCReader) (c : Char) (rest : List Char) (he : r.error = none)
    (h : SCRest r = '\\' :: c :: rest) (hbs : c ≠ '\\') (hc : IsNameOrKeyChar c = false) :
    SCRead r = SCError (SCAdvance r ['\\']) "Expected function name after backslash"
      { SCReadStart r with
        type := SCObjectType.Func,
        full_text := { (SCReadStart r).full_text with begin := some r.current } } := by
  have h1 : SCRest (SCAdvance r ['\\']) = [] ++ c :: rest :=
    SCRest_advance r ['\\'] (c :: rest) h
  rw [SCRead_function r c rest he h hbs, SCReadFunction_unfold,
    SCExpect_cons r '\\' (c :: rest) _ _ h]
  simp only [Bool.true_eq_false, ↓reduceIte]
  rw [SCConsumeWhileFunc_eq IsNameOrKeyChar (SCAdvance r ['\\']) [] (c :: rest) h1
    (by simp) (by simp [hc])]
  simp [SCAdvance]

end SiteC

/-! ## Argument lists that end in an error -/

namespace SiteC

/-- With `SC_MAX_ARGS` arguments already stored, `SCReadArgument` reports the cap. -/
theorem SCReadArgument_cap (r : SCReader) (out : SCObject)
    (h : SC_MAX_ARGS ≤ out.args_count) :
    SCReadArgument r out = SCError r "Function exceeds the max argument count" out := by
  unfold SCReadArgument
  rw [if_pos h]

theorem dropWhile_head_false (p : Char → Bool) (l : List Char) (c : Char)
    (h : (l.dropWhile p).head? = some c) : p c = false := by
  induction l with
  | nil => cases h
  | cons d l ih =>
    by_cases hd : p d = true
    · rw [List.dropWhile_cons_of_pos hd] at h
      exact ih h
    · rw [List.dropWhile_cons_of_neg hd] at h
      simp only [List.head?_cons, Option.some.injEq] at h
      subst h
      simpa using hd

/-- When the first character after the whitespace is not a name character, `SCReadArgument`
reports the missing parameter name. -/
theorem SCReadArgument_no_name (r : SCReader) (out : SCObject) (c : Char)
    (hcap : out.args_count < SC_MAX_ARGS)
    (hc : ((SCRest r).dropWhile isspace).head? = some c) (hnc : IsNameOrKeyChar c = false) :
    SCReadArgument r out =
      SCError (SCAdvance r ((SCRest r).takeWhile isspace)) "Expected a parameter name" out := by
  have hsplit : SCRest r = (SCRest r).takeWhile isspace ++ (SCRest r).dropWhile isspace :=
    (List.takeWhile_append_dropWhile _ _).symm
  have hA : SCConsumeWhitespace r = SCAdvance r ((SCRest r).takeWhile isspace) :=
    SCConsumeWhitespace_eq r _ _ hsplit (fun x hx => List.mem_takeWhile_imp hx)
      (by rw [hc]; simpa using dropWhile_head_false isspace _ c hc)
  have restA := SCRest_advance r _ _ hsplit
  have hB : SCConsumeWhileFunc (SCAdvance r ((SCRest r).takeWhile isspace)) IsNameOrKeyChar
      = SCAdvance (SCAdvance r ((SCRest r).takeWhile isspace)) [] :=
    SCConsumeWhileFunc_eq _ _ [] _ (by rw [restA]; rfl) (by simp) (by rw [hc]; simpa using hnc)
  unfold SCReadArgument
  rw [if_neg (not_le.mpr hcap)]
  simp only [hA, hB, SCAdvance, ↓reduceIte]

/-- The loop of `SCReadArgumentList` on well-formed arguments that outnumber the free
entries: it returns from inside, with the error of the cap. -/
theorem SCReadArgumentListLoop_cap (as : List ArgText) :
    ∀ (a : ArgText) (fuel : Nat) (r : SCReader) (out : SCObject) (t : List Char),
      SCRest r = ArgListText (a :: as) ++ t → (∀ x ∈ a :: as, x.WellFormed) →
      SC_MAX_ARGS < out.args_count + (as.length + 1) → as.length + 1 ≤ fuel →
      out.type ≠ SCObjectType.Error →
      (SCReadArgumentListLoop fuel r out).1 = true ∧
        (SCReadArgumentListLoop fuel r out).2.2.type = SCObjectType.Error ∧
        (SCReadArgumentListLoop fuel r out).2.2.error_text
          = some "Function exceeds the max argument count" := by
  have hfull : ∀ (fuel : Nat) (r : SCReader) (out : SCObject), SCRest r ≠ [] →
      SC_MAX_ARGS ≤ out.args_count →
      (SCReadArgumentListLoop (fuel + 1) r out).1 = true ∧
        (SCReadArgumentListLoop (fuel + 1) r out).2.2.type = SCObjectType.Error ∧
        (SCReadArgumentListLoop (fuel + 1) r out).2.2.error_text
          = some "Function exceeds the max argument count" := by
    intro fuel r out hr hcap
    rw [SCReadArgumentListLoop_succ, if_pos (SCRest_ne_nil_lt r hr),
      SCReadArgument_cap r out hcap, if_pos (SCError_type _ _ _)]
    exact ⟨rfl, SCError_type _ _ _, (SCError_frozen _ _ _).2.2.1⟩
  induction as with
  | nil =>
    intro a fuel r out t h hw hc hf hty
    obtain ⟨n, rfl⟩ : ∃ n, fuel = n + 1 := ⟨fuel - 1, by omega⟩
    refine hfull n r out ?_ (by simp only [List.length_nil] at hc; omega)
    rw [h]
    simp only [ArgListText]
    intro e
    exact ArgText_text_ne_nil a (List.append_eq_nil.mp e).1
  | cons b bs ih =>
    intro a fuel r out t h hw hc hf hty
    obtain ⟨n, rfl⟩ : ∃ n, fuel = n + 1 := ⟨fuel - 1, by omega⟩
    have h' : SCRest r = a.text ++ (',' :: (ArgListText (b :: bs) ++ t)) := by
      rw [h]; simp [ArgListText]
    have hne : SCRest r ≠ [] := by
      rw [h']
      intro e
      exact ArgText_text_ne_nil a (List.append_eq_nil.mp e).1
    by_cases hcap : SC_MAX_ARGS ≤ out.args_count
    · exact hfull n r out hne hcap
    · obtain ⟨k, v, hk, -, -⟩ := SCReadArgument_arg r out a _ h'
        (hw a (List.mem_cons_self _ _)) (Or.inl rfl) (by omega)
      have hrest := SCRest_advance r a.text _ h'
      have hcons := SCConsume_one_cons _ _ _ hrest
      have hrest2 := SCRest_advance _ [','] _ hrest
      have := ih b n (SCAdvance (SCAdvance r a.text) [','])
        { out with keys := out.keys ++ [k], values := out.values ++ [v],
                   args_count := out.args_count + 1 } t hrest2
        (fun x hx => hw x (List.mem_cons_of_mem _ hx))
        (by simp only [List.length_cons] at hc ⊢; omega)
        (by simp only [List.length_cons] at hf ⊢; omega) hty
      rw [SCReadArgumentListLoop_succ, if_pos (SCRest_ne_nil_lt r hne), hk]
      simp only []
      rw [if_neg hty, SCCurrentChar_eq_head, hrest]
      simp only [List.head?_cons, ↓reduceIte]
      rw [hcons]
      exact this

/-- When the loop of `SCReadArgumentList` returns from inside, the function returns what the
loop left. -/
theorem SCReadArgumentList_of_loop (r : SCReader) (out : SCObject) (t : List Char)
    (h : SCRest r = '(' :: t)
    (hl : (SCReadArgumentListLoop ((SCAdvance r ['(']).text.length - (SCAdvance r ['(']).current)
      (SCAdvance r ['(']) out).1 = true) :
    SCReadArgumentList r out =
      (SCReadArgumentListLoop ((SCAdvance r ['(']).text.length - (SCAdvance r ['(']).current)
        (SCAdvance r ['(']) out).2 := by
  unfold SCReadArgumentList
  simp only []
  rw [SCExpect_cons r '(' t _ out h]
  simp only [Bool.true_eq_false, ↓reduceIte, hl]

/-- When the argument list ends in an error, `SCReadFunction` returns that error. -/
theorem SCReadFunctionTail_args_error (r1 : SCReader) (out2 : SCObject)
    (hg : (SCRest r1).head? = some '(')
    (hty : (SCReadArgumentList r1 out2).2.type = SCObjectType.Error) :
    SCReadFunctionTail r1 out2 = SCReadArgumentList r1 out2 := by
  have hg1 := (SCCurrentChar_guard r1 '(').mpr hg
  unfold SCReadFunctionTail
  simp only [if_pos hg1, if_pos hty]

/-- The diagnostic built for an error object contains the message of the object. -/
theorem SCMakeErrorString_contains_own (obj : SCObject) (m : String)
    (h : obj.error_text = some m) : m.toList <:+: SCMakeErrorString obj none := by
  have e : SCMakeErrorString obj none = SCMakeErrorString obj (some m) := by
    unfold SCMakeErrorString
    rw [h]
    rfl
  rw [e]
  exact SCMakeErrorString_contains obj m

/-- An error object makes the loop of `SCToHTML` return 0 with the diagnostic of the
object. -/
theorem FailsWith_loop_error (sc : List Char) (fuel : Nat) (r : SCReader)
    (tags : HTMLTagStack) (m : String) (hty : (SCRead r).2.type = SCObjectType.Error)
    (hm : (SCRead r).2.error_text = some m) :
    FailsWith (SCToHTMLLoop sc (fuel + 1) r tags) m := by
  apply FailsWith_loop
  unfold SCToHTMLObject
  rw [hty]
  exact ⟨_, rfl, SCMakeErrorString_contains_own _ m hm⟩

/-- What `SCRead` returns on a call with a list of at most `SC_MAX_ARGS` well-formed
arguments. -/
theorem SCRead_arg_call (n : List Char) (args : List ArgText) (rest : List Char)
    (path file : String) (hn : n ≠ []) (hname : ∀ c ∈ n, IsNameOrKeyChar c = true)
    (h1 : 1 ≤ args.length) (h32 : args.length ≤ SC_MAX_ARGS)
    (hw : ∀ x ∈ args, x.WellFormed) :
    (SCRead (MakeSCReader (ArgCall n args rest) path file)).2.args_count = args.length ∧
      ((SCRead (MakeSCReader (ArgCall n args rest) path file)).2.type = SCObjectType.Func ∨
        ((SCRead (MakeSCReader (ArgCall n args rest) path file)).2.type
            = SCObjectType.Error ∧
          (SCRead (MakeSCReader (ArgCall n args rest) path file)).2.error_text
            = some "Closing brace of block is missing")) ∧
      ((rest.head? ≠ some '{' ∨ ∃ b t, rest = '{' :: b ++ '}' :: t ∧ BracesBalanced b) →
        (SCRead (MakeSCReader (ArgCall n args rest) path file)).2.type
          = SCObjectType.Func) := by
  obtain ⟨a, as, rfl⟩ := List.exists_cons_of_ne_nil (List.ne_nil_of_length_pos h1)
  obtain ⟨c, n', rfl⟩ := List.exists_cons_of_ne_nil hn
  have hc : c ≠ '\\' := IsNameOrKeyChar_ne_backslash c (hname c (List.mem_cons_self _ _))
  have h : SCRest (MakeSCReader (ArgCall (c :: n') (a :: as) rest) path file)
      = '\\' :: (c :: n') ++ ('(' :: ArgListText (a :: as) ++ ')' :: rest) := by
    simp [SCRest, MakeSCReader, ArgCall]
  have hr1 := SCRest_advance _ ('\\' :: c :: n') _ h
  obtain ⟨ks, vs, hl, -, -⟩ := SCReadArgumentList_args
    (SCAdvance (MakeSCReader (ArgCall (c :: n') (a :: as) rest) path file) ('\\' :: c :: n'))
    { SCReadStart (MakeSCReader (ArgCall (c :: n') (a :: as) rest) path file) with
      type := SCObjectType.Func,
      full_text := { (SCReadStart (MakeSCReader (ArgCall (c :: n') (a :: as) rest)
        path file)).full_text with
        begin := some (MakeSCReader (ArgCall (c :: n') (a :: as) rest) path file).current },
      function_name := ⟨some ((MakeSCReader (ArgCall (c :: n') (a :: as) rest)
        path file).current + 1), some ((MakeSCReader (ArgCall (c :: n') (a :: as) rest)
        path file).current + 1 + (c :: n').length)⟩ }
    a as rest hr1 hw (by simpa [SCReadStart, SCObjectZero] using h32) (by simp)
  have hrA := SCRest_advance _ ('(' :: ArgListText (a :: as) ++ [')']) rest
    (show SCRest (SCAdvance (MakeSCReader (ArgCall (c :: n') (a :: as) rest) path file)
      ('\\' :: c :: n')) = ('(' :: ArgListText (a :: as) ++ [')']) ++ rest by
      rw [hr1]; simp)
  have hany := SCReadFunctionTail_after_args_any _ _ _ _ (by rw [hr1]; rfl) hl (by simp)
  have htail := fun hrest => SCReadFunctionTail_after_args _ _ _ _ (by rw [hr1]; rfl) hl
    (by simp) (by rw [hrA]; exact hrest)
  rw [SCRead_function _ c _ rfl h hc,
    SCReadFunction_name _ _ (c :: n') _ h (List.cons_ne_nil _ _) hname (by simp; decide)]
  rw [hany.2.2.2.1]
  refine ⟨?_, hany.2.2.2.2, fun hrest => (htail hrest).1⟩
  simp [SCReadStart, SCObjectZero]

/-- The rest of `SCReadFunction` on a list of well-formed arguments that outnumber the free
entries of the object. -/
theorem SCReadFunctionTail_cap (r1 : SCReader) (out2 : SCObject) (a : ArgText)
    (as : List ArgText) (t : List Char)
    (h : SCRest r1 = '(' :: (ArgListText (a :: as) ++ t))
    (hw : ∀ x ∈ a :: as, x.WellFormed)
    (hc : SC_MAX_ARGS < out2.args_count + (as.length + 1))
    (hty : out2.type ≠ SCObjectType.Error) :
    (SCReadFunctionTail r1 out2).2.type = SCObjectType.Error ∧
      (SCReadFunctionTail r1 out2).2.error_text
        = some "Function exceeds the max argument count" := by
  have hr2 := SCRest_advance r1 ['('] (ArgListText (a :: as) ++ t) h
  have hfuel : as.length + 1 ≤ (SCAdvance r1 ['(']).text.length - (SCAdvance r1 ['(']).current := by
    rw [← SCRest_length, hr2]
    have := ArgListText_length (a :: as)
    simp only [List.length_append, List.length_cons] at this ⊢
    omega
  have hloop := SCReadArgumentListLoop_cap as a _ (SCAdvance r1 ['(']) out2 _ hr2 hw hc hfuel hty
  have hlist := SCReadArgumentList_of_loop r1 out2 _ h hloop.1
  rw [SCReadFunctionTail_args_error r1 out2 (by rw [h]; rfl) (by rw [hlist]; exact hloop.2.1),
    hlist]
  exact hloop.2

/-- What `SCRead` returns on a call with a list of more than `SC_MAX_ARGS` well-formed
arguments. -/
theorem SCRead_arg_call_cap (n : List Char) (args : List ArgText) (rest : List Char)
    (path file : String) (hn : n ≠ []) (hname : ∀ c ∈ n, IsNameOrKeyChar c = true)
    (h32 : SC_MAX_ARGS < args.length) (hw : ∀ x ∈ args, x.WellFormed) :
    (SCRead (MakeSCReader (ArgCall n args rest) path file)).2.type = SCObjectType.Error ∧
      (SCRead (MakeSCReader (ArgCall n args rest) path file)).2.error_text
        = some "Function exceeds the max argument count" := by
  obtain ⟨a, as, rfl⟩ := List.exists_cons_of_ne_nil
    (List.ne_nil_of_length_pos (Nat.lt_of_le_of_lt (Nat.zero_le _) h32))
  obtain ⟨c, n', rfl⟩ := List.exists_cons_of_ne_nil hn
  have hc : c ≠ '\\' := IsNameOrKeyChar_ne_backslash c (hname c (List.mem_cons_self _ _))
  have h : SCRest (MakeSCReader (ArgCall (c :: n') (a :: as) rest) path file)
      = '\\' :: (c :: n') ++ ('(' :: (ArgListText (a :: as) ++ ')' :: rest)) := by
    simp [SCRest, MakeSCReader, ArgCall]
  have hr1 := SCRest_advance _ ('\\' :: c :: n') _ h
  rw [SCRead_function _ c _ rfl h hc,
    SCReadFunction_name _ _ (c :: n') _ h (List.cons_ne_nil _ _) hname (by simp; decide)]
  exact SCReadFunctionTail_cap _ _ a as _ hr1 hw
    (by simpa [SCReadStart, SCObjectZero] using h32) (by simp)

/-- The rest of `SCReadFunction` on a parenthesis that is followed, after whitespace, by a
character that is not a name character. -/
theorem SCReadFunctionTail_no_name (r1 : SCReader) (out2 : SCObject) (t : List Char)
    (c : Char) (h : SCRest r1 = '(' :: t) (hc : (t.dropWhile isspace).head? = some c)
    (hnc : IsNameOrKeyChar c = false) (hcap : out2.args_count < SC_MAX_ARGS) :
    (SCReadFunctionTail r1 out2).2.type = SCObjectType.Error ∧
      (SCReadFunctionTail r1 out2).2.error_text = some "Expected a parameter name" := by
  have hr2 := SCRest_advance r1 ['('] t h
  have hne : SCRest (SCAdvance r1 ['(']) ≠ [] := by
    rw [hr2]
    rintro rfl
    cases hc
  have hlt := SCRest_ne_nil_lt _ hne
  obtain ⟨k, hk⟩ : ∃ k, (SCAdvance r1 ['(']).text.length - (SCAdvance r1 ['(']).current
      = k + 1 := ⟨(SCAdvance r1 ['(']).text.length - (SCAdvance r1 ['(']).current - 1, by omega⟩
  have harg := SCReadArgument_no_name (SCAdvance r1 ['(']) out2 c hcap (by rw [hr2]; exact hc)
    hnc
  have hloop : SCReadArgumentListLoop
      ((SCAdvance r1 ['(']).text.length - (SCAdvance r1 ['(']).current) (SCAdvance r1 ['(']) out2
      = (true, SCError (SCAdvance (SCAdvance r1 ['('])
          ((SCRest (SCAdvance r1 ['('])).takeWhile isspace)) "Expected a parameter name" out2) := by
    rw [hk, SCReadArgumentListLoop_succ, if_pos hlt, harg, if_pos (SCError_type _ _ _)]
  have hlist := SCReadArgumentList_of_loop r1 out2 t h (by rw [hloop])
  rw [hloop] at hlist
  rw [SCReadFunctionTail_args_error r1 out2 (by rw [h]; rfl)
    (by rw [hlist]; exact SCError_type _ _ _), hlist]
  exact ⟨SCError_type _ _ _, (SCError_frozen _ _ _).2.2.1⟩

/-- What `SCRead` returns on a call whose parenthesis is followed, after whitespace, by a
character that is not a name character. -/
theorem SCRead_no_param_name (r : SCReader) (n t : List Char) (c : Char)
    (he : r.error = none) (h : SCRest r = '\\' :: n ++ '(' :: t) (hn : n ≠ [])
    (hname : ∀ x ∈ n, IsNameOrKeyChar x = true)
    (hc : (t.dropWhile isspace).head? = some c) (hnc : IsNameOrKeyChar c = false) :
    (SCRead r).2.type = SCObjectType.Error ∧
      (SCRead r).2.error_text = some "Expected a parameter name" := by
  obtain ⟨d, n', rfl⟩ := List.exists_cons_of_ne_nil hn
  have hd : d ≠ '\\' := IsNameOrKeyChar_ne_backslash d (hname d (List.mem_cons_self _ _))
  have hr1 := SCRest_advance r ('\\' :: d :: n') _ h
  rw [SCRead_function r d _ he h hd,
    SCReadFunction_name r _ (d :: n') _ h (List.cons_ne_nil _ _) hname (by simp; decide)]
  exact SCReadFunctionTail_no_name _ _ t c hr1 hc hnc
    (by simp [SCReadStart, SCObjectZero, SC_MAX_ARGS])

/-- A document made of plain text followed by an object that `SCRead` reports as an error
makes `SCToHTML` return 0 with the diagnostic of that error. -/
theorem SCToHTML_text_then_error (a t : List Char) (path file : String) (m : String)
    (ha : '\\' ∉ a) (ht : t.head? = some '\\')
    (herr : ∀ r : SCReader, r.error = none → SCRest r = t →
      (SCRead r).2.type = SCObjectType.Error ∧ (SCRead r).2.error_text = some m) :
    ∃ out, SCToHTML (a ++ t) path file = some (false, out) ∧ m.toList <:+: out := by
  have hpush : HTMLPushTag (InitHTMLTagStack ⟨[]⟩) HTMLTagType.Article
      = some ArticleTagStack := rfl
  have hfin : ∀ o : Option SCToHTMLStep, FailsWith o m →
      ∃ out, o.map (fun step => match step with
        | SCToHTMLStep.next tags => (true, tags.arena.text)
        | SCToHTMLStep.ret0 out_slice => (false, out_slice)) = some (false, out) ∧
        m.toList <:+: out := by
    rintro o ⟨out, rfl, hm⟩
    exact ⟨out, rfl, hm⟩
  have h0 : SCRest (MakeSCReader (a ++ t) path file) = a ++ t := rfl
  have htne : t ≠ [] := by rintro rfl; cases ht
  unfold SCToHTML SCToHTMLRun
  simp only [hpush, Option.some_bind]
  apply hfin
  by_cases hane : a = []
  · subst hane
    obtain ⟨k, hk⟩ : ∃ k, ([] ++ t).length + 1 = k + 1 := ⟨_, rfl⟩
    rw [hk]
    have := herr (MakeSCReader ([] ++ t) path file) rfl (by simp [SCRest, MakeSCReader])
    exact FailsWith_loop_error _ k _ _ m this.1 this.2
  · obtain ⟨k, hk⟩ : ∃ k, (a ++ t).length + 1 = k + 1 + 1 :=
      ⟨(a ++ t).length - 1, by
        have : 0 < (a ++ t).length := by
          rw [List.length_append]
          have := List.length_pos.mpr htne
          omega
        omega⟩
    rw [hk, SCToHTMLLoop_text (a ++ t) (k + 1) (MakeSCReader (a ++ t) path file)
      ArticleTagStack a t rfl rfl h0 hane ha (Or.inr ht)]
    have h1 := SCRest_advance _ a t h0
    have herr1 := herr (SCAdvance (MakeSCReader (a ++ t) path file) a)
      (by rw [SCAdvance_error]; rfl) h1
    have hp : ∃ tags1, (if (HTMLTop ArticleTagStack = HTMLTagType.Article ∨
        HTMLTop ArticleTagStack = HTMLTagType.Section) ∧ IsAllWhitespace a = false then
          HTMLPushTag ArticleTagStack HTMLTagType.Paragraph
        else some ArticleTagStack) = some tags1 := by
      split_ifs
      · exact ⟨_, rfl⟩
      · exact ⟨_, rfl⟩
    obtain ⟨tags1, hp1⟩ := hp
    rw [hp1, Option.some_bind]
    exact FailsWith_loop_error _ k _ _ m herr1.1 herr1.2

end SiteC

/-! ## The shape of the tag stack -/

namespace SiteC

theorem StepHolds_ret0 (P : HTMLTagStack → Prop) (m : List Char) :
    StepHolds P (some (SCToHTMLStep.ret0 m)) := by
  intro tags h
  cases h

theorem StepHolds_next (P : HTMLTagStack → Prop) (s : HTMLTagStack) (h : P s) :
    StepHolds P (some (SCToHTMLStep.next s)) := by
  intro tags hp
  cases hp
  exact h

theorem StepHolds_map (P : HTMLTagStack → Prop) (o : Option HTMLTagStack)
    (h : OptHolds P o) : StepHolds P (o.map SCToHTMLStep.next) := by
  intro tags hp
  obtain ⟨s, hs, he⟩ := Option.map_eq_some'.mp hp
  cases he
  exact h _ hs

theorem StepHolds_bind (P Q : HTMLTagStack → Prop) (o : Option HTMLTagStack)
    (f : HTMLTagStack → Option SCToHTMLStep) (h : OptHolds Q o)
    (hf : ∀ s, Q s → StepHolds P (f s)) : StepHolds P (o.bind f) := by
  intro tags hp
  obtain ⟨s, hs, he⟩ := Option.bind_eq_some.mp hp
  exact hf s (h s hs) tags he

theorem StepHolds_ite (P : HTMLTagStack → Prop) (c : Prop) [Decidable c]
    (a b : Option SCToHTMLStep) (ha : c → StepHolds P a) (hb : ¬ c → StepHolds P b) :
    StepHolds P (if c then a else b) := by
  split_ifs with h
  · exact ha h
  · exact hb h

theorem OptHolds_some (P : HTMLTagStack → Prop) (s : HTMLTagStack) (h : P s) :
    OptHolds P (some s) := by
  intro s' hp
  cases hp
  exact h

theorem OptHolds_ite (P : HTMLTagStack → Prop) (c : Prop) [Decidable c]
    (a b : Option HTMLTagStack) (ha : c → OptHolds P a) (hb : ¬ c → OptHolds P b) :
    OptHolds P (if c then a else b) := by
  split_ifs with h
  · exact ha h
  · exact hb h

theorem OptHolds_bind (P Q : HTMLTagStack → Prop) (o : Option HTMLTagStack)
    (f : HTMLTagStack → Option HTMLTagStack) (h : OptHolds Q o)
    (hf : ∀ s, Q s → OptHolds P (f s)) : OptHolds P (o.bind f) := by
  intro s' hp
  obtain ⟨s, hs, he⟩ := Option.bind_eq_some.mp hp
  exact hf s (h s hs) s' he

theorem OptHolds_mono (P Q : HTMLTagStack → Prop) (o : Option HTMLTagStack)
    (h : OptHolds Q o) (hpq : ∀ s, Q s → P s) : OptHolds P o :=
  fun s hs => hpq s (h s hs)

theorem SectionCount_cons (t : HTMLTagType) (l : List HTMLTagType) :
    SectionCount (t :: l) = SectionCount l + if IsSectionTag t = true then 1 else 0 := by
  unfold SectionCount
  rw [List.countP_cons]

theorem StackShapeOK_cons (x y : HTMLTagType) (rest : List HTMLTagType)
    (h : StackShapeOK (x :: y :: rest) = true) :
    TagParentOK x y = true ∧ StackShapeOK (y :: rest) = true := by
  simpa [StackShapeOK] using h

theorem RenderInv_arena (s : HTMLTagStack) (a : Arena) (h : RenderInv s) :
    RenderInv { s with arena := a } := h

/-- The top of the stack is never the sentinel. -/
theorem RenderInv_top (s : HTMLTagStack) (h : RenderInv s) :
    ∃ rest, s.stack = HTMLTop s :: rest ∧ rest ≠ [] ∧ HTMLTop s ≠ HTMLTagType.TOS := by
  obtain ⟨⟨body, hs⟩, hc, -, -⟩ := h
  unfold HTMLTop
  cases body with
  | nil =>
    rw [hs]
    exact ⟨_, rfl, by simp, by decide⟩
  | cons x b =>
    rw [hs] at hc ⊢
    refine ⟨_, rfl, by simp, ?_⟩
    simp only [List.cons_append, List.headD_cons]
    cases b with
    | nil =>
      rintro rfl
      simp [StackShapeOK, TagParentOK] at hc
    | cons y b =>
      rintro rfl
      simp [StackShapeOK, TagParentOK] at hc

theorem RenderInv_init : RenderInv ArticleTagStack :=
  ⟨⟨[], rfl⟩, by decide, by decide, by decide⟩

/-- A pop of an entry other than the article keeps the shape. -/
theorem RenderInv_pop (s : HTMLTagStack) (h : RenderInv s)
    (htop : HTMLTop s ≠ HTMLTagType.Article) :
    ∃ s', HTMLPopTag s = some s' ∧ RenderInv s' ∧
      s'.section_depth = s.section_depth - (if IsSectionTag (HTMLTop s) = true then 1 else 0) ∧
      s'.stack.length + 1 = s.stack.length := by
  obtain ⟨⟨body, hs⟩, hc, hd, h3⟩ := h
  cases body with
  | nil =>
    exfalso
    apply htop
    unfold HTMLTop
    rw [hs]
    rfl
  | cons x b =>
    have htopx : HTMLTop s = x := by
      unfold HTMLTop
      rw [hs]
      rfl
    obtain ⟨y, rest, hrest⟩ : ∃ y rest, b ++ [HTMLTagType.Article, HTMLTagType.TOS] = y :: rest := by
      cases b with
      | nil => exact ⟨_, _, rfl⟩
      | cons y b => exact ⟨_, _, rfl⟩
    have hs2 : s.stack = x :: y :: rest := by rw [hs, List.cons_append, hrest]
    rw [hs2, SectionCount_cons] at hd
    rw [hs2] at hc
    have hx : IsSectionTag x = true ↔ (x = HTMLTagType.Article ∨ x = HTMLTagType.Section) := by
      cases x <;> simp [IsSectionTag]
    refine ⟨_, by unfold HTMLPopTag; rw [hs2], ⟨⟨b, hrest.symm⟩, (StackShapeOK_cons x y rest hc).2, ?_, ?_⟩, ?_, ?_⟩
    · simp only []
      by_cases hsec : IsSectionTag x = true
      · rw [if_pos (hx.mp hsec)]
        rw [if_pos hsec] at hd
        rw [hd]
        push_cast
        omega
      · rw [if_neg (fun hh => hsec (hx.mpr hh))]
        rw [if_neg hsec] at hd
        rw [hd]
        simp
    · simp only []
      split_ifs <;> omega
    · simp only [htopx]
      by_cases hsec : IsSectionTag x = true
      · rw [if_pos (hx.mp hsec), if_pos hsec]
      · rw [if_neg (fun hh => hsec (hx.mpr hh)), if_neg hsec]
        simp
    · rw [hs2]
      rfl

theorem OptHolds_of_exists (P : HTMLTagStack → Prop) (o : Option HTMLTagStack)
    (h : ∃ s, o = some s ∧ P s) : OptHolds P o := by
  obtain ⟨s, hs, hp⟩ := h
  intro s' hs'
  rw [hs] at hs'
  cases hs'
  exact hp

theorem TagRank_le (t : HTMLTagType) : TagRank t ≤ 4 := by
  cases t <;> decide

theorem TagRank_parent (x y : HTMLTagType) (h : TagParentOK x y = true)
    (hx : IsSectionTag x = false) : TagRank x = TagRank y + 1 := by
  cases x <;> cases y <;> first | rfl | (exfalso; revert h; decide) | (exfalso; revert hx; decide)

/-- Above the article, a stack of the right shape holds at most four entries per article or
section entry, those above the topmost one being counted by the rank of the top. -/
theorem StackShapeOK_length (body : List HTMLTagType)
    (h : StackShapeOK (body ++ [HTMLTagType.Article, HTMLTagType.TOS]) = true) :
    body.length ≤ TagRank ((body ++ [HTMLTagType.Article, HTMLTagType.TOS]).headD
      HTMLTagType.TOS) + 5 * SectionCount body := by
  induction body with
  | nil => simp
  | cons x b ih =>
    obtain ⟨y, rest, hrest⟩ : ∃ y rest,
        b ++ [HTMLTagType.Article, HTMLTagType.TOS] = y :: rest := by
      cases b with
      | nil => exact ⟨_, _, rfl⟩
      | cons y b => exact ⟨_, _, rfl⟩
    rw [List.cons_append, hrest] at h
    obtain ⟨hxy, hsh⟩ := StackShapeOK_cons x y rest h
    rw [← hrest] at hsh
    have := ih hsh
    rw [hrest] at this
    simp only [List.headD_cons] at this
    simp only [List.cons_append, List.headD_cons, List.length_cons, SectionCount_cons]
    by_cases hx : IsSectionTag x = true
    · rw [if_pos hx]
      have := TagRank_le y
      omega
    · rw [if_neg hx]
      have := TagRank_parent x y hxy (by simpa using hx)
      omega

theorem SectionCount_append (a b : List HTMLTagType) :
    SectionCount (a ++ b) = SectionCount a + SectionCount b := by
  unfold SectionCount
  rw [List.countP_append]

/-- The stack holds at most 16 entries, the sentinel included. -/
theorem RenderInv_length (s : HTMLTagStack) (h : RenderInv s) :
    2 ≤ s.stack.length ∧ s.stack.length ≤ 16 := by
  obtain ⟨⟨body, hs⟩, hc, hd, h3⟩ := h
  rw [hs] at hc
  have hl := StackShapeOK_length body hc
  have hr := TagRank_le ((body ++ [HTMLTagType.Article, HTMLTagType.TOS]).headD
    HTMLTagType.TOS)
  have hcount : SectionCount s.stack = SectionCount body + 1 := by
    rw [hs, SectionCount_append]
    rfl
  rw [hcount] at hd
  rw [hs, List.length_append]
  simp only [List.length_cons, List.length_nil]
  omega

/-- A push of an entry other than a section above an entry that may be its parent keeps the
shape, and does not fail. -/
theorem RenderInv_push (s : HTMLTagStack) (t : HTMLTagType) (h : RenderInv s)
    (hp : TagParentOK t (HTMLTop s) = true) (ht : IsSectionTag t = false) :
    ∃ s', HTMLPushTag s t = some s' ∧ RenderInv s' ∧ HTMLTop s' = t ∧
      s'.section_depth = s.section_depth := by
  have hlen := RenderInv_length s h
  obtain ⟨rest, hs, hne, -⟩ := RenderInv_top s h
  obtain ⟨⟨body, hb⟩, hc, hd, h3⟩ := h
  have hx : ¬ (t = HTMLTagType.Article ∨ t = HTMLTagType.Section) := by
    revert ht
    cases t <;> simp [IsSectionTag]
  have hpos : s.tag_pos + 1 < SC_HTML_MAX_TAG_DEPTH := by
    unfold HTMLTagStack.tag_pos SC_HTML_MAX_TAG_DEPTH
    omega
  refine ⟨⟨t :: s.stack, s.section_depth,
      ArenaPushCStr s.arena ("<" ++ g_html_tag_type_open_text t ++ ">\n"),
      s.tag_writes ++ [TagWrite.opening t]⟩, ?_,
    ⟨⟨t :: body, by simp [hb]⟩, ?_, ?_, h3⟩, rfl, rfl⟩
  · unfold HTMLPushTag
    rw [if_pos hpos, if_neg hx]
  · simp only []
    rw [hs] at hc ⊢
    simp only [StackShapeOK, Bool.and_eq_true]
    exact ⟨hp, hc⟩
  · simp only []
    rw [SectionCount_cons, if_neg (by simpa using ht), hd]
    simp

/-- A push of a section below depth 3 keeps the shape, and does not fail. -/
theorem RenderInv_pushSection (s : HTMLTagStack) (h : RenderInv s)
    (h2 : s.section_depth ≤ 2) :
    ∃ s', HTMLPushTag s HTMLTagType.Section = some s' ∧ RenderInv s' ∧
      HTMLTop s' = HTMLTagType.Section ∧ s'.section_depth = s.section_depth + 1 ∧
      s'.stack = HTMLTagType.Section :: s.stack ∧
      s'.tag_writes = s.tag_writes ++ [TagWrite.opening HTMLTagType.Section] := by
  have hlen := RenderInv_length s h
  obtain ⟨rest, hs, hne, htos⟩ := RenderInv_top s h
  obtain ⟨⟨body, hb⟩, hc, hd, h3⟩ := h
  have hpos : s.tag_pos + 1 < SC_HTML_MAX_TAG_DEPTH := by
    unfold HTMLTagStack.tag_pos SC_HTML_MAX_TAG_DEPTH
    omega
  refine ⟨⟨HTMLTagType.Section :: s.stack, s.section_depth + 1,
      ArenaPushCStr s.arena ("<" ++ g_html_tag_type_open_text HTMLTagType.Section ++ ">\n"),
      s.tag_writes ++ [TagWrite.opening HTMLTagType.Section]⟩, ?_,
    ⟨⟨HTMLTagType.Section :: body, by simp [hb]⟩, ?_, ?_, ?_⟩, rfl, rfl, rfl, rfl⟩
  · unfold HTMLPushTag
    rw [if_pos hpos, if_pos (Or.inr rfl)]
  · simp only []
    rw [hs] at hc ⊢
    simp only [StackShapeOK, Bool.and_eq_true]
    refine ⟨?_, hc⟩
    simpa [TagParentOK] using htos
  · simp only []
    rw [SectionCount_cons, if_pos (by decide), hd]
    simp
  · simp only []
    omega

/-- With the article on top, the stack holds the article and the sentinel only. -/
theorem RenderInv_article_top (s : HTMLTagStack) (h : RenderInv s)
    (htop : HTMLTop s = HTMLTagType.Article) :
    s.stack = [HTMLTagType.Article, HTMLTagType.TOS] ∧ s.section_depth = 1 := by
  obtain ⟨⟨body, hb⟩, hc, hd, h3⟩ := h
  cases body with
  | nil =>
    rw [hb] at hd
    exact ⟨hb, by rw [hd]; rfl⟩
  | cons x b =>
    exfalso
    unfold HTMLTop at htop
    rw [hb] at htop hc
    simp only [List.cons_append, List.headD_cons] at htop
    subst htop
    cases b with
    | nil => simp [StackShapeOK, TagParentOK] at hc
    | cons y b =>
      cases b with
      | nil =>
        simp only [List.cons_append, List.nil_append, StackShapeOK, Bool.and_eq_true] at hc
        obtain ⟨h1, h2, -⟩ := hc
        have : y = HTMLTagType.TOS := by simpa [TagParentOK] using h1
        subst this
        simp [TagParentOK] at h2
      | cons z b =>
        simp only [List.cons_append, StackShapeOK, Bool.and_eq_true] at hc
        obtain ⟨h1, h2, -⟩ := hc
        have : y = HTMLTagType.TOS := by simpa [TagParentOK] using h1
        subst this
        simp [TagParentOK] at h2

/-- On a stack of the right shape `HTMLRiseToLowestSection` does not fail: it ends with the
article or a section on top, and keeps the shape and `section_depth`. -/
theorem RenderInv_riseLoop (fuel : Nat) (s : HTMLTagStack) (h : RenderInv s)
    (hf : s.stack.length < fuel) :
    ∃ s', HTMLRiseToLowestSectionLoop fuel s = some s' ∧ RenderInv s' ∧
      (HTMLTop s' = HTMLTagType.Section ∨ HTMLTop s' = HTMLTagType.Article) ∧
      s'.section_depth = s.section_depth := by
  induction fuel generalizing s with
  | zero => omega
  | succ n ih =>
    unfold HTMLRiseToLowestSectionLoop
    by_cases hc : HTMLTop s ≠ HTMLTagType.Section ∧ HTMLTop s ≠ HTMLTagType.Article
    · rw [if_pos hc]
      obtain ⟨s1, hpop, hinv, hdepth, hlen⟩ := RenderInv_pop s h hc.2
      obtain ⟨s', hs', hinv', htop', hd'⟩ := ih s1 hinv (by omega)
      refine ⟨s', by rw [hpop, Option.some_bind, hs'], hinv', htop', ?_⟩
      rw [hd', hdepth, if_neg]
      · simp
      · obtain ⟨h1, h2⟩ := hc
        revert h1 h2
        cases HTMLTop s <;> simp [IsSectionTag]
    · rw [if_neg hc]
      refine ⟨s, rfl, h, ?_, rfl⟩
      by_cases h1 : HTMLTop s = HTMLTagType.Section
      · exact Or.inl h1
      · right
        by_contra h2
        exact hc ⟨h1, h2⟩

theorem RenderInv_rise (s : HTMLTagStack) (h : RenderInv s) :
    ∃ s', HTMLRiseToLowestSection s = some s' ∧ RenderInv s' ∧
      (HTMLTop s' = HTMLTagType.Section ∨ HTMLTop s' = HTMLTagType.Article) ∧
      s'.section_depth = s.section_depth :=
  RenderInv_riseLoop _ s h (Nat.lt_succ_self _)

/-- On a stack of the right shape `HTMLOpenTag` of a paragraph, a list or a table wrapper
does not fail, and leaves the new entry on top. -/
theorem RenderInv_openTag (s : HTMLTagStack) (t : HTMLTagType) (h : RenderInv s)
    (hp : TagParentOK t HTMLTagType.Section = true ∧ TagParentOK t HTMLTagType.Article = true)
    (ht : IsSectionTag t = false) :
    ∃ s', HTMLOpenTag s t = some s' ∧ RenderInv s' ∧ HTMLTop s' = t := by
  obtain ⟨s1, h1, hinv1, htop1, -⟩ := RenderInv_rise s h
  obtain ⟨s2, h2, hinv2, htop2, -⟩ := RenderInv_push s1 t hinv1
    (by rcases htop1 with e | e <;> rw [e] <;> [exact hp.1; exact hp.2]) ht
  exact ⟨s2, by unfold HTMLOpenTag; rw [h1, Option.some_bind, h2], hinv2, htop2⟩

/-- The first loop of `HTMLOpenSection` on a stack of the right shape. -/
theorem RenderInv_openSectionRise (level : Int) (hl : 2 ≤ level) (fuel : Nat)
    (s : HTMLTagStack) (h : RenderInv s) (hf : s.stack.length < fuel) :
    ∃ s', HTMLOpenSectionRise level fuel s = some s' ∧ RenderInv s' ∧
      s'.section_depth ≤ level - 1 := by
  induction fuel generalizing s with
  | zero => omega
  | succ n ih =>
    unfold HTMLOpenSectionRise
    by_cases hc : s.section_depth > level - 1
    · rw [if_pos hc]
      have htop : HTMLTop s ≠ HTMLTagType.Article := by
        intro e
        have := (RenderInv_article_top s h e).2
        omega
      obtain ⟨s1, hpop, hinv, -, hlen⟩ := RenderInv_pop s h htop
      obtain ⟨s', hs', hinv', hd'⟩ := ih s1 hinv (by omega)
      exact ⟨s', by rw [hpop, Option.some_bind, hs'], hinv', hd'⟩
    · rw [if_neg hc]
      exact ⟨s, rfl, h, by omega⟩

/-- The second loop of `HTMLOpenSection` on a stack of the right shape. -/
theorem RenderInv_openSectionMake (level : Int) (hl : level ≤ 3) (fuel : Nat)
    (s : HTMLTagStack) (h : RenderInv s) (hd : s.section_depth ≤ level)
    (hf : (level - s.section_depth).toNat < fuel) :
    ∃ s', HTMLOpenSectionMake level fuel s = some s' ∧ RenderInv s' ∧
      s'.section_depth = level ∧ (s.section_depth = level → s' = s) ∧
      (s.section_depth < level → HTMLTop s' = HTMLTagType.Section) := by
  induction fuel generalizing s with
  | zero => omega
  | succ n ih =>
    unfold HTMLOpenSectionMake
    by_cases hc : s.section_depth ≠ level
    · rw [if_pos hc]
      obtain ⟨s1, hpush, hinv, htop, hdepth, -, -⟩ := RenderInv_pushSection s h (by omega)
      obtain ⟨s', hs', hinv', hd', hsame, htop'⟩ := ih s1 hinv (by omega) (by omega)
      refine ⟨s', by rw [hpush, Option.some_bind, hs'], hinv', hd', fun e => absurd e hc,
        fun _ => ?_⟩
      by_cases he : s1.section_depth = level
      · rw [hsame he]
        exact htop
      · exact htop' (by omega)
    · rw [if_neg hc]
      simp only [ne_eq, not_not] at hc
      exact ⟨s, rfl, h, hc, fun _ => rfl, fun hlt => by omega⟩

/-- On a stack of the right shape `HTMLOpenSection` at level 2 or 3 does not fail, and it
leaves a section on top at the depth of the level. -/
theorem RenderInv_openSection (s : HTMLTagStack) (level : Int) (heading : List Char)
    (h : RenderInv s) (hl : level = 2 ∨ level = 3) :
    ∃ s', HTMLOpenSection s level heading = some s' ∧ RenderInv s' ∧
      s'.section_depth = level ∧ HTMLTop s' = HTMLTagType.Section := by
  obtain ⟨s1, h1, hinv1, hd1⟩ := RenderInv_openSectionRise level (by omega) _ s h
    (Nat.lt_succ_self _)
  have hpos : 0 ≤ s1.section_depth := by
    rw [hinv1.2.2.1]
    exact Int.natCast_nonneg _
  obtain ⟨s2, h2, hinv2, hd2, -, htop2⟩ := RenderInv_openSectionMake level (by omega)
    (SC_HTML_MAX_TAG_DEPTH + 1) s1 hinv1 (by omega)
    (by unfold SC_HTML_MAX_TAG_DEPTH; omega)
  refine ⟨{ s2 with arena := ArenaPushCStr (HTMLWriteEscapedText heading
    (ArenaPushCStr s2.arena "<h1>")) "</h1>\n" }, ?_, RenderInv_arena s2 _ hinv2, hd2,
    htop2 (by omega)⟩
  unfold HTMLOpenSection
  rw [h1, Option.some_bind, h2, Option.some_bind]

theorem OptHolds_pop (s : HTMLTagStack) (h : RenderInv s)
    (htop : HTMLTop s ≠ HTMLTagType.Article) : OptHolds RenderInv (HTMLPopTag s) := by
  obtain ⟨s1, h1, hinv, -, -⟩ := RenderInv_pop s h htop
  exact OptHolds_of_exists _ _ ⟨s1, h1, hinv⟩

theorem OptHolds_push (s : HTMLTagStack) (t : HTMLTagType) (h : RenderInv s)
    (hp : TagParentOK t (HTMLTop s) = true) (ht : IsSectionTag t = false) :
    OptHolds RenderInv (HTMLPushTag s t) := by
  obtain ⟨s1, h1, hinv, -, -⟩ := RenderInv_push s t h hp ht
  exact OptHolds_of_exists _ _ ⟨s1, h1, hinv⟩

theorem OptHolds_rise (s : HTMLTagStack) (h : RenderInv s) :
    OptHolds RenderInv (HTMLRiseToLowestSection s) := by
  obtain ⟨s1, h1, hinv, -, -⟩ := RenderInv_rise s h
  exact OptHolds_of_exists _ _ ⟨s1, h1, hinv⟩

theorem OptHolds_openTag (s : HTMLTagStack) (t : HTMLTagType) (h : RenderInv s)
    (hp : TagParentOK t HTMLTagType.Section = true ∧ TagParentOK t HTMLTagType.Article = true)
    (ht : IsSectionTag t = false) :
    OptHolds (fun s' => RenderInv s' ∧ HTMLTop s' = t) (HTMLOpenTag s t) :=
  OptHolds_of_exists _ _ (RenderInv_openTag s t h hp ht)

theorem OptHolds_openSection (s : HTMLTagStack) (level : Int) (heading : List Char)
    (h : RenderInv s) (hl : level = 2 ∨ level = 3) :
    OptHolds RenderInv (HTMLOpenSection s level heading) := by
  obtain ⟨s1, h1, hinv, -, -⟩ := RenderInv_openSection s level heading h hl
  exact OptHolds_of_exists _ _ ⟨s1, h1, hinv⟩

/-- The handling of a function object keeps the shape of the tag stack. -/
theorem RenderInv_func (sc : List Char) (tags : HTMLTagStack) (obj : SCObject)
    (h : RenderInv tags) : StepHolds RenderInv (SCToHTMLFunc sc tags obj) := by
  have hrise : ∀ f : HTMLTagStack → Option SCToHTMLStep,
      (∀ s, RenderInv s → StepHolds RenderInv (f s)) →
      StepHolds RenderInv ((HTMLRiseToLowestSection tags).bind f) :=
    fun f hf => StepHolds_bind _ _ _ _ (OptHolds_rise _ h) hf
  have hopen : ∀ t : HTMLTagType,
      TagParentOK t HTMLTagType.Section = true ∧ TagParentOK t HTMLTagType.Article = true →
      IsSectionTag t = false →
      StepHolds RenderInv ((HTMLOpenTag tags t).map SCToHTMLStep.next) :=
    fun t hp ht => StepHolds_map _ _
      (OptHolds_mono _ _ _ (OptHolds_openTag _ t h hp ht) (fun _ hs => hs.1))
  unfold SCToHTMLFunc
  simp only []
  -- section, subsection
  refine StepHolds_ite _ _ _ _ (fun _ => StepHolds_ite _ _ _ _ (fun _ => StepHolds_ret0 _ _)
    (fun _ => StepHolds_map _ _ (OptHolds_openSection _ _ _ h (Or.inl rfl)))) (fun _ => ?_)
  refine StepHolds_ite _ _ _ _ (fun _ => StepHolds_ite _ _ _ _ (fun _ => StepHolds_ret0 _ _)
    (fun _ => StepHolds_map _ _ (OptHolds_openSection _ _ _ h (Or.inr rfl)))) (fun _ => ?_)
  -- paragraph and the three lists
  refine StepHolds_ite _ _ _ _ (fun _ => hopen _ (by decide) (by decide)) (fun _ => ?_)
  refine StepHolds_ite _ _ _ _ (fun _ => hopen _ (by decide) (by decide)) (fun _ => ?_)
  refine StepHolds_ite _ _ _ _ (fun _ => hopen _ (by decide) (by decide)) (fun _ => ?_)
  refine StepHolds_ite _ _ _ _ (fun _ => hopen _ (by decide) (by decide)) (fun _ => ?_)
  -- table
  refine StepHolds_ite _ _ _ _ (fun _ => StepHolds_bind _ _ _ _
    (OptHolds_openTag _ _ h (by decide) (by decide))
    (fun s hs => StepHolds_bind _ _ _ _
      (OptHolds_push s _ hs.1 (by rw [hs.2]; decide) (by decide))
      (fun s2 hs2 => StepHolds_ite _ _ _ _
        (fun _ => StepHolds_next _ _ (RenderInv_arena _ _ hs2))
        (fun _ => StepHolds_next _ _ hs2)))) (fun _ => ?_)
  -- item
  refine StepHolds_ite _ _ _ _ (fun _ => StepHolds_bind _ _ _ _
    (OptHolds_ite _ _ _ _
      (fun hc => OptHolds_pop _ h (by rcases hc with e | e | e <;> rw [e] <;> decide))
      (fun _ => OptHolds_some _ _ h))
    (fun s hs => StepHolds_ite _ _ _ _ (fun _ => StepHolds_ret0 _ _)
      (fun hn => StepHolds_ite _ _ _ _
        (fun hrow => StepHolds_map _ _ (OptHolds_push s _ hs (by rw [hrow]; decide)
          (by decide)))
        (fun hrow => StepHolds_map _ _ (OptHolds_push s _ hs (by
          revert hn hrow
          cases HTMLTop s <;> simp [TagParentOK]) (by decide)))))) (fun _ => ?_)
  -- hitem
  refine StepHolds_ite _ _ _ _ (fun _ => StepHolds_bind _ _ _ _
    (OptHolds_ite _ _ _ _
      (fun hc => OptHolds_pop _ h (by rcases hc with e | e <;> rw [e] <;> decide))
      (fun _ => OptHolds_some _ _ h))
    (fun s hs => StepHolds_ite _ _ _ _ (fun _ => StepHolds_ret0 _ _)
      (fun hrow => StepHolds_map _ _ (OptHolds_push s _ hs (by
        simp only [ne_eq, not_not] at hrow
        rw [hrow]
        decide) (by decide))))) (fun _ => ?_)
  -- row
  refine StepHolds_ite _ _ _ _ (fun _ => StepHolds_bind _ _ _ _
    (OptHolds_ite _ _ _ _
      (fun hc => OptHolds_pop _ h (by rcases hc with e | e <;> rw [e] <;> decide))
      (fun _ => OptHolds_some _ _ h))
    (fun s hs => StepHolds_bind _ _ _ _
      (OptHolds_ite _ _ _ _
        (fun hc => OptHolds_pop _ hs (by rw [hc]; decide))
        (fun _ => OptHolds_some _ _ hs))
      (fun s2 hs2 => StepHolds_ite _ _ _ _ (fun _ => StepHolds_ret0 _ _)
        (fun htab => StepHolds_map _ _ (OptHolds_push s2 _ hs2 (by
          simp only [ne_eq, not_not] at htab
          rw [htab]
          decide) (by decide)))))) (fun _ => ?_)
  -- html, code, quote
  refine StepHolds_ite _ _ _ _ (fun _ => StepHolds_ite _ _ _ _ (fun _ => StepHolds_ret0 _ _)
    (fun _ => hrise _ (fun s hs => StepHolds_next _ _ (RenderInv_arena _ _ hs))))
    (fun _ => ?_)
  refine StepHolds_ite _ _ _ _ (fun _ => StepHolds_ite _ _ _ _ (fun _ => StepHolds_ret0 _ _)
    (fun _ => hrise _ (fun s hs => StepHolds_next _ _ (RenderInv_arena _ _ hs))))
    (fun _ => ?_)
  refine StepHolds_ite _ _ _ _ (fun _ => StepHolds_ite _ _ _ _ (fun _ => StepHolds_ret0 _ _)
    (fun _ => hrise _ (fun s hs => StepHolds_next _ _ (RenderInv_arena _ _ hs))))
    (fun _ => ?_)
  -- bold, italic, inline
  refine StepHolds_ite _ _ _ _ (fun _ => StepHolds_ite _ _ _ _ (fun _ => StepHolds_ret0 _ _)
    (fun _ => StepHolds_next _ _ (RenderInv_arena _ _ h))) (fun _ => ?_)
  refine StepHolds_ite _ _ _ _ (fun _ => StepHolds_ite _ _ _ _ (fun _ => StepHolds_ret0 _ _)
    (fun _ => StepHolds_next _ _ (RenderInv_arena _ _ h))) (fun _ => ?_)
  refine StepHolds_ite _ _ _ _ (fun _ => StepHolds_ite _ _ _ _ (fun _ => StepHolds_ret0 _ _)
    (fun _ => StepHolds_next _ _ (RenderInv_arena _ _ h))) (fun _ => ?_)
  -- link
  refine StepHolds_ite _ _ _ _ (fun _ => StepHolds_ite _ _ _ _ (fun _ => StepHolds_ret0 _ _)
    (fun _ => StepHolds_ite _ _ _ _ (fun _ => StepHolds_ret0 _ _)
      (fun _ => StepHolds_next _ _ (RenderInv_arena _ _ h)))) (fun _ => ?_)
  -- image
  refine StepHolds_ite _ _ _ _ (fun _ => hrise _ (fun s hs => StepHolds_ite _ _ _ _
    (fun _ => StepHolds_ret0 _ _)
    (fun _ => StepHolds_next _ _ (RenderInv_arena _ _ hs)))) (fun _ => ?_)
  -- info
  refine StepHolds_ite _ _ _ _ (fun _ => hrise _ (fun s hs => StepHolds_ite _ _ _ _
    (fun _ => StepHolds_ret0 _ _)
    (fun _ => StepHolds_next _ _ (RenderInv_arena _ _ hs)))) (fun _ => ?_)
  exact StepHolds_ret0 _ _

/-- The handling of one object keeps the shape of the tag stack. -/
theorem RenderInv_object (sc : List Char) (tags : HTMLTagStack) (obj : SCObject)
    (h : RenderInv tags) : StepHolds RenderInv (SCToHTMLObject sc tags obj) := by
  have hpar : ∀ c : Prop, [Decidable c] →
      (c → HTMLTop tags = HTMLTagType.Article ∨ HTMLTop tags = HTMLTagType.Section) →
      OptHolds RenderInv (if c then HTMLPushTag tags HTMLTagType.Paragraph else some tags) := by
    intro c _ hc
    refine OptHolds_ite _ _ _ _ (fun hh => OptHolds_push _ _ h ?_ (by decide))
      (fun _ => OptHolds_some _ _ h)
    rcases hc hh with e | e <;> rw [e] <;> decide
  unfold SCToHTMLObject
  split
  · exact StepHolds_ret0 _ _
  · exact StepHolds_next _ _ h
  · simp only []
    exact StepHolds_bind _ _ _ _ (hpar _ (fun hc => hc.1))
      (fun s hs => StepHolds_next _ _ (RenderInv_arena _ _ hs))
  · exact StepHolds_bind _ _ _ _ (hpar _ (fun hc => hc))
      (fun s hs => StepHolds_next _ _ (RenderInv_arena _ _ hs))
  · exact RenderInv_func sc tags obj h

/-- Every tag stack that `SCToHTML` reaches while it handles the objects of a document has
the right shape. -/
theorem SCToHTMLAfter_inv (sc : List Char) (path file : String) (n : Nat) (r : SCReader)
    (tags : HTMLTagStack) (h : SCToHTMLAfter sc path file n = some (r, tags)) :
    RenderInv tags := by
  induction n generalizing r tags with
  | zero =>
    have e : SCToHTMLAfter sc path file 0
        = some (MakeSCReader sc path file, ArticleTagStack) := rfl
    rw [e] at h
    cases h
    exact RenderInv_init
  | succ n ih =>
    unfold SCToHTMLAfter at h
    obtain ⟨st, hst, h⟩ := Option.bind_eq_some.mp h
    obtain ⟨r0, tags0⟩ := st
    have hinv := ih r0 tags0 hst
    simp only [] at h
    split at h
    · rename_i t1 hstep
      cases h
      exact RenderInv_object sc tags0 _ hinv _ hstep
    · cases h

/-- What `HTMLOpenSection` does at level 3 when only the article is open: it pushes two
sections and writes the heading. -/
theorem HTMLOpenSection_article (s : HTMLTagStack) (heading : List Char)
    (hs : s.stack = [HTMLTagType.Article, HTMLTagType.TOS]) (hd : s.section_depth = 1) :
    HTMLOpenSection s 3 heading =
      some ⟨[HTMLTagType.Section, HTMLTagType.Section, HTMLTagType.Article, HTMLTagType.TOS], 3,
        ⟨s.arena.text ++ "<section>\n<section>\n<h1>".toList ++ EscapeText heading ++
          "</h1>\n".toList⟩,
        s.tag_writes ++ [TagWrite.opening HTMLTagType.Section,
          TagWrite.opening HTMLTagType.Section]⟩ := by
  obtain ⟨stack, depth, arena, writes⟩ := s
  simp only at hs hd
  subst hs hd
  have e : HTMLOpenSection ⟨[HTMLTagType.Article, HTMLTagType.TOS], 1, arena, writes⟩ 3 heading
      = some ⟨[HTMLTagType.Section, HTMLTagType.Section, HTMLTagType.Article,
          HTMLTagType.TOS], 3,
        ArenaPushCStr (HTMLWriteEscapedText heading (ArenaPushCStr
          (ArenaPushCStr (ArenaPushCStr arena "<section>\n") "<section>\n") "<h1>")) "</h1>\n",
        (writes ++ [TagWrite.opening HTMLTagType.Section]) ++
          [TagWrite.opening HTMLTagType.Section]⟩ := rfl
  rw [e, HTMLWriteEscapedText_eq]
  simp [ArenaPushCStr]

/-- The states of `SCToHTMLAfter` are those of the loop of `SCToHTML`: as long as no object
read so far was the end of the input, the run of `SCToHTML` is the run of its loop from the
state reached after `n` objects, with the fuel that is left. -/
theorem SCToHTMLRun_after (sc : List Char) (path file : String) (n fuel : Nat)
    (r : SCReader) (tags : HTMLTagStack)
    (h : SCToHTMLAfter sc path file n = some (r, tags))
    (hend : ∀ k, k < n → ∀ st, SCToHTMLAfter sc path file k = some st →
      (SCRead st.1).2.type ≠ SCObjectType.End)
    (hf : n + fuel = sc.length + 1) :
    SCToHTMLRun sc path file = SCToHTMLLoop sc fuel r tags := by
  induction n generalizing fuel r tags with
  | zero =>
    have e : SCToHTMLAfter sc path file 0
        = some (MakeSCReader sc path file, ArticleTagStack) := rfl
    rw [e] at h
    cases h
    have hfuel : fuel = sc.length + 1 := by omega
    subst hfuel
    rfl
  | succ n ih =>
    have hn := h
    unfold SCToHTMLAfter at hn
    obtain ⟨st, hst, hn⟩ := Option.bind_eq_some.mp hn
    obtain ⟨r0, tags0⟩ := st
    simp only [] at hn
    have hne := hend n (Nat.lt_succ_self n) _ hst
    simp only [] at hne
    rw [ih (fuel + 1) r0 tags0 hst (fun k hk => hend k (Nat.lt_succ_of_lt hk)) (by omega),
      SCToHTMLLoop_succ]
    split at hn
    · rename_i t1 hstep
      cases hn
      rw [hstep, Option.some_bind]
      simp only []
      have herr : (SCRead r0).2.type ≠ SCObjectType.Error := by
        intro e
        unfold SCToHTMLObject at hstep
        rw [e] at hstep
        cases hstep
      rw [if_pos ⟨hne, herr⟩]
    · cases hn

end SiteC

/-! ## The code and info commands, and calls followed by a space -/

namespace SiteC

theorem SCToHTMLFunc_code (sc : List Char) (tags : HTMLTagStack) (obj : SCObject)
    (hname : SliceText sc obj.function_name = "code".toList) :
    SCToHTMLFunc sc tags obj =
      if !obj.has_block then some (R_CheckSCObjectHasBlock obj "code")
      else
        (HTMLRiseToLowestSection tags).bind fun tags =>
          some (SCToHTMLStep.next { tags with
            arena := ArenaPushCStr (HTMLWriteEscapedText (SliceText sc obj.block)
              (ArenaPushCStr tags.arena "<pre><code>")) "</code></pre>\n" }) := by
  unfold SCToHTMLFunc
  simp only []
  repeat rw [if_neg (by rw [SliceEqCStr_of_text _ _ _ _ hname]; decide)]
  rw [if_pos (by rw [SliceEqCStr_of_text _ _ _ _ hname]; decide)]

theorem SCToHTMLFunc_info (sc : List Char) (tags : HTMLTagStack) (obj : SCObject)
    (hname : SliceText sc obj.function_name = "info".toList) :
    SCToHTMLFunc sc tags obj =
      (HTMLRiseToLowestSection tags).bind fun tags =>
        if HTMLTop tags ≠ HTMLTagType.Article then
          some (SCToHTMLStep.ret0 (SCMakeErrorString obj
            (some "Info command should be at the beginning of the file")))
        else
          some (SCToHTMLStep.next { tags with
            arena := HTMLWriteTitles sc obj (List.range obj.args_count) tags.arena }) := by
  unfold SCToHTMLFunc
  simp only []
  repeat rw [if_neg (by rw [SliceEqCStr_of_text _ _ _ _ hname]; decide)]
  rw [if_pos (by rw [SliceEqCStr_of_text _ _ _ _ hname]; decide)]

/-- What `SCRead` returns on a call whose name is followed by a character that is neither a
name character, nor a parenthesis, nor a brace: a function object without arguments and
without block, the cursor being left after the name. -/
theorem SCRead_plain_call (r : SCReader) (n : List Char) (c : Char) (t : List Char)
    (he : r.error = none) (h : SCRest r = '\\' :: n ++ c :: t) (hn : n ≠ [])
    (hname : ∀ x ∈ n, IsNameOrKeyChar x = true) (hc : IsNameOrKeyChar c = false)
    (hp : c ≠ '(') (hb : c ≠ '{') :
    SCRead r =
      (SCAdvance r ('\\' :: n),
        { SCReadStart r with
          type := SCObjectType.Func,
          function_name := ⟨some (r.current + 1), some (r.current + 1 + n.length)⟩,
          end_line_no := (SCAdvance r ('\\' :: n)).line_no,
          end_column_no := (SCAdvance r ('\\' :: n)).column_no,
          full_text := ⟨some r.current, some (SCAdvance r ('\\' :: n)).current⟩ }) := by
  obtain ⟨d, n', rfl⟩ := List.exists_cons_of_ne_nil hn
  have hd : d ≠ '\\' := IsNameOrKeyChar_ne_backslash d (hname d (List.mem_cons_self _ _))
  have hr1 := SCRest_advance r ('\\' :: d :: n') _ h
  rw [SCRead_function r d _ he h hd,
    SCReadFunction_name r _ (d :: n') _ h (List.cons_ne_nil _ _) hname (by simp [hc]),
    SCReadFunctionTail_plain _ _ (by rw [hr1]; simpa using hp) (by rw [hr1]; simpa using hb)
      (by simp)]

end SiteC

/-! ## The positions carried by the objects -/

namespace SiteC

/-- `SCError` keeps a start position that is already set. -/
theorem SCError_start (r : SCReader) (str : String) (out : SCObject)
    (h1 : 1 ≤ out.line_no) (h2 : 1 ≤ out.column_no) :
    (SCError r str out).2.line_no = out.line_no ∧
      (SCError r str out).2.column_no = out.column_no := by
  have e1 : out.line_no ≠ 0 := by omega
  have e2 : out.column_no ≠ 0 := by omega
  unfold SCError
  simp only [e1, e2, ↓reduceIte]
  split_ifs <;> exact ⟨rfl, rfl⟩

theorem SCExpect_start (r : SCReader) (c : Char) (err : String) (out : SCObject)
    (h1 : 1 ≤ out.line_no) (h2 : 1 ≤ out.column_no) :
    (SCExpect r c err out).2.2.line_no = out.line_no ∧
      (SCExpect r c err out).2.2.column_no = out.column_no := by
  unfold SCExpect
  split_ifs
  · exact SCError_start r err out h1 h2
  · exact ⟨rfl, rfl⟩

theorem SCReadArgument_start (r : SCReader) (out : SCObject)
    (h1 : 1 ≤ out.line_no) (h2 : 1 ≤ out.column_no) :
    (SCReadArgument r out).2.line_no = out.line_no ∧
      (SCReadArgument r out).2.column_no = out.column_no := by
  unfold SCReadArgument
  simp only []
  generalize hr2 : SCConsumeWhileFunc (SCConsumeWhitespace r) IsNameOrKeyChar = r2
  have hq := SCExpect_start (SCConsumeWhitespace r2) '=' "Expected = after param name" out
    h1 h2
  generalize SCExpect (SCConsumeWhitespace r2) '=' "Expected = after param name" out = eq
    at hq ⊢
  obtain ⟨b, r3, o3⟩ := eq
  simp only at hq ⊢
  generalize hr4 : SCConsumeWhitespace r3 = r4
  have hs := SCExpect_start (SCConsumeUntil (SCConsume r4 1) '"') '"'
    "Reached EOF without finding closing quote" o3 (by omega) (by omega)
  generalize SCExpect (SCConsumeUntil (SCConsume r4 1) '"') '"'
    "Reached EOF without finding closing quote" o3 = qt at hs ⊢
  obtain ⟨b', r5, o5⟩ := qt
  simp only at hs ⊢
  split_ifs
  · exact SCError_start _ _ _ h1 h2
  · exact SCError_start _ _ _ h1 h2
  · exact hq
  · rw [← hq.1, ← hq.2]
    exact SCError_start _ _ _ (by omega) (by omega)
  · exact ⟨hs.1.trans hq.1, hs.2.trans hq.2⟩
  · exact ⟨hs.1.trans hq.1, hs.2.trans hq.2⟩
  · exact hq
  · rw [← hq.1, ← hq.2]
    exact SCError_start _ _ _ (by omega) (by omega)

theorem SCReadArgumentListLoop_start (fuel : Nat) (r : SCReader) (out : SCObject)
    (h1 : 1 ≤ out.line_no) (h2 : 1 ≤ out.column_no) :
    (SCReadArgumentListLoop fuel r out).2.2.line_no = out.line_no ∧
      (SCReadArgumentListLoop fuel r out).2.2.column_no = out.column_no := by
  induction fuel generalizing r out with
  | zero => exact ⟨rfl, rfl⟩
  | succ n ih =>
    have ha := SCReadArgument_start r out h1 h2
    rw [SCReadArgumentListLoop_succ]
    split_ifs
    · exact ha
    · have := ih (SCConsume (SCReadArgument r out).1 1) (SCReadArgument r out).2
        (by omega) (by omega)
      exact ⟨this.1.trans ha.1, this.2.trans ha.2⟩
    · exact ha
    · exact ⟨rfl, rfl⟩

theorem SCReadArgumentList_start (r : SCReader) (out : SCObject)
    (h1 : 1 ≤ out.line_no) (h2 : 1 ≤ out.column_no) :
    (SCReadArgumentList r out).2.line_no = out.line_no ∧
      (SCReadArgumentList r out).2.column_no = out.column_no := by
  unfold SCReadArgumentList
  simp only []
  have ho := SCExpect_start r '('
    "Parser internal problem.Tried to read param list but there is no (" out h1 h2
  generalize SCExpect r '('
    "Parser internal problem.Tried to read param list but there is no (" out = op at ho ⊢
  obtain ⟨b, r1, o1⟩ := op
  simp only at ho ⊢
  have hl := SCReadArgumentListLoop_start (r1.text.length - r1.current) r1 o1
    (by omega) (by omega)
  generalize SCReadArgumentListLoop (r1.text.length - r1.current) r1 o1 = lp at hl ⊢
  obtain ⟨b2, r2, o2⟩ := lp
  simp only at hl ⊢
  have hc := SCExpect_start r2 ')' "Parameter list is missing the closing paren" o2
    (by omega) (by omega)
  split_ifs
  · exact ho
  · exact ⟨hl.1.trans ho.1, hl.2.trans ho.2⟩
  · exact ⟨hc.1.trans (hl.1.trans ho.1), hc.2.trans (hl.2.trans ho.2)⟩

theorem SCReadBlock_start (r : SCReader) (out : SCObject)
    (h1 : 1 ≤ out.line_no) (h2 : 1 ≤ out.column_no) :
    (SCReadBlock r out).2.line_no = out.line_no ∧
      (SCReadBlock r out).2.column_no = out.column_no := by
  unfold SCReadBlock
  simp only []
  have ho := SCExpect_start r '{'
    "Parser internal problemTried to read param list but there is no \x7b" out h1 h2
  generalize SCExpect r '{'
    "Parser internal problemTried to read param list but there is no \x7b" out = op at ho ⊢
  obtain ⟨b, r1, o1⟩ := op
  simp only at ho ⊢
  split_ifs
  · exact ho
  · rw [← ho.1, ← ho.2]
    exact SCError_start _ _ _ (by omega) (by omega)
  · exact ho

theorem SCReadFunction_start (r : SCReader) (out : SCObject)
    (h1 : 1 ≤ out.line_no) (h2 : 1 ≤ out.column_no) :
    (SCReadFunction r out).2.line_no = out.line_no ∧
      (SCReadFunction r out).2.column_no = out.column_no := by
  unfold SCReadFunction
  lift_lets
  intro s0 out1 bs name_begin r1 s1 out2 args blk s2 s3
  have h01 : out1.line_no = out.line_no ∧ out1.column_no = out.column_no := ⟨rfl, rfl⟩
  have hbs : bs = SCExpect r '\\'
    "Parser internal problem. Tried to read function but there is no \\ at the start" out1 :=
    rfl
  have ho2 : out2.line_no = bs.2.2.line_no ∧ out2.column_no = bs.2.2.column_no := ⟨rfl, rfl⟩
  have hargs : args = if r1.current < r1.text.length ∧ SCCurrentChar r1 = some '(' then
      SCReadArgumentList r1 out2 else (r1, out2) := rfl
  have hblk : blk = if args.1.current < args.1.text.length ∧
      SCCurrentChar args.1 = some '{' then SCReadBlock args.1 args.2 else args := rfl
  have hs2 : s2.line_no = blk.2.line_no ∧ s2.column_no = blk.2.column_no := ⟨rfl, rfl⟩
  clear_value s3 s2 blk args out2 r1 bs out1
  have hb := SCExpect_start r '\\'
    "Parser internal problem. Tried to read function but there is no \\ at the start" out1
    (by omega) (by omega)
  rw [← hbs] at hb
  have hb2 : bs.2.2.line_no = out.line_no ∧ bs.2.2.column_no = out.column_no :=
    ⟨hb.1.trans h01.1, hb.2.trans h01.2⟩
  have ho : out2.line_no = out.line_no ∧ out2.column_no = out.column_no :=
    ⟨ho2.1.trans hb2.1, ho2.2.trans hb2.2⟩
  have ha : args.2.line_no = out.line_no ∧ args.2.column_no = out.column_no := by
    rw [hargs]
    split_ifs
    · have := SCReadArgumentList_start r1 out2 (by omega) (by omega)
      exact ⟨this.1.trans ho.1, this.2.trans ho.2⟩
    · exact ho
  have hk : blk.2.line_no = out.line_no ∧ blk.2.column_no = out.column_no := by
    rw [hblk]
    split_ifs
    · have := SCReadBlock_start args.1 args.2 (by omega) (by omega)
      exact ⟨this.1.trans ha.1, this.2.trans ha.2⟩
    · exact ha
  split_ifs
  · exact hb2
  · have := SCError_start r1 "Expected function name after backslash" bs.2.2
      (by omega) (by omega)
    exact ⟨this.1.trans hb2.1, this.2.trans hb2.2⟩
  · exact ha
  · exact hk
  · exact ⟨hs2.1.trans hk.1, hs2.2.trans hk.2⟩

/-- Unless it is an error, the object that `SCReadFunction` returns ends where the reader
stands. -/
theorem SCReadFunction_end (r : SCReader) (out : SCObject) :
    (SCReadFunction r out).2.type = SCObjectType.Error ∨
      ((SCReadFunction r out).2.end_line_no = (SCReadFunction r out).1.line_no ∧
        (SCReadFunction r out).2.end_column_no = (SCReadFunction r out).1.column_no) := by
  unfold SCReadFunction
  lift_lets
  intro s0 out1 bs name_begin r1 s1 out2 args blk s2 s3
  have hbs : bs = SCExpect r '\\'
    "Parser internal problem. Tried to read function but there is no \\ at the start" out1 :=
    rfl
  clear_value s3 s2 blk args out2 r1 bs out1
  have hb := SCExpect_kept r '\\'
    "Parser internal problem. Tried to read function but there is no \\ at the start" out1
  rw [← hbs] at hb
  split_ifs with h1 h2 h3 h4
  · rcases hb with h | h
    · exact Or.inl h.2.1
    · rw [h.1] at h1; cases h1
  · exact Or.inl (SCError_type _ _ _)
  · exact Or.inl h3
  · exact Or.inl h4
  · exact Or.inr ⟨rfl, rfl⟩

/-- Every object that `SCRead` returns, the end object apart, ends where the reader
stands. -/
theorem SCRead_end_position (r : SCReader) (h : (SCRead r).2.type ≠ SCObjectType.End) :
    (SCRead r).2.end_line_no = (SCRead r).1.line_no ∧
      (SCRead r).2.end_column_no = (SCRead r).1.column_no := by
  rcases SCRead_kept r with g | g
  · exact ⟨g.2.2.2.1, g.2.2.2.2⟩
  · have hne := g.1
    revert h hne
    unfold SCRead
    simp only []
    split
    · intro _ hne
      exact absurd (SCError_type _ _ _) hne
    · split_ifs
      · intro h _
        exact absurd rfl h
      · intro _ hne
        exact absurd (SCError_type _ _ _) hne
      · intro _ _
        exact ⟨rfl, rfl⟩
      · intro _ hne
        rcases SCReadFunction_end r
          { SCObjectZero r.path r.file_name with
            line_no := r.line_no, column_no := r.column_no } with e | e
        · exact absurd e hne
        · exact e
      · intro _ _
        exact ⟨rfl, rfl⟩

/-- The end object carries no end position. -/
theorem SCRead_end_zero (r : SCReader) (h : (SCRead r).2.type = SCObjectType.End) :
    (SCRead r).2.end_line_no = 0 ∧ (SCRead r).2.end_column_no = 0 := by
  rcases SCRead_kept r with g | g
  · rw [g.1] at h
    cases h
  · obtain ⟨hr, hcur⟩ := g.2.2 h
    have he : r.error = none := by rw [← hr]; exact g.2.1
    rw [SCRead_end r he hcur]
    exact ⟨rfl, rfl⟩

/-- Every object that `SCRead` returns starts where the reader stood. -/
theorem SCRead_start_position (r : SCReader) (h1 : 1 ≤ r.line_no) (h2 : 1 ≤ r.column_no) :
    (SCRead r).2.line_no = r.line_no ∧ (SCRead r).2.column_no = r.column_no := by
  unfold SCRead
  simp only []
  split
  · exact SCError_start _ _ _ h1 h2
  · split_ifs
    · exact ⟨rfl, rfl⟩
    · exact SCError_start _ _ _ h1 h2
    · exact ⟨rfl, rfl⟩
    · exact SCReadFunction_start _ _ h1 h2
    · exact ⟨rfl, rfl⟩

theorem SCReadIter_cursor_text (text : List Char) (path file : String) (n : Nat) :
    CursorFrom text 0 (SCReadIter n (MakeSCReader text path file)) :=
  SCReadIter_preserves (CursorFrom text 0) (CursorFrom_consume text 0) (fun _ _ h => h) n _
    ⟨rfl, Nat.le_refl _, Nat.zero_le _⟩

theorem LineOf_le (p : List Char) : 1 ≤ LineOf p ∧ LineOf p ≤ 1 + p.length := by
  unfold LineOf
  exact ⟨by omega, by have := List.count_le_length '\n' p; omega⟩

theorem ColumnOf_le (p : List Char) : 1 ≤ ColumnOf p ∧ ColumnOf p ≤ 1 + p.length := by
  unfold ColumnOf
  have h := (List.takeWhile_prefix (fun c => c != '\n') (l := p.reverse)).length_le
  rw [List.length_reverse] at h
  exact ⟨by omega, by omega⟩

theorem PositionTracked_make {text : List Char} {path file : String} :
    PositionTracked (MakeSCReader text path file) := by
  constructor
  · show (1 : Int) = Int32Wrap (LineOf (List.take 0 text))
    rw [List.take_zero]
    decide
  · show (1 : Int) = Int32Wrap (ColumnOf (List.take 0 text))
    rw [List.take_zero]
    decide

/-- The line and the column of every reader reached from `MakeSCReader` are those of the
prefix consumed so far, as a 32-bit `int` holds them. -/
theorem SCReadIter_tracked (text : List Char) (path file : String) (n : Nat) :
    PositionTracked (SCReadIter n (MakeSCReader text path file)) :=
  SCReadIter_preserves PositionTracked PositionTracked_consume (fun _ _ h => h) n _
    PositionTracked_make

/-- On a buffer of fewer than `2^31 - 1` characters no counter wraps: the line and the
column are those of the prefix consumed so far. -/
theorem PositionTracked_exact (r : SCReader) (h : PositionTracked r)
    (hlen : r.text.length < 2147483647) :
    r.line_no = LineOf (r.text.take r.current) ∧
      r.column_no = ColumnOf (r.text.take r.current) := by
  obtain ⟨hl, hc⟩ := h
  have h1 := LineOf_le (r.text.take r.current)
  have h2 := ColumnOf_le (r.text.take r.current)
  have h3 : (r.text.take r.current).length ≤ r.text.length := by
    rw [List.length_take]
    omega
  rw [hl, hc]
  exact ⟨Int32Wrap_of_range _ (by omega) (by omega), Int32Wrap_of_range _ (by omega) (by omega)⟩

/-- On an input of fewer than `2^31 - 1` characters the line and the column of a reader that
started at 1:1 are at least 1. -/
theorem SCReadIter_position (text : List Char) (path file : String) (n : Nat)
    (hlen : text.length < 2147483647) :
    1 ≤ (SCReadIter n (MakeSCReader text path file)).line_no ∧
      1 ≤ (SCReadIter n (MakeSCReader text path file)).column_no := by
  obtain ⟨c1, -, -⟩ := SCReadIter_cursor_text text path file n
  have h := PositionTracked_exact _ (SCReadIter_tracked text path file n)
    (by rw [c1]; exact hlen)
  have h1 := LineOf_le ((SCReadIter n (MakeSCReader text path file)).text.take
    (SCReadIter n (MakeSCReader text path file)).current)
  have h2 := ColumnOf_le ((SCReadIter n (MakeSCReader text path file)).text.take
    (SCReadIter n (MakeSCReader text path file)).current)
  rw [h.1, h.2]
  exact ⟨by omega, by omega⟩

theorem SCReadIter_succ_right (n : Nat) (r : SCReader) :
    SCReadIter (n + 1) r = (SCRead (SCReadIter n r)).1 := by
  induction n generalizing r with
  | zero => rfl
  | succ k ih =>
    show SCReadIter (k + 1) (SCRead r).1 = _
    rw [ih]
    rfl

end SiteC

/-! ## Argument texts, SliceCmp -/

namespace SiteC

/-- The keys and values that `SCRead` reports for a call with a list of at most
`SC_MAX_ARGS` well-formed arguments. -/
theorem SCRead_arg_call_fields (n : List Char) (args : List ArgText) (rest : List Char)
    (path file : String) (hn : n ≠ []) (hname : ∀ c ∈ n, IsNameOrKeyChar c = true)
    (h1 : 1 ≤ args.length) (h32 : args.length ≤ SC_MAX_ARGS)
    (hw : ∀ x ∈ args, x.WellFormed) :
    (SCRead (MakeSCReader (ArgCall n args rest) path file)).2.args_count = args.length ∧
      (SCRead (MakeSCReader (ArgCall n args rest) path file)).2.keys.map
        (SliceText (ArgCall n args rest)) = args.map (fun x => x.key) ∧
      (SCRead (MakeSCReader (ArgCall n args rest) path file)).2.values.map
        (SliceText (ArgCall n args rest)) = args.map (fun x => x.value.content) := by
  obtain ⟨a, as, rfl⟩ := List.exists_cons_of_ne_nil (List.ne_nil_of_length_pos h1)
  obtain ⟨c, n', rfl⟩ := List.exists_cons_of_ne_nil hn
  have hc : c ≠ '\\' := IsNameOrKeyChar_ne_backslash c (hname c (List.mem_cons_self _ _))
  have h : SCRest (MakeSCReader (ArgCall (c :: n') (a :: as) rest) path file)
      = '\\' :: (c :: n') ++ ('(' :: ArgListText (a :: as) ++ ')' :: rest) := by
    simp [SCRest, MakeSCReader, ArgCall]
  have hr1 := SCRest_advance _ ('\\' :: c :: n') _ h
  obtain ⟨ks, vs, hl, hks, hvs⟩ := SCReadArgumentList_args
    (SCAdvance (MakeSCReader (ArgCall (c :: n') (a :: as) rest) path file) ('\\' :: c :: n'))
    { SCReadStart (MakeSCReader (ArgCall (c :: n') (a :: as) rest) path file) with
      type := SCObjectType.Func,
      full_text := { (SCReadStart (MakeSCReader (ArgCall (c :: n') (a :: as) rest)
        path file)).full_text with
        begin := some (MakeSCReader (ArgCall (c :: n') (a :: as) rest) path file).current },
      function_name := ⟨some ((MakeSCReader (ArgCall (c :: n') (a :: as) rest)
        path file).current + 1), some ((MakeSCReader (ArgCall (c :: n') (a :: as) rest)
        path file).current + 1 + (c :: n').length)⟩ }
    a as rest hr1 hw (by simpa [SCReadStart, SCObjectZero] using h32) (by simp)
  have hany := SCReadFunctionTail_after_args_any _ _ _ _ (by rw [hr1]; rfl) hl (by simp)
  rw [SCRead_function _ c _ rfl h hc,
    SCReadFunction_name _ _ (c :: n') _ h (List.cons_ne_nil _ _) hname (by simp; decide)]
  rw [hany.2.1, hany.2.2.1, hany.2.2.2.1]
  rw [SCAdvance_text] at hks hvs
  refine ⟨?_, ?_, ?_⟩
  · simp [SCReadStart, SCObjectZero]
  · simpa [SCReadStart, SCObjectZero, MakeSCReader] using hks
  · simpa [SCReadStart, SCObjectZero, MakeSCReader] using hvs

/-- On a buffer and its extension, `memcmp` over the length of the shorter one is 0. -/
theorem memcmp_extends (a t : List Char) : memcmp a (a ++ t) a.length = 0 := by
  induction a with
  | nil => cases t <;> rfl
  | cons c a ih =>
    simp only [List.cons_append, List.length_cons, memcmp, if_true]
    exact ih

theorem memcmp_extends_left (a t : List Char) : memcmp (a ++ t) a a.length = 0 := by
  induction a with
  | nil => cases t <;> rfl
  | cons c a ih =>
    simp only [List.cons_append, List.length_cons, memcmp, if_true]
    exact ih

theorem IntOfMemsize_sub (alen blen : Nat) (h : alen < blen) (hb : blen < 2 ^ 31) :
    IntOfMemsize ((blen + 2 ^ 64 - alen) % 2 ^ 64) = (blen : Int) - alen := by
  unfold IntOfMemsize
  have e : (blen + 2 ^ 64 - alen) % 2 ^ 64 = blen - alen := by omega
  rw [e]
  have e2 : (blen - alen) % 2 ^ 32 = blen - alen := by omega
  rw [e2, if_pos (by omega)]
  omega

theorem IntOfMemsize_sub_neg (alen blen : Nat) (h : blen < alen) (ha : alen < 2 ^ 31) :
    IntOfMemsize ((blen + 2 ^ 64 - alen) % 2 ^ 64) = (blen : Int) - alen := by
  unfold IntOfMemsize
  have e : (blen + 2 ^ 64 - alen) % 2 ^ 64 = blen + 2 ^ 64 - alen := by omega
  rw [e]
  have e2 : (blen + 2 ^ 64 - alen) % 2 ^ 32 = blen + 2 ^ 32 - alen := by omega
  rw [e2, if_neg (by omega)]
  omega

/-- On a proper prefix and its extension `SliceCmp` returns the length of the extension
minus that of the prefix, a positive number. -/
theorem SliceCmp_extends (a t : List Char) (ht : t ≠ []) (hb : (a ++ t).length < 2 ^ 31) :
    SliceCmp a (a ++ t) = t.length ∧ SliceCmp (a ++ t) a = - (t.length : Int) := by
  have htl : 0 < t.length := List.length_pos.mpr ht
  rw [List.length_append] at hb
  constructor
  · unfold SliceCmp
    simp only [List.length_append]
    have hmin : (if a.length < a.length + t.length then a.length
        else a.length + t.length) = a.length := if_pos (by omega)
    rw [hmin, memcmp_extends, if_pos ⟨rfl, by omega⟩,
      IntOfMemsize_sub _ _ (by omega) (by omega)]
    push_cast
    omega
  · unfold SliceCmp
    simp only [List.length_append]
    have hmin : (if a.length + t.length < a.length then a.length + t.length
        else a.length) = a.length := if_neg (by omega)
    rw [hmin, memcmp_extends_left, if_pos ⟨rfl, by omega⟩,
      IntOfMemsize_sub_neg _ _ (by omega) (by omega)]
    push_cast
    omega

theorem BytesLt_extends (a t : List Char) (ht : t ≠ []) : BytesLt a (a ++ t) = true := by
  induction a with
  | nil =>
    cases t with
    | nil => exact absurd rfl ht
    | cons c t => rfl
  | cons c a ih =>
    show (decide (c.toNat < c.toNat) || (c == c && BytesLt a (a ++ t))) = true
    rw [ih]
    simp

end SiteC

/-! ## Properties kept by every push, pop and write -/

namespace SiteC

theorem ext_cstr (a : Arena) (s : String) : a.text <+: (ArenaPushCStr a s).text :=
  List.prefix_append _ _

theorem ext_char (a : Arena) (c : Char) : a.text <+: (ArenaPushChar a c).text :=
  List.prefix_append _ _

theorem ext_slice (a : Arena) (s : List Char) : a.text <+: (ArenaPushSlice a s).text :=
  List.prefix_append _ _

theorem ext_esc (t : List Char) (a : Arena) : a.text <+: (HTMLWriteEscapedText t a).text := by
  rw [HTMLWriteEscapedText_eq]
  exact List.prefix_append _ _

theorem ext_intag (t : List Char) (tag : String) (a : Arena) :
    a.text <+: (HTMLWriteInTag t tag a).text := by
  rw [HTMLWriteInTag_eq]
  exact List.prefix_append _ _

theorem ext_attr (k v : List Char) (a : Arena) : a.text <+: (HTMLWriteAttribute k v a).text := by
  simp [HTMLWriteAttribute, ArenaPushChar, ArenaPushCStr, ArenaPushSlice]

theorem ext_args (sc : List Char) (obj : SCObject) (attr : String) (is : List Nat) :
    ∀ st : Bool × Arena, st.2.text <+: (HTMLWriteArguments sc obj attr is st).2.text := by
  induction is with
  | nil => intro st; exact List.prefix_refl _
  | cons i is ih =>
    intro st
    obtain ⟨f, a⟩ := st
    unfold HTMLWriteArguments
    simp only []
    split_ifs
    · exact (ext_attr _ _ a).trans (ih (true, _))
    · exact (ext_attr _ _ a).trans (ih (f, _))

theorem ext_titles (sc : List Char) (obj : SCObject) (is : List Nat) :
    ∀ a : Arena, a.text <+: (HTMLWriteTitles sc obj is a).text := by
  induction is with
  | nil => intro a; exact List.prefix_refl _
  | cons i is ih =>
    intro a
    unfold HTMLWriteTitles
    split_ifs
    · exact ih a
    · exact (ext_intag _ _ a).trans (ih _)

theorem closed_riseLoop (P : HTMLTagStack → Prop) (hP : TagOpClosed P) (fuel : Nat)
    (s : HTMLTagStack) (h : P s) : OptHolds P (HTMLRiseToLowestSectionLoop fuel s) := by
  induction fuel generalizing s with
  | zero => intro s' hs; cases hs
  | succ n ih =>
    unfold HTMLRiseToLowestSectionLoop
    exact OptHolds_ite _ _ _ _
      (fun _ => OptHolds_bind _ _ _ _ (fun s1 h1 => hP.2.1 s s1 h h1) (fun s1 h1 => ih s1 h1))
      (fun _ => OptHolds_some _ _ h)

theorem closed_rise (P : HTMLTagStack → Prop) (hP : TagOpClosed P) (s : HTMLTagStack)
    (h : P s) : OptHolds P (HTMLRiseToLowestSection s) :=
  closed_riseLoop P hP _ s h

theorem closed_push (P : HTMLTagStack → Prop) (hP : TagOpClosed P) (s : HTMLTagStack)
    (t : HTMLTagType) (h : P s) : OptHolds P (HTMLPushTag s t) :=
  fun s1 h1 => hP.1 s t s1 h h1

theorem closed_pop (P : HTMLTagStack → Prop) (hP : TagOpClosed P) (s : HTMLTagStack)
    (h : P s) : OptHolds P (HTMLPopTag s) :=
  fun s1 h1 => hP.2.1 s s1 h h1

theorem closed_openTag (P : HTMLTagStack → Prop) (hP : TagOpClosed P) (s : HTMLTagStack)
    (t : HTMLTagType) (h : P s) : OptHolds P (HTMLOpenTag s t) := by
  unfold HTMLOpenTag
  exact OptHolds_bind _ _ _ _ (closed_rise P hP s h) (fun s1 h1 => closed_push P hP s1 t h1)

theorem closed_openSectionRise (P : HTMLTagStack → Prop) (hP : TagOpClosed P) (level : Int)
    (fuel : Nat) (s : HTMLTagStack) (h : P s) :
    OptHolds P (HTMLOpenSectionRise level fuel s) := by
  induction fuel generalizing s with
  | zero => intro s' hs; cases hs
  | succ n ih =>
    unfold HTMLOpenSectionRise
    exact OptHolds_ite _ _ _ _
      (fun _ => OptHolds_bind _ _ _ _ (closed_pop P hP s h) (fun s1 h1 => ih s1 h1))
      (fun _ => OptHolds_some _ _ h)

theorem closed_openSectionMake (P : HTMLTagStack → Prop) (hP : TagOpClosed P) (level : Int)
    (fuel : Nat) (s : HTMLTagStack) (h : P s) :
    OptHolds P (HTMLOpenSectionMake level fuel s) := by
  induction fuel generalizing s with
  | zero => intro s' hs; cases hs
  | succ n ih =>
    unfold HTMLOpenSectionMake
    exact OptHolds_ite _ _ _ _
      (fun _ => OptHolds_bind _ _ _ _ (closed_push P hP s _ h) (fun s1 h1 => ih s1 h1))
      (fun _ => OptHolds_some _ _ h)

theorem closed_openSection (P : HTMLTagStack → Prop) (hP : TagOpClosed P) (s : HTMLTagStack)
    (level : Int) (heading : List Char) (h : P s) :
    OptHolds P (HTMLOpenSection s level heading) := by
  unfold HTMLOpenSection
  refine OptHolds_bind _ _ _ _ (closed_openSectionRise P hP level _ s h) (fun s1 h1 => ?_)
  refine OptHolds_bind _ _ _ _ (closed_openSectionMake P hP level _ s1 h1) (fun s2 h2 => ?_)
  exact OptHolds_some _ _ (hP.2.2 s2 _ h2
    ((ext_cstr _ _).trans ((ext_esc _ _).trans (ext_cstr _ _))))

/-- The handling of a function object keeps every property that pushes, pops and writes
keep. -/
theorem closed_func (P : HTMLTagStack → Prop) (hP : TagOpClosed P) (sc : List Char)
    (tags : HTMLTagStack) (obj : SCObject) (h : P tags) :
    StepHolds P (SCToHTMLFunc sc tags obj) := by
  have hrise : ∀ f : HTMLTagStack → Option SCToHTMLStep,
      (∀ s, P s → StepHolds P (f s)) →
      StepHolds P ((HTMLRiseToLowestSection tags).bind f) :=
    fun f hf => StepHolds_bind _ _ _ _ (closed_rise P hP _ h) hf
  have hpopif : ∀ (c : Prop) [Decidable c] (s : HTMLTagStack), P s →
      OptHolds P (if c then HTMLPopTag s else some s) :=
    fun c _ s hs => OptHolds_ite _ _ _ _ (fun _ => closed_pop P hP s hs)
      (fun _ => OptHolds_some _ _ hs)
  unfold SCToHTMLFunc
  simp only []
  -- section, subsection
  refine StepHolds_ite _ _ _ _ (fun _ => StepHolds_ite _ _ _ _ (fun _ => StepHolds_ret0 _ _)
    (fun _ => StepHolds_map _ _ (closed_openSection P hP _ _ _ h))) (fun _ => ?_)
  refine StepHolds_ite _ _ _ _ (fun _ => StepHolds_ite _ _ _ _ (fun _ => StepHolds_ret0 _ _)
    (fun _ => StepHolds_map _ _ (closed_openSection P hP _ _ _ h))) (fun _ => ?_)
  -- paragraph and the three lists
  refine StepHolds_ite _ _ _ _ (fun _ => StepHolds_map _ _ (closed_openTag P hP _ _ h))
    (fun _ => ?_)
  refine StepHolds_ite _ _ _ _ (fun _ => StepHolds_map _ _ (closed_openTag P hP _ _ h))
    (fun _ => ?_)
  refine StepHolds_ite _ _ _ _ (fun _ => StepHolds_map _ _ (closed_openTag P hP _ _ h))
    (fun _ => ?_)
  refine StepHolds_ite _ _ _ _ (fun _ => StepHolds_map _ _ (closed_openTag P hP _ _ h))
    (fun _ => ?_)
  -- table
  refine StepHolds_ite _ _ _ _ (fun _ => StepHolds_bind _ _ _ _ (closed_openTag P hP _ _ h)
    (fun s hs => StepHolds_bind _ _ _ _ (closed_push P hP s _ hs)
      (fun s2 hs2 => StepHolds_ite _ _ _ _
        (fun _ => StepHolds_next _ _ (hP.2.2 s2 _ hs2 (ext_intag _ _ _)))
        (fun _ => StepHolds_next _ _ hs2)))) (fun _ => ?_)
  -- item
  refine StepHolds_ite _ _ _ _ (fun _ => StepHolds_bind _ _ _ _ (hpopif _ _ h)
    (fun s hs => StepHolds_ite _ _ _ _ (fun _ => StepHolds_ret0 _ _)
      (fun _ => StepHolds_ite _ _ _ _
        (fun _ => StepHolds_map _ _ (closed_push P hP s _ hs))
        (fun _ => StepHolds_map _ _ (closed_push P hP s _ hs))))) (fun _ => ?_)
  -- hitem
  refine StepHolds_ite _ _ _ _ (fun _ => StepHolds_bind _ _ _ _ (hpopif _ _ h)
    (fun s hs => StepHolds_ite _ _ _ _ (fun _ => StepHolds_ret0 _ _)
      (fun _ => StepHolds_map _ _ (closed_push P hP s _ hs)))) (fun _ => ?_)
  -- row
  refine StepHolds_ite _ _ _ _ (fun _ => StepHolds_bind _ _ _ _ (hpopif _ _ h)
    (fun s hs => StepHolds_bind _ _ _ _ (hpopif _ _ hs)
      (fun s2 hs2 => StepHolds_ite _ _ _ _ (fun _ => StepHolds_ret0 _ _)
        (fun _ => StepHolds_map _ _ (closed_push P hP s2 _ hs2))))) (fun _ => ?_)
  -- html, code, quote
  refine StepHolds_ite _ _ _ _ (fun _ => StepHolds_ite _ _ _ _ (fun _ => StepHolds_ret0 _ _)
    (fun _ => hrise _ (fun s hs => StepHolds_next _ _ (hP.2.2 s _ hs (ext_slice _ _)))))
    (fun _ => ?_)
  refine StepHolds_ite _ _ _ _ (fun _ => StepHolds_ite _ _ _ _ (fun _ => StepHolds_ret0 _ _)
    (fun _ => hrise _ (fun s hs => StepHolds_next _ _ (hP.2.2 s _ hs
      ((ext_cstr _ _).trans ((ext_esc _ _).trans (ext_cstr _ _)))))))
    (fun _ => ?_)
  refine StepHolds_ite _ _ _ _ (fun _ => StepHolds_ite _ _ _ _ (fun _ => StepHolds_ret0 _ _)
    (fun _ => hrise _ (fun s hs => StepHolds_next _ _ (hP.2.2 s _ hs (ext_intag _ _ _)))))
    (fun _ => ?_)
  -- bold, italic, inline
  refine StepHolds_ite _ _ _ _ (fun _ => StepHolds_ite _ _ _ _ (fun _ => StepHolds_ret0 _ _)
    (fun _ => StepHolds_next _ _ (hP.2.2 tags _ h (ext_intag _ _ _)))) (fun _ => ?_)
  refine StepHolds_ite _ _ _ _ (fun _ => StepHolds_ite _ _ _ _ (fun _ => StepHolds_ret0 _ _)
    (fun _ => StepHolds_next _ _ (hP.2.2 tags _ h (ext_intag _ _ _)))) (fun _ => ?_)
  refine StepHolds_ite _ _ _ _ (fun _ => StepHolds_ite _ _ _ _ (fun _ => StepHolds_ret0 _ _)
    (fun _ => StepHolds_next _ _ (hP.2.2 tags _ h (ext_intag _ _ _)))) (fun _ => ?_)
  -- link
  refine StepHolds_ite _ _ _ _ (fun _ => StepHolds_ite _ _ _ _ (fun _ => StepHolds_ret0 _ _)
    (fun _ => StepHolds_ite _ _ _ _ (fun _ => StepHolds_ret0 _ _)
      (fun _ => StepHolds_next _ _ (hP.2.2 tags _ h
        ((ext_cstr _ _).trans ((ext_args sc obj _ _ (false, _)).trans
          ((ext_cstr _ _).trans ((ext_esc _ _).trans (ext_cstr _ _))))))))) (fun _ => ?_)
  -- image
  refine StepHolds_ite _ _ _ _ (fun _ => hrise _ (fun s hs => StepHolds_ite _ _ _ _
    (fun _ => StepHolds_ret0 _ _)
    (fun _ => StepHolds_next _ _ (hP.2.2 s _ hs
      ((ext_cstr _ _).trans ((ext_args sc obj _ _ (false, _)).trans (ext_cstr _ _)))))))
    (fun _ => ?_)
  -- info
  refine StepHolds_ite _ _ _ _ (fun _ => hrise _ (fun s hs => StepHolds_ite _ _ _ _
    (fun _ => StepHolds_ret0 _ _)
    (fun _ => StepHolds_next _ _ (hP.2.2 s _ hs (ext_titles _ _ _ _))))) (fun _ => ?_)
  exact StepHolds_ret0 _ _

/-- The handling of one object keeps every property that pushes, pops and writes keep. -/
theorem closed_object (P : HTMLTagStack → Prop) (hP : TagOpClosed P) (sc : List Char)
    (tags : HTMLTagStack) (obj : SCObject) (h : P tags) :
    StepHolds P (SCToHTMLObject sc tags obj) := by
  have hpar : ∀ c : Prop, [Decidable c] →
      OptHolds P (if c then HTMLPushTag tags HTMLTagType.Paragraph else some tags) :=
    fun c _ => OptHolds_ite _ _ _ _ (fun _ => closed_push P hP _ _ h)
      (fun _ => OptHolds_some _ _ h)
  unfold SCToHTMLObject
  split
  · exact StepHolds_ret0 _ _
  · exact StepHolds_next _ _ h
  · simp only []
    exact StepHolds_bind _ _ _ _ (hpar _)
      (fun s hs => StepHolds_next _ _ (hP.2.2 s _ hs (ext_esc _ _)))
  · exact StepHolds_bind _ _ _ _ (hpar _)
      (fun s hs => StepHolds_next _ _ (hP.2.2 s _ hs (ext_char _ _)))
  · exact closed_func P hP sc tags obj h

theorem closed_popAll (P : HTMLTagStack → Prop) (hP : TagOpClosed P) (fuel : Nat)
    (s : HTMLTagStack) (h : P s) : OptHolds P (HTMLPopAll fuel s) := by
  induction fuel generalizing s with
  | zero => intro s' hs; cases hs
  | succ n ih =>
    unfold HTMLPopAll
    exact OptHolds_ite _ _ _ _
      (fun _ => OptHolds_bind _ _ _ _ (closed_pop P hP s h) (fun s1 h1 => ih s1 h1))
      (fun _ => OptHolds_some _ _ h)

/-- When the loop of `SCToHTML` reaches `return 1`, it has left the `do ... while` with a
tag stack that satisfies every property kept by the handling of the objects, and the final
stack is what the last loop makes of it. -/
theorem SCToHTMLLoop_exit (Inv : HTMLTagStack → Prop) (sc : List Char)
    (hstep : ∀ tags obj, Inv tags → StepHolds Inv (SCToHTMLObject sc tags obj))
    (fuel : Nat) (r : SCReader) (tags tags' : HTMLTagStack) (h : Inv tags)
    (hp : SCToHTMLLoop sc fuel r tags = some (SCToHTMLStep.next tags')) :
    ∃ t1, Inv t1 ∧ HTMLPopAll (t1.stack.length + 1) t1 = some tags' := by
  induction fuel generalizing r tags with
  | zero => cases hp
  | succ n ih =>
    unfold SCToHTMLLoop at hp
    simp only [] at hp
    obtain ⟨step, hstep1, hp⟩ := Option.bind_eq_some.mp hp
    cases step with
    | ret0 m => cases hp
    | next t1 =>
      have h1 := hstep tags _ h t1 hstep1
      simp only [] at hp
      split_ifs at hp
      · exact ih _ t1 h1 hp
      · obtain ⟨s, hs, he⟩ := Option.map_eq_some'.mp hp
        cases he
        exact ⟨t1, h1, hs⟩

theorem DepthInv_closed : TagOpClosed DepthInv := by
  refine ⟨fun s t s' h hp => ?_, fun s s' h hp => ?_, fun s a h _ => h⟩
  · unfold HTMLPushTag at hp
    by_cases hd : s.tag_pos + 1 < SC_HTML_MAX_TAG_DEPTH
    · rw [if_pos hd] at hp
      cases hp
      unfold DepthInv at h ⊢
      simp only []
      rw [SectionCount_cons, h]
      have hx : IsSectionTag t = true ↔
          (t = HTMLTagType.Article ∨ t = HTMLTagType.Section) := by
        cases t <;> simp [IsSectionTag]
      by_cases hsec : IsSectionTag t = true
      · rw [if_pos (hx.mp hsec), if_pos hsec]
        simp
      · rw [if_neg (fun hh => hsec (hx.mpr hh)), if_neg hsec]
        simp
    · rw [if_neg hd] at hp
      cases hp
  · unfold HTMLPopTag at hp
    split at hp
    · rename_i tag below rest hs
      cases hp
      unfold DepthInv at h ⊢
      simp only []
      rw [hs, SectionCount_cons] at h
      have hx : IsSectionTag tag = true ↔
          (tag = HTMLTagType.Article ∨ tag = HTMLTagType.Section) := by
        cases tag <;> simp [IsSectionTag]
      by_cases hsec : IsSectionTag tag = true
      · rw [if_pos (hx.mp hsec)]
        rw [if_pos hsec] at h
        rw [h]
        push_cast
        omega
      · rw [if_neg (fun hh => hsec (hx.mpr hh))]
        rw [if_neg hsec] at h
        rw [h]
        simp
    · cases hp

theorem ArenaFrom_closed (a0 : List Char) :
    TagOpClosed (fun s => a0 <+: s.arena.text) := by
  refine ⟨fun s t s' h hp => ?_, fun s s' h hp => ?_, fun s a h ha => h.trans ha⟩
  · unfold HTMLPushTag at hp
    by_cases hd : s.tag_pos + 1 < SC_HTML_MAX_TAG_DEPTH
    · rw [if_pos hd] at hp
      cases hp
      exact h.trans (ext_cstr _ _)
    · rw [if_neg hd] at hp
      cases hp
  · unfold HTMLPopTag at hp
    split at hp
    · cases hp
      exact h.trans (ext_cstr _ _)
    · cases hp

theorem StackShapeOK_no_TOS (body : List HTMLTagType)
    (h : StackShapeOK (body ++ [HTMLTagType.Article, HTMLTagType.TOS]) = true) :
    HTMLTagType.TOS ∉ body := by
  induction body with
  | nil => simp
  | cons x b ih =>
    obtain ⟨y, rest, hrest⟩ : ∃ y rest,
        b ++ [HTMLTagType.Article, HTMLTagType.TOS] = y :: rest := by
      cases b with
      | nil => exact ⟨_, _, rfl⟩
      | cons y b => exact ⟨_, _, rfl⟩
    rw [List.cons_append, hrest] at h
    obtain ⟨hxy, hsh⟩ := StackShapeOK_cons x y rest h
    rw [← hrest] at hsh
    simp only [List.mem_cons, not_or]
    refine ⟨?_, ih hsh⟩
    rintro rfl
    simp [TagParentOK] at hxy

/-- What a pop does on a stack whose two top entries are known. -/
theorem HTMLPopTag_cons (s : HTMLTagStack) (x y : HTMLTagType) (rest : List HTMLTagType)
    (hs : s.stack = x :: y :: rest) :
    HTMLPopTag s = some
      { stack := y :: rest,
        section_depth :=
          if x = HTMLTagType.Article ∨ x = HTMLTagType.Section then s.section_depth - 1
          else s.section_depth,
        arena := ArenaPushCStr s.arena ("</" ++ g_html_tag_type_close_text x ++ ">\n"),
        tag_writes := s.tag_writes ++ [TagWrite.closing x] } := by
  unfold HTMLPopTag
  rw [hs]

/-- The last loop of `SCToHTML`, from a stack with the article above the sentinel: it pops
every entry, the article last, so that the sentinel alone is left, `section_depth` is 0 and
the text written ends with `</article>`. -/
theorem HTMLPopAll_drain (body : List HTMLTagType) :
    ∀ (fuel : Nat) (s s' : HTMLTagStack),
      s.stack = body ++ [HTMLTagType.Article, HTMLTagType.TOS] → HTMLTagType.TOS ∉ body →
      DepthInv s → HTMLPopAll fuel s = some s' →
      s'.stack = [HTMLTagType.TOS] ∧ s'.section_depth = 0 ∧
        "</article>\n".toList <:+ s'.arena.text ∧ s.arena.text <+: s'.arena.text := by
  induction body with
  | nil =>
    intro fuel s s' hs _ hd hp
    cases fuel with
    | zero => cases hp
    | succ n =>
      unfold HTMLPopAll at hp
      have htop : HTMLTop s ≠ HTMLTagType.TOS := by
        unfold HTMLTop
        rw [hs]
        decide
      rw [if_pos htop, HTMLPopTag_cons s _ _ _ hs, Option.some_bind] at hp
      cases n with
      | zero => cases hp
      | succ m =>
        unfold HTMLPopAll at hp
        rw [if_neg (by unfold HTMLTop; simp)] at hp
        cases hp
        unfold DepthInv at hd
        rw [hs] at hd
        refine ⟨rfl, ?_, ?_, ext_cstr _ _⟩
        · simp only [true_or, ↓reduceIte]
          rw [hd]
          rfl
        · exact List.suffix_append _ _
  | cons x b ih =>
    intro fuel s s' hs hn hd hp
    obtain ⟨y, rest, hrest⟩ : ∃ y rest,
        b ++ [HTMLTagType.Article, HTMLTagType.TOS] = y :: rest := by
      cases b with
      | nil => exact ⟨_, _, rfl⟩
      | cons y b => exact ⟨_, _, rfl⟩
    have hs2 : s.stack = x :: y :: rest := by rw [hs, List.cons_append, hrest]
    cases fuel with
    | zero => cases hp
    | succ n =>
      unfold HTMLPopAll at hp
      have htop : HTMLTop s ≠ HTMLTagType.TOS := by
        unfold HTMLTop
        rw [hs2]
        intro e
        exact hn (by rw [← e]; exact List.mem_cons_self _ _)
      rw [if_pos htop] at hp
      obtain ⟨s1, h1, h2⟩ := Option.bind_eq_some.mp hp
      have hd1 := DepthInv_closed.2.1 s s1 hd h1
      rw [HTMLPopTag_cons s _ _ _ hs2] at h1
      have hst : s1.stack = b ++ [HTMLTagType.Article, HTMLTagType.TOS] := by
        rw [← Option.some.inj h1, hrest]
      have har : s.arena.text <+: s1.arena.text := by
        rw [← Option.some.inj h1]
        exact ext_cstr _ _
      obtain ⟨r1, r2, r3, r4⟩ := ih n s1 s' hst (fun hm => hn (List.mem_cons_of_mem _ hm))
        hd1 h2
      exact ⟨r1, r2, r3, har.trans r4⟩

theorem RenderInv_depth (s : HTMLTagStack) (h : RenderInv s) : DepthInv s := h.2.2.1

end SiteC

/-! ## The escaping rule is injective -/

namespace SiteC

theorem EscapeChar_cases (c : Char) :
    (c = '"' ∧ EscapeChar c = "&quot;".toList) ∨ (c = '&' ∧ EscapeChar c = "&amp;".toList) ∨
      (c = '<' ∧ EscapeChar c = "&lt;".toList) ∨ (c = '>' ∧ EscapeChar c = "&gt;".toList) ∨
      (c ≠ '"' ∧ c ≠ '&' ∧ c ≠ '<' ∧ c ≠ '>' ∧ EscapeChar c = [c]) := by
  unfold EscapeChar
  by_cases h1 : c = '"'
  · exact Or.inl ⟨h1, by rw [if_pos h1]⟩
  by_cases h2 : c = '&'
  · exact Or.inr (Or.inl ⟨h2, by rw [if_neg h1, if_pos h2]⟩)
  by_cases h3 : c = '<'
  · exact Or.inr (Or.inr (Or.inl ⟨h3, by rw [if_neg h1, if_neg h2, if_pos h3]⟩))
  by_cases h4 : c = '>'
  · exact Or.inr (Or.inr (Or.inr (Or.inl ⟨h4,
      by rw [if_neg h1, if_neg h2, if_neg h3, if_pos h4]⟩)))
  · exact Or.inr (Or.inr (Or.inr (Or.inr ⟨h1, h2, h3, h4,
      by rw [if_neg h1, if_neg h2, if_neg h3, if_neg h4]⟩)))

/-- The escaped form determines the text. -/
theorem EscapeText_injective (s : List Char) :
    ∀ t : List Char, EscapeText s = EscapeText t → s = t := by
  induction s with
  | nil =>
    intro t h
    cases t with
    | nil => rfl
    | cons d t =>
      exfalso
      simp only [EscapeText] at h
      rcases EscapeChar_cases d with ⟨-, e⟩ | ⟨-, e⟩ | ⟨-, e⟩ | ⟨-, e⟩ | ⟨-, -, -, -, e⟩ <;>
        rw [e] at h <;> simp at h
  | cons c s ih =>
    intro t h
    cases t with
    | nil =>
      exfalso
      simp only [EscapeText] at h
      rcases EscapeChar_cases c with ⟨-, e⟩ | ⟨-, e⟩ | ⟨-, e⟩ | ⟨-, e⟩ | ⟨-, -, -, -, e⟩ <;>
        rw [e] at h <;> simp at h
    | cons d t =>
      simp only [EscapeText] at h
      rcases EscapeChar_cases c with ⟨c1, e⟩ | ⟨c1, e⟩ | ⟨c1, e⟩ | ⟨c1, e⟩ |
          ⟨c1, c2, c3, c4, e⟩ <;>
        rcases EscapeChar_cases d with ⟨d1, e'⟩ | ⟨d1, e'⟩ | ⟨d1, e'⟩ | ⟨d1, e'⟩ |
          ⟨d1, d2, d3, d4, e'⟩ <;>
        rw [e, e'] at h <;>
        simp only [String.toList, List.cons_append, List.nil_append, List.cons.injEq,
          Char.reduceEq, false_and, and_false, true_and] at h <;>
        first
          | exact absurd h.1 (by assumption)
          | exact absurd h.1.symm (by assumption)
          | (subst c1; subst d1; rw [ih t h])
          | (rw [h.1, ih t h.2])

end SiteC

/-! ## Progress of the reader -/

namespace SiteC

/-- One consumed character moves a cursor that is before the end to a cursor that is past
its old position. -/
theorem CursorFrom_consume_lt (r : SCReader) (h : r.current < r.text.length) :
    CursorFrom r.text (r.current + 1) (SCConsume r 1) := by
  refine ⟨SCConsume_one_text r, ?_, ?_⟩
  · rw [SCConsume_one_current r h]
  · rw [SCConsume_one_current r h]
    omega

/-- When `SCExpect` returns 1 it has consumed one character. -/
theorem SCExpect_true (r : SCReader) (c : Char) (err : String) (out : SCObject)
    (h : (SCExpect r c err out).1 = true) :
    (SCExpect r c err out).2.1 = SCConsume r 1 ∧ r.current < r.text.length := by
  unfold SCExpect at h ⊢
  split_ifs at h ⊢ with hc
  exact ⟨rfl, by omega⟩

/-- Unless it ends in an error, `SCReadFunction` leaves the cursor past its old position and
not past the end. -/
theorem SCReadFunction_progress (r : SCReader) (out : SCObject) :
    (SCReadFunction r out).2.type = SCObjectType.Error ∨
      CursorFrom r.text (r.current + 1) (SCReadFunction r out).1 := by
  have hc := CursorFrom_consume r.text (r.current + 1)
  have he : ∀ (q : SCReader) (e : String), CursorFrom r.text (r.current + 1) q →
      CursorFrom r.text (r.current + 1) { q with error := some e } := fun _ _ h => h
  unfold SCReadFunction
  lift_lets
  intro s0 out1 bs name_begin r1 s1 out2 args blk s2 s3
  have hbs : bs = SCExpect r '\\'
    "Parser internal problem. Tried to read function but there is no \\ at the start" out1 :=
    rfl
  have hr1e : r1 = SCConsumeWhileFunc bs.2.1 IsNameOrKeyChar := rfl
  have hargs : args = if r1.current < r1.text.length ∧ SCCurrentChar r1 = some '(' then
      SCReadArgumentList r1 out2 else (r1, out2) := rfl
  have hblk : blk = if args.1.current < args.1.text.length ∧
      SCCurrentChar args.1 = some '{' then SCReadBlock args.1 args.2 else args := rfl
  clear_value s3 s2 blk args out2 r1 bs out1
  have hk := SCExpect_kept r '\\'
    "Parser internal problem. Tried to read function but there is no \\ at the start" out1
  rw [← hbs] at hk
  by_cases h1 : bs.1 = false
  · rw [if_pos h1]
    rcases hk with h | h
    · exact Or.inl h.2.1
    · rw [h.1] at h1
      cases h1
  · rw [if_neg h1]
    have ht : bs.1 = true := by
      cases hb : bs.1
      · exact absurd hb h1
      · rfl
    have hx := SCExpect_true r '\\'
      "Parser internal problem. Tried to read function but there is no \\ at the start" out1
      (by rw [← hbs]; exact ht)
    rw [← hbs] at hx
    have hb0 : CursorFrom r.text (r.current + 1) bs.2.1 := by
      rw [hx.1]
      exact CursorFrom_consume_lt r hx.2
    have hr1 : CursorFrom r.text (r.current + 1) r1 := by
      rw [hr1e]
      exact SCConsumeWhileFuncLoop_preserves _ hc _ _ _ hb0
    have ha : CursorFrom r.text (r.current + 1) args.1 := by
      rw [hargs]
      split_ifs
      · exact SCReadArgumentList_preserves _ hc he _ _ hr1
      · exact hr1
    have hb : CursorFrom r.text (r.current + 1) blk.1 := by
      rw [hblk]
      split_ifs
      · exact SCReadBlock_preserves _ hc he _ _ ha
      · exact ha
    split_ifs
    · exact Or.inl (SCError_type _ _ _)
    · exact Or.inr ha
    · exact Or.inr hb
    · exact Or.inr hb

/-- A call of `SCRead` keeps the buffer and leaves the cursor between its old position and
the end. -/
theorem SCRead_cursor (r : SCReader) (h : r.current ≤ r.text.length) :
    CursorFrom r.text r.current (SCRead r).1 :=
  SCRead_preserves (CursorFrom r.text r.current) (CursorFrom_consume r.text r.current)
    (fun _ _ h => h) r ⟨rfl, Nat.le_refl _, h⟩

/-- A call of `SCRead` returns the end object, or an error, or else moves the cursor by at
least one character, and not past the end. -/
theorem SCRead_progress_or (r : SCReader) (h : r.current ≤ r.text.length) :
    (SCRead r).2.type = SCObjectType.End ∨ (SCRead r).2.type = SCObjectType.Error ∨
      CursorFrom r.text (r.current + 1) (SCRead r).1 := by
  have hc := CursorFrom_consume r.text (r.current + 1)
  unfold SCRead
  lift_lets
  intro s0 out
  clear_value out
  split
  · exact Or.inr (Or.inl (SCError_type _ _ _))
  · split_ifs with e1 e2 e3 e4
    · exact Or.inl rfl
    · exact Or.inr (Or.inl (SCError_type _ _ _))
    · right
      right
      have hlt : r.current < r.text.length := by omega
      show CursorFrom r.text (r.current + 1) (SCConsume r 2)
      rw [SCConsume_succ]
      exact SCConsume_preserves _ hc 1 _ (CursorFrom_consume_lt r hlt)
    · exact Or.inr (SCReadFunction_progress r out)
    · right
      right
      have hlt : r.current < r.text.length := by omega
      have hany : (SCCurrentChar r).any (fun ch => ch != '\\') = true := by
        unfold SCCurrentChar at e2 ⊢
        rw [List.getElem?_eq_getElem hlt] at e2 ⊢
        simp only [Option.some.injEq] at e2
        simpa using e2
      show CursorFrom r.text (r.current + 1) (SCConsumeUntil r '\\')
      unfold SCConsumeUntil
      have hf : r.text.length - r.current = (r.text.length - r.current - 1) + 1 := by omega
      rw [hf, SCConsumeWhileFuncLoop_succ, if_pos ⟨hlt, hany⟩]
      exact SCConsumeWhileFuncLoop_preserves _ hc _ _ _ (CursorFrom_consume_lt r hlt)

/-- A call of `SCRead` that returns a text, an escaped backslash or a function moves the
cursor by at least one character, and not past the end. -/
theorem SCRead_progress (r : SCReader) (h : r.current ≤ r.text.length)
    (h1 : (SCRead r).2.type ≠ SCObjectType.End)
    (h2 : (SCRead r).2.type ≠ SCObjectType.Error) :
    CursorFrom r.text (r.current + 1) (SCRead r).1 := by
  rcases SCRead_progress_or r h with g | g | g
  · exact absurd g h1
  · exact absurd g h2
  · exact g

/-- The readers reached from `MakeSCReader` keep the buffer, with the cursor in it. -/
theorem SCReadIter_cursor (text : List Char) (path file : String) (n : Nat) :
    CursorFrom text 0 (SCReadIter n (MakeSCReader text path file)) :=
  SCReadIter_preserves (CursorFrom text 0) (CursorFrom_consume text 0) (fun _ _ h => h) n _
    ⟨rfl, Nat.le_refl _, Nat.zero_le _⟩

/-- As long as no call has returned an error, the reader has no error. -/
theorem SCReadIter_no_error (r : SCReader) (he : r.error = none) (n : Nat)
    (h : ∀ k, k < n → (SCRead (SCReadIter k r)).2.type ≠ SCObjectType.Error) :
    (SCReadIter n r).error = none := by
  induction n with
  | zero => exact he
  | succ n ih =>
    rw [SCReadIter_succ_right]
    rcases SCRead_kept (SCReadIter n r) with g | g
    · exact absurd g.1 (h n (Nat.lt_succ_self n))
    · exact g.2.1

/-- After `n` calls that returned a text, an escaped backslash or a function, the cursor has
moved by at least `n` characters. -/
theorem SCReadIter_lower (r : SCReader) (hr : r.current ≤ r.text.length) (n : Nat)
    (h : ∀ k, k < n → (SCRead (SCReadIter k r)).2.type ≠ SCObjectType.End ∧
      (SCRead (SCReadIter k r)).2.type ≠ SCObjectType.Error) :
    CursorFrom r.text (r.current + n) (SCReadIter n r) := by
  induction n with
  | zero => exact ⟨rfl, Nat.le_refl _, hr⟩
  | succ n ih =>
    have hi := ih (fun k hk => h k (Nat.lt_succ_of_lt hk))
    obtain ⟨h1, h2, h3⟩ := hi
    have hp := SCRead_progress (SCReadIter n r) (by rw [h1]; exact h3)
      (h n (Nat.lt_succ_self n)).1 (h n (Nat.lt_succ_self n)).2
    rw [SCReadIter_succ_right]
    obtain ⟨p1, p2, p3⟩ := hp
    exact ⟨p1.trans h1, by omega, by rw [← h1]; exact p3⟩

/-- A reader returns the end object or an error after at most as many calls as the buffer
has characters left. -/
theorem SCReadIter_terminal (r : SCReader) (hr : r.current ≤ r.text.length) :
    ∃ n, n ≤ r.text.length - r.current ∧
      ((SCRead (SCReadIter n r)).2.type = SCObjectType.End ∨
        (SCRead (SCReadIter n r)).2.type = SCObjectType.Error) ∧
      ∀ k, k < n → (SCRead (SCReadIter k r)).2.type ≠ SCObjectType.End ∧
        (SCRead (SCReadIter k r)).2.type ≠ SCObjectType.Error := by
  by_cases hex : ∃ n, (SCRead (SCReadIter n r)).2.type = SCObjectType.End ∨
      (SCRead (SCReadIter n r)).2.type = SCObjectType.Error
  · classical
    have hmin : ∀ k, k < Nat.find hex →
        (SCRead (SCReadIter k r)).2.type ≠ SCObjectType.End ∧
          (SCRead (SCReadIter k r)).2.type ≠ SCObjectType.Error := by
      intro k hk
      have := Nat.find_min hex hk
      exact ⟨fun e => this (Or.inl e), fun e => this (Or.inr e)⟩
    refine ⟨Nat.find hex, ?_, Nat.find_spec hex, hmin⟩
    have hl := SCReadIter_lower r hr (Nat.find hex) hmin
    obtain ⟨-, h2, h3⟩ := hl
    omega
  · exfalso
    have hall : ∀ k, (SCRead (SCReadIter k r)).2.type ≠ SCObjectType.End ∧
        (SCRead (SCReadIter k r)).2.type ≠ SCObjectType.Error :=
      fun k => ⟨fun e => hex ⟨k, Or.inl e⟩, fun e => hex ⟨k, Or.inr e⟩⟩
    have hl := SCReadIter_lower r hr (r.text.length - r.current + 1) (fun k _ => hall k)
    obtain ⟨-, h2, h3⟩ := hl
    omega

end SiteC

/-! ## Properties of the object kept by the reader, and the span of an object -/

namespace SiteC

theorem SCExpect_obj (Q : SCObject → Prop)
    (hE : ∀ (r : SCReader) (str : String) (o : SCObject), Q o → Q (SCError r str o).2)
    (r : SCReader) (c : Char) (err : String) (out : SCObject) (h : Q out) :
    Q (SCExpect r c err out).2.2 := by
  unfold SCExpect
  split_ifs
  · exact hE r err out h
  · exact h

/-- A property of the object that is kept by `SCError` and by the addition of an argument
is kept by `SCReadArgument`. -/
theorem SCReadArgument_obj (Q : SCObject → Prop)
    (hE : ∀ (r : SCReader) (str : String) (o : SCObject), Q o → Q (SCError r str o).2)
    (hA : ∀ (o : SCObject) (k v : Slice), Q o →
      Q { o with keys := o.keys ++ [k], values := o.values ++ [v],
                 args_count := o.args_count + 1 })
    (r : SCReader) (out : SCObject) (h : Q out) : Q (SCReadArgument r out).2 := by
  unfold SCReadArgument
  simp only []
  generalize hr2 : SCConsumeWhileFunc (SCConsumeWhitespace r) IsNameOrKeyChar = r2
  have hq := SCExpect_obj Q hE (SCConsumeWhitespace r2) '=' "Expected = after param name" out h
  generalize SCExpect (SCConsumeWhitespace r2) '=' "Expected = after param name" out = eq
    at hq ⊢
  obtain ⟨b, r3, o3⟩ := eq
  simp only at hq ⊢
  generalize hr4 : SCConsumeWhitespace r3 = r4
  have hs := SCExpect_obj Q hE (SCConsumeUntil (SCConsume r4 1) '"') '"'
    "Reached EOF without finding closing quote" o3 hq
  generalize SCExpect (SCConsumeUntil (SCConsume r4 1) '"') '"'
    "Reached EOF without finding closing quote" o3 = qt at hs ⊢
  obtain ⟨b', r5, o5⟩ := qt
  simp only at hs ⊢
  split_ifs
  · exact hE _ _ _ h
  · exact hE _ _ _ h
  · exact hq
  · exact hE _ _ _ hq
  · exact hs
  · exact hA _ _ _ hs
  · exact hA _ _ _ hq
  · exact hE _ _ _ hq

/-- A property of the object that every call of `SCReadArgument` keeps, for the readers that
satisfy `R`, is kept by the loop of `SCReadArgumentList`. -/
theorem SCReadArgumentListLoop_obj (Q : SCObject → Prop) (R : SCReader → Prop)
    (hc : ∀ r, R r → R (SCConsume r 1)) (he : ∀ r e, R r → R { r with error := some e })
    (harg : ∀ r o, R r → Q o → Q (SCReadArgument r o).2)
    (fuel : Nat) (r : SCReader) (out : SCObject) (hr : R r) (h : Q out) :
    Q (SCReadArgumentListLoop fuel r out).2.2 := by
  induction fuel generalizing r out with
  | zero => exact h
  | succ n ih =>
    have ha := harg r out hr h
    have hra := SCReadArgument_preserves R hc he r out hr
    rw [SCReadArgumentListLoop_succ]
    split_ifs
    · exact ha
    · exact ih _ _ (hc _ hra) ha
    · exact ha
    · exact h

theorem SCReadArgumentList_obj (Q : SCObject → Prop) (R : SCReader → Prop)
    (hc : ∀ r, R r → R (SCConsume r 1)) (he : ∀ r e, R r → R { r with error := some e })
    (hE : ∀ (r : SCReader) (str : String) (o : SCObject), Q o → Q (SCError r str o).2)
    (harg : ∀ r o, R r → Q o → Q (SCReadArgument r o).2)
    (r : SCReader) (out : SCObject) (hr : R r) (h : Q out) :
    Q (SCReadArgumentList r out).2 := by
  unfold SCReadArgumentList
  simp only []
  have ho := SCExpect_obj Q hE r '('
    "Parser internal problem.Tried to read param list but there is no (" out h
  have hro := SCExpect_preserves R hc he r '('
    "Parser internal problem.Tried to read param list but there is no (" out hr
  generalize SCExpect r '('
    "Parser internal problem.Tried to read param list but there is no (" out = op at ho hro ⊢
  obtain ⟨b, r1, o1⟩ := op
  simp only at ho hro ⊢
  have hl := SCReadArgumentListLoop_obj Q R hc he harg (r1.text.length - r1.current) r1 o1
    hro ho
  generalize SCReadArgumentListLoop (r1.text.length - r1.current) r1 o1 = lp at hl ⊢
  obtain ⟨b2, r2, o2⟩ := lp
  simp only at hl ⊢
  have hx := SCExpect_obj Q hE r2 ')' "Parameter list is missing the closing paren" o2 hl
  split_ifs
  · exact ho
  · exact hl
  · exact hx

theorem SCReadBlock_obj (Q : SCObject → Prop)
    (hE : ∀ (r : SCReader) (str : String) (o : SCObject), Q o → Q (SCError r str o).2)
    (hB : ∀ (o : SCObject) (b : Slice), Q o → Q { o with has_block := true, block := b })
    (r : SCReader) (out : SCObject) (h : Q out) : Q (SCReadBlock r out).2 := by
  unfold SCReadBlock
  simp only []
  have ho := SCExpect_obj Q hE r '{'
    "Parser internal problemTried to read param list but there is no \x7b" out h
  generalize SCExpect r '{'
    "Parser internal problemTried to read param list but there is no \x7b" out = op at ho ⊢
  obtain ⟨b, r1, o1⟩ := op
  simp only at ho ⊢
  split_ifs
  · exact ho
  · exact hE _ _ _ ho
  · exact hB _ _ ho

/-- A property of the object that is kept by `SCError`, by the reading of an argument, by
the assignment of the block and by the assignment of the end of the object is kept by
`SCReadFunction`, once the type, the beginning of the text and the function name are set. -/
theorem SCReadFunction_obj (Q : SCObject → Prop) (R : SCReader → Prop)
    (hc : ∀ r, R r → R (SCConsume r 1)) (he : ∀ r e, R r → R { r with error := some e })
    (hE : ∀ (r : SCReader) (str : String) (o : SCObject), Q o → Q (SCError r str o).2)
    (harg : ∀ r o, R r → Q o → Q (SCReadArgument r o).2)
    (hB : ∀ (o : SCObject) (b : Slice), Q o → Q { o with has_block := true, block := b })
    (hN : ∀ (o : SCObject) (n : Slice), Q o → Q { o with function_name := n })
    (hX : ∀ (o : SCObject) (l c : Int) (e : Option Nat), Q o →
      Q { o with end_line_no := l, end_column_no := c,
                 full_text := { o.full_text with end_ := e } })
    (r : SCReader) (out : SCObject) (hr : R r)
    (h : Q { out with type := SCObjectType.Func,
                      full_text := { out.full_text with begin := some r.current } }) :
    Q (SCReadFunction r out).2 := by
  unfold SCReadFunction
  lift_lets
  intro s0 out1 bs name_begin r1 s1 out2 args blk s2 s3
  have h1 : Q out1 := h
  have hbs : bs = SCExpect r '\\'
    "Parser internal problem. Tried to read function but there is no \\ at the start" out1 :=
    rfl
  have hr1e : r1 = SCConsumeWhileFunc bs.2.1 IsNameOrKeyChar := rfl
  have ho2 : Q bs.2.2 → Q out2 := fun hb => hN _ _ hb
  have hargs : args = if r1.current < r1.text.length ∧ SCCurrentChar r1 = some '(' then
      SCReadArgumentList r1 out2 else (r1, out2) := rfl
  have hblk : blk = if args.1.current < args.1.text.length ∧
      SCCurrentChar args.1 = some '{' then SCReadBlock args.1 args.2 else args := rfl
  clear_value blk args out2 r1 bs out1
  have hb : Q bs.2.2 := by
    rw [hbs]
    exact SCExpect_obj Q hE _ _ _ _ h1
  have hrb : R bs.2.1 := by
    rw [hbs]
    exact SCExpect_preserves R hc he _ _ _ _ hr
  have hr1 : R r1 := by
    rw [hr1e]
    exact SCConsumeWhileFuncLoop_preserves R hc _ _ _ hrb
  have h2 : Q out2 := ho2 hb
  have ha : Q args.2 ∧ R args.1 := by
    rw [hargs]
    split_ifs
    · exact ⟨SCReadArgumentList_obj Q R hc he hE harg _ _ hr1 h2,
        SCReadArgumentList_preserves R hc he _ _ hr1⟩
    · exact ⟨h2, hr1⟩
  have hk : Q blk.2 := by
    rw [hblk]
    split_ifs
    · exact SCReadBlock_obj Q hE hB _ _ ha.1
    · exact ha.1
  split_ifs
  · exact hb
  · exact hE _ _ _ hb
  · exact ha.1
  · exact hk
  · exact hX _ _ _ _ hk

/-- `SCError` keeps the beginning of the text of the object when it is set. -/
theorem SCError_begin (b : Nat) (r : SCReader) (str : String) (out : SCObject)
    (h : out.full_text.begin = some b) : (SCError r str out).2.full_text.begin = some b := by
  unfold SCError
  simp only []
  split_ifs <;> simp_all

/-- Unless it is an error, the object that `SCReadFunction` returns spans the text from the
old position of the cursor to the new one. -/
theorem SCReadFunction_span (r : SCReader) (out : SCObject) :
    (SCReadFunction r out).2.type = SCObjectType.Error ∨
      (SCReadFunction r out).2.full_text
        = ⟨some r.current, some (SCReadFunction r out).1.current⟩ := by
  have hbeg : (SCReadFunction r out).2.full_text.begin = some r.current :=
    SCReadFunction_obj (fun o => o.full_text.begin = some r.current) (fun _ => True)
      (fun _ _ => trivial) (fun _ _ _ => trivial) (SCError_begin r.current)
      (fun q o _ ho => SCReadArgument_obj _ (SCError_begin r.current) (fun _ _ _ h => h) q o ho)
      (fun _ _ h => h) (fun _ _ h => h) (fun _ _ _ _ h => h) r out trivial rfl
  have hend : (SCReadFunction r out).2.type = SCObjectType.Error ∨
      (SCReadFunction r out).2.full_text.end_ = some (SCReadFunction r out).1.current := by
    unfold SCReadFunction
    lift_lets
    intro s0 out1 bs name_begin r1 s1 out2 args blk s2 s3
    have hbs : bs = SCExpect r '\\'
      "Parser internal problem. Tried to read function but there is no \\ at the start"
      out1 := rfl
    clear_value s3 s2 blk args out2 r1 bs out1
    have hb := SCExpect_kept r '\\'
      "Parser internal problem. Tried to read function but there is no \\ at the start" out1
    rw [← hbs] at hb
    split_ifs with h1 h2 h3 h4
    · rcases hb with h | h
      · exact Or.inl h.2.1
      · rw [h.1] at h1; cases h1
    · exact Or.inl (SCError_type _ _ _)
    · exact Or.inl h3
    · exact Or.inl h4
    · exact Or.inr rfl
  rcases hend with g | g
  · exact Or.inl g
  · right
    generalize (SCReadFunction r out).2.full_text = ft at hbeg g ⊢
    obtain ⟨b, e⟩ := ft
    simp only at hbeg g
    rw [hbeg, g]

/-- Every text, escaped backslash or function object that `SCRead` returns spans the text
from the old position of the cursor to the new one. -/
theorem SCRead_span (r : SCReader) :
    (SCRead r).2.type = SCObjectType.End ∨ (SCRead r).2.type = SCObjectType.Error ∨
      (SCRead r).2.full_text = ⟨some r.current, some (SCRead r).1.current⟩ := by
  unfold SCRead
  lift_lets
  intro s0 out
  clear_value out
  split
  · exact Or.inr (Or.inl (SCError_type _ _ _))
  · split_ifs with e1 e2 e3 e4
    · exact Or.inl rfl
    · exact Or.inr (Or.inl (SCError_type _ _ _))
    · exact Or.inr (Or.inr rfl)
    · exact Or.inr (SCReadFunction_span r out)
    · exact Or.inr (Or.inr rfl)

end SiteC

/-! ## The objects of a whole buffer -/

namespace SiteC

theorem SCReadTokens_succ (fuel : Nat) (r : SCReader) :
    SCReadTokens (fuel + 1) r =
      if (SCRead r).2.type = SCObjectType.End then some []
      else if (SCRead r).2.type = SCObjectType.Error then none
      else (SCReadTokens fuel (SCRead r).1).map fun objs => (SCRead r).2 :: objs := rfl

/-- Spans that tile the buffer from `start` on have the rest of the buffer as their text. -/
theorem SpansContiguous_text (text : List Char) (objs : List SCObject) :
    ∀ start : Nat, SpansContiguous text.length start objs = true →
      SpansText text objs = text.drop start := by
  induction objs with
  | nil =>
    intro start h
    simp only [SpansContiguous, beq_iff_eq] at h
    subst h
    simp [SpansText]
  | cons o rest ih =>
    intro start h
    unfold SpansContiguous at h
    generalize hft : o.full_text = ft at h
    obtain ⟨ft_b, ft_e⟩ := ft
    simp only at h
    cases ft_b with
    | none => simp at h
    | some b =>
      cases ft_e with
      | none => simp at h
      | some e =>
        simp only [Bool.and_eq_true, beq_iff_eq, decide_eq_true_eq] at h
        obtain ⟨⟨⟨hb, hlt⟩, hle⟩, hrest⟩ := h
        subst hb
        have hi := ih e hrest
        unfold SpansText at hi ⊢
        rw [List.map_cons, List.flatten_cons, hi, hft]
        unfold SliceText
        simp only []
        have hd : text.drop e = (text.drop b).drop (e - b) := by
          rw [List.drop_drop]
          congr 1
          omega
        rw [hd, List.take_append_drop]

/-- The objects read before the end object are texts, escaped backslashes and functions,
their spans tile the buffer from the cursor on, and they are the objects that the
successive calls of `SCRead` return, the next of which returns the end object. -/
theorem SCReadTokens_spans (fuel : Nat) :
    ∀ (r : SCReader) (objs : List SCObject), r.current ≤ r.text.length →
      SCReadTokens fuel r = some objs →
      SpansContiguous r.text.length r.current objs = true ∧
        (∀ o ∈ objs, o.type = SCObjectType.Text ∨ o.type = SCObjectType.Backslash ∨
          o.type = SCObjectType.Func) ∧
        (∀ k, k < objs.length → objs[k]? = some (SCRead (SCReadIter k r)).2) ∧
        (SCRead (SCReadIter objs.length r)).2.type = SCObjectType.End := by
  induction fuel with
  | zero =>
    intro r objs _ h
    cases h
  | succ n ih =>
    intro r objs hr h
    rw [SCReadTokens_succ] at h
    by_cases hE : (SCRead r).2.type = SCObjectType.End
    · rw [if_pos hE] at h
      cases h
      refine ⟨?_, fun o ho => absurd ho (List.not_mem_nil o),
        fun k hk => absurd hk (Nat.not_lt_zero k), hE⟩
      rcases SCRead_kept r with g | g
      · rw [g.1] at hE
        cases hE
      · simp only [SpansContiguous, beq_iff_eq]
        exact (g.2.2 hE).2
    · rw [if_neg hE] at h
      by_cases hR : (SCRead r).2.type = SCObjectType.Error
      · rw [if_pos hR] at h
        cases h
      · rw [if_neg hR] at h
        obtain ⟨rest, hrest, e⟩ := Option.map_eq_some'.mp h
        subst e
        obtain ⟨p1, p2, p3⟩ := SCRead_progress r hr hE hR
        obtain ⟨i1, i2, i3, i4⟩ := ih (SCRead r).1 rest (by rw [p1]; exact p3) hrest
        have hspan : (SCRead r).2.full_text = ⟨some r.current, some (SCRead r).1.current⟩ := by
          rcases SCRead_span r with g | g | g
          · exact absurd g hE
          · exact absurd g hR
          · exact g
        refine ⟨?_, ?_, ?_, ?_⟩
        · unfold SpansContiguous
          rw [hspan]
          simp only [Bool.and_eq_true, beq_iff_eq, decide_eq_true_eq]
          rw [p1] at i1
          exact ⟨⟨⟨trivial, by omega⟩, p3⟩, i1⟩
        · intro o ho
          rcases List.mem_cons.mp ho with e | e
          · subst e
            revert hE hR
            cases (SCRead r).2.type <;> simp
          · exact i2 o e
        · intro k hk
          cases k with
          | zero => simp [SCReadIter]
          | succ k =>
            simp only [List.length_cons, Nat.succ_lt_succ_iff] at hk
            simpa [SCReadIter] using i3 k hk
        · simpa [SCReadIter] using i4

/-- When no call of `SCRead` returns an error, the end object is reached within as many
calls as the buffer has characters left, and one more. -/
theorem SCReadTokens_some (fuel : Nat) :
    ∀ r : SCReader, r.current ≤ r.text.length → r.text.length - r.current < fuel →
      (∀ n, (SCRead (SCReadIter n r)).2.type ≠ SCObjectType.Error) →
      ∃ objs, SCReadTokens fuel r = some objs := by
  induction fuel with
  | zero =>
    intro r _ hf
    omega
  | succ n ih =>
    intro r hr hf hne
    rw [SCReadTokens_succ]
    by_cases hE : (SCRead r).2.type = SCObjectType.End
    · rw [if_pos hE]
      exact ⟨[], rfl⟩
    · have hR : (SCRead r).2.type ≠ SCObjectType.Error := hne 0
      rw [if_neg hE, if_neg hR]
      obtain ⟨p1, p2, p3⟩ := SCRead_progress r hr hE hR
      obtain ⟨objs, ho⟩ := ih (SCRead r).1 (by rw [p1]; exact p3) (by rw [p1]; omega)
        (fun k => hne (k + 1))
      exact ⟨(SCRead r).2 :: objs, by rw [ho]; rfl⟩

end SiteC

/-! ## The keys and the values that the reader returns -/

namespace SiteC

theorem ReaderOn_consume (text : List Char) (r : SCReader) (h : ReaderOn text r) :
    ReaderOn text (SCConsume r 1) := by
  obtain ⟨h1, h2⟩ := h
  have := CursorFrom_consume text 0 r ⟨h1, Nat.zero_le _, h2⟩
  exact ⟨this.1, this.2.2⟩

theorem ReaderOn_error (text : List Char) (r : SCReader) (e : String)
    (h : ReaderOn text r) : ReaderOn text { r with error := some e } := h

theorem ReaderOn_while (text : List Char) (f : Char → Bool) (r : SCReader)
    (h : ReaderOn text r) : ReaderOn text (SCConsumeWhileFunc r f) :=
  SCConsumeWhileFuncLoop_preserves (ReaderOn text) (ReaderOn_consume text) f _ r h

/-- The first character of a non-empty span, and the rest of the span. -/
theorem SliceText_cons (text : List Char) (b e : Nat) (hb : b < text.length) (he : b < e) :
    SliceText text ⟨some b, some e⟩
      = text[b] :: SliceText text ⟨some (b + 1), some e⟩ := by
  unfold SliceText
  simp only []
  have h1 : e - b = (e - (b + 1)) + 1 := by omega
  rw [List.drop_eq_getElem_cons hb, h1, List.take_succ_cons]

theorem SliceText_empty (text : List Char) (b : Nat) : SliceText text ⟨some b, some b⟩ = [] := by
  unfold SliceText
  simp

/-- A span between two positions of the buffer is not empty. -/
theorem SliceText_ne_nil (text : List Char) (b e : Nat) (hbe : b < e)
    (he : e ≤ text.length) : SliceText text ⟨some b, some e⟩ ≠ [] := by
  rw [SliceText_cons text b e (by omega) hbe]
  exact List.cons_ne_nil _ _

/-- The characters that the loop of `SCConsumeWhileFunc` consumes satisfy the predicate,
and the loop leaves the cursor at or after its old position. -/
theorem SCConsumeWhileFuncLoop_span (f : Char → Bool) (fuel : Nat) :
    ∀ r : SCReader, r.current ≤ r.text.length →
      r.current ≤ (SCConsumeWhileFuncLoop f fuel r).current ∧
        ∀ c ∈ SliceText r.text
          ⟨some r.current, some (SCConsumeWhileFuncLoop f fuel r).current⟩, f c = true := by
  induction fuel with
  | zero =>
    intro r _
    refine ⟨Nat.le_refl _, ?_⟩
    show ∀ c ∈ SliceText r.text ⟨some r.current, some r.current⟩, f c = true
    rw [SliceText_empty]
    intro c hc
    cases hc
  | succ n ih =>
    intro r hr
    rw [SCConsumeWhileFuncLoop_succ]
    by_cases hc : r.current < r.text.length ∧ (SCCurrentChar r).any f
    · rw [if_pos hc]
      obtain ⟨hlt, hany⟩ := hc
      have h1 := SCConsume_one_current r hlt
      have ht := SCConsume_one_text r
      obtain ⟨i1, i2⟩ := ih (SCConsume r 1) (by rw [h1, ht]; omega)
      rw [h1] at i1
      rw [h1, ht] at i2
      refine ⟨by omega, ?_⟩
      rw [SliceText_cons r.text r.current _ hlt (by omega)]
      intro c hcm
      rcases List.mem_cons.mp hcm with e | e
      · subst e
        unfold SCCurrentChar at hany
        rw [List.getElem?_eq_getElem hlt] at hany
        simpa using hany
      · exact i2 c e
    · rw [if_neg hc]
      refine ⟨Nat.le_refl _, ?_⟩
      rw [SliceText_empty]
      intro c hcm
      cases hcm

theorem SCConsumeWhileFunc_span (f : Char → Bool) (r : SCReader)
    (hr : r.current ≤ r.text.length) :
    r.current ≤ (SCConsumeWhileFunc r f).current ∧
      ∀ c ∈ SliceText r.text ⟨some r.current, some (SCConsumeWhileFunc r f).current⟩,
        f c = true :=
  SCConsumeWhileFuncLoop_span f _ r hr

theorem SCConsumeUntil_span (ch : Char) (r : SCReader) (hr : r.current ≤ r.text.length) :
    r.current ≤ (SCConsumeUntil r ch).current ∧
      ∀ c ∈ SliceText r.text ⟨some r.current, some (SCConsumeUntil r ch).current⟩,
        c ≠ ch := by
  obtain ⟨h1, h2⟩ := SCConsumeWhileFuncLoop_span (fun c => c != ch) _ r hr
  exact ⟨h1, fun c hc => by simpa using h2 c hc⟩

/-- When `SCExpect` returns 1 the cursor was on the expected character. -/
theorem SCExpect_true_char (r : SCReader) (c : Char) (err : String) (out : SCObject)
    (h : (SCExpect r c err out).1 = true) : r.text[r.current]? = some c := by
  unfold SCExpect at h
  split_ifs at h with hc
  simp only [not_or, not_not] at hc
  exact hc.2

theorem ArgsClean_error (text : List Char) (r : SCReader) (str : String) (o : SCObject)
    (h : ArgsClean text o) : ArgsClean text (SCError r str o).2 := by
  unfold SCError
  simp only []
  split_ifs <;> exact h

theorem ArgsClean_add (text : List Char) (o : SCObject) (k v : Slice)
    (h : ArgsClean text o) (hk : KeyClean text k) (hv : ValueClean text v) :
    ArgsClean text { o with keys := o.keys ++ [k], values := o.values ++ [v],
                            args_count := o.args_count + 1 } := by
  obtain ⟨h1, h2, h3, h4⟩ := h
  refine ⟨by simp [h1], by simp [h2], ?_, ?_⟩
  · intro x hx
    rcases List.mem_append.mp hx with e | e
    · exact h3 x e
    · rw [List.mem_singleton.mp e]
      exact hk
  · intro x hx
    rcases List.mem_append.mp hx with e | e
    · exact h4 x e
    · rw [List.mem_singleton.mp e]
      exact hv

theorem IsDigitChar_ne_quote (c : Char) (h : IsDigitChar c = true) : c ≠ '"' := by
  intro e
  subst e
  revert h
  decide

end SiteC
namespace SiteC

/-- `SCReadArgument` keeps the arguments clean: the key it adds is a non-empty run of name
characters, and the value it adds is a string without a double quote that ends before one,
or a run of digit characters. -/
theorem SCReadArgument_clean (text : List Char) (r : SCReader) (out : SCObject)
    (hr : ReaderOn text r) (h : ArgsClean text out) :
    ArgsClean text (SCReadArgument r out).2 := by
  have hE := ArgsClean_error text
  have hc := ReaderOn_consume text
  have he := ReaderOn_error text
  unfold SCReadArgument
  simp only []
  have hr1 : ReaderOn text (SCConsumeWhitespace r) := ReaderOn_while text _ r hr
  generalize SCConsumeWhitespace r = r1 at hr1 ⊢
  have hsp := SCConsumeWhileFunc_span IsNameOrKeyChar r1 (by rw [hr1.1]; exact hr1.2)
  have hr2 : ReaderOn text (SCConsumeWhileFunc r1 IsNameOrKeyChar) := ReaderOn_while text _ r1 hr1
  generalize SCConsumeWhileFunc r1 IsNameOrKeyChar = r2 at hsp hr2 ⊢
  have hq1 := SCExpect_obj (ArgsClean text) hE (SCConsumeWhitespace r2) '='
    "Expected = after param name" out h
  have hq2 := SCExpect_preserves (ReaderOn text) hc he (SCConsumeWhitespace r2) '='
    "Expected = after param name" out (ReaderOn_while text _ r2 hr2)
  generalize SCExpect (SCConsumeWhitespace r2) '=' "Expected = after param name" out = eq
    at hq1 hq2 ⊢
  obtain ⟨b, r3, o3⟩ := eq
  simp only at hq1 hq2 ⊢
  have hr4 : ReaderOn text (SCConsumeWhitespace r3) := ReaderOn_while text _ r3 hq2
  generalize SCConsumeWhitespace r3 = r4 at hr4 ⊢
  have hr5 : ReaderOn text (SCConsume r4 1) := hc r4 hr4
  have hv1 := SCConsumeUntil_span '"' (SCConsume r4 1) (by rw [hr5.1]; exact hr5.2)
  have hv2 := SCConsumeWhileFunc_span IsDigitChar r4 (by rw [hr4.1]; exact hr4.2)
  have hs1 := SCExpect_obj (ArgsClean text) hE (SCConsumeUntil (SCConsume r4 1) '"') '"'
    "Reached EOF without finding closing quote" o3 hq1
  have hs2 := SCExpect_true_char (SCConsumeUntil (SCConsume r4 1) '"') '"'
    "Reached EOF without finding closing quote" o3
  have hr6 : ReaderOn text (SCConsumeUntil (SCConsume r4 1) '"') :=
    SCConsumeWhileFuncLoop_preserves (ReaderOn text) hc _ _ _ hr5
  generalize SCExpect (SCConsumeUntil (SCConsume r4 1) '"') '"'
    "Reached EOF without finding closing quote" o3 = qt at hs1 hs2 ⊢
  obtain ⟨b', r5, o5⟩ := qt
  simp only at hs1 hs2 ⊢
  rw [hr1.1] at hsp
  rw [hr5.1] at hv1
  rw [hr4.1] at hv2
  rw [hr6.1] at hs2
  have hkey : r1.current ≠ r2.current → KeyClean text ⟨some r1.current, some r2.current⟩ :=
    fun hne => ⟨SliceText_ne_nil text _ _ (by omega) hr2.2, hsp.2⟩
  split_ifs with c1 c2 c3 c4 c5 c6 c7
  · exact hE _ _ _ h
  · exact hE _ _ _ h
  · exact hq1
  · exact hE _ _ _ hq1
  · exact hs1
  · refine ArgsClean_add text _ _ _ hs1 (hkey c2) ⟨hv1.2, Or.inl ⟨_, rfl, hs2 ?_⟩⟩
    cases b'
    · exact absurd rfl c6
    · rfl
  · exact ArgsClean_add text _ _ _ hq1 (hkey c2)
      ⟨fun c hcm => IsDigitChar_ne_quote c (hv2.2 c hcm), Or.inr hv2.2⟩
  · exact hE _ _ _ hq1

/-- Every object that `SCRead` returns has clean arguments. -/
theorem SCRead_clean (r : SCReader) (hr : r.current ≤ r.text.length) :
    ArgsClean r.text (SCRead r).2 := by
  unfold SCRead
  lift_lets
  intro s0 out
  have ho : ArgsClean r.text out :=
    ⟨rfl, rfl, fun k hk => absurd hk (List.not_mem_nil k),
      fun v hv => absurd hv (List.not_mem_nil v)⟩
  clear_value out
  split
  · exact ArgsClean_error _ _ _ _ ho
  · split_ifs with e1 e2 e3 e4
    · exact ho
    · exact ArgsClean_error _ _ _ _ ho
    · exact ho
    · exact SCReadFunction_obj (ArgsClean r.text) (ReaderOn r.text)
        (ReaderOn_consume r.text) (ReaderOn_error r.text) (ArgsClean_error r.text)
        (SCReadArgument_clean r.text) (fun _ _ h => h) (fun _ _ h => h)
        (fun _ _ _ _ h => h) r out ⟨rfl, hr⟩ ho
    · exact ho

theorem HTMLWriteAttribute_eq (key value : List Char) (arena : Arena) :
    (HTMLWriteAttribute key value arena).text = arena.text ++ AttributeText key value := by
  simp [HTMLWriteAttribute, AttributeText, ArenaPushChar, ArenaPushSlice, ArenaPushCStr]

/-- An attribute whose key and value hold no double quote holds exactly two. -/
theorem AttributeText_count (key value : List Char) (hk : '"' ∉ key) (hv : '"' ∉ value) :
    (AttributeText key value).count '"' = 2 := by
  unfold AttributeText
  simp [List.count_cons, List.count_append, List.count_eq_zero_of_not_mem hk,
    List.count_eq_zero_of_not_mem hv]

theorem IsNameOrKeyChar_ne_quote (c : Char) (h : IsNameOrKeyChar c = true) : c ≠ '"' := by
  intro e
  subst e
  revert h
  decide

end SiteC

/-! ## The handling of an object does not fail -/

namespace SiteC

theorem StepOK_ret0 (P : HTMLTagStack → Prop) (m : List Char) :
    StepOK P (some (SCToHTMLStep.ret0 m)) :=
  ⟨_, rfl, fun _ h => by cases h⟩

theorem StepOK_next (P : HTMLTagStack → Prop) (s : HTMLTagStack) (h : P s) :
    StepOK P (some (SCToHTMLStep.next s)) :=
  ⟨_, rfl, fun _ hp => by cases hp; exact h⟩

theorem StepOK_map (P : HTMLTagStack → Prop) (o : Option HTMLTagStack) (h : OptOK P o) :
    StepOK P (o.map SCToHTMLStep.next) := by
  obtain ⟨s, hs, hp⟩ := h
  rw [hs]
  exact StepOK_next P s hp

theorem StepOK_bind (P Q : HTMLTagStack → Prop) (o : Option HTMLTagStack)
    (f : HTMLTagStack → Option SCToHTMLStep) (h : OptOK Q o)
    (hf : ∀ s, Q s → StepOK P (f s)) : StepOK P (o.bind f) := by
  obtain ⟨s, hs, hq⟩ := h
  rw [hs, Option.some_bind]
  exact hf s hq

theorem StepOK_ite (P : HTMLTagStack → Prop) (c : Prop) [Decidable c]
    (a b : Option SCToHTMLStep) (ha : c → StepOK P a) (hb : ¬ c → StepOK P b) :
    StepOK P (if c then a else b) := by
  split_ifs with h
  · exact ha h
  · exact hb h

theorem OptOK_some (P : HTMLTagStack → Prop) (s : HTMLTagStack) (h : P s) :
    OptOK P (some s) := ⟨s, rfl, h⟩

theorem OptOK_ite (P : HTMLTagStack → Prop) (c : Prop) [Decidable c]
    (a b : Option HTMLTagStack) (ha : c → OptOK P a) (hb : ¬ c → OptOK P b) :
    OptOK P (if c then a else b) := by
  split_ifs with h
  · exact ha h
  · exact hb h

theorem OptOK_mono (P Q : HTMLTagStack → Prop) (o : Option HTMLTagStack) (h : OptOK Q o)
    (hpq : ∀ s, Q s → P s) : OptOK P o := by
  obtain ⟨s, hs, hq⟩ := h
  exact ⟨s, hs, hpq s hq⟩

theorem RenderAnd_arena (P : HTMLTagStack → Prop) (hP : TagOpKept P) (s : HTMLTagStack)
    (a : Arena) (h : RenderAnd P s) : RenderAnd P { s with arena := a } :=
  ⟨RenderInv_arena s a h.1, hP.2.2 s a h.2⟩

/-- A pop of an entry other than the article does not fail, and keeps the shape and `P`. -/
theorem Kept_pop (P : HTMLTagStack → Prop) (hP : TagOpKept P) (s : HTMLTagStack)
    (h : RenderAnd P s) (htop : HTMLTop s ≠ HTMLTagType.Article) :
    ∃ s', HTMLPopTag s = some s' ∧ RenderAnd P s' ∧
      s'.section_depth = s.section_depth - (if IsSectionTag (HTMLTop s) = true then 1 else 0) ∧
      s'.stack.length + 1 = s.stack.length := by
  obtain ⟨s', h1, h2, h3, h4⟩ := RenderInv_pop s h.1 htop
  exact ⟨s', h1, ⟨h2, hP.2.1 s s' h.2 h1 h2⟩, h3, h4⟩

theorem Kept_push (P : HTMLTagStack → Prop) (hP : TagOpKept P) (s : HTMLTagStack)
    (t : HTMLTagType) (h : RenderAnd P s) (hp : TagParentOK t (HTMLTop s) = true)
    (ht : IsSectionTag t = false) :
    ∃ s', HTMLPushTag s t = some s' ∧ RenderAnd P s' ∧ HTMLTop s' = t ∧
      s'.section_depth = s.section_depth := by
  obtain ⟨s', h1, h2, h3, h4⟩ := RenderInv_push s t h.1 hp ht
  exact ⟨s', h1, ⟨h2, hP.1 s t s' h.2 h1 h2⟩, h3, h4⟩

theorem Kept_pushSection (P : HTMLTagStack → Prop) (hP : TagOpKept P) (s : HTMLTagStack)
    (h : RenderAnd P s) (h2 : s.section_depth ≤ 2) :
    ∃ s', HTMLPushTag s HTMLTagType.Section = some s' ∧ RenderAnd P s' ∧
      HTMLTop s' = HTMLTagType.Section ∧ s'.section_depth = s.section_depth + 1 := by
  obtain ⟨s', g1, g2, g3, g4, -, -⟩ := RenderInv_pushSection s h.1 h2
  exact ⟨s', g1, ⟨g2, hP.1 s _ s' h.2 g1 g2⟩, g3, g4⟩

/-- `HTMLRiseToLowestSection` does not fail: it ends with the article or a section on top,
and keeps the shape, `P` and `section_depth`. -/
theorem Kept_riseLoop (P : HTMLTagStack → Prop) (hP : TagOpKept P) (fuel : Nat)
    (s : HTMLTagStack) (h : RenderAnd P s) (hf : s.stack.length < fuel) :
    ∃ s', HTMLRiseToLowestSectionLoop fuel s = some s' ∧ RenderAnd P s' ∧
      (HTMLTop s' = HTMLTagType.Section ∨ HTMLTop s' = HTMLTagType.Article) ∧
      s'.section_depth = s.section_depth := by
  induction fuel generalizing s with
  | zero => omega
  | succ n ih =>
    unfold HTMLRiseToLowestSectionLoop
    by_cases hc : HTMLTop s ≠ HTMLTagType.Section ∧ HTMLTop s ≠ HTMLTagType.Article
    · rw [if_pos hc]
      obtain ⟨s1, hpop, hinv, hdepth, hlen⟩ := Kept_pop P hP s h hc.2
      obtain ⟨s', hs', hinv', htop', hd'⟩ := ih s1 hinv (by omega)
      refine ⟨s', by rw [hpop, Option.some_bind, hs'], hinv', htop', ?_⟩
      rw [hd', hdepth, if_neg]
      · simp
      · obtain ⟨h1, h2⟩ := hc
        revert h1 h2
        cases HTMLTop s <;> simp [IsSectionTag]
    · rw [if_neg hc]
      refine ⟨s, rfl, h, ?_, rfl⟩
      by_cases h1 : HTMLTop s = HTMLTagType.Section
      · exact Or.inl h1
      · right
        by_contra h2
        exact hc ⟨h1, h2⟩

theorem Kept_rise (P : HTMLTagStack → Prop) (hP : TagOpKept P) (s : HTMLTagStack)
    (h : RenderAnd P s) :
    ∃ s', HTMLRiseToLowestSection s = some s' ∧ RenderAnd P s' ∧
      (HTMLTop s' = HTMLTagType.Section ∨ HTMLTop s' = HTMLTagType.Article) ∧
      s'.section_depth = s.section_depth :=
  Kept_riseLoop P hP _ s h (Nat.lt_succ_self _)

theorem Kept_openTag (P : HTMLTagStack → Prop) (hP : TagOpKept P) (s : HTMLTagStack)
    (t : HTMLTagType) (h : RenderAnd P s)
    (hp : TagParentOK t HTMLTagType.Section = true ∧ TagParentOK t HTMLTagType.Article = true)
    (ht : IsSectionTag t = false) :
    ∃ s', HTMLOpenTag s t = some s' ∧ RenderAnd P s' ∧ HTMLTop s' = t := by
  obtain ⟨s1, h1, hinv1, htop1, -⟩ := Kept_rise P hP s h
  obtain ⟨s2, h2, hinv2, htop2, -⟩ := Kept_push P hP s1 t hinv1
    (by rcases htop1 with e | e <;> rw [e] <;> [exact hp.1; exact hp.2]) ht
  exact ⟨s2, by unfold HTMLOpenTag; rw [h1, Option.some_bind, h2], hinv2, htop2⟩

theorem Kept_openSectionRise (P : HTMLTagStack → Prop) (hP : TagOpKept P) (level : Int)
    (hl : 2 ≤ level) (fuel : Nat) (s : HTMLTagStack) (h : RenderAnd P s)
    (hf : s.stack.length < fuel) :
    ∃ s', HTMLOpenSectionRise level fuel s = some s' ∧ RenderAnd P s' ∧
      s'.section_depth ≤ level - 1 := by
  induction fuel generalizing s with
  | zero => omega
  | succ n ih =>
    unfold HTMLOpenSectionRise
    by_cases hc : s.section_depth > level - 1
    · rw [if_pos hc]
      have htop : HTMLTop s ≠ HTMLTagType.Article := by
        intro e
        have := (RenderInv_article_top s h.1 e).2
        omega
      obtain ⟨s1, hpop, hinv, -, hlen⟩ := Kept_pop P hP s h htop
      obtain ⟨s', hs', hinv', hd'⟩ := ih s1 hinv (by omega)
      exact ⟨s', by rw [hpop, Option.some_bind, hs'], hinv', hd'⟩
    · rw [if_neg hc]
      exact ⟨s, rfl, h, by omega⟩

theorem Kept_openSectionMake (P : HTMLTagStack → Prop) (hP : TagOpKept P) (level : Int)
    (hl : level ≤ 3) (fuel : Nat) (s : HTMLTagStack) (h : RenderAnd P s)
    (hd : s.section_depth ≤ level) (hf : (level - s.section_depth).toNat < fuel) :
    ∃ s', HTMLOpenSectionMake level fuel s = some s' ∧ RenderAnd P s' := by
  induction fuel generalizing s with
  | zero => omega
  | succ n ih =>
    unfold HTMLOpenSectionMake
    by_cases hc : s.section_depth ≠ level
    · rw [if_pos hc]
      obtain ⟨s1, hpush, hinv, -, hdepth⟩ := Kept_pushSection P hP s h (by omega)
      obtain ⟨s', hs', hinv'⟩ := ih s1 hinv (by omega) (by omega)
      exact ⟨s', by rw [hpush, Option.some_bind, hs'], hinv'⟩
    · rw [if_neg hc]
      exact ⟨s, rfl, h⟩

theorem Kept_openSection (P : HTMLTagStack → Prop) (hP : TagOpKept P) (s : HTMLTagStack)
    (level : Int) (heading : List Char) (h : RenderAnd P s) (hl : level = 2 ∨ level = 3) :
    OptOK (RenderAnd P) (HTMLOpenSection s level heading) := by
  obtain ⟨s1, h1, hinv1, hd1⟩ := Kept_openSectionRise P hP level (by omega) _ s h
    (Nat.lt_succ_self _)
  have hpos : 0 ≤ s1.section_depth := by
    rw [hinv1.1.2.2.1]
    exact Int.natCast_nonneg _
  obtain ⟨s2, h2, hinv2⟩ := Kept_openSectionMake P hP level (by omega)
    (SC_HTML_MAX_TAG_DEPTH + 1) s1 hinv1 (by omega)
    (by unfold SC_HTML_MAX_TAG_DEPTH; omega)
  refine ⟨{ s2 with arena := ArenaPushCStr (HTMLWriteEscapedText heading
    (ArenaPushCStr s2.arena "<h1>")) "</h1>\n" }, ?_, RenderAnd_arena P hP s2 _ hinv2⟩
  unfold HTMLOpenSection
  rw [h1, Option.some_bind, h2, Option.some_bind]

theorem OptOK_pop (P : HTMLTagStack → Prop) (hP : TagOpKept P) (s : HTMLTagStack)
    (h : RenderAnd P s) (htop : HTMLTop s ≠ HTMLTagType.Article) :
    OptOK (RenderAnd P) (HTMLPopTag s) := by
  obtain ⟨s1, h1, hinv, -, -⟩ := Kept_pop P hP s h htop
  exact ⟨s1, h1, hinv⟩

theorem OptOK_push (P : HTMLTagStack → Prop) (hP : TagOpKept P) (s : HTMLTagStack)
    (t : HTMLTagType) (h : RenderAnd P s) (hp : TagParentOK t (HTMLTop s) = true)
    (ht : IsSectionTag t = false) : OptOK (RenderAnd P) (HTMLPushTag s t) := by
  obtain ⟨s1, h1, hinv, -, -⟩ := Kept_push P hP s t h hp ht
  exact ⟨s1, h1, hinv⟩

theorem OptOK_rise (P : HTMLTagStack → Prop) (hP : TagOpKept P) (s : HTMLTagStack)
    (h : RenderAnd P s) : OptOK (RenderAnd P) (HTMLRiseToLowestSection s) := by
  obtain ⟨s1, h1, hinv, -, -⟩ := Kept_rise P hP s h
  exact ⟨s1, h1, hinv⟩

theorem OptOK_openTag (P : HTMLTagStack → Prop) (hP : TagOpKept P) (s : HTMLTagStack)
    (t : HTMLTagType) (h : RenderAnd P s)
    (hp : TagParentOK t HTMLTagType.Section = true ∧ TagParentOK t HTMLTagType.Article = true)
    (ht : IsSectionTag t = false) :
    OptOK (fun s' => RenderAnd P s' ∧ HTMLTop s' = t) (HTMLOpenTag s t) :=
  Kept_openTag P hP s t h hp ht

/-- The handling of a function object does not fail, and it keeps the shape of the tag
stack and `P`. -/
theorem Kept_func (P : HTMLTagStack → Prop) (hP : TagOpKept P) (sc : List Char)
    (tags : HTMLTagStack) (obj : SCObject) (h : RenderAnd P tags) :
    StepOK (RenderAnd P) (SCToHTMLFunc sc tags obj) := by
  have hrise : ∀ f : HTMLTagStack → Option SCToHTMLStep,
      (∀ s, RenderAnd P s → StepOK (RenderAnd P) (f s)) →
      StepOK (RenderAnd P) ((HTMLRiseToLowestSection tags).bind f) :=
    fun f hf => StepOK_bind _ _ _ _ (OptOK_rise P hP _ h) hf
  have hopen : ∀ t : HTMLTagType,
      TagParentOK t HTMLTagType.Section = true ∧ TagParentOK t HTMLTagType.Article = true →
      IsSectionTag t = false →
      StepOK (RenderAnd P) ((HTMLOpenTag tags t).map SCToHTMLStep.next) :=
    fun t hp ht => StepOK_map _ _
      (OptOK_mono _ _ _ (OptOK_openTag P hP _ t h hp ht) (fun _ hs => hs.1))
  have har := RenderAnd_arena P hP
  unfold SCToHTMLFunc
  simp only []
  -- section, subsection
  refine StepOK_ite _ _ _ _ (fun _ => StepOK_ite _ _ _ _ (fun _ => StepOK_ret0 _ _)
    (fun _ => StepOK_map _ _ (Kept_openSection P hP _ _ _ h (Or.inl rfl)))) (fun _ => ?_)
  refine StepOK_ite _ _ _ _ (fun _ => StepOK_ite _ _ _ _ (fun _ => StepOK_ret0 _ _)
    (fun _ => StepOK_map _ _ (Kept_openSection P hP _ _ _ h (Or.inr rfl)))) (fun _ => ?_)
  -- paragraph and the three lists
  refine StepOK_ite _ _ _ _ (fun _ => hopen _ (by decide) (by decide)) (fun _ => ?_)
  refine StepOK_ite _ _ _ _ (fun _ => hopen _ (by decide) (by decide)) (fun _ => ?_)
  refine StepOK_ite _ _ _ _ (fun _ => hopen _ (by decide) (by decide)) (fun _ => ?_)
  refine StepOK_ite _ _ _ _ (fun _ => hopen _ (by decide) (by decide)) (fun _ => ?_)
  -- table
  refine StepOK_ite _ _ _ _ (fun _ => StepOK_bind _ _ _ _
    (OptOK_openTag P hP _ _ h (by decide) (by decide))
    (fun s hs => StepOK_bind _ _ _ _
      (OptOK_push P hP s _ hs.1 (by rw [hs.2]; decide) (by decide))
      (fun s2 hs2 => StepOK_ite _ _ _ _
        (fun _ => StepOK_next _ _ (har _ _ hs2))
        (fun _ => StepOK_next _ _ hs2)))) (fun _ => ?_)
  -- item
  refine StepOK_ite _ _ _ _ (fun _ => StepOK_bind _ _ _ _
    (OptOK_ite _ _ _ _
      (fun hc => OptOK_pop P hP _ h (by rcases hc with e | e | e <;> rw [e] <;> decide))
      (fun _ => OptOK_some _ _ h))
    (fun s hs => StepOK_ite _ _ _ _ (fun _ => StepOK_ret0 _ _)
      (fun hn => StepOK_ite _ _ _ _
        (fun hrow => StepOK_map _ _ (OptOK_push P hP s _ hs (by rw [hrow]; decide)
          (by decide)))
        (fun hrow => StepOK_map _ _ (OptOK_push P hP s _ hs (by
          revert hn hrow
          cases HTMLTop s <;> simp [TagParentOK]) (by decide)))))) (fun _ => ?_)
  -- hitem
  refine StepOK_ite _ _ _ _ (fun _ => StepOK_bind _ _ _ _
    (OptOK_ite _ _ _ _
      (fun hc => OptOK_pop P hP _ h (by rcases hc with e | e <;> rw [e] <;> decide))
      (fun _ => OptOK_some _ _ h))
    (fun s hs => StepOK_ite _ _ _ _ (fun _ => StepOK_ret0 _ _)
      (fun hrow => StepOK_map _ _ (OptOK_push P hP s _ hs (by
        simp only [ne_eq, not_not] at hrow
        rw [hrow]
        decide) (by decide))))) (fun _ => ?_)
  -- row
  refine StepOK_ite _ _ _ _ (fun _ => StepOK_bind _ _ _ _
    (OptOK_ite _ _ _ _
      (fun hc => OptOK_pop P hP _ h (by rcases hc with e | e <;> rw [e] <;> decide))
      (fun _ => OptOK_some _ _ h))
    (fun s hs => StepOK_bind _ _ _ _
      (OptOK_ite _ _ _ _
        (fun hc => OptOK_pop P hP _ hs (by rw [hc]; decide))
        (fun _ => OptOK_some _ _ hs))
      (fun s2 hs2 => StepOK_ite _ _ _ _ (fun _ => StepOK_ret0 _ _)
        (fun htab => StepOK_map _ _ (OptOK_push P hP s2 _ hs2 (by
          simp only [ne_eq, not_not] at htab
          rw [htab]
          decide) (by decide)))))) (fun _ => ?_)
  -- html, code, quote
  refine StepOK_ite _ _ _ _ (fun _ => StepOK_ite _ _ _ _ (fun _ => StepOK_ret0 _ _)
    (fun _ => hrise _ (fun s hs => StepOK_next _ _ (har _ _ hs))))
    (fun _ => ?_)
  refine StepOK_ite _ _ _ _ (fun _ => StepOK_ite _ _ _ _ (fun _ => StepOK_ret0 _ _)
    (fun _ => hrise _ (fun s hs => StepOK_next _ _ (har _ _ hs))))
    (fun _ => ?_)
  refine StepOK_ite _ _ _ _ (fun _ => StepOK_ite _ _ _ _ (fun _ => StepOK_ret0 _ _)
    (fun _ => hrise _ (fun s hs => StepOK_next _ _ (har _ _ hs))))
    (fun _ => ?_)
  -- bold, italic, inline
  refine StepOK_ite _ _ _ _ (fun _ => StepOK_ite _ _ _ _ (fun _ => StepOK_ret0 _ _)
    (fun _ => StepOK_next _ _ (har _ _ h))) (fun _ => ?_)
  refine StepOK_ite _ _ _ _ (fun _ => StepOK_ite _ _ _ _ (fun _ => StepOK_ret0 _ _)
    (fun _ => StepOK_next _ _ (har _ _ h))) (fun _ => ?_)
  refine StepOK_ite _ _ _ _ (fun _ => StepOK_ite _ _ _ _ (fun _ => StepOK_ret0 _ _)
    (fun _ => StepOK_next _ _ (har _ _ h))) (fun _ => ?_)
  -- link
  refine StepOK_ite _ _ _ _ (fun _ => StepOK_ite _ _ _ _ (fun _ => StepOK_ret0 _ _)
    (fun _ => StepOK_ite _ _ _ _ (fun _ => StepOK_ret0 _ _)
      (fun _ => StepOK_next _ _ (har _ _ h)))) (fun _ => ?_)
  -- image
  refine StepOK_ite _ _ _ _ (fun _ => hrise _ (fun s hs => StepOK_ite _ _ _ _
    (fun _ => StepOK_ret0 _ _)
    (fun _ => StepOK_next _ _ (har _ _ hs)))) (fun _ => ?_)
  -- info
  refine StepOK_ite _ _ _ _ (fun _ => hrise _ (fun s hs => StepOK_ite _ _ _ _
    (fun _ => StepOK_ret0 _ _)
    (fun _ => StepOK_next _ _ (har _ _ hs)))) (fun _ => ?_)
  exact StepOK_ret0 _ _

/-- The handling of one object does not fail, and it keeps the shape of the tag stack and
`P`. -/
theorem Kept_object (P : HTMLTagStack → Prop) (hP : TagOpKept P) (sc : List Char)
    (tags : HTMLTagStack) (obj : SCObject) (h : RenderAnd P tags) :
    StepOK (RenderAnd P) (SCToHTMLObject sc tags obj) := by
  have hpar : ∀ c : Prop, [Decidable c] →
      (c → HTMLTop tags = HTMLTagType.Article ∨ HTMLTop tags = HTMLTagType.Section) →
      OptOK (RenderAnd P)
        (if c then HTMLPushTag tags HTMLTagType.Paragraph else some tags) := by
    intro c _ hc
    refine OptOK_ite _ _ _ _ (fun hh => OptOK_push P hP _ _ h ?_ (by decide))
      (fun _ => OptOK_some _ _ h)
    rcases hc hh with e | e <;> rw [e] <;> decide
  unfold SCToHTMLObject
  split
  · exact StepOK_ret0 _ _
  · exact StepOK_next _ _ h
  · simp only []
    exact StepOK_bind _ _ _ _ (hpar _ (fun hc => hc.1))
      (fun s hs => StepOK_next _ _ (RenderAnd_arena P hP _ _ hs))
  · exact StepOK_bind _ _ _ _ (hpar _ (fun hc => hc))
      (fun s hs => StepOK_next _ _ (RenderAnd_arena P hP _ _ hs))
  · exact Kept_func P hP sc tags obj h

end SiteC

/-! ## The whole run does not fail -/

namespace SiteC

/-- The last loop of `SCToHTML` does not fail on a stack that holds the sentinel at the
bottom and nowhere else: it ends with the sentinel alone, and it keeps every property that
every pop keeps. -/
theorem HTMLPopAll_some (P : HTMLTagStack → Prop)
    (hpop : ∀ s s', P s → HTMLPopTag s = some s' → P s') (body : List HTMLTagType) :
    ∀ (fuel : Nat) (s : HTMLTagStack), s.stack = body ++ [HTMLTagType.TOS] →
      HTMLTagType.TOS ∉ body → body.length < fuel → P s →
      ∃ s', HTMLPopAll fuel s = some s' ∧ s'.stack = [HTMLTagType.TOS] ∧ P s' := by
  induction body with
  | nil =>
    intro fuel s hs _ hf hp
    cases fuel with
    | zero => omega
    | succ n =>
      unfold HTMLPopAll
      have htop : HTMLTop s = HTMLTagType.TOS := by
        unfold HTMLTop
        rw [hs]
        rfl
      rw [if_neg (not_not.mpr htop)]
      exact ⟨s, rfl, hs, hp⟩
  | cons x b ih =>
    intro fuel s hs hno hf hp
    cases fuel with
    | zero => omega
    | succ n =>
      have hx : x ≠ HTMLTagType.TOS := fun e => hno (by rw [e]; exact List.mem_cons_self _ _)
      obtain ⟨y, rest, hrest⟩ : ∃ y rest, b ++ [HTMLTagType.TOS] = y :: rest := by
        cases b with
        | nil => exact ⟨_, _, rfl⟩
        | cons y b => exact ⟨_, _, rfl⟩
      have hs2 : s.stack = x :: y :: rest := by rw [hs, List.cons_append, hrest]
      have htop : HTMLTop s ≠ HTMLTagType.TOS := by
        unfold HTMLTop
        rw [hs2]
        exact hx
      have hpp := HTMLPopTag_cons s x y rest hs2
      unfold HTMLPopAll
      rw [if_pos htop, hpp, Option.some_bind]
      exact ih n _ hrest.symm (fun hm => hno (List.mem_cons_of_mem _ hm))
        (by simp only [List.length_cons] at hf; omega) (hpop s _ hp hpp)

/-- From a stack of the right shape the last loop of `SCToHTML` does not fail. -/
theorem HTMLPopAll_render (P : HTMLTagStack → Prop)
    (hpop : ∀ s s', P s → HTMLPopTag s = some s' → P s') (s : HTMLTagStack)
    (h : RenderInv s) (hp : P s) :
    ∃ s', HTMLPopAll (s.stack.length + 1) s = some s' ∧ s'.stack = [HTMLTagType.TOS] ∧
      P s' := by
  obtain ⟨⟨body, hb⟩, hsh, -, -⟩ := h
  have hno := StackShapeOK_no_TOS body (hb ▸ hsh)
  refine HTMLPopAll_some P hpop (body ++ [HTMLTagType.Article]) _ s (by simp [hb]) ?_
    (by rw [hb]; simp) hp
  intro hm
  rcases List.mem_append.mp hm with e | e
  · exact hno e
  · simp at e

/-- With more fuel than the reader has characters left, the loop of `SCToHTML` does not
fail from a stack of the right shape: it returns 0 with a diagnostic, or it leaves the
`do ... while` loop with a stack of the right shape that satisfies `P`, from which the last
loop pops down to the sentinel. -/
theorem SCToHTMLLoop_total (P : HTMLTagStack → Prop) (hP : TagOpKept P) (sc : List Char)
    (fuel : Nat) :
    ∀ (r : SCReader) (tags : HTMLTagStack), RenderAnd P tags →
      r.current ≤ r.text.length → r.text.length - r.current < fuel →
      ∃ step, SCToHTMLLoop sc fuel r tags = some step ∧
        ∀ tags', step = SCToHTMLStep.next tags' →
          ∃ t1, RenderAnd P t1 ∧ HTMLPopAll (t1.stack.length + 1) t1 = some tags' ∧
            tags'.stack = [HTMLTagType.TOS] := by
  induction fuel with
  | zero =>
    intro r tags _ _ hf
    omega
  | succ n ih =>
    intro r tags h hr hf
    rw [SCToHTMLLoop_succ]
    obtain ⟨step, hstep, hnext⟩ := Kept_object P hP sc tags (SCRead r).2 h
    rw [hstep, Option.some_bind]
    cases step with
    | ret0 m => exact ⟨_, rfl, fun _ e => by cases e⟩
    | next t1 =>
      have h1 := hnext t1 rfl
      simp only []
      by_cases hc : (SCRead r).2.type ≠ SCObjectType.End ∧
          (SCRead r).2.type ≠ SCObjectType.Error
      · rw [if_pos hc]
        obtain ⟨p1, p2, p3⟩ := SCRead_progress r hr hc.1 hc.2
        exact ih (SCRead r).1 t1 h1 (by rw [p1]; exact p3) (by rw [p1]; omega)
      · rw [if_neg hc]
        obtain ⟨s', hs', hst, -⟩ := HTMLPopAll_render (fun _ => True)
          (fun _ _ _ _ => trivial) t1 h1.1 trivial
        refine ⟨_, by rw [hs']; rfl, fun tags' e => ?_⟩
        cases e
        exact ⟨t1, h1, hs', hst⟩

/-- More fuel does not change a result of the loop of `SCToHTML`. -/
theorem SCToHTMLLoop_mono (sc : List Char) (fuel : Nat) :
    ∀ (r : SCReader) (tags : HTMLTagStack) (step : SCToHTMLStep),
      SCToHTMLLoop sc fuel r tags = some step →
      SCToHTMLLoop sc (fuel + 1) r tags = some step := by
  induction fuel with
  | zero =>
    intro r tags step h
    cases h
  | succ n ih =>
    intro r tags step h
    rw [SCToHTMLLoop_succ] at h ⊢
    obtain ⟨st, hst, h⟩ := Option.bind_eq_some.mp h
    rw [hst, Option.some_bind]
    cases st with
    | ret0 m => exact h
    | next t1 =>
      simp only [] at h ⊢
      split_ifs at h ⊢ with hc
      · exact ih _ _ _ h
      · exact h

theorem SCToHTMLLoop_mono_le (sc : List Char) (fuel k : Nat) (r : SCReader)
    (tags : HTMLTagStack) (step : SCToHTMLStep)
    (h : SCToHTMLLoop sc fuel r tags = some step) :
    SCToHTMLLoop sc (fuel + k) r tags = some step := by
  induction k with
  | zero => exact h
  | succ k ih => exact SCToHTMLLoop_mono sc _ r tags step ih

theorem RenderAnd_init (P : HTMLTagStack → Prop) (h : P ArticleTagStack) :
    RenderAnd P ArticleTagStack := ⟨RenderInv_init, h⟩

/-- The run of `SCToHTML` does not fail, whatever the document: no assertion of the tag
stack fails and the loop ends within its bound. -/
theorem SCToHTMLRun_total (P : HTMLTagStack → Prop) (hP : TagOpKept P)
    (h0 : P ArticleTagStack) (sc : List Char) (path file : String) :
    ∃ step, SCToHTMLRun sc path file = some step ∧
      ∀ tags', step = SCToHTMLStep.next tags' →
        ∃ t1, RenderAnd P t1 ∧ HTMLPopAll (t1.stack.length + 1) t1 = some tags' ∧
          tags'.stack = [HTMLTagType.TOS] := by
  have e : SCToHTMLRun sc path file
      = SCToHTMLLoop sc (sc.length + 1) (MakeSCReader sc path file) ArticleTagStack := rfl
  rw [e]
  exact SCToHTMLLoop_total P hP sc _ _ _ (RenderAnd_init P h0) (Nat.zero_le _)
    (by show sc.length - 0 < sc.length + 1; omega)

/-- Every state that `SCToHTML` reaches between two objects has the right shape and
satisfies `P`. -/
theorem SCToHTMLAfter_kept (P : HTMLTagStack → Prop) (hP : TagOpKept P)
    (h0 : P ArticleTagStack) (sc : List Char) (path file : String) (n : Nat) (r : SCReader)
    (tags : HTMLTagStack) (h : SCToHTMLAfter sc path file n = some (r, tags)) :
    RenderAnd P tags := by
  induction n generalizing r tags with
  | zero =>
    have e : SCToHTMLAfter sc path file 0
        = some (MakeSCReader sc path file, ArticleTagStack) := rfl
    rw [e] at h
    cases h
    exact RenderAnd_init P h0
  | succ n ih =>
    unfold SCToHTMLAfter at h
    obtain ⟨st, hst, h⟩ := Option.bind_eq_some.mp h
    obtain ⟨r0, tags0⟩ := st
    have hinv := ih r0 tags0 hst
    simp only [] at h
    obtain ⟨step, hstep, hnext⟩ := Kept_object P hP sc tags0 (SCRead r0).2 hinv
    rw [hstep] at h
    cases step with
    | ret0 m => cases h
    | next t1 =>
      cases h
      exact hnext _ rfl

end SiteC

/-! ## The contents of the tag stack at every point of a rendering -/

namespace SiteC

theorem StackAfterWrites_append (a b : List TagWrite) :
    ∀ st : List HTMLTagType,
      StackAfterWrites (a ++ b) st = (StackAfterWrites a st).bind (StackAfterWrites b) := by
  induction a with
  | nil =>
    intro st
    rfl
  | cons w a ih =>
    intro st
    cases w with
    | opening t => exact ih (t :: st)
    | closing t =>
      cases st with
      | nil => rfl
      | cons x st1 =>
        cases st1 with
        | nil => rfl
        | cons y below =>
          show (if x = t then StackAfterWrites (a ++ b) (y :: below) else none)
            = (if x = t then StackAfterWrites a (y :: below) else none).bind
                (StackAfterWrites b)
          split_ifs
          · exact ih _
          · rfl

/-- What a successful push returns. -/
theorem HTMLPushTag_some (s s' : HTMLTagStack) (t : HTMLTagType)
    (h : HTMLPushTag s t = some s') :
    s'.stack = t :: s.stack ∧ s'.tag_writes = s.tag_writes ++ [TagWrite.opening t] := by
  unfold HTMLPushTag at h
  by_cases hd : s.tag_pos + 1 < SC_HTML_MAX_TAG_DEPTH
  · rw [if_pos hd] at h
    cases h
    exact ⟨rfl, rfl⟩
  · rw [if_neg hd] at h
    cases h

/-- What a successful pop returns. -/
theorem HTMLPopTag_some (s s' : HTMLTagStack) (h : HTMLPopTag s = some s') :
    ∃ x y rest, s.stack = x :: y :: rest ∧ s'.stack = y :: rest ∧
      s'.tag_writes = s.tag_writes ++ [TagWrite.closing x] := by
  unfold HTMLPopTag at h
  split at h
  · rename_i x y rest hs
    cases h
    exact ⟨x, y, rest, hs, rfl, rfl⟩
  · cases h

/-- One more recorded write whose result satisfies `G` keeps the record good. -/
theorem EveryPoint_write (G : List HTMLTagType → Prop) (s s' : HTMLTagStack) (w : TagWrite)
    (h : EveryPoint G s) (hw : s'.tag_writes = s.tag_writes ++ [w])
    (hs : StackAfterWrites [w] s.stack = some s'.stack) (hg : G s'.stack) :
    EveryPoint G s' := by
  obtain ⟨h1, h2⟩ := h
  have hall : StackAfterWrites s'.tag_writes [HTMLTagType.TOS] = some s'.stack := by
    rw [hw, StackAfterWrites_append, h1, Option.some_bind, hs]
  refine ⟨hall, fun p hp hne => ?_⟩
  rw [hw] at hp
  rcases List.prefix_concat_iff.mp hp with e | e
  · subst e
    rw [← hw]
    exact ⟨_, hall, hg⟩
  · exact h2 p e hne

theorem EveryPoint_push (G : List HTMLTagType → Prop) (s s' : HTMLTagStack)
    (t : HTMLTagType) (h : EveryPoint G s) (hp : HTMLPushTag s t = some s')
    (hg : G s'.stack) : EveryPoint G s' := by
  obtain ⟨e1, e2⟩ := HTMLPushTag_some s s' t hp
  refine EveryPoint_write G s s' _ h e2 ?_ hg
  rw [e1]
  rfl

theorem EveryPoint_pop (G : List HTMLTagType → Prop) (s s' : HTMLTagStack)
    (h : EveryPoint G s) (hp : HTMLPopTag s = some s') (hg : G s'.stack) :
    EveryPoint G s' := by
  obtain ⟨x, y, rest, e0, e1, e2⟩ := HTMLPopTag_some s s' hp
  refine EveryPoint_write G s s' _ h e2 ?_ hg
  rw [e0, e1]
  simp [StackAfterWrites]

theorem EveryPoint_mono (G G' : List HTMLTagType → Prop) (hgg : ∀ st, G st → G' st)
    (s : HTMLTagStack) (h : EveryPoint G s) : EveryPoint G' s := by
  obtain ⟨h1, h2⟩ := h
  refine ⟨h1, fun p hp hne => ?_⟩
  obtain ⟨st, e, g⟩ := h2 p hp hne
  exact ⟨st, e, hgg st g⟩

/-- The contents of a stack of the shape `RenderInv`. -/
theorem RenderInv_good (s : HTMLTagStack) (h : RenderInv s) : GoodStack s.stack := by
  obtain ⟨⟨body, hb⟩, hsh, hd, h3⟩ := h
  refine ⟨?_, hsh, ?_⟩
  · rw [hb]
    exact List.suffix_append _ _
  · rw [hd] at h3
    exact_mod_cast h3

/-- The record of the writes stays good along every push and pop that leads to a stack of
the right shape. -/
theorem EveryPoint_kept (G : List HTMLTagType → Prop)
    (hG : ∀ s, RenderInv s → G s.stack) : TagOpKept (EveryPoint G) :=
  ⟨fun s t s' h hp hr => EveryPoint_push G s s' t h hp (hG s' hr),
    fun s s' h hp hr => EveryPoint_pop G s s' h hp (hG s' hr),
    fun _ _ h => h⟩

theorem EveryPoint_init (G : List HTMLTagType → Prop)
    (hg : G [HTMLTagType.Article, HTMLTagType.TOS]) : EveryPoint G ArticleTagStack := by
  refine ⟨rfl, fun p hp hne => ?_⟩
  have e : ArticleTagStack.tag_writes = [] ++ [TagWrite.opening HTMLTagType.Article] := rfl
  rw [e] at hp
  rcases List.prefix_concat_iff.mp hp with e1 | e1
  · subst e1
    exact ⟨_, rfl, hg⟩
  · exact absurd (List.prefix_nil.mp e1) hne

/-- A pop keeps the record good when `G` holds of every stack below a stack of which it
holds. -/
theorem EveryPoint_pop_tail (G : List HTMLTagType → Prop)
    (htail : ∀ x rest, G (x :: rest) → G rest) (s s' : HTMLTagStack)
    (h : EveryPoint G s) (hp : HTMLPopTag s = some s') : EveryPoint G s' := by
  obtain ⟨x, y, rest, e0, e1, e2⟩ := HTMLPopTag_some s s' hp
  refine EveryPoint_pop G s s' h hp ?_
  rw [e1]
  apply htail x
  rw [← e0]
  by_cases hw : s.tag_writes = []
  · exfalso
    have := h.1
    rw [hw, e0] at this
    simp [StackAfterWrites] at this
  · obtain ⟨st, e, g⟩ := h.2 s.tag_writes (List.prefix_refl _) hw
    rw [h.1] at e
    cases e
    exact g

/-- The number of entries above the nearest article or section is the rank of the top, on
a stack of the right shape that holds the article. -/
theorem RunAbove_rank (body : List HTMLTagType) :
    StackShapeOK (body ++ [HTMLTagType.Article, HTMLTagType.TOS]) = true →
    RunAbove (body ++ [HTMLTagType.Article, HTMLTagType.TOS])
      = TagRank ((body ++ [HTMLTagType.Article, HTMLTagType.TOS]).headD HTMLTagType.TOS) := by
  induction body with
  | nil =>
    intro _
    rfl
  | cons x b ih =>
    intro h
    obtain ⟨y, rest, hrest⟩ : ∃ y rest,
        b ++ [HTMLTagType.Article, HTMLTagType.TOS] = y :: rest := by
      cases b with
      | nil => exact ⟨_, _, rfl⟩
      | cons y b => exact ⟨_, _, rfl⟩
    rw [List.cons_append, hrest] at h
    obtain ⟨hxy, hsh⟩ := StackShapeOK_cons x y rest h
    rw [← hrest] at hsh
    have hi := ih hsh
    rw [hrest] at hi
    simp only [List.headD_cons] at hi
    rw [List.cons_append, hrest]
    simp only [List.headD_cons]
    unfold RunAbove
    by_cases hx : IsSectionTag x = true
    · rw [if_pos hx]
      revert hx
      cases x <;> simp [IsSectionTag, TagRank]
    · rw [if_neg hx, hi, TagRank_parent x y hxy (by simpa using hx)]

/-- On a stack of the right shape at most four entries that are neither article nor section
lie directly above any entry. -/
theorem RunsBounded_shape (body : List HTMLTagType) :
    StackShapeOK (body ++ [HTMLTagType.Article, HTMLTagType.TOS]) = true →
    RunsBounded 4 (body ++ [HTMLTagType.Article, HTMLTagType.TOS]) = true := by
  induction body with
  | nil =>
    intro _
    decide
  | cons x b ih =>
    intro h
    have hr := RunAbove_rank (x :: b) h
    have hle := TagRank_le (((x :: b) ++ [HTMLTagType.Article, HTMLTagType.TOS]).headD
      HTMLTagType.TOS)
    obtain ⟨y, rest, hrest⟩ : ∃ y rest,
        b ++ [HTMLTagType.Article, HTMLTagType.TOS] = y :: rest := by
      cases b with
      | nil => exact ⟨_, _, rfl⟩
      | cons y b => exact ⟨_, _, rfl⟩
    have h' := h
    rw [List.cons_append, hrest] at h'
    obtain ⟨-, hsh⟩ := StackShapeOK_cons x y rest h'
    rw [← hrest] at hsh
    have hi := ih hsh
    rw [List.cons_append] at hr hle ⊢
    unfold RunsBounded
    rw [Bool.and_eq_true, decide_eq_true_eq]
    exact ⟨by omega, hi⟩

theorem TagParentOK_rule (x y : HTMLTagType) (h : TagParentOK x y = true) :
    ParentRule x y = true := by
  cases x <;> first | rfl | exact h

theorem ParentsOK_shape (st : List HTMLTagType) (h : StackShapeOK st = true) :
    ParentsOK st = true := by
  induction st with
  | nil => rfl
  | cons x rest ih =>
    cases rest with
    | nil => rfl
    | cons y rest =>
      obtain ⟨h1, h2⟩ := StackShapeOK_cons x y rest h
      unfold ParentsOK
      rw [Bool.and_eq_true]
      exact ⟨TagParentOK_rule x y h1, ih h2⟩

theorem ParentsOK_tail (x : HTMLTagType) (rest : List HTMLTagType)
    (h : ParentsOK (x :: rest) = true) : ParentsOK rest = true := by
  cases rest with
  | nil => rfl
  | cons y rest =>
    unfold ParentsOK at h
    rw [Bool.and_eq_true] at h
    exact h.2

/-- What the shape gives on the size of the stack: at least the article and at most 15
entries above the sentinel, between one and three article and section entries, and at most
four other entries above any entry. -/
theorem GoodStack_bounds (st : List HTMLTagType) (h : GoodStack st) :
    2 ≤ st.length ∧ st.length ≤ 16 ∧ 1 ≤ SectionCount st ∧ SectionCount st ≤ 3 ∧
      RunsBounded 4 st = true := by
  obtain ⟨⟨body, hb⟩, hsh, h3⟩ := h
  subst hb
  have hl := StackShapeOK_length body hsh
  have hr := TagRank_le ((body ++ [HTMLTagType.Article, HTMLTagType.TOS]).headD
    HTMLTagType.TOS)
  have hcount : SectionCount (body ++ [HTMLTagType.Article, HTMLTagType.TOS])
      = SectionCount body + 1 := by
    rw [SectionCount_append]
    rfl
  rw [hcount] at h3 ⊢
  rw [List.length_append]
  simp only [List.length_cons, List.length_nil]
  exact ⟨by omega, by omega, by omega, h3, RunsBounded_shape body hsh⟩

end SiteC

/-! ## Consequences for whole documents -/

namespace SiteC

theorem GoodStack_init : GoodStack [HTMLTagType.Article, HTMLTagType.TOS] :=
  ⟨List.suffix_refl _, by decide, by decide⟩

/-- `SCToHTML` returns for every document: no assertion of the tag stack fails, and the
loop over the objects ends within its bound. -/
theorem SCToHTML_total (sc : List Char) (path file : String) :
    ∃ res, SCToHTML sc path file = some res := by
  obtain ⟨step, hstep, -⟩ := SCToHTMLRun_total (fun _ => True)
    ⟨fun _ _ _ _ _ _ => trivial, fun _ _ _ _ _ => trivial, fun _ _ _ => trivial⟩ trivial
    sc path file
  unfold SCToHTML
  rw [hstep]
  exact ⟨_, rfl⟩

/-- Every state between two objects has the shape `RenderInv`, and the stack had the
contents `GoodStack` after every push and pop made so far. -/
theorem SCToHTMLAfter_good (sc : List Char) (path file : String) (n : Nat) (r : SCReader)
    (tags : HTMLTagStack) (h : SCToHTMLAfter sc path file n = some (r, tags)) :
    RenderAnd (EveryPoint GoodStack) tags :=
  SCToHTMLAfter_kept (EveryPoint GoodStack) (EveryPoint_kept GoodStack RenderInv_good)
    (EveryPoint_init GoodStack GoodStack_init) sc path file n r tags h

/-- The readers of the states between two objects read the document, with the cursor in
it. -/
theorem SCToHTMLAfter_reader (sc : List Char) (path file : String) (n : Nat) (r : SCReader)
    (tags : HTMLTagStack) (h : SCToHTMLAfter sc path file n = some (r, tags)) :
    r = SCReadIter n (MakeSCReader sc path file) := by
  induction n generalizing r tags with
  | zero =>
    have e : SCToHTMLAfter sc path file 0
        = some (MakeSCReader sc path file, ArticleTagStack) := rfl
    rw [e] at h
    cases h
    rfl
  | succ n ih =>
    unfold SCToHTMLAfter at h
    obtain ⟨st, hst, h⟩ := Option.bind_eq_some.mp h
    obtain ⟨r0, tags0⟩ := st
    have hr := ih r0 tags0 hst
    simp only [] at h
    split at h
    · cases h
      rw [SCReadIter_succ_right, ← hr]
    · cases h

/-- The comma test of the loop of `SCReadArgumentList` never reads past the byte at the end
of the buffer. -/
theorem SCReadArgumentListLoopLookups_le (fuel : Nat) :
    ∀ (r : SCReader) (out : SCObject), r.current ≤ r.text.length →
      ∀ i ∈ SCReadArgumentListLoopLookups fuel r out, i ≤ r.text.length := by
  induction fuel with
  | zero =>
    intro r out _ i hi
    cases hi
  | succ n ih =>
    intro r out hr i hi
    unfold SCReadArgumentListLoopLookups at hi
    simp only [] at hi
    obtain ⟨c1, c2, c3⟩ := SCReadArgument_cursor r out hr
    split_ifs at hi with h1 h2 h3
    · cases hi
    · rcases List.mem_cons.mp hi with e | e
      · rw [e]
        exact c3
      · have hc := CursorFrom_consume r.text r.current _ ⟨c1, c2, c3⟩
        have := ih (SCConsume (SCReadArgument r out).1 1) (SCReadArgument r out).2
          (by rw [hc.1]; exact hc.2.2) i e
        rwa [hc.1] at this
    · rcases List.mem_cons.mp hi with e | e
      · rw [e]
        exact c3
      · cases e
    · cases hi

/-- What the test reads when an argument ends at the end of the buffer. -/
theorem SCReadArgumentListLoopLookups_end (fuel : Nat) (r : SCReader) (out : SCObject)
    (h1 : r.current < r.text.length)
    (h2 : (SCReadArgument r out).2.type ≠ SCObjectType.Error)
    (h3 : (SCReadArgument r out).1.current = r.text.length) :
    SCReadArgumentListLoopLookups (fuel + 1) r out = [r.text.length] := by
  have hnone : SCCurrentChar (SCReadArgument r out).1 ≠ some ',' := by
    intro e
    have := SCCurrentChar_some_lt _ _ e
    rw [h3, (SCReadArgument_cursor r out (Nat.le_of_lt h1)).1] at this
    exact Nat.lt_irrefl _ this
  unfold SCReadArgumentListLoopLookups
  simp only []
  rw [if_pos h1, if_neg h2, if_neg hnone, h3]

theorem getD_mem_of_lt (l : List Slice) (i : Nat) (h : i < l.length) :
    l.getD i NullSlice ∈ l := by
  rw [List.getD_eq_getElem _ _ h]
  exact List.getElem_mem h

/-- What the loop over the arguments of `link` and `image` writes for one argument. -/
theorem HTMLWriteArguments_one (sc : List Char) (obj : SCObject) (attr : String) (i : Nat)
    (found : Bool) (arena : Arena) :
    (HTMLWriteArguments sc obj attr [i] (found, arena)).2.text =
      arena.text ++ AttributeText
        (if SliceEqCStr sc (obj.keys.getD i NullSlice) "url" then attr.toList
          else SliceText sc (obj.keys.getD i NullSlice))
        (SliceText sc (obj.values.getD i NullSlice)) := by
  unfold HTMLWriteArguments
  simp only []
  split_ifs
  · unfold HTMLWriteArguments
    exact HTMLWriteAttribute_eq _ _ _
  · unfold HTMLWriteArguments
    exact HTMLWriteAttribute_eq _ _ _

theorem SwitchExtensionStem_of_dot (stem rest : List Char) (h : '.' ∉ stem) :
    SwitchExtensionStem (stem ++ '.' :: rest) = stem := by
  induction stem with
  | nil => simp [SwitchExtensionStem]
  | cons c s ih =>
    have hc : c ≠ '.' := fun e => h (by rw [e]; exact List.mem_cons_self _ _)
    have hs : '.' ∉ s := fun hm => h (List.mem_cons_of_mem _ hm)
    rw [List.cons_append]
    unfold SwitchExtensionStem
    rw [if_pos hc, ih hs]

theorem SwitchExtensionStem_no_dot (name : List Char) (h : '.' ∉ name) :
    SwitchExtensionStem name = name := by
  induction name with
  | nil => rfl
  | cons c s ih =>
    have hc : c ≠ '.' := fun e => h (by rw [e]; exact List.mem_cons_self _ _)
    have hs : '.' ∉ s := fun hm => h (List.mem_cons_of_mem _ hm)
    unfold SwitchExtensionStem
    rw [if_pos hc, ih hs]

end SiteC

/-! ## Positions on large inputs -/

namespace SiteC

/-- Consuming `k` characters that the buffer still holds moves the cursor by `k`. -/
theorem SCConsume_current (k : Nat) :
    ∀ r : SCReader, r.current + k ≤ r.text.length →
      (SCConsume r k).current = r.current + k ∧ (SCConsume r k).text = r.text := by
  induction k with
  | zero =>
    intro r _
    exact ⟨rfl, rfl⟩
  | succ k ih =>
    intro r h
    rw [SCConsume_succ]
    have h1 := SCConsume_one_current r (by omega)
    have ht := SCConsume_one_text r
    obtain ⟨i1, i2⟩ := ih (SCConsume r 1) (by rw [h1, ht]; omega)
    exact ⟨by rw [i1, h1]; omega, by rw [i2, ht]⟩

/-- Every point between two reader steps keeps the buffer, and its line and column are
those of the prefix consumed, as a 32-bit `int` holds them. -/
theorem SCReadPoint_tracked (text : List Char) (path file : String) (n k : Nat) :
    PositionTracked (SCReadPoint text path file n k) ∧
      CursorFrom text 0 (SCReadPoint text path file n k) :=
  ⟨SCConsume_preserves PositionTracked PositionTracked_consume k _
      (SCReadIter_tracked text path file n),
    SCConsume_preserves (CursorFrom text 0) (CursorFrom_consume text 0) k _
      (SCReadIter_cursor_text text path file n)⟩

/-- The reader that has consumed an input made of `m` newlines shows the line that a
32-bit `int` holds for `1 + m`. -/
theorem SCReadPoint_newlines (m : Nat) (path file : String) :
    (SCReadPoint (List.replicate m '\n') path file 0 m).current = m ∧
      LineOf ((List.replicate m '\n').take
        (SCReadPoint (List.replicate m '\n') path file 0 m).current) = 1 + m ∧
      (SCReadPoint (List.replicate m '\n') path file 0 m).line_no
        = Int32Wrap ((1 + m : Nat) : Int) := by
  have hc := SCConsume_current m (MakeSCReader (List.replicate m '\n') path file)
    (by show 0 + m ≤ (List.replicate m '\n').length; rw [List.length_replicate]; omega)
  have hcur : (SCReadPoint (List.replicate m '\n') path file 0 m).current = m := by
    show (SCConsume (MakeSCReader (List.replicate m '\n') path file) m).current = m
    rw [hc.1]
    show 0 + m = m
    omega
  have hline : LineOf ((List.replicate m '\n').take m) = 1 + m := by
    rw [List.take_of_length_le (by rw [List.length_replicate])]
    unfold LineOf
    rw [List.count_replicate_self]
  obtain ⟨⟨hl, -⟩, ht, -, -⟩ := SCReadPoint_tracked (List.replicate m '\n') path file 0 m
  rw [ht, hcur, hline] at hl
  rw [hcur]
  exact ⟨rfl, hline, hl⟩

/-- The text object read from an input made of `m` newlines ends on the line that a 32-bit
`int` holds for `1 + m`. -/
theorem SCRead_newlines (m : Nat) (hm : 0 < m) (path file : String) :
    (SCRead (MakeSCReader (List.replicate m '\n') path file)).2.type = SCObjectType.Text ∧
      (SCRead (MakeSCReader (List.replicate m '\n') path file)).2.end_line_no
        = Int32Wrap ((1 + m : Nat) : Int) := by
  have hne : List.replicate m '\n' ≠ [] := by
    intro e
    have := congrArg List.length e
    rw [List.length_replicate] at this
    simp at this
    omega
  have hbs : '\\' ∉ List.replicate m '\n' := by
    intro hmem
    have := List.eq_of_mem_replicate hmem
    revert this
    decide
  have h0 : SCRest (MakeSCReader (List.replicate m '\n') path file)
      = List.replicate m '\n' ++ [] := by
    rw [List.append_nil]
    rfl
  have hs := SCRead_text (MakeSCReader (List.replicate m '\n') path file)
    (List.replicate m '\n') [] rfl h0 hne hbs (Or.inl rfl)
  have hty : (SCRead (MakeSCReader (List.replicate m '\n') path file)).2.type
      = SCObjectType.Text := by rw [hs]
  have hcur : (SCRead (MakeSCReader (List.replicate m '\n') path file)).1.current = m := by
    rw [hs]
    show (SCAdvance (MakeSCReader (List.replicate m '\n') path file)
      (List.replicate m '\n')).current = m
    rw [SCAdvance_current, List.length_replicate]
    show 0 + m = m
    omega
  have hend := SCRead_end_position (MakeSCReader (List.replicate m '\n') path file)
    (by rw [hty]; decide)
  have htr := SCReadIter_tracked (List.replicate m '\n') path file 1
  have hct := SCReadIter_cursor_text (List.replicate m '\n') path file 1
  have e1 : SCReadIter 1 (MakeSCReader (List.replicate m '\n') path file)
      = (SCRead (MakeSCReader (List.replicate m '\n') path file)).1 := rfl
  rw [e1] at htr hct
  obtain ⟨hl, -⟩ := htr
  rw [hct.1, hcur, List.take_of_length_le (by rw [List.length_replicate])] at hl
  refine ⟨hty, ?_⟩
  rw [hend.1, hl]
  unfold LineOf
  rw [List.count_replicate_self]

end SiteC

/-! ## The claims -/

set_option maxRecDepth 100000

namespace SiteC

/-- C1 (sticky terminal state).  Let `r` be any reader state, and suppose that `SCRead`
returns an object of type `Error` or `End` on it.  Then every later call, that is the call
made after any number `n` of further calls, returns an object of the same type, for `Error`
with the same error message and the same end position, and leaves the cursor, the line and
the column of the reader as the first call left them. -/
theorem C1_sticky_terminal_state (r : SCReader) (n : Nat)
    (h : (SCRead r).2.type = SCObjectType.Error ∨ (SCRead r).2.type = SCObjectType.End) :
    (SCRead (SCReadIter n (SCRead r).1)).2.type = (SCRead r).2.type ∧
      ((SCRead r).2.type = SCObjectType.Error →
        (SCRead (SCReadIter n (SCRead r).1)).2.error_text = (SCRead r).2.error_text ∧
        (SCRead (SCReadIter n (SCRead r).1)).2.end_line_no = (SCRead r).2.end_line_no ∧
        (SCRead (SCReadIter n (SCRead r).1)).2.end_column_no = (SCRead r).2.end_column_no) ∧
      (SCRead (SCReadIter n (SCRead r).1)).1.current = (SCRead r).1.current ∧
      (SCRead (SCReadIter n (SCRead r).1)).1.line_no = (SCRead r).1.line_no ∧
      (SCRead (SCReadIter n (SCRead r).1)).1.column_no = (SCRead r).1.column_no := by
  rcases SCRead_kept r with g | g
  · obtain ⟨gt, gne, gtext, gl, gc⟩ := g
    obtain ⟨m, hm⟩ := Option.ne_none_iff_exists'.mp gne
    have hfix := SCRead_of_error (SCRead r).1 m hm
    rw [SCReadIter_of_fixed _ hfix.1 n]
    refine ⟨by rw [hfix.2.1, gt], fun _ => ⟨?_, ?_, ?_⟩, by rw [hfix.1], by rw [hfix.1],
      by rw [hfix.1]⟩
    · rw [hfix.2.2.1, gtext, hm]
    · rw [hfix.2.2.2.1, gl]
    · rw [hfix.2.2.2.2, gc]
  · obtain ⟨gne, ge, gend⟩ := g
    rcases h with h | h
    · exact absurd h gne
    · obtain ⟨hr, hcur⟩ := gend h
      have he : r.error = none := by rw [← hr]; exact ge
      have hfix := SCRead_of_end r he hcur
      rw [hr, SCReadIter_of_fixed r hr n, hr]
      exact ⟨rfl, fun _ => ⟨rfl, rfl, rfl⟩, rfl, rfl, rfl⟩

/-- Witness of C1 on the input `\bold{unterminated`, three calls after the error. -/
theorem C1_sticky_terminal_state_witness :
    (SCRead (MakeSCReader "\\bold\x7bunterminated".toList "path" "file")).2.type
        = SCObjectType.Error ∧
      (SCRead (SCReadIter 3
        (SCRead (MakeSCReader "\\bold\x7bunterminated".toList "path" "file")).1)).2.error_text
        = some "Closing brace of block is missing" :=
  ⟨by decide,
    ((C1_sticky_terminal_state (MakeSCReader "\\bold\x7bunterminated".toList "path" "file") 3
      (Or.inl (by decide))).2.1 (by decide)).1.trans (by decide)⟩

/-- C2 (block balance).  For every non-empty command name `n` of name characters, every
body `b` with balanced braces and every remaining text `rest`, `SCRead` on the input
`\n{b}rest` returns a function object with name `n`, `has_block` set and block span exactly
`b`, and leaves the cursor at the start of `rest`. -/
theorem C2_block_balance (n b rest : List Char) (path file : String) (hn : n ≠ [])
    (hname : ∀ c ∈ n, IsNameOrKeyChar c = true) (hb : BracesBalanced b) :
    (SCRead (MakeSCReader (BlockCall n b rest) path file)).2.type = SCObjectType.Func ∧
      SliceText (BlockCall n b rest)
        (SCRead (MakeSCReader (BlockCall n b rest) path file)).2.function_name = n ∧
      (SCRead (MakeSCReader (BlockCall n b rest) path file)).2.has_block = true ∧
      SliceText (BlockCall n b rest)
        (SCRead (MakeSCReader (BlockCall n b rest) path file)).2.block = b ∧
      (SCRead (MakeSCReader (BlockCall n b rest) path file)).1.current
        = (BlockCall n b rest).length - rest.length ∧
      SCRest (SCRead (MakeSCReader (BlockCall n b rest) path file)).1 = rest := by
  have h : SCRest (MakeSCReader (BlockCall n b rest) path file)
      = '\\' :: n ++ '{' :: b ++ '}' :: rest := rfl
  rw [SCRead_block_call _ n b rest rfl h hn hname hb]
  refine ⟨rfl, ?_, rfl, ?_, ?_, ?_⟩
  · simp [SliceText, BlockCall, MakeSCReader]
  · simp only [SliceText, BlockCall, MakeSCReader]
    have e : '\\' :: n ++ '{' :: b ++ '}' :: rest = ('\\' :: n ++ ['{']) ++ (b ++ '}' :: rest) := by
      simp
    rw [e, show 0 + n.length + 2 = ('\\' :: n ++ ['{']).length by simp,
      List.drop_left]
    simp
  · simp [SCAdvance_current, BlockCall, MakeSCReader]
    omega
  · apply SCRest_advance
    rw [h]
    simp

/-- Witness of C2: the call `\code{if (x) {y}}` followed by ` z`. -/
theorem C2_block_balance_witness :
    BracesBalanced "if (x) \x7by\x7d".toList ∧
      SliceText (BlockCall "code".toList "if (x) \x7by\x7d".toList " z".toList)
        (SCRead (MakeSCReader (BlockCall "code".toList "if (x) \x7by\x7d".toList " z".toList)
          "path" "file")).2.block = "if (x) \x7by\x7d".toList :=
  have hb : BracesBalanced "if (x) \x7by\x7d".toList :=
    BracesBalanced_of_inits _ (by decide)
  ⟨hb, (C2_block_balance "code".toList "if (x) \x7by\x7d".toList " z".toList "path" "file"
    (by decide) (by decide) hb).2.2.2.1⟩

/-- C3 (stack well-formedness).  For every input on which `SCToHTML` succeeds, the run
ends with a tag stack whose arena text is the output and whose sequence of tags written by
`HTMLPushTag` and `HTMLPopTag` is properly nested: replayed against a stack, every closing
tag names the element of the most recent unclosed opening tag, and the stack is empty after
the last write. -/
theorem C3_stack_wellformedness (sc : List Char) (path file : String) (out : List Char)
    (h : SCToHTML sc path file = some (true, out)) :
    ∃ tags, SCToHTMLRun sc path file = some (SCToHTMLStep.next tags) ∧
      tags.arena.text = out ∧ ProperlyNested tags.tag_writes := by
  unfold SCToHTML at h
  obtain ⟨step, hstep, he⟩ := Option.map_eq_some'.mp h
  cases step with
  | ret0 m => simp at he
  | next tags =>
    simp only [Prod.mk.injEq, true_and] at he
    refine ⟨tags, hstep, he, ?_⟩
    unfold SCToHTMLRun at hstep
    simp only [] at hstep
    obtain ⟨t0, h0, hloop⟩ := Option.bind_eq_some.mp hstep
    exact SCToHTMLLoop_nested sc _ _ t0 tags
      (TagStackInv_push _ _ _ (by decide) (TagStackInv_init _) h0) hloop

/-- Witness of C3: a document with a section, a list and two items. -/
theorem C3_stack_wellformedness_witness :
    SCToHTML "\\section\x7bS\x7d\\horizontal_list\\item a\\item b".toList "path" "file"
        = some (true, ("<article>\n<section>\n<h1>S</h1>\n<ul class=\"horizlist\">\n" ++
          "<li>\n a</li>\n<li>\n b</li>\n</ul>\n</section>\n</article>\n").toList) ∧
      ∃ tags, SCToHTMLRun "\\section\x7bS\x7d\\horizontal_list\\item a\\item b".toList
          "path" "file" = some (SCToHTMLStep.next tags) ∧
        tags.arena.text = ("<article>\n<section>\n<h1>S</h1>\n<ul class=\"horizlist\">\n" ++
          "<li>\n a</li>\n<li>\n b</li>\n</ul>\n</section>\n</article>\n").toList ∧
        ProperlyNested tags.tag_writes :=
  ⟨by decide,
    C3_stack_wellformedness "\\section\x7bS\x7d\\horizontal_list\\item a\\item b".toList
      "path" "file" _ (by decide)⟩

/-- C4 (scenario 1, inline command inside an implicit paragraph).  For every text `a` that
is not all whitespace, every brace-balanced block `b` and every text `c`, `a` and `c`
holding no backslash, rendering `a`, `\bold{b}`, `c` with `SCToHTML` succeeds and yields
`<article>\n<p>\n`, the escaped `a`, `<b>\n`, the escaped `b`, `</b>\n`, the escaped `c`,
`</p>\n</article>\n`. -/
theorem C4_bold_in_paragraph (a b c : List Char) (path file : String)
    (ha : IsAllWhitespace a = false) (hab : '\\' ∉ a) (hb : BracesBalanced b)
    (hc : '\\' ∉ c) :
    SCToHTML (a ++ BlockCall "bold".toList b c) path file
      = some (true, BoldInParagraphOutput a b c) := by
  have hane : a ≠ [] := by
    rintro rfl
    simp [IsAllWhitespace] at ha
  obtain ⟨k, hk⟩ : ∃ k, (a ++ BlockCall "bold".toList b c).length + 1 = k + 1 + 1 + 1 + 1 :=
    ⟨a.length + b.length + c.length + 4, by simp [BlockCall]; omega⟩
  have hpush : HTMLPushTag (InitHTMLTagStack ⟨[]⟩) HTMLTagType.Article
      = some ArticleTagStack := rfl
  have h0 : SCRest (MakeSCReader (a ++ BlockCall "bold".toList b c) path file)
      = a ++ BlockCall "bold".toList b c := rfl
  have h1 := SCRest_advance _ a _ h0
  have h2 := SCRest_advance _ ('\\' :: "bold".toList ++ '{' :: b ++ ['}']) c
    (show SCRest (SCAdvance (MakeSCReader (a ++ BlockCall "bold".toList b c) path file) a)
      = ('\\' :: "bold".toList ++ '{' :: b ++ ['}']) ++ c by rw [h1]; simp [BlockCall])
  have hcur : (SCAdvance (SCAdvance (SCAdvance
      (MakeSCReader (a ++ BlockCall "bold".toList b c) path file) a)
      ('\\' :: "bold".toList ++ '{' :: b ++ ['}'])) c).current
      = (SCAdvance (SCAdvance (SCAdvance
      (MakeSCReader (a ++ BlockCall "bold".toList b c) path file) a)
      ('\\' :: "bold".toList ++ '{' :: b ++ ['}'])) c).text.length := by
    simp only [SCAdvance_current, SCAdvance_text, MakeSCReader, BlockCall]
    simp
    omega
  unfold SCToHTML SCToHTMLRun
  simp only [hpush, Option.some_bind, hk]
  rw [SCToHTMLLoop_text (a ++ BlockCall "bold".toList b c) (k + 1 + 1 + 1)
    (MakeSCReader (a ++ BlockCall "bold".toList b c) path file) ArticleTagStack a
    (BlockCall "bold".toList b c) rfl rfl h0 hane hab (Or.inr rfl)]
  have hp1 : HTMLPushTag ArticleTagStack HTMLTagType.Paragraph = some
      { stack := [HTMLTagType.Paragraph, HTMLTagType.Article, HTMLTagType.TOS],
        section_depth := 1, arena := ⟨"<article>\n<p>\n".toList⟩,
        tag_writes := [TagWrite.opening HTMLTagType.Article,
          TagWrite.opening HTMLTagType.Paragraph] } := rfl
  rw [if_pos ⟨Or.inl rfl, ha⟩, hp1, Option.some_bind,
    SCToHTMLLoop_bold (a ++ BlockCall "bold".toList b c) (k + 1 + 1) _ _ b c
      (by rw [SCAdvance_error]; rfl) (by rw [SCAdvance_text]; rfl) h1 hb]
  by_cases hcn : c = []
  · subst hcn
    rw [SCToHTMLLoop_end (a ++ BlockCall "bold".toList b []) (k + 1)
      (SCAdvance (SCAdvance (MakeSCReader (a ++ BlockCall "bold".toList b []) path file) a)
        ('\\' :: "bold".toList ++ '{' :: b ++ ['}'])) _
      (by rw [SCAdvance_error, SCAdvance_error]; rfl) hcur]
    simp [HTMLPopAll, HTMLTop, HTMLPopTag, ArenaPushCStr, g_html_tag_type_close_text,
      BoldInParagraphOutput, EscapeText]
  · rw [SCToHTMLLoop_text (a ++ BlockCall "bold".toList b c) (k + 1) _ _ c []
      (by rw [SCAdvance_error, SCAdvance_error]; rfl)
      (by rw [SCAdvance_text, SCAdvance_text]; rfl) (by rw [h2]; simp) hcn hc (Or.inl rfl),
      if_neg (by simp [HTMLTop]), Option.some_bind,
      SCToHTMLLoop_end (a ++ BlockCall "bold".toList b c) k _ _
        (by rw [SCAdvance_error, SCAdvance_error, SCAdvance_error]; rfl) hcur]
    simp [HTMLPopAll, HTMLTop, HTMLPopTag, ArenaPushCStr, g_html_tag_type_close_text,
      BoldInParagraphOutput]

/-- Witness of C4: the input `A \bold{B} C` of scenario 1 gives exactly
`<article>\n<p>\nA <b>\nB</b>\n C</p>\n</article>\n`. -/
theorem C4_bold_in_paragraph_witness :
    "A ".toList ++ BlockCall "bold".toList "B".toList " C".toList
        = "A \\bold\x7bB\x7d C".toList ∧
      SCToHTML ("A ".toList ++ BlockCall "bold".toList "B".toList " C".toList) "path" "file"
        = some (true, "<article>\n<p>\nA <b>\nB</b>\n C</p>\n</article>\n".toList) :=
  ⟨by decide,
    (C4_bold_in_paragraph "A ".toList "B".toList " C".toList "path" "file" (by decide)
      (by decide) (BracesBalanced_of_inits _ (by decide)) (by decide)).trans (by decide)⟩

/-- C5, counterexample.  On the input of scenario 5 `SCToHTML` succeeds, but its output
does not begin with the text of the claim: the heading is written as `<h1>Title</h1>`, with
no newline after `<h1>`, and the newline that follows the block belongs to the paragraph. -/
theorem C5_section_then_paragraph_counterexample :
    ∃ out, SCToHTML Scenario5Input "path" "file" = some (true, out) ∧
      ¬ ("<article>\n<section>\n<h1>\nTitle</h1>\n<p>\nBody</p>\n</section>\n</article>\n".toList
          <+: out) :=
  ⟨"<article>\n<section>\n<h1>Title</h1>\n<p>\n\nBody</p>\n</section>\n</article>\n".toList,
    by decide, by decide⟩

/-- C5, amended (scenario 5, section then implicit paragraph).  Rendering `\section{Title}`
followed by a newline and `Body` succeeds, and the output is exactly
`<article>\n<section>\n<h1>Title</h1>\n<p>\n\nBody</p>\n</section>\n</article>\n`. -/
theorem C5_section_then_paragraph :
    SCToHTML Scenario5Input "path" "file" = some (true,
      "<article>\n<section>\n<h1>Title</h1>\n<p>\n\nBody</p>\n</section>\n</article>\n".toList) := by
  decide

/-- C6, counterexample.  On the input made of `2^31 - 1` newlines, once the reader has
consumed them all, the prefix consumed has `2^31 - 1` newlines, so that the line should be
`2^31`; the `int` counter `line_no` has wrapped and holds `-2^31`. -/
theorem C6_position_tracking_counterexample :
    (SCReadPoint (List.replicate 2147483647 '\n') "path" "file" 0 2147483647).line_no
        = -2147483648 ∧
      LineOf ((List.replicate 2147483647 '\n').take
        (SCReadPoint (List.replicate 2147483647 '\n') "path" "file" 0 2147483647).current)
        = 2147483648 := by
  obtain ⟨-, h2, h3⟩ := SCReadPoint_newlines 2147483647 "path" "file"
  exact ⟨h3.trans (by decide), h2⟩

/-- C6, amended (position tracking).  At every point between reader steps, that is after any
number `n` of calls of `SCRead` on any input followed by the consumption of any number `k`
of characters, the line and the column of the reader are what a 32-bit `int` holds for one
more than the number of newlines in the prefix consumed so far, and for one more than the
number of characters after the last newline of that prefix (all of them when there is
none).  On an input of fewer than `2^31 - 1` characters they are these numbers themselves;
consuming one more character then adds one to the line exactly when it is a newline, in
which case the column becomes 1, and each other consumed character adds one to the
column. -/
theorem C6_position_tracking (text : List Char) (path file : String) (n k : Nat) :
    PositionTracked (SCReadPoint text path file n k) ∧
    (text.length < 2147483647 →
      (SCReadPoint text path file n k).line_no
          = LineOf (text.take (SCReadPoint text path file n k).current) ∧
        (SCReadPoint text path file n k).column_no
          = ColumnOf (text.take (SCReadPoint text path file n k).current) ∧
        (SCConsume (SCReadPoint text path file n k) 1).line_no =
          (SCReadPoint text path file n k).line_no +
            (if SCCurrentChar (SCReadPoint text path file n k) = some '\n' then 1 else 0) ∧
        (SCConsume (SCReadPoint text path file n k) 1).column_no =
          (if SCCurrentChar (SCReadPoint text path file n k) = some '\n' then 1
            else if (SCReadPoint text path file n k).current <
                (SCReadPoint text path file n k).text.length then
              (SCReadPoint text path file n k).column_no + 1
            else (SCReadPoint text path file n k).column_no)) := by
  obtain ⟨htr, ht, -, -⟩ := SCReadPoint_tracked text path file n k
  refine ⟨htr, fun hlen => ?_⟩
  generalize SCReadPoint text path file n k = r at htr ht ⊢
  subst ht
  obtain ⟨hl, hc⟩ := PositionTracked_exact r htr hlen
  have b1 := LineOf_le (r.text.take r.current)
  have b2 := ColumnOf_le (r.text.take r.current)
  have b3 : (r.text.take r.current).length ≤ r.current := by
    rw [List.length_take]
    omega
  refine ⟨hl, hc, ?_, ?_⟩
  · rw [SCConsume_one]
    unfold SCCurrentChar
    by_cases h1 : r.current < r.text.length
    · rw [if_pos h1]
      by_cases h2 : r.text[r.current]? = some '\n'
      · rw [if_pos h2, if_pos h2]
        show Int32Wrap (r.line_no + 1) = r.line_no + 1
        exact Int32Wrap_of_range _ (by omega) (by omega)
      · rw [if_neg h2, if_neg h2]
        show r.line_no = r.line_no + 0
        omega
    · rw [if_neg h1, List.getElem?_eq_none (by omega)]
      simp
  · rw [SCConsume_one]
    unfold SCCurrentChar
    by_cases h1 : r.current < r.text.length
    · rw [if_pos h1]
      by_cases h2 : r.text[r.current]? = some '\n'
      · rw [if_pos h2, if_pos h2]
      · rw [if_neg h2, if_neg h2, if_pos h1]
        show Int32Wrap (r.column_no + 1) = r.column_no + 1
        exact Int32Wrap_of_range _ (by omega) (by omega)
    · rw [if_neg h1, List.getElem?_eq_none (by omega)]
      simp [h1]

/-- C7 (unterminated block).  For every function call whose opening brace is never matched,
that is a non-empty name `n`, an optional list of at most `SC_MAX_ARGS` well-formed
arguments, a brace and a text `b` running to the end of the input in which the brace depth,
starting at 1, never returns to zero, `SCRead` returns an object of type `Error` (so not a
function object) whose message is "Closing brace of block is missing".  The same holds of
`SCReadBlock` from any reader placed on such a brace, with any object. -/
theorem C7_unterminated_block (n : List Char) (args : List ArgText) (b : List Char)
    (path file : String) (hn : n ≠ []) (hname : ∀ c ∈ n, IsNameOrKeyChar c = true)
    (hw : ∀ x ∈ args, x.WellFormed) (h32 : args.length ≤ SC_MAX_ARGS)
    (hb : BraceNeverClosed b) :
    ((SCRead (MakeSCReader (OpenBlockCall n args b) path file)).2.type
        = SCObjectType.Error ∧
      (SCRead (MakeSCReader (OpenBlockCall n args b) path file)).2.error_text
        = some "Closing brace of block is missing") ∧
    ∀ (r : SCReader) (out : SCObject), SCRest r = '{' :: b →
      (SCReadBlock r out).2.type = SCObjectType.Error ∧
        (SCReadBlock r out).2.error_text = some "Closing brace of block is missing" := by
  constructor
  · obtain ⟨c, n', rfl⟩ := List.exists_cons_of_ne_nil hn
    have hc : c ≠ '\\' := IsNameOrKeyChar_ne_backslash c (hname c (List.mem_cons_self _ _))
    cases args with
    | nil =>
      have h : SCRest (MakeSCReader (OpenBlockCall (c :: n') [] b) path file)
          = '\\' :: (c :: n') ++ '{' :: b := by
        simp [SCRest, MakeSCReader, OpenBlockCall, OptArgList]
      have h1 := SCRest_advance _ ('\\' :: c :: n') ('{' :: b) h
      rw [SCRead_function _ c (n' ++ '{' :: b) rfl h hc,
        SCReadFunction_name _ _ (c :: n') ('{' :: b) h (List.cons_ne_nil _ _) hname
          (by simp; decide),
        SCReadFunctionTail_unterminated _ _ b h1 hb (by simp)]
      exact ⟨SCError_type _ _ _, (SCError_frozen _ _ _).2.2.1⟩
    | cons a as =>
      have h : SCRest (MakeSCReader (OpenBlockCall (c :: n') (a :: as) b) path file)
          = '\\' :: (c :: n') ++ ('(' :: ArgListText (a :: as) ++ ')' :: ('{' :: b)) := by
        simp [SCRest, MakeSCReader, OpenBlockCall, OptArgList]
      have hr1 := SCRest_advance _ ('\\' :: c :: n') _ h
      obtain ⟨ks, vs, hl, -, -⟩ := SCReadArgumentList_args
        (SCAdvance (MakeSCReader (OpenBlockCall (c :: n') (a :: as) b) path file)
          ('\\' :: c :: n'))
        { SCReadStart (MakeSCReader (OpenBlockCall (c :: n') (a :: as) b) path file) with
          type := SCObjectType.Func,
          full_text := { (SCReadStart (MakeSCReader (OpenBlockCall (c :: n') (a :: as) b)
            path file)).full_text with
            begin := some (MakeSCReader (OpenBlockCall (c :: n') (a :: as) b)
              path file).current },
          function_name := ⟨some ((MakeSCReader (OpenBlockCall (c :: n') (a :: as) b)
            path file).current + 1), some ((MakeSCReader (OpenBlockCall (c :: n') (a :: as) b)
            path file).current + 1 + (c :: n').length)⟩ }
        a as ('{' :: b) hr1 hw (by simpa [SCReadStart, SCObjectZero] using h32) (by simp)
      have hrA := SCRest_advance _ ('(' :: ArgListText (a :: as) ++ [')']) ('{' :: b)
        (show SCRest (SCAdvance (MakeSCReader (OpenBlockCall (c :: n') (a :: as) b)
          path file) ('\\' :: c :: n')) = ('(' :: ArgListText (a :: as) ++ [')']) ++ '{' :: b by
          rw [hr1]; simp)
      rw [SCRead_function _ c _ rfl h hc,
        SCReadFunction_name _ _ (c :: n') _ h (List.cons_ne_nil _ _) hname (by simp; decide),
        SCReadFunctionTail_args_then _ _ _ _ (by rw [hr1]; rfl) hl (by simp)
          (by rw [hrA]; simp),
        SCReadFunctionTail_unterminated _ _ b hrA hb (by simp)]
      exact ⟨SCError_type _ _ _, (SCError_frozen _ _ _).2.2.1⟩
  · intro r out h
    rw [SCReadBlock_unterminated r out b h hb]
    exact ⟨SCError_type _ _ _, (SCError_frozen _ _ _).2.2.1⟩

/-- Witness of C7: the input `\bold{unterminated` of scenario 4. -/
theorem C7_unterminated_block_witness :
    OpenBlockCall "bold".toList [] "unterminated".toList = "\\bold\x7bunterminated".toList ∧
      (SCRead (MakeSCReader (OpenBlockCall "bold".toList [] "unterminated".toList)
        "path" "file")).2.error_text = some "Closing brace of block is missing" :=
  ⟨by decide,
    (C7_unterminated_block "bold".toList [] "unterminated".toList "path" "file" (by decide)
      (by decide) (by decide) (by decide) (BraceNeverClosed_of_inits _ (by decide))).1.2⟩

/-- C8 (required url argument).  For every tag stack and every function object that has
no argument whose key is exactly `url`: if the command is `link` and the object has a block,
handling it returns 0 with a diagnostic that contains "Missing required url parameter in
link", and so does the loop of `SCToHTML` whenever it reads that object; if the command is
`image` and the stack holds an article or a section, which is what keeps the assertion of
`HTMLPopTag` under `HTMLRiseToLowestSection` from failing, the same holds with "Missing
required url parameter in image". -/
theorem C8_required_url (sc : List Char) (tags : HTMLTagStack) (obj : SCObject)
    (hty : obj.type = SCObjectType.Func) (hno : NoUrlArgument sc obj) :
    (SliceText sc obj.function_name = "link".toList → obj.has_block = true →
        FailsWith (SCToHTMLObject sc tags obj) "Missing required url parameter in link" ∧
        ∀ (fuel : Nat) (r : SCReader), (SCRead r).2 = obj →
          FailsWith (SCToHTMLLoop sc (fuel + 1) r tags)
            "Missing required url parameter in link") ∧
      (SliceText sc obj.function_name = "image".toList →
        (HTMLTagType.Article ∈ tags.stack ∨ HTMLTagType.Section ∈ tags.stack) →
        FailsWith (SCToHTMLObject sc tags obj) "Missing required url parameter in image" ∧
        ∀ (fuel : Nat) (r : SCReader), (SCRead r).2 = obj →
          FailsWith (SCToHTMLLoop sc (fuel + 1) r tags)
            "Missing required url parameter in image") := by
  have hobj : SCToHTMLObject sc tags obj = SCToHTMLFunc sc tags obj := by
    unfold SCToHTMLObject
    rw [hty]
  have hargs : ∀ attr a, (HTMLWriteArguments sc obj attr (List.range obj.args_count)
      (false, a)).1 = false := fun attr a =>
    HTMLWriteArguments_no_url sc obj attr _ a (fun i hi => hno i (List.mem_range.mp hi))
  have hloop : ∀ m, FailsWith (SCToHTMLObject sc tags obj) m →
      ∀ (fuel : Nat) (r : SCReader), (SCRead r).2 = obj →
        FailsWith (SCToHTMLLoop sc (fuel + 1) r tags) m := fun m hf fuel r hr =>
    FailsWith_loop sc fuel r tags m (by rw [hr]; exact hf)
  constructor
  · intro hname hblock
    have hf : FailsWith (SCToHTMLObject sc tags obj)
        "Missing required url parameter in link" := by
      rw [hobj, SCToHTMLFunc_link sc tags obj hname, hblock, hargs]
      exact FailsWith_error obj _
    exact ⟨hf, hloop _ hf⟩
  · intro hname hstack
    obtain ⟨tags1, h1⟩ := HTMLRiseToLowestSection_some tags hstack
    have hf : FailsWith (SCToHTMLObject sc tags obj)
        "Missing required url parameter in image" := by
      rw [hobj, SCToHTMLFunc_image sc tags obj hname, h1, Option.some_bind, hargs]
      exact FailsWith_error obj _
    exact ⟨hf, hloop _ hf⟩

/-- Witness of C8: the document `\link(href="x"){click here}`, whose only argument is not
`url`, the document `\link{click here}` of scenario 2, and the document
`\image(width=640)`. -/
theorem C8_required_url_witness :
    FailsWith (SCToHTMLObject "\\link(href=\"x\")\x7bclick here\x7d".toList ArticleTagStack
        (SCRead (MakeSCReader "\\link(href=\"x\")\x7bclick here\x7d".toList
          "path" "file")).2)
        "Missing required url parameter in link" ∧
      (SCToHTML "\\link\x7bclick here\x7d".toList "path" "file").map Prod.fst = some false ∧
      (∀ out, SCToHTML "\\link\x7bclick here\x7d".toList "path" "file" = some (false, out) →
        "Missing required url parameter in link".toList <:+: out) ∧
      SCToHTML "\\image(width=640)".toList "path" "file" = some (false,
        ("Error while reading SC file: file\nPath was: path\n" ++
          "Error: Missing required url parameter in image\n" ++
          "Starting location: line 1, col 1\nEnding location:   line 1, col 18\n").toList) :=
  ⟨((C8_required_url "\\link(href=\"x\")\x7bclick here\x7d".toList ArticleTagStack
      (SCRead (MakeSCReader "\\link(href=\"x\")\x7bclick here\x7d".toList "path" "file")).2
      (by decide)
      (fun i hi => by
        have h0 : i = 0 := by
          have : i < 1 := hi
          omega
        subst h0
        decide)).1 (by decide) (by decide)).1,
    by decide,
    fun out h => by
      have e : SCToHTML "\\link\x7bclick here\x7d".toList "path" "file" = some (false,
          ("Error while reading SC file: file\nPath was: path\n" ++
          "Error: Missing required url parameter in link\n" ++
          "Starting location: line 1, col 1\nEnding location:   line 1, col 18\n").toList) := by
        decide
      rw [e] at h
      cases h
      decide,
    by decide⟩

/-- C9 (sub-block outside its container).  Let a function object whose command is `item` be
handled on a tag stack.  When the top of the stack is a list item, a table cell or a heading
cell, with an entry `y` below it, that top entry is removed and its closing tag is written;
otherwise nothing is removed, and `y` is the top itself.  Then, when `y` is one of the three
kinds of list, a list item is put on top of `y` and `<li>` is written; when `y` is a table
row, a table cell is put on top and `<td>` is written; in both cases `section_depth` is
unchanged, the pop and the push are recorded, and the room for one more entry is the one
that `HTMLPushTag` asserts; and when `y` is anything else the function returns 0 with the
diagnostic "You can only open an \item in a table row or list".  On an empty stack the
diagnostic is returned too, and on a stack that holds a list item or a cell alone the
assertion of `HTMLPopTag` fails. -/
theorem C9_item_command (sc : List Char) (tags : HTMLTagStack) (obj : SCObject)
    (hty : obj.type = SCObjectType.Func)
    (hname : SliceText sc obj.function_name = "item".toList) :
    (∀ (x y : HTMLTagType) (rest : List HTMLTagType), tags.stack = x :: y :: rest →
      (x = HTMLTagType.ListItem ∨ x = HTMLTagType.TableColumn ∨
        x = HTMLTagType.TableHeadingColumn) →
      ((y = HTMLTagType.OrderedList ∨ y = HTMLTagType.UnorderedList ∨
          y = HTMLTagType.HorizontalList) →
        SCToHTMLObject sc tags obj =
          if rest.length + 1 < SC_HTML_MAX_TAG_DEPTH then
            some (SCToHTMLStep.next
              ⟨HTMLTagType.ListItem :: y :: rest, tags.section_depth,
                ⟨tags.arena.text ++
                  (if x = HTMLTagType.ListItem then "</li>\n".toList
                    else if x = HTMLTagType.TableColumn then "</td>\n".toList
                    else "</th>\n".toList) ++ "<li>\n".toList⟩,
                tags.tag_writes ++
                  [TagWrite.closing x, TagWrite.opening HTMLTagType.ListItem]⟩)
          else none) ∧
      (y = HTMLTagType.TableRow →
        SCToHTMLObject sc tags obj =
          if rest.length + 1 < SC_HTML_MAX_TAG_DEPTH then
            some (SCToHTMLStep.next
              ⟨HTMLTagType.TableColumn :: y :: rest, tags.section_depth,
                ⟨tags.arena.text ++
                  (if x = HTMLTagType.ListItem then "</li>\n".toList
                    else if x = HTMLTagType.TableColumn then "</td>\n".toList
                    else "</th>\n".toList) ++ "<td>\n".toList⟩,
                tags.tag_writes ++
                  [TagWrite.closing x, TagWrite.opening HTMLTagType.TableColumn]⟩)
          else none) ∧
      ((y ≠ HTMLTagType.OrderedList ∧ y ≠ HTMLTagType.UnorderedList ∧
          y ≠ HTMLTagType.HorizontalList ∧ y ≠ HTMLTagType.TableRow) →
        FailsWith (SCToHTMLObject sc tags obj)
          "You can only open an \\item in a table row or list")) ∧
    (∀ (y : HTMLTagType) (rest : List HTMLTagType), tags.stack = y :: rest →
      (y ≠ HTMLTagType.ListItem ∧ y ≠ HTMLTagType.TableColumn ∧
        y ≠ HTMLTagType.TableHeadingColumn) →
      ((y = HTMLTagType.OrderedList ∨ y = HTMLTagType.UnorderedList ∨
          y = HTMLTagType.HorizontalList) →
        SCToHTMLObject sc tags obj =
          if rest.length + 1 < SC_HTML_MAX_TAG_DEPTH then
            some (SCToHTMLStep.next
              ⟨HTMLTagType.ListItem :: y :: rest, tags.section_depth,
                ⟨tags.arena.text ++ "<li>\n".toList⟩,
                tags.tag_writes ++ [TagWrite.opening HTMLTagType.ListItem]⟩)
          else none) ∧
      (y = HTMLTagType.TableRow →
        SCToHTMLObject sc tags obj =
          if rest.length + 1 < SC_HTML_MAX_TAG_DEPTH then
            some (SCToHTMLStep.next
              ⟨HTMLTagType.TableColumn :: y :: rest, tags.section_depth,
                ⟨tags.arena.text ++ "<td>\n".toList⟩,
                tags.tag_writes ++ [TagWrite.opening HTMLTagType.TableColumn]⟩)
          else none) ∧
      ((y ≠ HTMLTagType.OrderedList ∧ y ≠ HTMLTagType.UnorderedList ∧
          y ≠ HTMLTagType.HorizontalList ∧ y ≠ HTMLTagType.TableRow) →
        FailsWith (SCToHTMLObject sc tags obj)
          "You can only open an \\item in a table row or list")) ∧
    (tags.stack = [] →
      FailsWith (SCToHTMLObject sc tags obj)
        "You can only open an \\item in a table row or list") ∧
    (∀ x : HTMLTagType, tags.stack = [x] →
      (x = HTMLTagType.ListItem ∨ x = HTMLTagType.TableColumn ∨
        x = HTMLTagType.TableHeadingColumn) →
      SCToHTMLObject sc tags obj = none) := by
  have hobj : SCToHTMLObject sc tags obj = ItemCommandSpec tags obj := by
    unfold SCToHTMLObject
    rw [hty]
    exact SCToHTMLFunc_item sc tags obj hname
  rw [hobj]
  obtain ⟨stack, depth, arena, writes⟩ := tags
  simp only []
  refine ⟨fun x y rest hs hx => ?_, fun y rest hs hy => ?_, fun hs => ?_, fun x hs hx => ?_⟩
  · subst hs
    refine ⟨fun hl => ?_, fun hr => ?_, fun hn => ?_⟩
    · rcases hx with rfl | rfl | rfl <;> rcases hl with rfl | rfl | rfl <;>
        simp [ItemCommandSpec, HTMLTop, HTMLPopTag, HTMLPushTag, HTMLTagStack.tag_pos,
          ArenaPushCStr, g_html_tag_type_close_text, g_html_tag_type_open_text]
    · subst hr
      rcases hx with rfl | rfl | rfl <;>
        simp [ItemCommandSpec, HTMLTop, HTMLPopTag, HTMLPushTag, HTMLTagStack.tag_pos,
          ArenaPushCStr, g_html_tag_type_close_text, g_html_tag_type_open_text]
    · obtain ⟨n1, n2, n3, n4⟩ := hn
      have e : ItemCommandSpec ⟨x :: y :: rest, depth, arena, writes⟩ obj
          = some (SCToHTMLStep.ret0 (SCMakeErrorString obj
            (some "You can only open an \\item in a table row or list"))) := by
        rcases hx with rfl | rfl | rfl <;>
          simp [ItemCommandSpec, HTMLTop, HTMLPopTag, n1, n2, n3, n4]
      rw [e]
      exact FailsWith_error _ _
  · subst hs
    obtain ⟨m1, m2, m3⟩ := hy
    refine ⟨fun hl => ?_, fun hr => ?_, fun hn => ?_⟩
    · rcases hl with rfl | rfl | rfl <;>
        simp [ItemCommandSpec, HTMLTop, HTMLPushTag, HTMLTagStack.tag_pos,
          ArenaPushCStr, g_html_tag_type_open_text]
    · subst hr
      simp [ItemCommandSpec, HTMLTop, HTMLPushTag, HTMLTagStack.tag_pos,
        ArenaPushCStr, g_html_tag_type_open_text]
    · obtain ⟨n1, n2, n3, n4⟩ := hn
      have e : ItemCommandSpec ⟨y :: rest, depth, arena, writes⟩ obj
          = some (SCToHTMLStep.ret0 (SCMakeErrorString obj
            (some "You can only open an \\item in a table row or list"))) := by
        simp [ItemCommandSpec, HTMLTop, m1, m2, m3, n1, n2, n3, n4]
      rw [e]
      exact FailsWith_error _ _
  · subst hs
    have e : ItemCommandSpec ⟨[], depth, arena, writes⟩ obj
        = some (SCToHTMLStep.ret0 (SCMakeErrorString obj
          (some "You can only open an \\item in a table row or list"))) := by
      simp [ItemCommandSpec, HTMLTop]
    rw [e]
    exact FailsWith_error _ _
  · subst hs
    rcases hx with rfl | rfl | rfl <;> simp [ItemCommandSpec, HTMLTop, HTMLPopTag]

/-- Witness of C9: the document `\item one` of scenario 3 fails with the diagnostic. -/
theorem C9_item_command_witness :
    FailsWith (SCToHTMLObject "\\item one".toList ArticleTagStack
        (SCRead (MakeSCReader "\\item one".toList "path" "file")).2)
        "You can only open an \\item in a table row or list" ∧
      SCToHTML "\\item one".toList "path" "file" = some (false,
        ("Error while reading SC file: file\nPath was: path\n" ++
          "Error: You can only open an \\item in a table row or list\n" ++
          "Starting location: line 1, col 1\nEnding location:   line 1, col 6\n").toList) :=
  ⟨((C9_item_command "\\item one".toList ArticleTagStack
      (SCRead (MakeSCReader "\\item one".toList "path" "file")).2 (by decide)
      (by decide)).2.1 HTMLTagType.Article [HTMLTagType.TOS] rfl
      ⟨by decide, by decide, by decide⟩).2.2 ⟨by decide, by decide, by decide, by decide⟩,
   by decide⟩

/-- C10 (argument list parsing).  Take a command name `n`, a list `args` of between 1 and
`SC_MAX_ARGS` = 32 written arguments, each `key=value` with a non-empty key of name
characters and a value that is a double-quoted string or a non-empty run of digits, dots and
minus signs (whitespace being allowed around the key, the `=` and the value), separated by
commas and closed by a parenthesis, and any text `rest` after it.  Then the object that
`SCRead` returns has the name `n`, `args_count` equal to the number of arguments, the key
texts as keys and, as values, the raw texts between the quotes, or the whole runs, in source
order.  It is a function object whenever `rest` does not open a block or opens a balanced
one; otherwise the only other outcome is the error of the missing closing brace. -/
theorem C10_argument_list (n : List Char) (args : List ArgText) (rest : List Char)
    (path file : String) (hn : n ≠ []) (hname : ∀ c ∈ n, IsNameOrKeyChar c = true)
    (h1 : 1 ≤ args.length) (h32 : args.length ≤ SC_MAX_ARGS)
    (hw : ∀ x ∈ args, x.WellFormed) :
    SliceText (ArgCall n args rest)
        (SCRead (MakeSCReader (ArgCall n args rest) path file)).2.function_name = n ∧
      (SCRead (MakeSCReader (ArgCall n args rest) path file)).2.args_count = args.length ∧
      (SCRead (MakeSCReader (ArgCall n args rest) path file)).2.keys.map
        (SliceText (ArgCall n args rest)) = args.map (fun x => x.key) ∧
      (SCRead (MakeSCReader (ArgCall n args rest) path file)).2.values.map
        (SliceText (ArgCall n args rest)) = args.map (fun x => x.value.content) ∧
      ((SCRead (MakeSCReader (ArgCall n args rest) path file)).2.type = SCObjectType.Func ∨
        ((SCRead (MakeSCReader (ArgCall n args rest) path file)).2.type
            = SCObjectType.Error ∧
          (SCRead (MakeSCReader (ArgCall n args rest) path file)).2.error_text
            = some "Closing brace of block is missing")) ∧
      ((rest.head? ≠ some '{' ∨ ∃ b t, rest = '{' :: b ++ '}' :: t ∧ BracesBalanced b) →
        (SCRead (MakeSCReader (ArgCall n args rest) path file)).2.type
          = SCObjectType.Func) := by
  obtain ⟨a, as, rfl⟩ := List.exists_cons_of_ne_nil (List.ne_nil_of_length_pos h1)
  obtain ⟨c, n', rfl⟩ := List.exists_cons_of_ne_nil hn
  have hc : c ≠ '\\' := IsNameOrKeyChar_ne_backslash c (hname c (List.mem_cons_self _ _))
  have h : SCRest (MakeSCReader (ArgCall (c :: n') (a :: as) rest) path file)
      = '\\' :: (c :: n') ++ ('(' :: ArgListText (a :: as) ++ ')' :: rest) := by
    simp [SCRest, MakeSCReader, ArgCall]
  have hr1 := SCRest_advance _ ('\\' :: c :: n') _ h
  obtain ⟨ks, vs, hl, hks, hvs⟩ := SCReadArgumentList_args
    (SCAdvance (MakeSCReader (ArgCall (c :: n') (a :: as) rest) path file) ('\\' :: c :: n'))
    { SCReadStart (MakeSCReader (ArgCall (c :: n') (a :: as) rest) path file) with
      type := SCObjectType.Func,
      full_text := { (SCReadStart (MakeSCReader (ArgCall (c :: n') (a :: as) rest)
        path file)).full_text with
        begin := some (MakeSCReader (ArgCall (c :: n') (a :: as) rest) path file).current },
      function_name := ⟨some ((MakeSCReader (ArgCall (c :: n') (a :: as) rest)
        path file).current + 1), some ((MakeSCReader (ArgCall (c :: n') (a :: as) rest)
        path file).current + 1 + (c :: n').length)⟩ }
    a as rest hr1 hw (by simpa [SCReadStart, SCObjectZero] using h32) (by simp)
  have hrA := SCRest_advance _ ('(' :: ArgListText (a :: as) ++ [')']) rest
    (show SCRest (SCAdvance (MakeSCReader (ArgCall (c :: n') (a :: as) rest) path file)
      ('\\' :: c :: n')) = ('(' :: ArgListText (a :: as) ++ [')']) ++ rest by
      rw [hr1]; simp)
  have hany := SCReadFunctionTail_after_args_any _ _ _ _ (by rw [hr1]; rfl) hl (by simp)
  have htail := fun hrest => SCReadFunctionTail_after_args _ _ _ _ (by rw [hr1]; rfl) hl
    (by simp) (by rw [hrA]; exact hrest)
  rw [SCRead_function _ c _ rfl h hc,
    SCReadFunction_name _ _ (c :: n') _ h (List.cons_ne_nil _ _) hname (by simp; decide)]
  rw [hany.1, hany.2.1, hany.2.2.1, hany.2.2.2.1]
  rw [SCAdvance_text] at hks hvs
  refine ⟨?_, ?_, ?_, ?_, hany.2.2.2.2, fun hrest => (htail hrest).1⟩
  · simp [SliceText, ArgCall, MakeSCReader]
  · simp [SCReadStart, SCObjectZero]
  · simpa [SCReadStart, SCObjectZero, MakeSCReader] using hks
  · simpa [SCReadStart, SCObjectZero, MakeSCReader] using hvs

/-- Witness of C10: the call `\herp(foo=2, bar="qwer"){woop woop}` of `TEST_SCReader` has
the keys `foo`, `bar`, the values `2`, `qwer` and the block `woop woop`; and the value
`1-2.-3.` of `\f(x=1-2.-3.)` is reported unchanged. -/
theorem C10_argument_list_witness :
    (ArgCall "herp".toList HerpArgs "\x7bwoop woop\x7d\n".toList
        = "\\herp(foo=2, bar=\"qwer\")\x7bwoop woop\x7d\n".toList ∧
      (SCRead (MakeSCReader (ArgCall "herp".toList HerpArgs "\x7bwoop woop\x7d\n".toList)
        "path" "file")).2.type = SCObjectType.Func ∧
      (SCRead (MakeSCReader (ArgCall "herp".toList HerpArgs "\x7bwoop woop\x7d\n".toList)
        "path" "file")).2.keys.map
          (SliceText (ArgCall "herp".toList HerpArgs "\x7bwoop woop\x7d\n".toList))
        = ["foo".toList, "bar".toList] ∧
      (SCRead (MakeSCReader (ArgCall "herp".toList HerpArgs "\x7bwoop woop\x7d\n".toList)
        "path" "file")).2.values.map
          (SliceText (ArgCall "herp".toList HerpArgs "\x7bwoop woop\x7d\n".toList))
        = ["2".toList, "qwer".toList] ∧
      SliceText (ArgCall "herp".toList HerpArgs "\x7bwoop woop\x7d\n".toList)
        (SCRead (MakeSCReader (ArgCall "herp".toList HerpArgs "\x7bwoop woop\x7d\n".toList)
          "path" "file")).2.block = "woop woop".toList) ∧
    (ArgCall "f".toList OddNumberArgs [] = "\\f(x=1-2.-3.)".toList ∧
      (SCRead (MakeSCReader (ArgCall "f".toList OddNumberArgs []) "path" "file")).2.values.map
          (SliceText (ArgCall "f".toList OddNumberArgs [])) = ["1-2.-3.".toList]) :=
  have h := C10_argument_list "herp".toList HerpArgs "\x7bwoop woop\x7d\n".toList
    "path" "file" (by decide) (by decide) (by decide) (by decide) (by decide)
  have g := C10_argument_list "f".toList OddNumberArgs [] "path" "file" (by decide)
    (by decide) (by decide) (by decide) (by decide)
  ⟨⟨by decide,
     h.2.2.2.2.2 (Or.inr ⟨"woop woop".toList, "\n".toList, by decide,
       BracesBalanced_of_inits _ (by decide)⟩),
     h.2.2.1, h.2.2.2.1, by decide⟩,
   ⟨by decide, g.2.2.2.1⟩⟩

end SiteC

namespace SiteC

/-- C11 (argument cap).  For every call whose argument list holds more than `SC_MAX_ARGS`
= 32 well-formed arguments separated by commas, `SCRead` returns an object of type `Error`
(so not a function object cut short) whose message is "Function exceeds the max argument
count".  With exactly 32 arguments `args_count` is 32 and the object is a function object
whenever the text after the list opens no block or a balanced one, the error of a missing
closing brace being the only other outcome. -/
theorem C11_argument_cap (n : List Char) (args : List ArgText) (rest : List Char)
    (path file : String) (hn : n ≠ []) (hname : ∀ c ∈ n, IsNameOrKeyChar c = true)
    (hw : ∀ x ∈ args, x.WellFormed) :
    (SC_MAX_ARGS < args.length →
      (SCRead (MakeSCReader (ArgCall n args rest) path file)).2.type = SCObjectType.Error ∧
        (SCRead (MakeSCReader (ArgCall n args rest) path file)).2.error_text
          = some "Function exceeds the max argument count") ∧
    (args.length = SC_MAX_ARGS →
      (SCRead (MakeSCReader (ArgCall n args rest) path file)).2.args_count = 32 ∧
        ((SCRead (MakeSCReader (ArgCall n args rest) path file)).2.type = SCObjectType.Func ∨
          ((SCRead (MakeSCReader (ArgCall n args rest) path file)).2.type
              = SCObjectType.Error ∧
            (SCRead (MakeSCReader (ArgCall n args rest) path file)).2.error_text
              = some "Closing brace of block is missing")) ∧
        ((rest.head? ≠ some '{' ∨ ∃ b t, rest = '{' :: b ++ '}' :: t ∧ BracesBalanced b) →
          (SCRead (MakeSCReader (ArgCall n args rest) path file)).2.type
            = SCObjectType.Func)) := by
  refine ⟨fun h => SCRead_arg_call_cap n args rest path file hn hname h hw, fun h => ?_⟩
  have := SCRead_arg_call n args rest path file hn hname (by rw [h]; decide) (le_of_eq h) hw
  rw [h] at this
  exact this

/-- Witness of C11: the call `\f(a=1,...,a=1)` with 33 arguments is an error, and with 32
arguments it is a function object with 32 arguments. -/
theorem C11_argument_cap_witness :
    (SCRead (MakeSCReader (ArgCall "f".toList (List.replicate 33 CapArg) [])
        "path" "file")).2.error_text = some "Function exceeds the max argument count" ∧
      (SCRead (MakeSCReader (ArgCall "f".toList (List.replicate 32 CapArg) [])
        "path" "file")).2.type = SCObjectType.Func ∧
      (SCRead (MakeSCReader (ArgCall "f".toList (List.replicate 32 CapArg) [])
        "path" "file")).2.args_count = 32 :=
  have hw : ∀ k, ∀ x ∈ List.replicate k CapArg, x.WellFormed := fun k x hx => by
    rw [List.eq_of_mem_replicate hx]
    decide
  ⟨((C11_argument_cap "f".toList (List.replicate 33 CapArg) [] "path" "file" (by decide)
      (by decide) (hw 33)).1 (by decide)).2,
    ((C11_argument_cap "f".toList (List.replicate 32 CapArg) [] "path" "file" (by decide)
      (by decide) (hw 32)).2 (by decide)).2.2 (Or.inl (by decide)),
    ((C11_argument_cap "f".toList (List.replicate 32 CapArg) [] "path" "file" (by decide)
      (by decide) (hw 32)).2 (by decide)).1⟩

/-- C12 (malformed argument list).  Take a call whose parenthesis is followed by the text
`t`, where the first character of `t` after its leading whitespace exists and is not a name
character; the empty list `\name()` is the case `t` = `)`.  Then `SCRead`, on a reader that
stands on the call, returns an object of type `Error` whose message is "Expected a parameter
name"; and for every document made of plain text followed by such a call, `SCToHTML`
returns 0 with a diagnostic that contains this message. -/
theorem C12_malformed_argument_list (n t : List Char) (c : Char) (hn : n ≠ [])
    (hname : ∀ x ∈ n, IsNameOrKeyChar x = true)
    (hc : (t.dropWhile isspace).head? = some c) (hnc : IsNameOrKeyChar c = false) :
    (∀ r : SCReader, r.error = none → SCRest r = '\\' :: n ++ '(' :: t →
      (SCRead r).2.type = SCObjectType.Error ∧
        (SCRead r).2.error_text = some "Expected a parameter name") ∧
    ∀ (a : List Char) (path file : String), '\\' ∉ a →
      ∃ out, SCToHTML (a ++ ('\\' :: n ++ '(' :: t)) path file = some (false, out) ∧
        "Expected a parameter name".toList <:+: out :=
  ⟨fun r he h => SCRead_no_param_name r n t c he h hn hname hc hnc,
    fun a path file ha => SCToHTML_text_then_error a _ path file _ ha rfl
      (fun r he h => SCRead_no_param_name r n t c he h hn hname hc hnc)⟩

/-- Witness of C12: the document of `TEST_SCToHTML`, `herp derp`, a newline, `\bold($$$)`,
and the empty list `\name()`. -/
theorem C12_malformed_argument_list_witness :
    (∃ out, SCToHTML "herp derp\n\\bold($$$)".toList "test_path" "test_file"
        = some (false, out) ∧ "Expected a parameter name".toList <:+: out) ∧
      (SCRead (MakeSCReader "\\name()".toList "path" "file")).2.error_text
        = some "Expected a parameter name" :=
  ⟨(C12_malformed_argument_list "bold".toList "$$$)".toList '$' (by decide) (by decide)
      (by decide) (by decide)).2 "herp derp\n".toList "test_path" "test_file" (by decide),
    ((C12_malformed_argument_list "name".toList ")".toList ')' (by decide) (by decide)
      (by decide) (by decide)).1 (MakeSCReader "\\name()".toList "path" "file") rfl rfl).2⟩

/-- C13 (text tokens are maximal).  For every reader that is not in error and whose next
unread character exists and is not a backslash, `SCRead` returns an object of type `Text`
whose span starts at the cursor and is the longest prefix of the remaining input that holds
no backslash; the span is not empty, and the cursor is left at the first following backslash
or at the end of the input. -/
theorem C13_text_maximal (r : SCReader) (c : Char) (he : r.error = none)
    (hc : SCCurrentChar r = some c) (hne : c ≠ '\\') :
    (SCRead r).2.type = SCObjectType.Text ∧
      (SCRead r).2.full_text = ⟨some r.current, some (SCRead r).1.current⟩ ∧
      SliceText r.text (SCRead r).2.full_text = (SCRest r).takeWhile (fun x => x != '\\') ∧
      (SliceText r.text (SCRead r).2.full_text <+: SCRest r ∧
        '\\' ∉ SliceText r.text (SCRead r).2.full_text ∧
        ∀ p, p <+: SCRest r → '\\' ∉ p → p <+: SliceText r.text (SCRead r).2.full_text) ∧
      SliceText r.text (SCRead r).2.full_text ≠ [] ∧
      SCRest (SCRead r).1 = (SCRest r).dropWhile (fun x => x != '\\') ∧
      ((SCRead r).1.current = r.text.length ∨ SCCurrentChar (SCRead r).1 = some '\\') := by
  obtain ⟨hread, hs⟩ := SCRead_text_run r c he hc hne
  have hsplit : SCRest r = (SCRest r).takeWhile (fun x => x != '\\') ++
      (SCRest r).dropWhile (fun x => x != '\\') := (List.takeWhile_append_dropWhile _ _).symm
  have hspan : SliceText r.text (SCRead r).2.full_text
      = (SCRest r).takeWhile (fun x => x != '\\') := by
    rw [hread]
    have := SliceText_advance r _ _ hsplit
    rwa [SCAdvance_current] at this
  have hrest : SCRest (SCRead r).1 = (SCRest r).dropWhile (fun x => x != '\\') := by
    rw [hread]
    exact SCRest_advance r _ _ hsplit
  refine ⟨by rw [hread], ?_, hspan, ⟨?_, ?_, ?_⟩, by rw [hspan]; exact hs, hrest, ?_⟩
  · rw [hread]
    simp [SCAdvance_current]
  · rw [hspan]
    exact List.takeWhile_prefix _
  · rw [hspan]
    exact takeWhile_ne_not_mem _ _
  · intro p hp hn
    rw [hspan]
    exact prefix_takeWhile_ne _ _ p hp hn
  · rcases dropWhile_ne_head '\\' (SCRest r) with hd | hd
    · left
      have hlen := SCRest_length (SCRead r).1
      rw [hrest, hd] at hlen
      have hlen2 := congrArg List.length hsplit
      rw [List.length_append, hd, SCRest_length] at hlen2
      have hlt := SCCurrentChar_some_lt r c hc
      have hcur : (SCRead r).1.current
          = r.current + ((SCRest r).takeWhile (fun x => x != '\\')).length := by
        rw [hread]
        exact SCAdvance_current _ _
      simp only [List.length_nil, Nat.add_zero] at hlen2
      omega
    · right
      rw [SCCurrentChar_eq_head, hrest]
      exact hd

/-- Witness of C13: on `A \bold{B} C` the first object is the text `A `. -/
theorem C13_text_maximal_witness :
    SliceText "A \\bold\x7bB\x7d C".toList
        (SCRead (MakeSCReader "A \\bold\x7bB\x7d C".toList "path" "file")).2.full_text
      = "A ".toList :=
  (C13_text_maximal (MakeSCReader "A \\bold\x7bB\x7d C".toList "path" "file") 'A' rfl
    (by decide) (by decide)).2.2.1.trans (by decide)

/-- C14, counterexample.  In the input `\\ x` the second backslash is followed by a space,
which is neither a backslash nor a name character, and the calls of `SCRead` return an
escaped backslash, the text ` x` and the end object, none of them an error: the reader
takes the two backslashes together.  Likewise `\bold{\ x}` and `\f(a="\ x")`, where the
backslash stands in a block and in a quoted value, are read as one function object followed
by the end object. -/
theorem C14_empty_function_name_counterexample :
    "\\\\ x".toList = ['\\', '\\', ' ', 'x'] ∧
      IsNameOrKeyChar ' ' = false ∧
      (SCRead (MakeSCReader "\\\\ x".toList "path" "file")).2.type = SCObjectType.Backslash ∧
      (SCRead (SCRead (MakeSCReader "\\\\ x".toList "path" "file")).1).2.type
        = SCObjectType.Text ∧
      (SCRead (SCRead (SCRead (MakeSCReader "\\\\ x".toList "path" "file")).1).1).2.type
        = SCObjectType.End ∧
      (SCRead (MakeSCReader "\\bold\x7b\\ x\x7d".toList "path" "file")).2.type
        = SCObjectType.Func ∧
      (SCRead (SCRead (MakeSCReader "\\bold\x7b\\ x\x7d".toList "path" "file")).1).2.type
        = SCObjectType.End ∧
      (SCRead (MakeSCReader "\\f(a=\"\\ x\")".toList "path" "file")).2.type
        = SCObjectType.Func ∧
      (SCRead (SCRead (MakeSCReader "\\f(a=\"\\ x\")".toList "path" "file")).1).2.type
        = SCObjectType.End := by
  decide

/-- C14, amended (empty function name).  Take a backslash followed by a character that is
neither a backslash nor a name character, as in `\ command`.  On every reader that is not in
error and stands on that backslash, `SCRead` returns an object of type `Error` whose message is
"Expected function name after backslash"; in particular this is what the first call returns
on an input that starts with it, and what the second call returns on an input that starts
with plain text followed by it. -/
theorem C14_empty_function_name (c : Char) (rest : List Char) (hbs : c ≠ '\\')
    (hc : IsNameOrKeyChar c = false) :
    (∀ r : SCReader, r.error = none → SCRest r = '\\' :: c :: rest →
      (SCRead r).2.type = SCObjectType.Error ∧
        (SCRead r).2.error_text = some "Expected function name after backslash") ∧
    (∀ (a : List Char) (path file : String), a ≠ [] → '\\' ∉ a →
      (SCRead (SCRead (MakeSCReader (a ++ '\\' :: c :: rest) path file)).1).2.type
          = SCObjectType.Error ∧
        (SCRead (SCRead (MakeSCReader (a ++ '\\' :: c :: rest) path file)).1).2.error_text
          = some "Expected function name after backslash") := by
  have key : ∀ r : SCReader, r.error = none → SCRest r = '\\' :: c :: rest →
      (SCRead r).2.type = SCObjectType.Error ∧
        (SCRead r).2.error_text = some "Expected function name after backslash" := by
    intro r he h
    rw [SCRead_empty_name r c rest he h hbs hc]
    exact ⟨SCError_type _ _ _, (SCError_frozen _ _ _).2.2.1⟩
  refine ⟨key, fun a path file hane ha => ?_⟩
  have h0 : SCRest (MakeSCReader (a ++ '\\' :: c :: rest) path file)
      = a ++ '\\' :: c :: rest := rfl
  rw [SCRead_text _ a ('\\' :: c :: rest) rfl h0 hane ha (Or.inr rfl)]
  exact key _ (by rw [SCAdvance_error]; rfl) (SCRest_advance _ a _ h0)

/-- Witness of C14: the input `\ command` of the user guide. -/
theorem C14_empty_function_name_witness :
    (SCRead (MakeSCReader "\\ command".toList "path" "file")).2.type = SCObjectType.Error ∧
      (SCRead (MakeSCReader "\\ command".toList "path" "file")).2.error_text
        = some "Expected function name after backslash" :=
  (C14_empty_function_name ' ' "command".toList (by decide) (by decide)).1
    (MakeSCReader "\\ command".toList "path" "file") rfl rfl

/-- C15 (escaping rule).  For every text and every arena, `HTMLWriteEscapedText` appends to
the arena the images of the characters of the text, in order, where the double quote maps to
`&quot;`, `&` to `&amp;`, `<` to `&lt;`, `>` to `&gt;` and every other character to itself.
Consequently the escaped form of `a ++ b` is the escaped form of `a` followed by that of
`b`. -/
theorem C15_escaping_rule (text : List Char) (arena : Arena) :
    (HTMLWriteEscapedText text arena).text = arena.text ++ (text.map EscapeChar).flatten ∧
      EscapeChar '"' = "&quot;".toList ∧ EscapeChar '&' = "&amp;".toList ∧
      EscapeChar '<' = "&lt;".toList ∧ EscapeChar '>' = "&gt;".toList ∧
      (∀ c, c ≠ '"' → c ≠ '&' → c ≠ '<' → c ≠ '>' → EscapeChar c = [c]) ∧
      ∀ a b : List Char,
        (HTMLWriteEscapedText (a ++ b) ⟨[]⟩).text =
          (HTMLWriteEscapedText a ⟨[]⟩).text ++ (HTMLWriteEscapedText b ⟨[]⟩).text := by
  refine ⟨?_, rfl, rfl, rfl, rfl, ?_, ?_⟩
  · rw [HTMLWriteEscapedText_eq, EscapeText_eq_join]
  · intro c h1 h2 h3 h4
    simp [EscapeChar, h1, h2, h3, h4]
  · intro a b
    simp only [HTMLWriteEscapedText_eq, EscapeText_append, List.nil_append]

/-- C16 (idempotence of escaping on clean text).  For every text `s` that holds none of the
characters double quote, `&`, `<`, `>`, `HTMLWriteEscapedText` appends `s` unchanged, so the
escaped form of `s` is `s` and escaping it again is a no-op. -/
theorem C16_escaping_clean (s : List Char) (arena : Arena)
    (h : ∀ c ∈ s, c ≠ '"' ∧ c ≠ '&' ∧ c ≠ '<' ∧ c ≠ '>') :
    (HTMLWriteEscapedText s arena).text = arena.text ++ s ∧
      (HTMLWriteEscapedText s ⟨[]⟩).text = s ∧
      (HTMLWriteEscapedText (HTMLWriteEscapedText s ⟨[]⟩).text ⟨[]⟩).text
        = (HTMLWriteEscapedText s ⟨[]⟩).text := by
  simp only [HTMLWriteEscapedText_eq, EscapeText_clean s h, List.nil_append, and_self]

/-- Witness of C16: the text `a1 b;c`, which holds none of the four characters. -/
theorem C16_escaping_clean_witness :
    (HTMLWriteEscapedText "a1 b;c".toList ⟨[]⟩).text = "a1 b;c".toList :=
  (C16_escaping_clean "a1 b;c".toList ⟨[]⟩ (by decide)).2.1

/-- C17 (implicit paragraph).  For every tag stack and every object of type `Text`: when the
top of the stack is the article or a section and the text is not all whitespace, a paragraph
is pushed (its opening tag `<p>` is written) and then the escaped text is written; in every
other case the stack is left as it is and the escaped text is written.  For every object of
type `Backslash`: a paragraph is pushed exactly when the top is the article or a section, and
then a single backslash is written.  The push is the one of `HTMLPushTag`, whose assertion
ends the run when the stack is full. -/
theorem C17_implicit_paragraph (sc : List Char) (tags : HTMLTagStack) (obj : SCObject) :
    (obj.type = SCObjectType.Text →
      (((HTMLTop tags = HTMLTagType.Article ∨ HTMLTop tags = HTMLTagType.Section) ∧
          IsAllWhitespace (SliceText sc obj.full_text) = false) →
        SCToHTMLObject sc tags obj =
          if tags.tag_pos + 1 < SC_HTML_MAX_TAG_DEPTH then
            some (SCToHTMLStep.next
              { stack := HTMLTagType.Paragraph :: tags.stack,
                section_depth := tags.section_depth,
                arena := ⟨tags.arena.text ++ "<p>\n".toList ++
                  EscapeText (SliceText sc obj.full_text)⟩,
                tag_writes := tags.tag_writes ++ [TagWrite.opening HTMLTagType.Paragraph] })
          else none) ∧
      (¬ ((HTMLTop tags = HTMLTagType.Article ∨ HTMLTop tags = HTMLTagType.Section) ∧
          IsAllWhitespace (SliceText sc obj.full_text) = false) →
        SCToHTMLObject sc tags obj =
          some (SCToHTMLStep.next
            { tags with
              arena := ⟨tags.arena.text ++ EscapeText (SliceText sc obj.full_text)⟩ }))) ∧
    (obj.type = SCObjectType.Backslash →
      ((HTMLTop tags = HTMLTagType.Article ∨ HTMLTop tags = HTMLTagType.Section) →
        SCToHTMLObject sc tags obj =
          if tags.tag_pos + 1 < SC_HTML_MAX_TAG_DEPTH then
            some (SCToHTMLStep.next
              { stack := HTMLTagType.Paragraph :: tags.stack,
                section_depth := tags.section_depth,
                arena := ⟨tags.arena.text ++ "<p>\n".toList ++ ['\\']⟩,
                tag_writes := tags.tag_writes ++ [TagWrite.opening HTMLTagType.Paragraph] })
          else none) ∧
      (¬ (HTMLTop tags = HTMLTagType.Article ∨ HTMLTop tags = HTMLTagType.Section) →
        SCToHTMLObject sc tags obj =
          some (SCToHTMLStep.next { tags with arena := ⟨tags.arena.text ++ ['\\']⟩ }))) := by
  refine ⟨fun hty => ⟨fun hc => ?_, fun hc => ?_⟩, fun hty => ⟨fun hc => ?_, fun hc => ?_⟩⟩
  · unfold SCToHTMLObject
    rw [hty]
    simp only []
    rw [if_pos hc]
    unfold HTMLPushTag
    by_cases hd : tags.tag_pos + 1 < SC_HTML_MAX_TAG_DEPTH
    · rw [if_pos hd, if_pos hd]
      simp [HTMLWriteEscapedText_eq, ArenaPushCStr, g_html_tag_type_open_text]
    · rw [if_neg hd, if_neg hd]
      rfl
  · unfold SCToHTMLObject
    rw [hty]
    simp only []
    rw [if_neg hc]
    simp [HTMLWriteEscapedText_eq]
  · unfold SCToHTMLObject
    rw [hty]
    simp only []
    rw [if_pos hc]
    unfold HTMLPushTag
    by_cases hd : tags.tag_pos + 1 < SC_HTML_MAX_TAG_DEPTH
    · rw [if_pos hd, if_pos hd]
      simp [ArenaPushChar, ArenaPushCStr, g_html_tag_type_open_text]
    · rw [if_neg hd, if_neg hd]
      rfl
  · unfold SCToHTMLObject
    rw [hty]
    simp only []
    rw [if_neg hc]
    simp [ArenaPushChar]

/-- C18 (section levels).  Let `tags` be a tag stack that `SCToHTML` reaches while it
renders a document (after any number `n` of objects), and `obj` a function object with a
block.  If the command is `section`, handling it goes on with `section_depth` equal to 2 and
a section on top of the stack; if it is `subsection`, with `section_depth` equal to 3 and a
section on top.  In particular a `subsection` issued when only the article is open pushes
two sections, writing `<section>` twice before the heading. -/
theorem C18_section_levels (sc : List Char) (path file : String) (n : Nat) (r : SCReader)
    (tags : HTMLTagStack) (obj : SCObject)
    (hreach : SCToHTMLAfter sc path file n = some (r, tags))
    (hty : obj.type = SCObjectType.Func) (hblock : obj.has_block = true) :
    (SliceText sc obj.function_name = "section".toList →
      ∃ tags1, SCToHTMLObject sc tags obj = some (SCToHTMLStep.next tags1) ∧
        tags1.section_depth = 2 ∧ HTMLTop tags1 = HTMLTagType.Section) ∧
    (SliceText sc obj.function_name = "subsection".toList →
      (∃ tags1, SCToHTMLObject sc tags obj = some (SCToHTMLStep.next tags1) ∧
        tags1.section_depth = 3 ∧ HTMLTop tags1 = HTMLTagType.Section) ∧
      (tags.stack = [HTMLTagType.Article, HTMLTagType.TOS] →
        SCToHTMLObject sc tags obj = some (SCToHTMLStep.next
          ⟨[HTMLTagType.Section, HTMLTagType.Section, HTMLTagType.Article, HTMLTagType.TOS],
            3,
            ⟨tags.arena.text ++ "<section>\n<section>\n<h1>".toList ++
              EscapeText (SliceText sc obj.block) ++ "</h1>\n".toList⟩,
            tags.tag_writes ++ [TagWrite.opening HTMLTagType.Section,
              TagWrite.opening HTMLTagType.Section]⟩))) := by
  have hinv := SCToHTMLAfter_inv sc path file n r tags hreach
  have hobj : SCToHTMLObject sc tags obj = SCToHTMLFunc sc tags obj := by
    unfold SCToHTMLObject
    rw [hty]
  refine ⟨fun hname => ?_, fun hname => ⟨?_, fun hs => ?_⟩⟩
  · obtain ⟨s1, h1, -, hd, htop⟩ := RenderInv_openSection tags 2 (SliceText sc obj.block) hinv
      (Or.inl rfl)
    refine ⟨s1, ?_, hd, htop⟩
    rw [hobj, SCToHTMLFunc_section sc tags obj hname, hblock, h1]
    rfl
  · obtain ⟨s1, h1, -, hd, htop⟩ := RenderInv_openSection tags 3 (SliceText sc obj.block) hinv
      (Or.inr rfl)
    refine ⟨s1, ?_, hd, htop⟩
    rw [hobj, SCToHTMLFunc_subsection sc tags obj hname, hblock, h1]
    rfl
  · have hd : tags.section_depth = 1 := by
      rw [hinv.2.2.1, hs]
      rfl
    rw [hobj, SCToHTMLFunc_subsection sc tags obj hname, hblock,
      HTMLOpenSection_article tags _ hs hd]
    rfl

/-- Witness of C18: the document `\subsection{S}`, whose only command is handled when only
the article is open. -/
theorem C18_section_levels_witness :
    SCToHTMLObject "\\subsection\x7bS\x7d".toList ArticleTagStack
        (SCRead (MakeSCReader "\\subsection\x7bS\x7d".toList "path" "file")).2
      = some (SCToHTMLStep.next
        ⟨[HTMLTagType.Section, HTMLTagType.Section, HTMLTagType.Article, HTMLTagType.TOS], 3,
          ⟨"<article>\n<section>\n<section>\n<h1>S</h1>\n".toList⟩,
          [TagWrite.opening HTMLTagType.Article, TagWrite.opening HTMLTagType.Section,
            TagWrite.opening HTMLTagType.Section]⟩) :=
  (((C18_section_levels "\\subsection\x7bS\x7d".toList "path" "file" 0
      (MakeSCReader "\\subsection\x7bS\x7d".toList "path" "file") ArticleTagStack
      (SCRead (MakeSCReader "\\subsection\x7bS\x7d".toList "path" "file")).2
      rfl (by decide) (by decide)).2 (by decide)).2 rfl).trans (by decide)

/-- C19 (block commands close the current structure), evaluated where the code departs from
it.  The document `Intro\section{One}` renders without error, but after the `section`
command the paragraph opened for `Intro` is still on the stack, below the new section, and
`</p>` is written only after `</section>`.  In the same way `\subsection{B}` after
`\section{A}\ordered_list\item x` leaves the list and its item open below the new
section. -/
theorem C19_section_keeps_structure_open :
    (SCToHTMLAfter "Intro\\section\x7bOne\x7d".toList "path" "file" 2).map
        (fun st => st.2.stack)
      = some [HTMLTagType.Section, HTMLTagType.Paragraph, HTMLTagType.Article,
          HTMLTagType.TOS] ∧
    SCToHTML "Intro\\section\x7bOne\x7d".toList "path" "file" = some (true,
      "<article>\n<p>\nIntro<section>\n<h1>One</h1>\n</section>\n</p>\n</article>\n".toList) ∧
    (SCToHTMLAfter "\\section\x7bA\x7d\\ordered_list\\item x\\subsection\x7bB\x7d".toList
        "path" "file" 5).map (fun st => st.2.stack)
      = some [HTMLTagType.Section, HTMLTagType.ListItem, HTMLTagType.OrderedList,
          HTMLTagType.Section, HTMLTagType.Article, HTMLTagType.TOS] := by
  refine ⟨by decide, by decide, by decide⟩

/-- C20 (inline commands have no stack effect).  For every tag stack and every function
object whose command is `bold`, `italic`, `inline` or `link`: when the command is processed
without error, the stack contents, its height, `section_depth` and the record of the tags
written by push and pop are the same after the command as before it, and the text written
before is kept. -/
theorem C20_inline_no_stack_effect (sc : List Char) (tags tags1 : HTMLTagStack)
    (obj : SCObject) (hty : obj.type = SCObjectType.Func)
    (hname : SliceText sc obj.function_name = "bold".toList ∨
      SliceText sc obj.function_name = "italic".toList ∨
      SliceText sc obj.function_name = "inline".toList ∨
      SliceText sc obj.function_name = "link".toList)
    (h : SCToHTMLObject sc tags obj = some (SCToHTMLStep.next tags1)) :
    tags1.stack = tags.stack ∧ tags1.tag_pos = tags.tag_pos ∧
      tags1.section_depth = tags.section_depth ∧ tags1.tag_writes = tags.tag_writes ∧
      tags.arena.text <+: tags1.arena.text := by
  have hobj : SCToHTMLObject sc tags obj = SCToHTMLFunc sc tags obj := by
    unfold SCToHTMLObject
    rw [hty]
  rw [hobj] at h
  have key : ∀ a : Arena, tags.arena.text <+: a.text →
      some (SCToHTMLStep.next { tags with arena := a }) = some (SCToHTMLStep.next tags1) →
      tags1.stack = tags.stack ∧ tags1.tag_pos = tags.tag_pos ∧
        tags1.section_depth = tags.section_depth ∧ tags1.tag_writes = tags.tag_writes ∧
        tags.arena.text <+: tags1.arena.text := by
    intro a ha e
    have e1 := SCToHTMLStep.next.inj (Option.some.inj e)
    rw [← e1]
    exact ⟨rfl, rfl, rfl, rfl, ha⟩
  have hargs : ∀ (attr : String) (is : List Nat) (st : Bool × Arena),
      st.2.text <+: (HTMLWriteArguments sc obj attr is st).2.text := by
    intro attr is
    induction is with
    | nil => intro st; exact List.prefix_refl _
    | cons i is ih =>
      intro st
      obtain ⟨f, a⟩ := st
      unfold HTMLWriteArguments
      simp only []
      split_ifs
      · refine List.IsPrefix.trans ?_ (ih _)
        simp [HTMLWriteAttribute, ArenaPushChar, ArenaPushCStr, ArenaPushSlice]
      · refine List.IsPrefix.trans ?_ (ih _)
        simp [HTMLWriteAttribute, ArenaPushChar, ArenaPushCStr, ArenaPushSlice]
  rcases hname with hn | hn | hn | hn
  · rw [SCToHTMLFunc_bold sc tags obj hn] at h
    split_ifs at h
    · cases h
    · exact key _ (by rw [HTMLWriteInTag_eq]; exact List.prefix_append _ _) h
  · rw [SCToHTMLFunc_italic sc tags obj hn] at h
    split_ifs at h
    · cases h
    · exact key _ (by rw [HTMLWriteInTag_eq]; exact List.prefix_append _ _) h
  · rw [SCToHTMLFunc_inline sc tags obj hn] at h
    split_ifs at h
    · cases h
    · exact key _ (by rw [HTMLWriteInTag_eq]; exact List.prefix_append _ _) h
  · rw [SCToHTMLFunc_link sc tags obj hn] at h
    split_ifs at h
    · cases h
    · cases h
    · refine key _ ?_ h
      rw [HTMLWriteEscapedText_eq]
      simp only [ArenaPushCStr]
      refine List.IsPrefix.trans (List.IsPrefix.trans ?_
        (hargs "href" (List.range obj.args_count) (false, ArenaPushCStr tags.arena "<a"))) ?_
      · simp [ArenaPushCStr]
      · rw [List.append_assoc, List.append_assoc]
        exact List.prefix_append _ _

/-- Witness of C20: the command `\italic{B}` handled on the stack that holds the article. -/
theorem C20_inline_no_stack_effect_witness :
    SCToHTMLObject "\\italic\x7bB\x7d".toList ArticleTagStack
        (SCRead (MakeSCReader "\\italic\x7bB\x7d".toList "path" "file")).2
        = some (SCToHTMLStep.next
          { ArticleTagStack with arena := ⟨"<article>\n<i>\nB</i>\n".toList⟩ }) ∧
      ({ ArticleTagStack with arena := ⟨"<article>\n<i>\nB</i>\n".toList⟩ } :
        HTMLTagStack).stack = ArticleTagStack.stack :=
  ⟨by decide,
    (C20_inline_no_stack_effect "\\italic\x7bB\x7d".toList ArticleTagStack
      { ArticleTagStack with arena := ⟨"<article>\n<i>\nB</i>\n".toList⟩ }
      (SCRead (MakeSCReader "\\italic\x7bB\x7d".toList "path" "file")).2
      (by decide) (Or.inr (Or.inl (by decide))) (by decide)).1⟩

end SiteC

namespace SiteC

/-- C21 (code blocks and the leading newline), evaluated where the code departs from it.
On the block made of a newline, `X` and a newline, `SCToHTML` writes
`<pre><code>\nX\n</code></pre>\n`, the leading newline included.  In general, for every
`code` command with a block, the text written between `<pre><code>` and `</code></pre>\n` is
the escaped form of the whole block: the branch computes the text past the first newline
and then writes `obj.block`. -/
theorem C21_code_keeps_leading_newline :
    SCToHTML "\\code\x7b\nX\n\x7d".toList "path" "file"
      = some (true, "<article>\n<pre><code>\nX\n</code></pre>\n</article>\n".toList) ∧
    ∀ (sc : List Char) (tags tags1 : HTMLTagStack) (obj : SCObject),
      obj.type = SCObjectType.Func → SliceText sc obj.function_name = "code".toList →
      obj.has_block = true → HTMLRiseToLowestSection tags = some tags1 →
      SCToHTMLObject sc tags obj = some (SCToHTMLStep.next { tags1 with
        arena := ⟨tags1.arena.text ++ "<pre><code>".toList ++
          EscapeText (SliceText sc obj.block) ++ "</code></pre>\n".toList⟩ }) := by
  refine ⟨by decide, fun sc tags tags1 obj hty hname hblock hrise => ?_⟩
  unfold SCToHTMLObject
  rw [hty]
  simp only []
  rw [SCToHTMLFunc_code sc tags obj hname, hblock, hrise]
  simp [HTMLWriteEscapedText_eq, ArenaPushCStr]

/-- C22 (info must come first), evaluated where the code departs from it.  In the document
`Hello\info(title="T")` non-whitespace text precedes the `info` command, and `SCToHTML`
succeeds: the paragraph of the text is closed by `HTMLRiseToLowestSection` before the top of
the stack is compared with the article.  In general the command is accepted whenever the
rise ends on the article, whatever was written before, and it is refused when the rise ends
on a section, as in the document of `TEST_GenerateNormalPage`. -/
theorem C22_info_after_text_accepted :
    SCToHTML "Hello\\info(title=\"T\")".toList "path" "file"
      = some (true, "<article>\n<p>\nHello</p>\n<h1>\nT</h1>\n</article>\n".toList) ∧
    (∀ (sc : List Char) (tags tags1 : HTMLTagStack) (obj : SCObject),
      obj.type = SCObjectType.Func → SliceText sc obj.function_name = "info".toList →
      HTMLRiseToLowestSection tags = some tags1 →
      (HTMLTop tags1 = HTMLTagType.Article →
        SCToHTMLObject sc tags obj = some (SCToHTMLStep.next { tags1 with
          arena := HTMLWriteTitles sc obj (List.range obj.args_count) tags1.arena })) ∧
      (HTMLTop tags1 ≠ HTMLTagType.Article →
        FailsWith (SCToHTMLObject sc tags obj)
          "Info command should be at the beginning of the file")) ∧
    SCToHTML ("\\section\x7bq\x7d qwer \\info(title=\"zzz\", date=\"22\")" ++
        " qwer  qwer ").toList "test_path" "test_file"
      = some (false, ("Error while reading SC file: test_file\nPath was: test_path\n" ++
        "Error: Info command should be at the beginning of the file\n" ++
        "Starting location: line 1, col 18\nEnding location:   line 1, col 47\n").toList) := by
  refine ⟨by decide, fun sc tags tags1 obj hty hname hrise => ⟨fun htop => ?_, fun htop => ?_⟩,
    by decide⟩
  · unfold SCToHTMLObject
    rw [hty]
    simp only []
    rw [SCToHTMLFunc_info sc tags obj hname, hrise, Option.some_bind, if_neg (not_not.mpr htop)]
  · unfold SCToHTMLObject
    rw [hty]
    simp only []
    rw [SCToHTMLFunc_info sc tags obj hname, hrise, Option.some_bind, if_pos htop]
    exact FailsWith_error obj _

/-- C23 (successful termination).  For every input on which `SCToHTML` returns success,
the run ends with a tag stack that holds the sentinel only and whose `section_depth` is 0,
and the output begins with `<article>` and a newline and ends with `</article>` and a
newline.  For the empty input the output is exactly `<article>\n</article>\n`. -/
theorem C23_successful_termination (sc : List Char) (path file : String) (out : List Char)
    (h : SCToHTML sc path file = some (true, out)) :
    (∃ tags, SCToHTMLRun sc path file = some (SCToHTMLStep.next tags) ∧
      tags.arena.text = out ∧ tags.stack = [HTMLTagType.TOS] ∧ tags.section_depth = 0) ∧
    "<article>\n".toList <+: out ∧ "</article>\n".toList <:+ out ∧
    SCToHTML [] path file = some (true, "<article>\n</article>\n".toList) := by
  unfold SCToHTML at h
  obtain ⟨step, hstep, he⟩ := Option.map_eq_some'.mp h
  cases step with
  | ret0 m => simp at he
  | next tags =>
    simp only [Prod.mk.injEq, true_and] at he
    have hrun := hstep
    unfold SCToHTMLRun at hstep
    simp only [] at hstep
    obtain ⟨t0, h0, hloop⟩ := Option.bind_eq_some.mp hstep
    have e0 : t0 = ArticleTagStack := by
      have e : HTMLPushTag (InitHTMLTagStack ⟨[]⟩) HTMLTagType.Article
          = some ArticleTagStack := rfl
      rw [e] at h0
      exact (Option.some.inj h0).symm
    subst e0
    obtain ⟨t1, ⟨hinv, hpre⟩, hpop⟩ := SCToHTMLLoop_exit
      (fun t => RenderInv t ∧ "<article>\n".toList <+: t.arena.text) sc
      (fun tags obj hi t ht => ⟨RenderInv_object sc tags obj hi.1 t ht,
        closed_object _ (ArenaFrom_closed _) sc tags obj hi.2 t ht⟩)
      _ _ ArticleTagStack tags ⟨RenderInv_init, List.prefix_refl _⟩ hloop
    obtain ⟨⟨body, hb⟩, hsh, hd, -⟩ := hinv
    obtain ⟨r1, r2, r3, r4⟩ := HTMLPopAll_drain body _ t1 tags hb
      (StackShapeOK_no_TOS body (hb ▸ hsh)) hd hpop
    rw [← he]
    exact ⟨⟨tags, hrun, rfl, r1, r2⟩, hpre.trans r4, r3, rfl⟩

/-- Witness of C23: the document `A \bold{B} C` of scenario 1. -/
theorem C23_successful_termination_witness :
    "<article>\n".toList <+: "<article>\n<p>\nA <b>\nB</b>\n C</p>\n</article>\n".toList ∧
      "</article>\n".toList <:+ "<article>\n<p>\nA <b>\nB</b>\n C</p>\n</article>\n".toList :=
  ⟨(C23_successful_termination "A \\bold\x7bB\x7d C".toList "path" "file"
      "<article>\n<p>\nA <b>\nB</b>\n C</p>\n</article>\n".toList (by decide)).2.1,
    (C23_successful_termination "A \\bold\x7bB\x7d C".toList "path" "file"
      "<article>\n<p>\nA <b>\nB</b>\n C</p>\n</article>\n".toList (by decide)).2.2.1⟩

/-- C24 (valid source positions), evaluated where the code departs from it.  On the empty
input `SCRead` returns the end object, whose end position is line 0, column 0: the branch
of `SCRead` that returns the end object is the only one that does not set the end position,
which stays as `memset` left it.  `GetSCInfo` prints this position: on `\blah qwer` its
error text ends with "Ending location:   line 0, col 0".  In general every end object has
the end position 0:0.  On an input of fewer than `2^31 - 1` characters every object
returned has a start position whose line and column are at least 1, and every object other
than the end object has such an end position too; on the input of `2^31 - 1` newlines the
text object returned by the first call ends on line `-2^31`, the `int` counter having
wrapped. -/
theorem C24_end_object_without_end_position :
    (SCRead (MakeSCReader [] "path" "file")).2.type = SCObjectType.End ∧
    (SCRead (MakeSCReader [] "path" "file")).2.end_line_no = 0 ∧
    (SCRead (MakeSCReader [] "path" "file")).2.end_column_no = 0 ∧
    (SCRead (MakeSCReader [] "path" "file")).2.line_no = 1 ∧
    (SCRead (MakeSCReader [] "path" "file")).2.column_no = 1 ∧
    GetSCInfo "\\blah qwer".toList "test_path" "test_file" ⟨NullSlice, NullSlice⟩
      = some (false, ⟨NullSlice, NullSlice⟩,
        some ("Error while reading SC file: test_file\nPath was: test_path\n" ++
          "Error: Info command not found\n" ++
          "Starting location: line 1, col 11\nEnding location:   line 0, col 0\n").toList) ∧
    (∀ (text : List Char) (path file : String) (n : Nat),
      (SCRead (SCReadIter n (MakeSCReader text path file))).2.type = SCObjectType.End →
      (SCRead (SCReadIter n (MakeSCReader text path file))).2.end_line_no = 0 ∧
        (SCRead (SCReadIter n (MakeSCReader text path file))).2.end_column_no = 0) ∧
    (∀ (text : List Char) (path file : String) (n : Nat), text.length < 2147483647 →
      1 ≤ (SCRead (SCReadIter n (MakeSCReader text path file))).2.line_no ∧
        1 ≤ (SCRead (SCReadIter n (MakeSCReader text path file))).2.column_no ∧
        ((SCRead (SCReadIter n (MakeSCReader text path file))).2.type ≠ SCObjectType.End →
          1 ≤ (SCRead (SCReadIter n (MakeSCReader text path file))).2.end_line_no ∧
            1 ≤ (SCRead (SCReadIter n (MakeSCReader text path file))).2.end_column_no)) ∧
    (SCRead (MakeSCReader (List.replicate 2147483647 '\n') "path" "file")).2.type
      = SCObjectType.Text ∧
    (SCRead (MakeSCReader (List.replicate 2147483647 '\n') "path" "file")).2.end_line_no
      = -2147483648 := by
  refine ⟨by decide, by decide, by decide, by decide, by decide, by decide,
    fun text path file n h => SCRead_end_zero _ h, fun text path file n hlen => ?_,
    (SCRead_newlines 2147483647 (by decide) "path" "file").1,
    (SCRead_newlines 2147483647 (by decide) "path" "file").2.trans (by decide)⟩
  have hpos := SCReadIter_position text path file n hlen
  have hnext := SCReadIter_position text path file (n + 1) hlen
  have hstart := SCRead_start_position _ hpos.1 hpos.2
  refine ⟨by rw [hstart.1]; exact hpos.1, by rw [hstart.2]; exact hpos.2, fun h => ?_⟩
  have hend := SCRead_end_position _ h
  rw [SCReadIter_succ_right] at hnext
  rw [hend.1, hend.2]
  exact hnext

/-- C25 (same error object on every later call), evaluated where the code departs from it.
On `\bold{unterminated` the first call of `SCRead` returns an error object that starts at
line 1, column 1, spans the whole call and still names the function; the second call
returns an error object with the same message and end position, but which starts at
column 19, spans no text and names no function. -/
theorem C25_later_error_object_differs :
    (SCRead (MakeSCReader "\\bold\x7bunterminated".toList "path" "file")).2.type
        = SCObjectType.Error ∧
      (SCRead (SCRead (MakeSCReader "\\bold\x7bunterminated".toList "path" "file")).1).2.type
        = SCObjectType.Error ∧
      (SCRead (MakeSCReader "\\bold\x7bunterminated".toList "path" "file")).2.column_no = 1 ∧
      (SCRead (SCRead (MakeSCReader "\\bold\x7bunterminated".toList
        "path" "file")).1).2.column_no = 19 ∧
      (SCRead (MakeSCReader "\\bold\x7bunterminated".toList "path" "file")).2.full_text
        = ⟨some 0, some 18⟩ ∧
      (SCRead (SCRead (MakeSCReader "\\bold\x7bunterminated".toList
        "path" "file")).1).2.full_text = ⟨some 18, some 18⟩ ∧
      (SCRead (MakeSCReader "\\bold\x7bunterminated".toList "path" "file")).2.function_name
        = ⟨some 1, some 5⟩ ∧
      (SCRead (SCRead (MakeSCReader "\\bold\x7bunterminated".toList
        "path" "file")).1).2.function_name = NullSlice ∧
      (SCRead (SCRead (MakeSCReader "\\bold\x7bunterminated".toList "path" "file")).1).2
        ≠ (SCRead (MakeSCReader "\\bold\x7bunterminated".toList "path" "file")).2 := by
  decide

/-- C26 (whitespace inside an argument list).  Take two written lists of between 1 and 32
well-formed arguments that have the same keys and the same values and differ at most in the
whitespace before a key, between the key and `=`, between `=` and the value, and after the
value.  Then, after the same command name and before any text, `SCRead` reports the same
`args_count`, the same key texts and the same value texts for both. -/
theorem C26_argument_whitespace (n : List Char) (args1 args2 : List ArgText)
    (rest1 rest2 : List Char) (path file : String) (hn : n ≠ [])
    (hname : ∀ c ∈ n, IsNameOrKeyChar c = true) (h1 : 1 ≤ args1.length)
    (h32 : args1.length ≤ SC_MAX_ARGS) (hw1 : ∀ x ∈ args1, x.WellFormed)
    (hw2 : ∀ x ∈ args2, x.WellFormed)
    (hsame : args1.map (fun x => (x.key, x.value.content))
      = args2.map (fun x => (x.key, x.value.content))) :
    (SCRead (MakeSCReader (ArgCall n args1 rest1) path file)).2.args_count
        = (SCRead (MakeSCReader (ArgCall n args2 rest2) path file)).2.args_count ∧
      (SCRead (MakeSCReader (ArgCall n args1 rest1) path file)).2.keys.map
          (SliceText (ArgCall n args1 rest1))
        = (SCRead (MakeSCReader (ArgCall n args2 rest2) path file)).2.keys.map
          (SliceText (ArgCall n args2 rest2)) ∧
      (SCRead (MakeSCReader (ArgCall n args1 rest1) path file)).2.values.map
          (SliceText (ArgCall n args1 rest1))
        = (SCRead (MakeSCReader (ArgCall n args2 rest2) path file)).2.values.map
          (SliceText (ArgCall n args2 rest2)) := by
  have hlen : args1.length = args2.length := by
    have := congrArg List.length hsame
    simpa using this
  have hk : args1.map (fun x => x.key) = args2.map (fun x => x.key) := by
    have := congrArg (List.map Prod.fst) hsame
    simpa [List.map_map, Function.comp_def] using this
  have hv : args1.map (fun x => x.value.content) = args2.map (fun x => x.value.content) := by
    have := congrArg (List.map Prod.snd) hsame
    simpa [List.map_map, Function.comp_def] using this
  obtain ⟨a1, a2, a3⟩ := SCRead_arg_call_fields n args1 rest1 path file hn hname h1 h32 hw1
  obtain ⟨b1, b2, b3⟩ := SCRead_arg_call_fields n args2 rest2 path file hn hname
    (by omega) (by omega) hw2
  exact ⟨by rw [a1, b1, hlen], by rw [a2, b2, hk], by rw [a3, b3, hv]⟩

/-- Witness of C26: `\function(arg1 = "QWER", arg2 = 44, foo = "bar")` and
`\function(arg1="QWER",arg2=44,foo="bar")` give the same keys and values. -/
theorem C26_argument_whitespace_witness :
    ArgCall "function".toList SpacedArgs []
        = "\\function(arg1 = \"QWER\", arg2 = 44, foo = \"bar\")".toList ∧
      ArgCall "function".toList PackedArgs []
        = "\\function(arg1=\"QWER\",arg2=44,foo=\"bar\")".toList ∧
      (SCRead (MakeSCReader (ArgCall "function".toList SpacedArgs []) "path" "file")).2.values.map
          (SliceText (ArgCall "function".toList SpacedArgs []))
        = (SCRead (MakeSCReader (ArgCall "function".toList PackedArgs [])
          "path" "file")).2.values.map (SliceText (ArgCall "function".toList PackedArgs [])) :=
  ⟨by decide, by decide,
    (C26_argument_whitespace "function".toList SpacedArgs PackedArgs [] [] "path" "file"
      (by decide) (by decide) (by decide) (by decide) (by decide) (by decide)
      (by decide)).2.2⟩

/-- C27, counterexample.  On `\command (foo="bar")` no call of `SCRead` yields an error: the
first call returns a function object, the second a text object and the third the end
object. -/
theorem C27_space_before_parenthesis_counterexample :
    (SCRead (MakeSCReader "\\command (foo=\"bar\")".toList "path" "file")).2.type
        = SCObjectType.Func ∧
      (SCRead (SCRead (MakeSCReader "\\command (foo=\"bar\")".toList "path" "file")).1).2.type
        = SCObjectType.Text ∧
      (SCRead (SCRead (SCRead (MakeSCReader "\\command (foo=\"bar\")".toList
        "path" "file")).1).1).2.type = SCObjectType.End := by
  decide

/-- C27, amended (a space between a command and its parenthesis).  For every command name
`n`, on the input made of a backslash, `n` and ` (foo="bar")` the first call of `SCRead`
returns the function object `n` without arguments and leaves the cursor before the space,
so that ` (foo="bar")` is read as text.  The error comes from the conversion of the
function object that has lost its arguments: `SCToHTML` fails on `\command (foo="bar")` with
"Unknown command", on `\link (url="u"){t}` with "link commands require a block" and on
`\image (url="u")` with "Missing required url parameter in image", and `GetSCInfo` fails on
`\info (title="T", date="D")` with "Info command is missing required params". -/
theorem C27_space_before_parenthesis :
    (∀ (n : List Char) (path file : String), n ≠ [] → (∀ c ∈ n, IsNameOrKeyChar c = true) →
      (SCRead (MakeSCReader ('\\' :: n ++ " (foo=\"bar\")".toList) path file)).2.type
          = SCObjectType.Func ∧
        (SCRead (MakeSCReader ('\\' :: n ++ " (foo=\"bar\")".toList) path file)).2.args_count
          = 0 ∧
        SliceText ('\\' :: n ++ " (foo=\"bar\")".toList)
          (SCRead (MakeSCReader ('\\' :: n ++ " (foo=\"bar\")".toList)
            path file)).2.function_name = n ∧
        SCRest (SCRead (MakeSCReader ('\\' :: n ++ " (foo=\"bar\")".toList) path file)).1
          = " (foo=\"bar\")".toList) ∧
    SCToHTML "\\command (foo=\"bar\")".toList "path" "file" = some (false,
      ("Error while reading SC file: file\nPath was: path\n" ++
        "Error: Unknown command\n" ++
        "Starting location: line 1, col 1\nEnding location:   line 1, col 9\n").toList) ∧
    SCToHTML "\\link (url=\"u\")\x7bt\x7d".toList "path" "file" = some (false,
      ("Error while reading SC file: file\nPath was: path\n" ++
        "Error: link commands require a block\n" ++
        "Starting location: line 1, col 1\nEnding location:   line 1, col 6\n").toList) ∧
    SCToHTML "\\image (url=\"u\")".toList "path" "file" = some (false,
      ("Error while reading SC file: file\nPath was: path\n" ++
        "Error: Missing required url parameter in image\n" ++
        "Starting location: line 1, col 1\nEnding location:   line 1, col 7\n").toList) ∧
    GetSCInfo "\\info (title=\"T\", date=\"D\")".toList "path" "file" ⟨NullSlice, NullSlice⟩
      = some (false, ⟨NullSlice, NullSlice⟩,
        some ("Error while reading SC file: file\nPath was: path\n" ++
          "Error: Info command is missing required params\n" ++
          "Starting location: line 1, col 1\nEnding location:   line 1, col 6\n").toList) := by
  refine ⟨fun n path file hn hname => ?_, by decide, by decide, by decide, by decide⟩
  have h : SCRest (MakeSCReader ('\\' :: n ++ " (foo=\"bar\")".toList) path file)
      = '\\' :: n ++ ' ' :: "(foo=\"bar\")".toList := rfl
  rw [SCRead_plain_call _ n ' ' _ rfl h hn hname (by decide) (by decide) (by decide)]
  refine ⟨rfl, rfl, ?_, SCRest_advance _ _ _ h⟩
  show (List.drop (0 + 1) ('\\' :: n ++ " (foo=\"bar\")".toList)).take
    (0 + 1 + n.length - (0 + 1)) = n
  simp

/-- C28 (`SliceCmp`), evaluated where the code departs from a lexicographic comparison.
The slice `ab` precedes `abc` in byte-wise lexicographic order, and `SliceCmp` returns 1 for
them, a positive number, and -1 for `abc` and `ab`.  In general, whenever `a` is a proper
prefix of `b` (both shorter than `2 ^ 31` bytes), `SliceCmp(a, b)` is `blen - alen`,
positive, and `SliceCmp(b, a)` is negative. -/
theorem C28_slicecmp_prefix_sign :
    BytesLt "ab".toList "abc".toList = true ∧ SliceCmp "ab".toList "abc".toList = 1 ∧
      SliceCmp "abc".toList "ab".toList = -1 ∧
    ∀ a t : List Char, t ≠ [] → (a ++ t).length < 2 ^ 31 →
      BytesLt a (a ++ t) = true ∧ 0 < SliceCmp a (a ++ t) ∧ SliceCmp (a ++ t) a < 0 := by
  refine ⟨by decide, ?_, ?_, fun a t ht hb => ?_⟩
  · exact (SliceCmp_extends "ab".toList "c".toList (by decide) (by decide)).1
  · exact (SliceCmp_extends "ab".toList "c".toList (by decide) (by decide)).2
  · have := SliceCmp_extends a t ht hb
    have htl : 0 < t.length := List.length_pos.mpr ht
    refine ⟨BytesLt_extends a t ht, ?_, ?_⟩
    · rw [this.1]
      exact_mod_cast htl
    · rw [this.2]
      omega

/-- C29 (`GetSCInfo`), evaluated where the code departs from it.  On the document
`\info(title="a", title="b")`, whose `info` command supplies no `date`, `GetSCInfo` returns
success, with the second title and the date left as it was: the function counts the
arguments named `title` or `date` and compares the count with 2.  For the same reason it
fails on `\info(title="a", date="b", title="c")`, which supplies both.  On the documents of
`TEST_GetSCInfo` it succeeds with the title `Woop` and the date `2018-04-02`, and fails on
`\info(foo="bar")` and on `\blah qwer`. -/
theorem C29_getscinfo_counts_arguments :
    GetSCInfo "\\info(title=\"a\", title=\"b\")".toList "path" "file" ⟨NullSlice, NullSlice⟩
      = some (true, ⟨⟨some 24, some 25⟩, NullSlice⟩, none) ∧
    (GetSCInfo "\\info(title=\"a\", date=\"b\", title=\"c\")".toList "path" "file"
      ⟨NullSlice, NullSlice⟩).map (fun x => x.1) = some false ∧
    (GetSCInfo ("herp derp derp\n\\other_command\x7bQWER\x7d\n" ++
        "\\info(title=\"Woop\", date=\"2018-04-02\")\n qwer qwer \n").toList
        "test_path" "test_file" ⟨NullSlice, NullSlice⟩).map
      (fun x => (x.1,
        SliceText ("herp derp derp\n\\other_command\x7bQWER\x7d\n" ++
          "\\info(title=\"Woop\", date=\"2018-04-02\")\n qwer qwer \n").toList x.2.1.title,
        SliceText ("herp derp derp\n\\other_command\x7bQWER\x7d\n" ++
          "\\info(title=\"Woop\", date=\"2018-04-02\")\n qwer qwer \n").toList x.2.1.date))
      = some (true, "Woop".toList, "2018-04-02".toList) ∧
    (GetSCInfo "\\info(foo=\"bar\")".toList "test_path" "test_file"
      ⟨NullSlice, NullSlice⟩).map (fun x => x.1) = some false ∧
    (GetSCInfo "\\blah qwer".toList "test_path" "test_file"
      ⟨NullSlice, NullSlice⟩).map (fun x => x.1) = some false := by
  refine ⟨by decide, by decide, by decide, by decide, by decide⟩

/-- C30 (section-depth invariant).  `section_depth` is the number of article and section
entries on the tag stack after `InitHTMLTagStack`; every push and every pop keeps this, from
any tag stack and for any tag; so does the handling of every object; hence it holds of the
tag stack after any number of objects of any document, and of the tag stack with which
`SCToHTML` reaches `return 1`. -/
theorem C30_section_depth_invariant :
    (∀ a : Arena, (InitHTMLTagStack a).section_depth
      = SectionCount (InitHTMLTagStack a).stack) ∧
    (∀ (s s1 : HTMLTagStack) (t : HTMLTagType), s.section_depth = SectionCount s.stack →
      HTMLPushTag s t = some s1 → s1.section_depth = SectionCount s1.stack) ∧
    (∀ s s1 : HTMLTagStack, s.section_depth = SectionCount s.stack →
      HTMLPopTag s = some s1 → s1.section_depth = SectionCount s1.stack) ∧
    (∀ (sc : List Char) (tags tags1 : HTMLTagStack) (obj : SCObject),
      tags.section_depth = SectionCount tags.stack →
      SCToHTMLObject sc tags obj = some (SCToHTMLStep.next tags1) →
      tags1.section_depth = SectionCount tags1.stack) ∧
    (∀ (sc : List Char) (path file : String) (n : Nat) (r : SCReader) (tags : HTMLTagStack),
      SCToHTMLAfter sc path file n = some (r, tags) →
      tags.section_depth = SectionCount tags.stack) ∧
    (∀ (sc : List Char) (path file : String) (tags : HTMLTagStack),
      SCToHTMLRun sc path file = some (SCToHTMLStep.next tags) →
      tags.section_depth = SectionCount tags.stack) := by
  refine ⟨fun a => rfl, fun s s1 t h hp => DepthInv_closed.1 s t s1 h hp,
    fun s s1 h hp => DepthInv_closed.2.1 s s1 h hp,
    fun sc tags tags1 obj h hp => closed_object DepthInv DepthInv_closed sc tags obj h tags1 hp,
    fun sc path file n r tags h => (SCToHTMLAfter_inv sc path file n r tags h).2.2.1,
    fun sc path file tags h => ?_⟩
  unfold SCToHTMLRun at h
  simp only [] at h
  obtain ⟨t0, h0, hloop⟩ := Option.bind_eq_some.mp h
  have hd0 : DepthInv t0 := DepthInv_closed.1 _ _ t0 (by rfl) h0
  obtain ⟨t1, hd1, hpop⟩ := SCToHTMLLoop_exit DepthInv sc
    (fun tags obj hi => closed_object DepthInv DepthInv_closed sc tags obj hi)
    _ _ t0 tags hd0 hloop
  exact closed_popAll DepthInv DepthInv_closed _ t1 hd1 tags hpop

end SiteC

namespace SiteC

/-- C31 (the tag stack is never emptied).  For every document and every state that
`SCToHTML` reaches between two objects: the stack ends with the article directly above the
sentinel, and so did the stack after every push and every pop made so far, those made inside
the handling of an object included; the handling of the next object fails no assertion; and
`HTMLRiseToLowestSection` returns from that state with a section or the article on top.
The whole run of `SCToHTML` fails no assertion either, the last loop included, which stops
at the sentinel. -/
theorem C31_stack_never_emptied (sc : List Char) (path file : String) :
    (∀ (n : Nat) (r : SCReader) (tags : HTMLTagStack),
      SCToHTMLAfter sc path file n = some (r, tags) →
      [HTMLTagType.Article, HTMLTagType.TOS] <:+ tags.stack ∧
        EveryPoint (fun st => [HTMLTagType.Article, HTMLTagType.TOS] <:+ st) tags ∧
        (∀ obj : SCObject, ∃ step, SCToHTMLObject sc tags obj = some step) ∧
        (∃ s', HTMLRiseToLowestSection tags = some s' ∧
          (HTMLTop s' = HTMLTagType.Section ∨ HTMLTop s' = HTMLTagType.Article))) ∧
    (∃ res, SCToHTML sc path file = some res) := by
  refine ⟨fun n r tags h => ?_, SCToHTML_total sc path file⟩
  have hk := SCToHTMLAfter_good sc path file n r tags h
  refine ⟨(RenderInv_good tags hk.1).1,
    EveryPoint_mono GoodStack _ (fun _ g => g.1) tags hk.2, fun obj => ?_, ?_⟩
  · obtain ⟨step, hstep, -⟩ := Kept_object (EveryPoint GoodStack)
      (EveryPoint_kept GoodStack RenderInv_good) sc tags obj hk
    exact ⟨step, hstep⟩
  · obtain ⟨s', h1, -, htop, -⟩ := RenderInv_rise tags hk.1
    exact ⟨s', h1, htop⟩

/-- C32 (lossless tokenisation).  When the successive calls of `SCRead` on an input reach
the end object without an error, the objects returned before it are texts, escaped
backslashes and functions, their spans are non-empty, each begins where the one before it
ends, the first at the beginning of the input and the last ends at its end, and the texts of
the spans, one after the other, are the input. -/
theorem C32_lossless_tokenisation (text : List Char) (path file : String) (fuel : Nat)
    (objs : List SCObject)
    (h : SCReadTokens fuel (MakeSCReader text path file) = some objs) :
    SpansText text objs = text ∧ SpansContiguous text.length 0 objs = true ∧
      (∀ o ∈ objs, o.type = SCObjectType.Text ∨ o.type = SCObjectType.Backslash ∨
        o.type = SCObjectType.Func) ∧
      (∀ k, k < objs.length →
        objs[k]? = some (SCRead (SCReadIter k (MakeSCReader text path file))).2) ∧
      (SCRead (SCReadIter objs.length (MakeSCReader text path file))).2.type
        = SCObjectType.End ∧
      ((∀ n, (SCRead (SCReadIter n (MakeSCReader text path file))).2.type
          ≠ SCObjectType.Error) →
        ∃ all, SCReadTokens (text.length + 1) (MakeSCReader text path file) = some all) := by
  obtain ⟨h1, h2, h3, h4⟩ := SCReadTokens_spans fuel (MakeSCReader text path file) objs
    (Nat.zero_le _) h
  have h1' : SpansContiguous text.length 0 objs = true := h1
  refine ⟨?_, h1', h2, h3, h4, fun hne => ?_⟩
  · rw [SpansContiguous_text text objs 0 h1']
    rfl
  · exact SCReadTokens_some (text.length + 1) (MakeSCReader text path file) (Nat.zero_le _)
      (by show text.length - 0 < text.length + 1; omega) hne

/-- Witness of C32: the input `a\\b\f{x}` is read as a text, an escaped backslash, a text
and a function, whose spans give the input back. -/
theorem C32_lossless_tokenisation_witness :
    SpansText "a\\\\b\\f\x7bx\x7d".toList
        ((SCReadTokens 8 (MakeSCReader "a\\\\b\\f\x7bx\x7d".toList "path" "file")).getD [])
      = "a\\\\b\\f\x7bx\x7d".toList :=
  (C32_lossless_tokenisation "a\\\\b\\f\x7bx\x7d".toList "path" "file" 8
    ((SCReadTokens 8 (MakeSCReader "a\\\\b\\f\x7bx\x7d".toList "path" "file")).getD [])
    (by decide)).1

/-- C33 (progress and termination).  For every input: every call of `SCRead` that returns
a text, an escaped backslash or a function moves the cursor by at least one character and
not past the end of the input; the end object or an error is returned after at most as many
such objects as the input has characters; and the loop of `SCToHTML` over the objects ends:
the run returns within its bound of `|sc| + 1` turns, and a larger bound gives the same
result. -/
theorem C33_progress_and_termination (text : List Char) (path file : String) :
    (∀ n : Nat,
      ((SCRead (SCReadIter n (MakeSCReader text path file))).2.type = SCObjectType.Text ∨
        (SCRead (SCReadIter n (MakeSCReader text path file))).2.type
          = SCObjectType.Backslash ∨
        (SCRead (SCReadIter n (MakeSCReader text path file))).2.type = SCObjectType.Func) →
      (SCReadIter n (MakeSCReader text path file)).current + 1
          ≤ (SCRead (SCReadIter n (MakeSCReader text path file))).1.current ∧
        (SCRead (SCReadIter n (MakeSCReader text path file))).1.current ≤ text.length) ∧
    (∃ n, n ≤ text.length ∧
      ((SCRead (SCReadIter n (MakeSCReader text path file))).2.type = SCObjectType.End ∨
        (SCRead (SCReadIter n (MakeSCReader text path file))).2.type
          = SCObjectType.Error) ∧
      ∀ k, k < n →
        (SCRead (SCReadIter k (MakeSCReader text path file))).2.type ≠ SCObjectType.End ∧
          (SCRead (SCReadIter k (MakeSCReader text path file))).2.type
            ≠ SCObjectType.Error) ∧
    (∃ step, SCToHTMLRun text path file = some step ∧
      ∀ k, SCToHTMLLoop text (text.length + 1 + k) (MakeSCReader text path file)
        ArticleTagStack = some step) := by
  refine ⟨fun n hty => ?_, ?_, ?_⟩
  · obtain ⟨c1, -, c3⟩ := SCReadIter_cursor text path file n
    have hp := SCRead_progress (SCReadIter n (MakeSCReader text path file))
      (by rw [c1]; exact c3)
      (by rcases hty with e | e | e <;> rw [e] <;> decide)
      (by rcases hty with e | e | e <;> rw [e] <;> decide)
    obtain ⟨p1, p2, p3⟩ := hp
    rw [c1] at p3
    exact ⟨p2, p3⟩
  · obtain ⟨n, h1, h2, h3⟩ := SCReadIter_terminal (MakeSCReader text path file)
      (Nat.zero_le _)
    exact ⟨n, h1, h2, h3⟩
  · obtain ⟨step, hstep, -⟩ := SCToHTMLRun_total (fun _ => True)
      ⟨fun _ _ _ _ _ _ => trivial, fun _ _ _ _ _ => trivial, fun _ _ _ => trivial⟩ trivial
      text path file
    exact ⟨step, hstep, fun k => SCToHTMLLoop_mono_le text _ k _ _ step hstep⟩

/-- C34 (bounded stack depth).  For every document and every state that `SCToHTML` reaches
between two objects: `section_depth` is between 1 and 3, at most four entries that are
neither article nor section lie directly above any entry, the stack holds at most 15 entries
above the sentinel, and the capacity assertion of `HTMLPushTag` holds; after every push and
every pop made so far the stack held between one and three article and section entries, at
most four other entries above any entry, and at most 16 entries in all; and the handling of
the next object fails no assertion.  The whole run of `SCToHTML` fails no assertion. -/
theorem C34_bounded_stack_depth (sc : List Char) (path file : String) :
    (∀ (n : Nat) (r : SCReader) (tags : HTMLTagStack),
      SCToHTMLAfter sc path file n = some (r, tags) →
      1 ≤ tags.section_depth ∧ tags.section_depth ≤ 3 ∧
        RunsBounded 4 tags.stack = true ∧ tags.tag_pos ≤ 15 ∧
        tags.tag_pos + 1 < SC_HTML_MAX_TAG_DEPTH ∧
        EveryPoint (fun st => 1 ≤ SectionCount st ∧ SectionCount st ≤ 3 ∧
          RunsBounded 4 st = true ∧ st.length ≤ 16) tags ∧
        (∀ obj : SCObject, ∃ step, SCToHTMLObject sc tags obj = some step)) ∧
    (∃ res, SCToHTML sc path file = some res) := by
  refine ⟨fun n r tags h => ?_, SCToHTML_total sc path file⟩
  have hk := SCToHTMLAfter_good sc path file n r tags h
  obtain ⟨b1, b2, b3, b4, b5⟩ := GoodStack_bounds tags.stack (RenderInv_good tags hk.1)
  have hd : tags.section_depth = SectionCount tags.stack := hk.1.2.2.1
  refine ⟨by rw [hd]; exact_mod_cast b3, hk.1.2.2.2, b5, ?_, ?_, ?_, fun obj => ?_⟩
  · unfold HTMLTagStack.tag_pos
    omega
  · unfold HTMLTagStack.tag_pos SC_HTML_MAX_TAG_DEPTH
    omega
  · refine EveryPoint_mono GoodStack _ (fun st g => ?_) tags hk.2
    obtain ⟨g1, g2, g3, g4, g5⟩ := GoodStack_bounds st g
    exact ⟨g3, g4, g5, g2⟩
  · obtain ⟨step, hstep, -⟩ := Kept_object (EveryPoint GoodStack)
      (EveryPoint_kept GoodStack RenderInv_good) sc tags obj hk
    exact ⟨step, hstep⟩

/-- C35 (parent and child on the tag stack), evaluated where the code departs from it.
After `\ordered_list\item\section{S}\ordered_list` the stack holds a list above a section
above the item of another list: two lists are open, one nested inside the other, and the
output has `<ol>` inside `<li>`; in the same way `\table` after
`\unordered_list\item\section{S}` opens a table inside a list.  What does hold, for every
document, at every state between two objects, after every push and every pop, and down to
the end of the run: every list item lies directly above a list, every table cell above a
row, every row above a table, every table above its wrapper, and every paragraph, list and
table wrapper above the article or a section. -/
theorem C35_lists_nested_through_section :
    (SCToHTMLAfter "\\ordered_list\\item\\section\x7bS\x7d\\ordered_list".toList
        "path" "file" 4).map (fun st => (st.2.stack, OpenListsAndTables st.2.stack))
      = some ([HTMLTagType.OrderedList, HTMLTagType.Section, HTMLTagType.ListItem,
          HTMLTagType.OrderedList, HTMLTagType.Article, HTMLTagType.TOS], 2) ∧
    SCToHTML "\\ordered_list\\item\\section\x7bS\x7d\\ordered_list".toList "path" "file"
      = some (true, ("<article>\n<ol>\n<li>\n<section>\n<h1>S</h1>\n<ol>\n</ol>\n" ++
          "</section>\n</li>\n</ol>\n</article>\n").toList) ∧
    (SCToHTMLAfter "\\unordered_list\\item\\section\x7bS\x7d\\table".toList
        "path" "file" 4).map (fun st => st.2.stack)
      = some [HTMLTagType.Table, HTMLTagType.TableDiv, HTMLTagType.Section,
          HTMLTagType.ListItem, HTMLTagType.UnorderedList, HTMLTagType.Article,
          HTMLTagType.TOS] ∧
    (∀ (sc : List Char) (path file : String) (n : Nat) (r : SCReader) (tags : HTMLTagStack),
      SCToHTMLAfter sc path file n = some (r, tags) →
      ParentsOK tags.stack = true ∧ EveryPoint (fun st => ParentsOK st = true) tags) ∧
    (∀ (sc : List Char) (path file : String) (tags : HTMLTagStack),
      SCToHTMLRun sc path file = some (SCToHTMLStep.next tags) →
      EveryPoint (fun st => ParentsOK st = true) tags) := by
  refine ⟨by decide, by decide, by decide, fun sc path file n r tags h => ?_,
    fun sc path file tags h => ?_⟩
  · have hk := SCToHTMLAfter_good sc path file n r tags h
    exact ⟨ParentsOK_shape _ hk.1.2.1,
      EveryPoint_mono GoodStack _ (fun st g => ParentsOK_shape st g.2.1) tags hk.2⟩
  · obtain ⟨step, hstep, hnext⟩ := SCToHTMLRun_total
      (EveryPoint (fun st => ParentsOK st = true))
      (EveryPoint_kept _ (fun s hs => ParentsOK_shape _ hs.2.1))
      (EveryPoint_init _ (by decide)) sc path file
    rw [h] at hstep
    obtain ⟨t1, ht1, hpop, -⟩ := hnext tags (Option.some.inj hstep).symm
    obtain ⟨s', hs', -, hp⟩ := HTMLPopAll_render
      (EveryPoint (fun st => ParentsOK st = true))
      (fun s s1 hs hp => EveryPoint_pop_tail _ ParentsOK_tail s s1 hs hp) t1 ht1.1 ht1.2
    rw [hpop] at hs'
    rw [Option.some.inj hs']
    exact hp

/-- C36 (in-bounds reads), evaluated where the code departs from it.  On the input
`\f(a=1`, of 6 characters, the call of `SCRead` ends in the error of the missing closing
parenthesis, and on its way the test `*r->current == ','` of `SCReadArgumentList` reads the
buffer at position 6, which is `end`.  In general this test reads at `end` whenever an
argument is read without error up to the end of the buffer, and no position at which this
test reads is beyond `end`; the statement is about this test alone, not about the other
reads of `SCRead`. -/
theorem C36_comma_test_reads_at_end :
    "\\f(a=1".toList.length = 6 ∧
    SCReadLookups (MakeSCReader "\\f(a=1".toList "path" "file") = [6] ∧
    (SCRead (MakeSCReader "\\f(a=1".toList "path" "file")).2.type = SCObjectType.Error ∧
    (SCRead (MakeSCReader "\\f(a=1".toList "path" "file")).2.error_text
      = some "Parameter list is missing the closing paren" ∧
    (∀ (fuel : Nat) (r : SCReader) (out : SCObject), r.current < r.text.length →
      (SCReadArgument r out).2.type ≠ SCObjectType.Error →
      (SCReadArgument r out).1.current = r.text.length →
      SCReadArgumentListLoopLookups (fuel + 1) r out = [r.text.length]) ∧
    (∀ (fuel : Nat) (r : SCReader) (out : SCObject), r.current ≤ r.text.length →
      ∀ i ∈ SCReadArgumentListLoopLookups fuel r out, i ≤ r.text.length) := by
  refine ⟨by decide, by decide, by decide, by decide,
    fun fuel r out h1 h2 h3 => SCReadArgumentListLoopLookups_end fuel r out h1 h2 h3,
    fun fuel r out hr => SCReadArgumentListLoopLookups_le fuel r out hr⟩

/-- C37 (attribute values cannot break out of their quotes).  For every input and every
object that a call of `SCRead` returns on it, hence for every function object: each of its
`args_count` keys is a non-empty run of name characters; each value holds no double quote,
and it is a run that ends just before a double quote of the input (a string) or a run of
digits, dots and minus signs (a number); and what the loop of `link` and `image` writes for
the argument is a space, the key (or `href`, `src` in place of `url`), `="`, the value and
`"`, which holds exactly two double quotes.  For instance `\link(url="a", x=1){t}` gives
`<a href="a" x="1">t</a>`. -/
theorem C37_attribute_values (text : List Char) (path file : String) (n i : Nat)
    (hi : i < (SCRead (SCReadIter n (MakeSCReader text path file))).2.args_count) :
    (SliceText text
        ((SCRead (SCReadIter n (MakeSCReader text path file))).2.keys.getD i NullSlice) ≠ [] ∧
      ∀ c ∈ SliceText text
        ((SCRead (SCReadIter n (MakeSCReader text path file))).2.keys.getD i NullSlice),
        IsNameOrKeyChar c = true) ∧
    ('"' ∉ SliceText text
        ((SCRead (SCReadIter n (MakeSCReader text path file))).2.values.getD i NullSlice) ∧
      ((∃ e, ((SCRead (SCReadIter n (MakeSCReader text path file))).2.values.getD i
            NullSlice).end_ = some e ∧ text[e]? = some '"') ∨
        ∀ c ∈ SliceText text
          ((SCRead (SCReadIter n (MakeSCReader text path file))).2.values.getD i NullSlice),
          IsDigitChar c = true)) ∧
    (∀ (attr : String) (found : Bool) (arena : Arena), attr = "href" ∨ attr = "src" →
      ∃ key, (HTMLWriteArguments text (SCRead (SCReadIter n (MakeSCReader text path file))).2
          attr [i] (found, arena)).2.text
        = arena.text ++ AttributeText key (SliceText text
            ((SCRead (SCReadIter n (MakeSCReader text path file))).2.values.getD i
              NullSlice)) ∧
        (AttributeText key (SliceText text
            ((SCRead (SCReadIter n (MakeSCReader text path file))).2.values.getD i
              NullSlice))).count '"' = 2) ∧
    SCToHTML "\\link(url=\"a\", x=1)\x7bt\x7d".toList "path" "file"
      = some (true, "<article>\n<a href=\"a\" x=\"1\">t</a></article>\n".toList) := by
  obtain ⟨c1, -, c3⟩ := SCReadIter_cursor text path file n
  have hclean := SCRead_clean (SCReadIter n (MakeSCReader text path file))
    (by rw [c1]; exact c3)
  rw [c1] at hclean
  generalize (SCRead (SCReadIter n (MakeSCReader text path file))).2 = obj at hi hclean ⊢
  obtain ⟨l1, l2, hk, hv⟩ := hclean
  have hkey := hk _ (getD_mem_of_lt obj.keys i (by rw [l1]; exact hi))
  have hval := hv _ (getD_mem_of_lt obj.values i (by rw [l2]; exact hi))
  have hvq : '"' ∉ SliceText text (obj.values.getD i NullSlice) :=
    fun hm => hval.1 _ hm rfl
  refine ⟨hkey, ⟨hvq, hval.2⟩, fun attr found arena hattr => ?_, by decide⟩
  refine ⟨_, HTMLWriteArguments_one text obj attr i found arena,
    AttributeText_count _ _ ?_ hvq⟩
  split_ifs
  · rcases hattr with e | e <;> rw [e] <;> decide
  · exact fun hm => IsNameOrKeyChar_ne_quote _ (hkey.2 _ hm) rfl

/-- Witness of C37: the second argument `x=1` of `\link(url="a", x=1){t}`. -/
theorem C37_attribute_values_witness :
    '"' ∉ SliceText "\\link(url=\"a\", x=1)\x7bt\x7d".toList
      ((SCRead (SCReadIter 0 (MakeSCReader "\\link(url=\"a\", x=1)\x7bt\x7d".toList
        "path" "file"))).2.values.getD 1 NullSlice) :=
  (C37_attribute_values "\\link(url=\"a\", x=1)\x7bt\x7d".toList "path" "file" 0 1
    (by decide)).2.1.1

/-- C38 (escaping is injective).  For all texts `s` and `t` and every arena, if
`HTMLWriteEscapedText` writes the same text for `s` as for `t`, then `s = t`. -/
theorem C38_escaping_injective (s t : List Char) (arena : Arena)
    (h : (HTMLWriteEscapedText s arena).text = (HTMLWriteEscapedText t arena).text) :
    s = t := by
  rw [HTMLWriteEscapedText_eq, HTMLWriteEscapedText_eq] at h
  exact EscapeText_injective s t (List.append_cancel_left h)

/-- Witness of C38: the text `a<b&"c"` against itself. -/
theorem C38_escaping_injective_witness :
    (HTMLWriteEscapedText "a<b&\"c\"".toList ⟨[]⟩).text = "a&lt;b&amp;&quot;c&quot;".toList ∧
      "a<b&\"c\"".toList = "a<b&\"c\"".toList :=
  ⟨by decide, C38_escaping_injective "a<b&\"c\"".toList "a<b&\"c\"".toList ⟨[]⟩ rfl⟩

/-- C39 (SwitchExtension changes only the extension), evaluated where the code departs from
it.  `fluffy.sc` becomes `fluffy.html`, but `a.b.sc` becomes `a.html` and not `a.b.html`,
and so does the distinct name `a.c.sc`: the loop stops at the first `.` of the name, not at
the last one.  In general the result is the part of the name before its first `.`, or the
whole name when it has none, followed by `.html`. -/
theorem C39_switch_extension_first_dot :
    SwitchExtension "fluffy.sc".toList = "fluffy.html".toList ∧
    SwitchExtension "a.b.sc".toList = "a.html".toList ∧
    SwitchExtension "a.b.sc".toList ≠ "a.b.html".toList ∧
    ("a.b.sc".toList ≠ "a.c.sc".toList ∧
      SwitchExtension "a.b.sc".toList = SwitchExtension "a.c.sc".toList) ∧
    (∀ stem rest : List Char, '.' ∉ stem →
      SwitchExtension (stem ++ '.' :: rest) = stem ++ ".html".toList) ∧
    (∀ name : List Char, '.' ∉ name → SwitchExtension name = name ++ ".html".toList) := by
  refine ⟨by decide, by decide, by decide, ⟨by decide, by decide⟩,
    fun stem rest h => ?_, fun name h => ?_⟩
  · unfold SwitchExtension
    simp only [ArenaPushSlice, ArenaPushCStr, List.nil_append]
    rw [SwitchExtensionStem_of_dot stem rest h]
  · unfold SwitchExtension
    simp only [ArenaPushSlice, ArenaPushCStr, List.nil_append]
    rw [SwitchExtensionStem_no_dot name h]

end SiteC
